import Mathlib

/-!
# Ray / geometry core of the renderer: accelerator, box and triangle tests

A shallow embedding of `src/src/accel.cpp`, of the frame, refraction,
`Distribution1D`, sampling-warp and Beckmann parts of
`src/include/rdr/math_utils.h` and of the BSDFs of `src/src/bsdf.cpp`.

Conventions of the embedding

* In the first embedding of each function `Float` and `Double` are both modelled
  by the rationals `ℚ`: arithmetic is exact, every scalar is finite,
  `Cast<Double>` and `static_cast<Float>` are the identity.  The only place
  where the source itself writes an infinite value is the sentinel box of
  `Accel::setTriangleMesh`; the cached bound is therefore a box over `EFloat`,
  the rationals extended by `-∞` and `+∞`.
* Where rounding decides a property, a second embedding of the same source lines
  rounds every operation in an IEEE 754 binary format (namespace `Rounded`:
  `TriangleIntersect`, `Distribution1D`, `UniformSampleTriangle`).  Statements
  about the first embedding are statements in exact arithmetic; statements about
  the second hold for the program as it computes.
* The shading frame, `Reflect`, `Refract` and the BSDFs take square roots and use
  `PI`; there `Float` is modelled by the reals `ℝ` (again exact arithmetic) and
  the vector type is `Vec3f`.  `Distribution1D` only adds, divides and compares
  and stays over `ℚ`.
* A vector read outside its bounds is undefined behaviour; like a failed
  assertion it is the result `none`.
* A failed `assert` aborts the program (`platform.h` undefines `NDEBUG`).
  Functions that contain assertions return an `Option`; `none` is the abort.
* Reference parameters that the callee mutates (`Ray &`, `SurfaceInteraction &`,
  `Float *`) are threaded through explicitly: the new values are returned next
  to the boolean.
* An exception thrown by `Exception_` is the outcome `Except.error` with the
  message; the object and its property bag are returned next to the outcome, as
  the throwing call leaves them.
* Index arithmetic is done on `Nat`; it agrees with the `int` / `uint32_t`
  arithmetic of the source for every mesh with fewer than `2^32 / 3` triangles
  (beyond that `3 * triangle_index` wraps in `uint32_t`).
-/

namespace renderer

/-! ## Vectors (`rdr/math_aliases.h`) -/

/-- Three component vector `Vec<T, 3>`. -/
structure Vec3 (α : Type) where
  x : α
  y : α
  z : α
  deriving DecidableEq

/-- Componentwise sum `a + b`. -/
def Vec3.add (a b : Vec3 ℚ) : Vec3 ℚ := ⟨a.x + b.x, a.y + b.y, a.z + b.z⟩

/-- Componentwise difference `a - b`. -/
def Vec3.sub (a b : Vec3 ℚ) : Vec3 ℚ := ⟨a.x - b.x, a.y - b.y, a.z - b.z⟩

/-- Componentwise product `a * b`. -/
def Vec3.mul (a b : Vec3 ℚ) : Vec3 ℚ := ⟨a.x * b.x, a.y * b.y, a.z * b.z⟩

/-- Scalar multiple `s * a`. -/
def Vec3.smul (s : ℚ) (a : Vec3 ℚ) : Vec3 ℚ := ⟨s * a.x, s * a.y, s * a.z⟩

/-- Componentwise minimum `Min(a, b)`. -/
def Vec3.Min {α : Type} [LinearOrder α] (a b : Vec3 α) : Vec3 α :=
  ⟨min a.x b.x, min a.y b.y, min a.z b.z⟩

/-- Componentwise maximum `Max(a, b)`. -/
def Vec3.Max {α : Type} [LinearOrder α] (a b : Vec3 α) : Vec3 α :=
  ⟨max a.x b.x, max a.y b.y, max a.z b.z⟩

/-- Smallest component `ReduceMin(a)`. -/
def ReduceMin {α : Type} [LinearOrder α] (a : Vec3 α) : α := min a.x (min a.y a.z)

/-- Largest component `ReduceMax(a)`. -/
def ReduceMax {α : Type} [LinearOrder α] (a : Vec3 α) : α := max a.x (max a.y a.z)

/-- Inner product `Dot(a, b)`. -/
def Dot (a b : Vec3 ℚ) : ℚ := a.x * b.x + a.y * b.y + a.z * b.z

/-- Vector product `Cross(a, b)`. -/
def Cross (a b : Vec3 ℚ) : Vec3 ℚ :=
  ⟨a.y * b.z - a.z * b.y, a.z * b.x - a.x * b.z, a.x * b.y - a.y * b.x⟩

/-! ## Extended scalars for the sentinel box -/

/-- Rationals extended by `-∞` (`⊥`) and `+∞`: the values a `Float` bound can take. -/
abbrev EFloat : Type := WithBot (WithTop ℚ)

/-- Finite scalar seen as an extended one. -/
def EFloat.ofRat (q : ℚ) : EFloat := ((q : WithTop ℚ) : WithBot (WithTop ℚ))

/-- The constant `Float_INF`. -/
def Float_INF : EFloat := ((⊤ : WithTop ℚ) : WithBot (WithTop ℚ))

/-- The constant `Float_MINUS_INF`. -/
def Float_MINUS_INF : EFloat := ⊥

/-- Finite vector seen as a vector of extended scalars. -/
def Vec3.toEFloat (a : Vec3 ℚ) : Vec3 EFloat :=
  ⟨EFloat.ofRat a.x, EFloat.ofRat a.y, EFloat.ofRat a.z⟩

/-! ## Ray, box, mesh and interaction records -/

/-- Modelled from the spec: the ray record (`rdr/ray.h` is not among the sources).
Origin, direction, the precomputed reciprocal of the direction and the valid
parametric interval `[t_min, t_max]`. -/
structure Ray where
  origin : Vec3 ℚ
  direction : Vec3 ℚ
  safe_inverse_direction : Vec3 ℚ
  t_min : ℚ
  t_max : ℚ
  deriving DecidableEq

/-- Modelled from the spec: `ray(t)`, the point `origin + t * direction`. -/
def Ray.point (ray : Ray) (t : ℚ) : Vec3 ℚ := Vec3.add ray.origin (Vec3.smul t ray.direction)

/-- Modelled from the spec: `Ray::withinTimeRange`, `t` lies in the valid interval. -/
def Ray.withinTimeRange (ray : Ray) (t : ℚ) : Bool := decide (ray.t_min ≤ t ∧ t ≤ ray.t_max)

/-- Modelled from the spec: `Ray::setTimeMax`, lower `t_max` to the hit parameter. -/
def Ray.setTimeMax (ray : Ray) (t : ℚ) : Ray := { ray with t_max := t }

/-- Axis aligned box `AABB` with its two corners. -/
structure AABB (α : Type) where
  low_bnd : Vec3 α
  upper_bnd : Vec3 α
  deriving DecidableEq

/-- Modelled from the spec: the mesh resource (`rdr/shape.h` is not among the
sources), a vertex-position buffer and a flat triangle-index buffer. -/
structure TriangleMeshResource where
  vertices : List (Vec3 ℚ)
  v_indices : List Nat
  deriving DecidableEq

/-- Modelled from the spec: the part of the surface interaction that the
accelerator reads back (`rdr/interaction.h` is not among the sources): the hit
position `p`. -/
structure SurfaceInteraction where
  p : Vec3 ℚ
  deriving DecidableEq

/-- The three vertices of triangle `triangle_index` (lines 114-123 of
`accel.cpp`): `v_idx` is read at `3 * triangle_index`, then the vertices at
`v_idx[0..2]`.  `none` when one of the three `assert (v_idx.k < vertices.size())`
fails or the index buffer is too short. -/
def TriangleMeshResource.triangle (mesh : TriangleMeshResource) (triangle_index : Nat) :
    Option (Vec3 ℚ × Vec3 ℚ × Vec3 ℚ) :=
  match mesh.v_indices[3 * triangle_index]?, mesh.v_indices[3 * triangle_index + 1]?,
      mesh.v_indices[3 * triangle_index + 2]? with
  | some i0, some i1, some i2 =>
    match mesh.vertices[i0]?, mesh.vertices[i1]?, mesh.vertices[i2]? with
    | some v0, some v1, some v2 => some (v0, v1, v2)
    | _, _, _ => none
  | _, _, _ => none

/-- Modelled from the spec: `CalculateTriangleDifferentials` (defined outside the
sources): the hit position is interpolated from the three vertices of the
triangle with the barycentric weights `bary`. -/
def CalculateTriangleDifferentials (interaction : SurfaceInteraction) (bary : Vec3 ℚ)
    (mesh : TriangleMeshResource) (triangle_index : Nat) : SurfaceInteraction :=
  match mesh.triangle triangle_index with
  | some (v0, v1, v2) =>
    { interaction with
      p := Vec3.add (Vec3.add (Vec3.smul bary.x v0) (Vec3.smul bary.y v1)) (Vec3.smul bary.z v2) }
  | none => interaction

/-- Modelled from the spec: `AssertAllNormalized` (`rdr/canary.h` is not among the
sources): the direction is unit-length. -/
def AllNormalized (d : Vec3 ℚ) : Bool := decide (Dot d d = 1)

/-- Modelled from the spec: `AssertNear` (`rdr/canary.h` is not among the
sources): the two positions match; in exact arithmetic the tolerance is taken
to be zero, the strictest check. -/
def Near (a b : Vec3 ℚ) : Bool := decide (a = b)

/-! ## `AABB::intersect` -/

/-- The slab entry parameter `t_enter` of lines 48-53: the largest of the per-axis
smaller plane parameters. -/
def AABB.slabEnter (self : AABB ℚ) (ray : Ray) : ℚ :=
  let inv_dir := ray.safe_inverse_direction
  let t0 := Vec3.mul (Vec3.sub self.low_bnd ray.origin) inv_dir
  let t1 := Vec3.mul (Vec3.sub self.upper_bnd ray.origin) inv_dir
  ReduceMax (Vec3.Min t0 t1)

/-- The slab exit parameter `t_exit` of lines 48-54: the smallest of the per-axis
larger plane parameters. -/
def AABB.slabExit (self : AABB ℚ) (ray : Ray) : ℚ :=
  let inv_dir := ray.safe_inverse_direction
  let t0 := Vec3.mul (Vec3.sub self.low_bnd ray.origin) inv_dir
  let t1 := Vec3.mul (Vec3.sub self.upper_bnd ray.origin) inv_dir
  ReduceMin (Vec3.Max t0 t1)

/-- `AABB::intersect(ray, t_in, t_out)`.  The arguments `t_in`, `t_out` are the
values stored behind the two pointers before the call; the result is the
returned boolean with the values stored behind them afterwards (both pointers
are taken to be non-null, a null pointer only skips its store). -/
def AABB.intersect (self : AABB ℚ) (ray : Ray) (t_in t_out : ℚ) : Bool × ℚ × ℚ :=
  let inv_dir := ray.safe_inverse_direction
  let t0 := Vec3.mul (Vec3.sub self.low_bnd ray.origin) inv_dir
  let t1 := Vec3.mul (Vec3.sub self.upper_bnd ray.origin) inv_dir
  let tmin := Vec3.Min t0 t1
  let tmax := Vec3.Max t0 t1
  let t_enter := ReduceMax tmin
  let t_exit := ReduceMin tmax
  if t_enter > t_exit then (false, t_in, t_out)
  else if t_exit < ray.t_min ∨ t_enter > ray.t_max then (false, t_in, t_out)
  else
    let t_enter := max t_enter ray.t_min
    let t_exit := min t_exit ray.t_max
    if t_enter > t_exit then (false, t_in, t_out)
    else (true, t_enter, t_exit)

/-! ## `TriangleIntersect` -/

/-- The determinant `det` of lines 152-155 for a ray direction and three vertices. -/
def TriangleIntersect.det (ray : Ray) (v0 v1 v2 : Vec3 ℚ) : ℚ :=
  let edge1 := Vec3.sub v1 v0
  let edge2 := Vec3.sub v2 v0
  let pvec := Cross ray.direction edge2
  Dot edge1 pvec

/-- The barycentric coordinate `u` of lines 152-161. -/
def TriangleIntersect.u (ray : Ray) (v0 v1 v2 : Vec3 ℚ) : ℚ :=
  let edge1 := Vec3.sub v1 v0
  let edge2 := Vec3.sub v2 v0
  let pvec := Cross ray.direction edge2
  let det := Dot edge1 pvec
  let inv_det := 1 / det
  let tvec := Vec3.sub ray.origin v0
  Dot tvec pvec * inv_det

/-- The barycentric coordinate `v` of lines 152-166. -/
def TriangleIntersect.v (ray : Ray) (v0 v1 v2 : Vec3 ℚ) : ℚ :=
  let edge1 := Vec3.sub v1 v0
  let edge2 := Vec3.sub v2 v0
  let pvec := Cross ray.direction edge2
  let det := Dot edge1 pvec
  let inv_det := 1 / det
  let tvec := Vec3.sub ray.origin v0
  let qvec := Cross tvec edge1
  Dot ray.direction qvec * inv_det

/-- The ray parameter `t` of lines 152-170. -/
def TriangleIntersect.t (ray : Ray) (v0 v1 v2 : Vec3 ℚ) : ℚ :=
  let edge1 := Vec3.sub v1 v0
  let edge2 := Vec3.sub v2 v0
  let pvec := Cross ray.direction edge2
  let det := Dot edge1 pvec
  let inv_det := 1 / det
  let tvec := Vec3.sub ray.origin v0
  let qvec := Cross tvec edge1
  Dot edge2 qvec * inv_det

/-- `TriangleIntersect(ray, triangle_index, mesh, interaction)`.  The result is
`none` when an assertion fails, otherwise the returned boolean with the ray and
the interaction as the call leaves them.  `AssertAllValid` checks that no
component is infinite or not a number; every rational passes it, so it has no
counterpart here. -/
def TriangleIntersect (ray : Ray) (triangle_index : Nat) (mesh : TriangleMeshResource)
    (interaction : SurfaceInteraction) : Option (Bool × Ray × SurfaceInteraction) :=
  if ¬ AllNormalized ray.direction then none
  else
    match mesh.triangle triangle_index with
    | none => none
    | some (v0, v1, v2) =>
      let dir := ray.direction
      let edge1 := Vec3.sub v1 v0
      let edge2 := Vec3.sub v2 v0
      let pvec := Cross dir edge2
      let det := Dot edge1 pvec
      if |det| < 1 / 100000000 then some (false, ray, interaction)
      else
        let inv_det := 1 / det
        let tvec := Vec3.sub ray.origin v0
        let u := Dot tvec pvec * inv_det
        if u < 0 ∨ u > 1 then some (false, ray, interaction)
        else
          let qvec := Cross tvec edge1
          let v := Dot dir qvec * inv_det
          if v < 0 ∨ u + v > 1 then some (false, ray, interaction)
          else
            let t := Dot edge2 qvec * inv_det
            if t < ray.t_min ∨ t > ray.t_max then some (false, ray, interaction)
            else
              let interaction1 :=
                CalculateTriangleDifferentials interaction ⟨1 - u - v, u, v⟩ mesh triangle_index
              if ¬ Near interaction1.p (ray.point t) then none
              else if ¬ ray.withinTimeRange t then none
              else some (true, ray.setTimeMax t, interaction1)

/-! ## `Accel` -/

/-- The accelerator: the mesh it owns and the cached bound. -/
structure Accel where
  mesh : TriangleMeshResource
  bound : AABB EFloat

/-- `Accel::setTriangleMesh(mesh)`: start from the sentinel box and merge in
every vertex, then store the mesh and the box. -/
def Accel.setTriangleMesh (self : Accel) (mesh : TriangleMeshResource) : Accel :=
  let bound0 : AABB EFloat :=
    ⟨⟨Float_INF, Float_INF, Float_INF⟩, ⟨Float_MINUS_INF, Float_MINUS_INF, Float_MINUS_INF⟩⟩
  let bound := mesh.vertices.foldl
    (fun (bound : AABB EFloat) (vertex : Vec3 ℚ) =>
      { low_bnd := Vec3.Min bound.low_bnd vertex.toEFloat,
        upper_bnd := Vec3.Max bound.upper_bnd vertex.toEFloat })
    bound0
  { self with mesh := mesh, bound := bound }

/-- `Accel::getBound()`. -/
def Accel.getBound (self : Accel) : AABB EFloat := self.bound

/-- The loop of `Accel::intersect` over the remaining triangle indices:
`success |= TriangleIntersect(ray, i, mesh, interaction)`. -/
def Accel.intersectLoop (mesh : TriangleMeshResource) :
    List Nat → Bool → Ray → SurfaceInteraction → Option (Bool × Ray × SurfaceInteraction)
  | [], success, ray, interaction => some (success, ray, interaction)
  | i :: rest, success, ray, interaction =>
    match TriangleIntersect ray i mesh interaction with
    | none => none
    | some (hit, ray1, interaction1) =>
      Accel.intersectLoop mesh rest (success || hit) ray1 interaction1

/-- `Accel::intersect(ray, interaction)`: every triangle `0 ≤ i < v_indices.size() / 3`
is tested in order on the same ray object. -/
def Accel.intersect (self : Accel) (ray : Ray) (interaction : SurfaceInteraction) :
    Option (Bool × Ray × SurfaceInteraction) :=
  Accel.intersectLoop self.mesh (List.range (self.mesh.v_indices.length / 3)) false ray interaction

/-! ## Shared lemmas on `TriangleIntersect` -/

/-- The hit test of lines 156-173 written as one condition on the values
`det`, `u`, `v`, `t` that the function computes. -/
def TriangleIntersect.hitCond (ray : Ray) (v0 v1 v2 : Vec3 ℚ) : Prop :=
  ¬ |TriangleIntersect.det ray v0 v1 v2| < 1 / 100000000 ∧
    0 ≤ TriangleIntersect.u ray v0 v1 v2 ∧ 0 ≤ TriangleIntersect.v ray v0 v1 v2 ∧
    TriangleIntersect.u ray v0 v1 v2 + TriangleIntersect.v ray v0 v1 v2 ≤ 1 ∧
    ray.t_min ≤ TriangleIntersect.t ray v0 v1 v2 ∧ TriangleIntersect.t ray v0 v1 v2 ≤ ray.t_max

/-- Triangle `i` of the mesh passes the hit test against `ray` with ray
parameter `tt`. -/
def TriangleIntersect.hitAt (ray : Ray) (mesh : TriangleMeshResource) (i : Nat) (tt : ℚ) : Prop :=
  ∃ v0 v1 v2, mesh.triangle i = some (v0, v1, v2) ∧ TriangleIntersect.hitCond ray v0 v1 v2 ∧
    TriangleIntersect.t ray v0 v1 v2 = tt

/-- The box with its low and upper corner coordinates exchanged on the chosen
axes. -/
def AABB.swapAxes (self : AABB ℚ) (sx sy sz : Bool) : AABB ℚ :=
  { low_bnd :=
      ⟨if sx then self.upper_bnd.x else self.low_bnd.x,
        if sy then self.upper_bnd.y else self.low_bnd.y,
        if sz then self.upper_bnd.z else self.low_bnd.z⟩,
    upper_bnd :=
      ⟨if sx then self.low_bnd.x else self.upper_bnd.x,
        if sy then self.low_bnd.y else self.upper_bnd.y,
        if sz then self.low_bnd.z else self.upper_bnd.z⟩ }

/-! ## Sample inputs -/

/-- Sample box: the unit cube. -/
def sampleBox : AABB ℚ := { low_bnd := ⟨0, 0, 0⟩, upper_bnd := ⟨1, 1, 1⟩ }


/-- Sample mesh: two parallel right triangles, the first in the plane `z = 0`,
the second in the plane `z = 1/2`. -/
def sampleMesh : TriangleMeshResource :=
  { vertices := [⟨0, 0, 0⟩, ⟨1, 0, 0⟩, ⟨0, 1, 0⟩, ⟨0, 0, 1 / 2⟩, ⟨1, 0, 1 / 2⟩, ⟨0, 1, 1 / 2⟩],
    v_indices := [0, 1, 2, 3, 4, 5] }

/-- Sample ray: from `(1/4, 1/4, 1)` straight down the z axis, valid on `[0, 10]`. -/
def sampleRay : Ray :=
  { origin := ⟨1 / 4, 1 / 4, 1⟩, direction := ⟨0, 0, -1⟩,
    safe_inverse_direction := ⟨10000000000, 10000000000, -1⟩, t_min := 0, t_max := 10 }

/-- Sample interaction before any hit. -/
def sampleInteraction : SurfaceInteraction := { p := ⟨0, 0, 0⟩ }

/-- Sample accelerator holding the sample mesh. -/
def sampleAccel : Accel :=
  Accel.setTriangleMesh
    { mesh := { vertices := [], v_indices := [] }, bound := ⟨⟨0, 0, 0⟩, ⟨0, 0, 0⟩⟩ } sampleMesh

/-! ## `Distribution1D` (`math_utils.h`, lines 428-499) -/

/-- `Distribution1D`: the sampled step function `func`, its cumulative
distribution `cdf` and its integral `funcInt`. -/
structure Distribution1D where
  func : List ℚ
  cdf : List ℚ
  funcInt : ℚ
  deriving DecidableEq

/-- The first loop of the constructor (lines 432-433): `cdf[0]` is the start
value and `cdf[i] = cdf[i - 1] + func[i - 1] / n` for `1 <= i <= n`. -/
def Distribution1D.stepIntegral (n : ℚ) : ℚ → List ℚ → List ℚ
  | acc, [] => [acc]
  | acc, x :: xs => acc :: Distribution1D.stepIntegral n (acc + x / n) xs

/-- The constructor `Distribution1D(f, n)` with `n` the number of samples in `f`
(lines 430-442).  Both rewriting loops run over `1 <= i <= n` and leave `cdf[0]`
alone: the new cdf is the old first entry followed by the rewritten entries. -/
def Distribution1D.new (f : List ℚ) : Distribution1D :=
  let n := f.length
  let cdf := Distribution1D.stepIntegral (n : ℚ) 0 f
  let funcInt := cdf.getD n 0
  if funcInt = 0 then
    { func := f,
      cdf := cdf.take 1 ++ (List.range n).map (fun k => (((k + 1 : Nat) : ℚ)) / (n : ℚ)),
      funcInt := funcInt }
  else
    { func := f,
      cdf := cdf.take 1 ++ (cdf.drop 1).map (fun c => c / funcInt),
      funcInt := funcInt }

/-- `Distribution1D::size()`. -/
def Distribution1D.size (self : Distribution1D) : Int := (self.func.length : Int)

/-- `std::clamp<int>(v, lo, hi)`. -/
def stdClamp (v lo hi : Int) : Int := if v < lo then lo else if hi < v then hi else v

/-- Element `l[i]` of a vector for an `int` index; `none` when the index is
outside the vector. -/
def Distribution1D.at? (l : List ℚ) (i : Int) : Option ℚ :=
  if i < 0 then none else l[i.toNat]?

/-- The `while (len > 0)` loop of `FindInterval` (lines 488-496) from the state
`first`, `len`.  `pred` is `none` where the predicate reads outside the vector. -/
def Distribution1D.FindInterval.loop (pred : Nat → Option Bool) (first len : Nat) : Option Nat :=
  if len > 0 then
    let half := len / 2
    let middle := first + half
    match pred middle with
    | none => none
    | some true => Distribution1D.FindInterval.loop pred (middle + 1) (len - (half + 1))
    | some false => Distribution1D.FindInterval.loop pred first half
  else some first
termination_by len
decreasing_by
  all_goals simp_wf
  all_goals omega

/-- `FindInterval(size, pred)` (lines 486-498). -/
def Distribution1D.FindInterval (size : Nat) (pred : Nat → Option Bool) : Option Int :=
  match Distribution1D.FindInterval.loop pred 0 size with
  | none => none
  | some first => some (stdClamp ((first : Int) - 1) 0 ((size : Int) - 2))

/-- `Distribution1D::sampleDiscrete(u, pdf, uRemapped)` (lines 463-473).  The two
booleans say whether the pointers `pdf` and `uRemapped` are non-null; the result
is the returned offset with the values written through the two pointers, `none`
when a vector is read outside its bounds or the assertion on `uRemapped` fails. -/
def Distribution1D.sampleDiscrete (self : Distribution1D) (u : ℚ) (pdf uRemapped : Bool) :
    Option (Int × Option ℚ × Option ℚ) := do
  let offset ← Distribution1D.FindInterval self.cdf.length
    (fun index => (self.cdf[index]?).map (fun c => decide (c ≤ u)))
  let pdfOut ←
    if pdf then
      if self.funcInt > 0 then
        (Distribution1D.at? self.func offset).map (fun fo => some (fo / (self.funcInt * self.size)))
      else some (some 0)
    else some none
  let remappedOut ←
    if uRemapped then
      (Distribution1D.at? self.cdf offset).bind (fun c0 =>
        (Distribution1D.at? self.cdf (offset + 1)).bind (fun c1 =>
          let r := (u - c0) / (c1 - c0)
          if r ≥ 0 ∧ r ≤ 1 then some (some r) else none))
    else some none
  pure (offset, pdfOut, remappedOut)

/-- `Distribution1D::sampleContinuous(u, pdf, off)` (lines 444-462).  The boolean
says whether the pointer `pdf` is non-null; the result is the returned value with
the value written through `pdf` and the offset written through `off`, `none` when
a vector is read outside its bounds.  The assertion inside the `if` repeats the
condition of the `if` and `IsAllValid(du)` discards its result; neither has a
counterpart here. -/
def Distribution1D.sampleContinuous (self : Distribution1D) (u : ℚ) (pdf : Bool) :
    Option (ℚ × Option ℚ × Int) := do
  let offset ← Distribution1D.FindInterval self.cdf.length
    (fun index => (self.cdf[index]?).map (fun c => decide (c ≤ u)))
  let c0 ← Distribution1D.at? self.cdf offset
  let c1 ← Distribution1D.at? self.cdf (offset + 1)
  let du := u - c0
  let du := if c1 - c0 > 0 then du / (c1 - c0) else du
  let pdfOut ←
    if pdf then
      if self.funcInt > 0 then
        (Distribution1D.at? self.func offset).map (fun fo => some (fo / self.funcInt))
      else some (some 0)
    else some none
  pure (((offset : ℚ) + du) / (self.size : ℚ), pdfOut, offset)

/-- The vector type `Vec3f` of `math_utils.h` and `bsdf.cpp`.  These files take
square roots and use `PI`, so their scalars are modelled by the reals (exact
arithmetic). -/
abbrev Vec3f : Type := Vec3 ℝ

/-- Componentwise sum `a + b`. -/
def Vec3f.add (a b : Vec3f) : Vec3f := ⟨a.x + b.x, a.y + b.y, a.z + b.z⟩

/-- Negation `-a`. -/
def Vec3f.neg (a : Vec3f) : Vec3f := ⟨-a.x, -a.y, -a.z⟩

/-- Scalar multiple `s * a`. -/
def Vec3f.smul (s : ℝ) (a : Vec3f) : Vec3f := ⟨s * a.x, s * a.y, s * a.z⟩

/-- Scalar multiple `a * s`. -/
def Vec3f.muls (a : Vec3f) (s : ℝ) : Vec3f := ⟨a.x * s, a.y * s, a.z * s⟩

/-- Inner product `Dot(a, b)`. -/
def Vec3f.Dot (a b : Vec3f) : ℝ := a.x * b.x + a.y * b.y + a.z * b.z

/-- Vector product `Cross(a, b)`. -/
def Vec3f.Cross (a b : Vec3f) : Vec3f :=
  ⟨a.y * b.z - a.z * b.y, a.z * b.x - a.x * b.z, a.x * b.y - a.y * b.x⟩

/-- Euclidean length `Norm(a)`. -/
noncomputable def Vec3f.Norm (a : Vec3f) : ℝ := Real.sqrt (Vec3f.Dot a a)

/-- Modelled from the spec: `Normalize(a)` (`rdr/math_aliases.h` is not among the
sources), the vector divided by its length. -/
noncomputable def Vec3f.Normalize (a : Vec3f) : Vec3f :=
  ⟨a.x / Vec3f.Norm a, a.y / Vec3f.Norm a, a.z / Vec3f.Norm a⟩

/-! ## The shading frame (`math_utils.h`, lines 132-171) -/

/-- `CoordinateSystemFromNormal(in_n, x, y)`: the result is the pair `(x, y)`
written through the two references.  `AssertAllValid(x, y)` fails exactly when
the reciprocal `1 / sqrt(..)` was taken of zero (the components are then
infinite or not a number); that is the result `none`. -/
noncomputable def CoordinateSystemFromNormal (in_n : Vec3f) : Option (Vec3f × Vec3f) :=
  let n := in_n
  if |n.x| > |n.y| then
    if Real.sqrt (n.x * n.x + n.z * n.z) = 0 then none
    else
      let invLen := 1 / Real.sqrt (n.x * n.x + n.z * n.z)
      let y : Vec3f := ⟨n.z * invLen, 0, -n.x * invLen⟩
      some (Vec3f.Cross y in_n, y)
  else
    if Real.sqrt (n.y * n.y + n.z * n.z) = 0 then none
    else
      let invLen := 1 / Real.sqrt (n.y * n.y + n.z * n.z)
      let y : Vec3f := ⟨0, n.z * invLen, -n.y * invLen⟩
      some (Vec3f.Cross y in_n, y)

/-- The shading frame `Frame`: normal `n`, tangent `x`, bitangent `y`. -/
structure Frame where
  n : Vec3f
  x : Vec3f
  y : Vec3f

/-- The constructor `Frame(n)`. -/
noncomputable def Frame.ofNormal (n : Vec3f) : Option Frame :=
  match CoordinateSystemFromNormal n with
  | none => none
  | some (x, y) => some { n := n, x := x, y := y }

/-- `Frame::WorldToLocal(v)`. -/
noncomputable def Frame.WorldToLocal (self : Frame) (v : Vec3f) : Vec3f :=
  Vec3f.Normalize ⟨Vec3f.Dot v self.x, Vec3f.Dot v self.y, Vec3f.Dot v self.n⟩

/-- `Frame::LocalToWorld(v)`. -/
noncomputable def Frame.LocalToWorld (self : Frame) (v : Vec3f) : Vec3f :=
  Vec3f.Normalize
    (Vec3f.add (Vec3f.add (Vec3f.smul v.x self.x) (Vec3f.smul v.y self.y))
      (Vec3f.smul v.z self.n))

/-! ## Reflection and refraction (`math_utils.h`, lines 78-106) -/

/-- `Reflect(wo, n)`: `-wo + 2 * Dot(wo, n) * n`. -/
def Reflect (wo n : Vec3f) : Vec3f :=
  Vec3f.add (Vec3f.neg wo) (Vec3f.smul (2 * Vec3f.Dot wo n) n)

/-- `Refract(wi, n, eta, wt)`.  The argument `wt` is the vector behind the output
reference before the call; the result is the returned boolean with the vector
behind it afterwards, `none` when `AssertAllNormalized(wt)` fails.
`AssertAllValid` has no counterpart: every real number passes it. -/
noncomputable def Refract (wi n : Vec3f) (eta : ℝ) (wt : Vec3f) : Option (Bool × Vec3f) :=
  let cos_theta_I := Vec3f.Dot n wi
  let sin2_theta_I := max 0 (1 - cos_theta_I * cos_theta_I)
  let sin2_theta_T := eta * eta * sin2_theta_I
  if sin2_theta_T ≥ 1 then some (false, wt)
  else
    let cos_theta_T := Real.sqrt (1 - sin2_theta_T)
    let wt1 := Vec3f.add (Vec3f.smul eta (Vec3f.neg wi))
      (Vec3f.smul (eta * cos_theta_I - cos_theta_T) n)
    let wt2 := Vec3f.Normalize wt1
    if Vec3f.Dot wt2 wt2 = 1 then some (true, wt2) else none

/-! ## BSDFs (`bsdf.cpp`) -/

namespace bsdf

/-- Modelled from the spec: the fields of the surface interaction that the BSDFs
read and write (`rdr/interaction.h` is not among the sources): the outgoing
direction `wo`, the incident direction `wi` and the shading normal `shading.n`. -/
structure SurfaceInteraction where
  wo : Vec3f
  wi : Vec3f
  shading_n : Vec3f

/-- Modelled from the spec: `SurfaceInteraction::cosThetaO()`, the cosine between
the shading normal and the outgoing direction. -/
def SurfaceInteraction.cosThetaO (self : SurfaceInteraction) : ℝ :=
  Vec3f.Dot self.shading_n self.wo

/-- Modelled from the spec: the constant `INV_PI` (`rdr/math_aliases.h` is not
among the sources). -/
noncomputable def INV_PI : ℝ := 1 / Real.pi

/-- `obtainOrientedNormal(interaction, twosided)` (lines 10-16); `none` when
`AssertAllNormalized(interaction.shading.n)` fails. -/
noncomputable def obtainOrientedNormal (interaction : SurfaceInteraction) (twosided : Bool) :
    Option Vec3f :=
  if Vec3f.Dot interaction.shading_n interaction.shading_n = 1 then
    some (if twosided = true ∧ interaction.cosThetaO < 0 then Vec3f.neg interaction.shading_n
      else interaction.shading_n)
  else none

/-- The ideal diffuse BSDF: the value of its texture at an interaction
(`texture->evaluate`) and the `twosided` flag of the base class. -/
structure IdealDiffusion where
  texture : SurfaceInteraction → Vec3f
  twosided : Bool

/-- `IdealDiffusion::evaluate(interaction)` (lines 37-42). -/
noncomputable def IdealDiffusion.evaluate (self : IdealDiffusion)
    (interaction : SurfaceInteraction) : Option Vec3f :=
  match obtainOrientedNormal interaction self.twosided with
  | none => none
  | some normal =>
    if Vec3f.Dot interaction.wi normal < 0 ∨ Vec3f.Dot interaction.wo normal < 0 then
      some ⟨0, 0, 0⟩
    else some (Vec3f.muls (self.texture interaction) INV_PI)

/-- The perfectly refracting BSDF with its index of refraction. -/
structure PerfectRefraction where
  eta : ℝ

/-- `PerfectRefraction::sample(interaction, sampler, pdf)` (lines 81-142) with a
non-null `pdf`.  The sampler is not used and the `print` has no effect on the
result.  The result is the returned direction, the interaction afterwards and the
value written through `pdf`. -/
noncomputable def PerfectRefraction.sample (self : PerfectRefraction)
    (interaction : SurfaceInteraction) : Option (Vec3f × SurfaceInteraction × ℝ) :=
  let normal := interaction.shading_n
  let cos_theta_i := Vec3f.Dot normal interaction.wo
  let entering := decide (cos_theta_i > 0)
  let eta_corrected := if entering then self.eta else 1 / self.eta
  let wi : Vec3f := ⟨0, 0, 0⟩
  match Refract interaction.wo normal eta_corrected wi with
  | none => none
  | some (refracted, wi) =>
    let wi := if ¬ refracted then Reflect interaction.wo normal else wi
    let interaction1 := { interaction with wi := wi }
    some (interaction1.wi, interaction1, 1)

end bsdf

/-- Specification side: the point `p` lies in the closed box, on every axis
between the low and the upper corner. -/
def AABB.contains (self : AABB ℚ) (p : Vec3 ℚ) : Prop :=
  (self.low_bnd.x ≤ p.x ∧ p.x ≤ self.upper_bnd.x) ∧
    (self.low_bnd.y ≤ p.y ∧ p.y ≤ self.upper_bnd.y) ∧
    (self.low_bnd.z ≤ p.z ∧ p.z ≤ self.upper_bnd.z)

/-- Componentwise difference `a - b` of real vectors. -/
def Vec3f.sub (a b : Vec3f) : Vec3f := ⟨a.x - b.x, a.y - b.y, a.z - b.z⟩

/-- Specification side: the component of `v` perpendicular to the direction `n`,
`v - Dot(v, n) * n`. -/
def Vec3f.perp (v n : Vec3f) : Vec3f := Vec3f.sub v (Vec3f.smul (Vec3f.Dot v n) n)

/-! ## Sampling warps and the Beckmann half-vector (`math_utils.h`) -/

/-- Two component vector `Vec2f`. -/
structure Vec2f where
  x : ℝ
  y : ℝ

/-- Modelled from the spec: the constant `PI` (`rdr/math_aliases.h` is not among
the sources). -/
noncomputable def PI : ℝ := Real.pi

/-- `SphericalDirection(sin_theta, cos_theta, phi)` (lines 112-115). -/
noncomputable def SphericalDirection (sin_theta cos_theta phi : ℝ) : Vec3f :=
  ⟨sin_theta * Real.cos phi, sin_theta * Real.sin phi, cos_theta⟩

/-- The overload `SphericalDirection(theta, phi)` (lines 117-119). -/
noncomputable def SphericalDirection.ofAngles (theta phi : ℝ) : Vec3f :=
  SphericalDirection (Real.sin theta) (Real.cos theta) phi

/-- `UniformSampleDisk(u)` (lines 321-326). -/
noncomputable def UniformSampleDisk (u : Vec2f) : Vec2f :=
  let r := Real.sqrt u.x
  let theta := 2 * PI * u.y
  ⟨r * Real.cos theta, r * Real.sin theta⟩

/-- `UniformSampleHemisphere(u)` (lines 345-351). -/
noncomputable def UniformSampleHemisphere (u : Vec2f) : Vec3f :=
  let theta := Real.arccos (1 - u.x)
  let phi := 2 * PI * u.y
  SphericalDirection.ofAngles theta phi

/-- `BeckmannDistribution` with its two roughness parameters. -/
structure BeckmannDistribution where
  alpha_x : ℝ
  alpha_y : ℝ

namespace bsdf

/-- `IdealDiffusion::pdf(interaction)` (lines 44-48). -/
def IdealDiffusion.pdf (_self : IdealDiffusion) (_interaction : SurfaceInteraction) : ℝ := 0

/-- `IdealDiffusion::isDelta()` (lines 58-60). -/
def IdealDiffusion.isDelta (_self : IdealDiffusion) : Bool := false

/-- `PerfectRefraction::evaluate(interaction)` (lines 71-75). -/
def PerfectRefraction.evaluate (_self : PerfectRefraction) (_interaction : SurfaceInteraction) :
    Vec3f := ⟨0, 0, 0⟩

/-- `PerfectRefraction::pdf(interaction)` (lines 77-79). -/
def PerfectRefraction.pdf (_self : PerfectRefraction) (_interaction : SurfaceInteraction) : ℝ := 0

/-- `PerfectRefraction::isDelta()` (lines 148-150). -/
def PerfectRefraction.isDelta (_self : PerfectRefraction) : Bool := true

/-- The Fresnel-weighted specular BSDF `Glass` with the members set by its
constructor (lines 158-162). -/
structure Glass where
  R : Vec3f
  T : Vec3f
  eta : ℝ

/-- `Glass::evaluate(interaction)` (lines 164-168). -/
def Glass.evaluate (_self : Glass) (_interaction : SurfaceInteraction) : Vec3f := ⟨0, 0, 0⟩

/-- `Glass::pdf(interaction)` (lines 170-172). -/
def Glass.pdf (_self : Glass) (_interaction : SurfaceInteraction) : ℝ := 0

/-- `Glass::sample(interaction, sampler, pdf)` (lines 174-179): the body only
returns `Vec3f(0.0f)`.  The argument `pdf` is the value behind the pointer before
the call; the result is the returned vector with the interaction and the value
behind `pdf` afterwards. -/
def Glass.sample (_self : Glass) (interaction : SurfaceInteraction) (pdf : ℝ) :
    Vec3f × SurfaceInteraction × ℝ := (⟨0, 0, 0⟩, interaction, pdf)

/-- `Glass::isDelta()` (lines 181-183). -/
def Glass.isDelta (_self : Glass) : Bool := true

/-- The microfacet BSDF `MicrofacetReflection` with the members set by its
constructor (lines 204-210) and the texture `R` bound by `crossConfiguration`. -/
structure MicrofacetReflection where
  k : Vec3f
  etaI : Vec3f
  etaT : Vec3f
  dist : BeckmannDistribution
  R : SurfaceInteraction → Vec3f

/-- `MicrofacetReflection::evaluate(interaction)` (lines 212-216). -/
def MicrofacetReflection.evaluate (_self : MicrofacetReflection)
    (_interaction : SurfaceInteraction) : Vec3f := ⟨0, 0, 0⟩

/-- `MicrofacetReflection::pdf(interaction)` (lines 218-222). -/
def MicrofacetReflection.pdf (_self : MicrofacetReflection)
    (_interaction : SurfaceInteraction) : ℝ := 0

/-- `MicrofacetReflection::isDelta()` (lines 232-234). -/
def MicrofacetReflection.isDelta (_self : MicrofacetReflection) : Bool := false

/-- Modelled from the spec: the four BSDF variants behind the virtual interface
of the base class (`rdr/bsdf.h` is not among the sources). -/
inductive BSDF where
  | idealDiffusion (b : IdealDiffusion)
  | perfectRefraction (b : PerfectRefraction)
  | glass (b : Glass)
  | microfacetReflection (b : MicrofacetReflection)

/-- Virtual call `bsdf->evaluate(interaction)`; `none` when an assertion fails. -/
noncomputable def BSDF.evaluate : BSDF → SurfaceInteraction → Option Vec3f
  | .idealDiffusion b, ia => b.evaluate ia
  | .perfectRefraction b, ia => some (b.evaluate ia)
  | .glass b, ia => some (b.evaluate ia)
  | .microfacetReflection b, ia => some (b.evaluate ia)

/-- Virtual call `bsdf->pdf(interaction)`. -/
def BSDF.pdf : BSDF → SurfaceInteraction → ℝ
  | .idealDiffusion b, ia => b.pdf ia
  | .perfectRefraction b, ia => b.pdf ia
  | .glass b, ia => b.pdf ia
  | .microfacetReflection b, ia => b.pdf ia

/-- Virtual call `bsdf->isDelta()`. -/
def BSDF.isDelta : BSDF → Bool
  | .idealDiffusion b => b.isDelta
  | .perfectRefraction b => b.isDelta
  | .glass b => b.isDelta
  | .microfacetReflection b => b.isDelta

/-- Modelled from the spec: the property bag of a configurable object
(`rdr/properties.h` is not among the sources), named string values. -/
structure Properties where
  entries : List (String × String)

/-- Modelled from the spec: `properties.getProperty<std::string>(name)`, the value
configured under `name`; an exception when there is none. -/
def Properties.getProperty (self : Properties) (name : String) : Except String String :=
  match self.entries.lookup name with
  | some value => Except.ok value
  | none => Except.error ("Property " ++ name ++ " not found")

/-- Modelled from the spec: `clearProperties()`, the bag is emptied. -/
def Properties.clearProperties (_self : Properties) : Properties := { entries := [] }

/-- Modelled from the spec: the part of `CrossConfigurationContext` that the BSDFs
read, the map from texture names to textures.  A texture is represented by its
`evaluate` function. -/
structure CrossConfigurationContext where
  textures : List (String × (SurfaceInteraction → Vec3f))

/-- `IdealDiffusion::crossConfiguration(context)` (lines 24-35).  `properties` is
the property bag of the object; the result is the outcome (`error` with the
message of the `rdr_exception` thrown, or `ok`) with the object and its property
bag as the call leaves them. -/
def IdealDiffusion.crossConfiguration (self : IdealDiffusion) (properties : Properties)
    (context : CrossConfigurationContext) : Except String Unit × IdealDiffusion × Properties :=
  match properties.getProperty "texture_name" with
  | Except.error e => (Except.error e, self, properties)
  | Except.ok texture_name =>
    match context.textures.lookup texture_name with
    | some texture_ptr =>
      (Except.ok (), { self with texture := texture_ptr }, properties.clearProperties)
    | none =>
      (Except.error ("Texture [ " ++ texture_name ++ " ] not found"), self, properties)

/-- `MicrofacetReflection::crossConfiguration(context)` (lines 191-202), with the
same conventions as for `IdealDiffusion`. -/
def MicrofacetReflection.crossConfiguration (self : MicrofacetReflection)
    (properties : Properties) (context : CrossConfigurationContext) :
    Except String Unit × MicrofacetReflection × Properties :=
  match properties.getProperty "texture_name" with
  | Except.error e => (Except.error e, self, properties)
  | Except.ok texture_name =>
    match context.textures.lookup texture_name with
    | some texture_ptr =>
      (Except.ok (), { self with R := texture_ptr }, properties.clearProperties)
    | none =>
      (Except.error ("Texture " ++ texture_name ++ " not found"), self, properties)

end bsdf

/-! ## Spherical helpers and the Beckmann masking terms (`math_utils.h`) -/

/-- `CosTheta(w)` (lines 32-34). -/
def CosTheta (w : Vec3f) : ℝ := w.z

/-- `Cos2Theta(w)` (lines 36-38). -/
def Cos2Theta (w : Vec3f) : ℝ := w.z * w.z

/-- `Sin2Theta(w)` (lines 44-46). -/
noncomputable def Sin2Theta (w : Vec3f) : ℝ := max 0 (1 - Cos2Theta w)

/-- `SinTheta(w)` (lines 48-50). -/
noncomputable def SinTheta (w : Vec3f) : ℝ := Real.sqrt (Sin2Theta w)

/-- `TanTheta(w)` (lines 52-54). -/
noncomputable def TanTheta (w : Vec3f) : ℝ := SinTheta w / CosTheta w

/-- `std::clamp<Float>(v, lo, hi)`. -/
noncomputable def stdClampFloat (v lo hi : ℝ) : ℝ :=
  if v < lo then lo else if hi < v then hi else v

/-- `CosPhi(w)` (lines 60-63). -/
noncomputable def CosPhi (w : Vec3f) : ℝ :=
  let sin_theta := SinTheta w
  if sin_theta = 0 then 1 else stdClampFloat (w.x / sin_theta) (-1) 1

/-- `SinPhi(w)` (lines 65-68). -/
noncomputable def SinPhi (w : Vec3f) : ℝ :=
  let sin_theta := SinTheta w
  if sin_theta = 0 then 0 else stdClampFloat (w.y / sin_theta) (-1) 1

/-- `Cos2Phi(w)` (lines 70-72). -/
noncomputable def Cos2Phi (w : Vec3f) : ℝ := CosPhi w * CosPhi w

/-- `Sin2Phi(w)` (lines 74-76). -/
noncomputable def Sin2Phi (w : Vec3f) : ℝ := SinPhi w * SinPhi w

/-- The value `alpha` of `BeckmannDistribution::lambda` (lines 527-528). -/
noncomputable def BeckmannDistribution.lambda.alpha (self : BeckmannDistribution) (w : Vec3f) :
    ℝ :=
  Real.sqrt (Cos2Phi w * self.alpha_x * self.alpha_x + Sin2Phi w * self.alpha_y * self.alpha_y)

/-- The value `a` of `BeckmannDistribution::lambda` (lines 525-529), where the
product it divides by is not zero. -/
noncomputable def BeckmannDistribution.lambda.a (self : BeckmannDistribution) (w : Vec3f) : ℝ :=
  let abs_tan_theta := |TanTheta w|
  let alpha := Real.sqrt
    (Cos2Phi w * self.alpha_x * self.alpha_x + Sin2Phi w * self.alpha_y * self.alpha_y)
  1 / (alpha * abs_tan_theta)

/-- The rational function in the last line of `BeckmannDistribution::lambda`
(line 531), for a value `a`. -/
noncomputable def BeckmannDistribution.lambda.fit (a : ℝ) : ℝ :=
  (1 - 1.259 * a + 0.396 * a * a) / (3.535 * a + 2.181 * a * a)

/-- `BeckmannDistribution::lambda(w)` (lines 524-532).  The two divisions by zero
that the floating-point code lets through are made explicit: `TanTheta(w)` is
infinite exactly when `CosTheta(w)` is zero (`SinTheta(w)` is then `1`), which is
the test `std::isinf(abs_tan_theta)`; and `a` is `+inf`, so that `a >= 1.6f`
holds, when `alpha * abs_tan_theta` is zero. -/
noncomputable def BeckmannDistribution.lambda (self : BeckmannDistribution) (w : Vec3f) : ℝ :=
  if CosTheta w = 0 then 0
  else
    let abs_tan_theta := |TanTheta w|
    let alpha := Real.sqrt
      (Cos2Phi w * self.alpha_x * self.alpha_x + Sin2Phi w * self.alpha_y * self.alpha_y)
    if alpha * abs_tan_theta = 0 then 0
    else
      let a := 1 / (alpha * abs_tan_theta)
      if a ≥ 1.6 then 0
      else (1 - 1.259 * a + 0.396 * a * a) / (3.535 * a + 2.181 * a * a)

/-- `BeckmannDistribution::G1(w)` (line 534). -/
noncomputable def BeckmannDistribution.G1 (self : BeckmannDistribution) (w : Vec3f) : ℝ :=
  1 / (1 + self.lambda w)

/-- `BeckmannDistribution::G(wo, wi)` (lines 536-538). -/
noncomputable def BeckmannDistribution.G (self : BeckmannDistribution) (wo wi : Vec3f) : ℝ :=
  1 / (1 + self.lambda wo + self.lambda wi)

/-! ## Rounded arithmetic: IEEE 754 binary formats -/

/-- An IEEE 754 binary format: the number `prec` of significand bits and the
range `emin .. emax` of the exponent of a normal number. -/
structure FloatFormat where
  prec : Nat
  emin : Int
  emax : Int

/-- The format `binary32` of `float`. -/
def binary32 : FloatFormat := { prec := 24, emin := -126, emax := 127 }

/-- The format `binary64` of `double`. -/
def binary64 : FloatFormat := { prec := 53, emin := -1022, emax := 1023 }

/-- The integer nearest to `x`; of two equally near integers the even one. -/
def roundHalfEven {α : Type} [LinearOrderedField α] [FloorRing α] (x : α) : Int :=
  let f := Int.floor x
  if x - (f : α) < 1 / 2 then f
  else if 1 / 2 < x - (f : α) then f + 1
  else if f % 2 = 0 then f else f + 1

/-- The exponent of the unit in the last place of the binade of `x`; below the
normal range the spacing of the subnormal numbers. -/
def FloatFormat.ulpExp {α : Type} [LinearOrderedField α] [FloorRing α] (F : FloatFormat)
    (x : α) : Int :=
  max (Int.log 2 |x|) F.emin - ((F.prec : Int) - 1)

/-- Rounding to the nearest number of the format, ties to even (the default
rounding of IEEE 754), before the check for overflow. -/
def FloatFormat.round {α : Type} [LinearOrderedField α] [FloorRing α] (F : FloatFormat)
    (x : α) : α :=
  (roundHalfEven (x / (2 : α) ^ F.ulpExp x) : α) * (2 : α) ^ F.ulpExp x

/-- The largest finite number of the format. -/
def FloatFormat.maxFinite {α : Type} [LinearOrderedField α] (F : FloatFormat) : α :=
  ((2 : α) ^ F.prec - 1) * (2 : α) ^ (F.emax - ((F.prec : Int) - 1))

/-! ## `TriangleIntersect` in rounded arithmetic (`accel.cpp`, lines 106-185)

A second embedding of the same source lines in which every arithmetic operation
of the internal scalar type rounds its result with `rd` and every
`static_cast<Float>` rounds with `rf`.  With `rd = rf = id` it is the exact
embedding above; with `rd = binary64.round` and `rf = binary32.round` it is the
program as compiled for `double` and `float` (one rounding per operation, no
fused multiply-add).  The exponent range of the internal type is not modelled:
on `float` inputs no `double` operation of this function leaves the range of
the normal numbers. -/

namespace Rounded

/-- Componentwise difference `a - b`, each component rounded. -/
def sub (rd : ℚ → ℚ) (a b : Vec3 ℚ) : Vec3 ℚ :=
  ⟨rd (a.x - b.x), rd (a.y - b.y), rd (a.z - b.z)⟩

/-- Inner product `Dot(a, b)`: `a.x * b.x + a.y * b.y + a.z * b.z`, summed from
the left, each operation rounded. -/
def Dot (rd : ℚ → ℚ) (a b : Vec3 ℚ) : ℚ :=
  rd (rd (rd (a.x * b.x) + rd (a.y * b.y)) + rd (a.z * b.z))

/-- Vector product `Cross(a, b)`, each operation rounded. -/
def Cross (rd : ℚ → ℚ) (a b : Vec3 ℚ) : Vec3 ℚ :=
  ⟨rd (rd (a.y * b.z) - rd (a.z * b.y)), rd (rd (a.z * b.x) - rd (a.x * b.z)),
    rd (rd (a.x * b.y) - rd (a.y * b.x))⟩

/-- `TriangleIntersect(ray, triangle_index, mesh, interaction)` in rounded
arithmetic.  The parts that are not among the sources are parameters:
`allNormalized` is the check of `AssertAllNormalized`, `calculate` is
`CalculateTriangleDifferentials`, and `assertNear interaction ray t` is the check
`AssertNear(interaction.p, ray(t))`.  The casts `Cast<InternalScalarType>` of
`Float` values are exact.  The result is `none` when an assertion fails,
otherwise the returned boolean with the ray and the interaction as the call
leaves them. -/
def TriangleIntersect (rd rf : ℚ → ℚ) (allNormalized : Vec3 ℚ → Bool)
    (calculate : SurfaceInteraction → Vec3 ℚ → TriangleMeshResource → Nat → SurfaceInteraction)
    (assertNear : SurfaceInteraction → Ray → ℚ → Bool)
    (ray : Ray) (triangle_index : Nat) (mesh : TriangleMeshResource)
    (interaction : SurfaceInteraction) : Option (Bool × Ray × SurfaceInteraction) :=
  if ¬ allNormalized ray.direction then none
  else
    match mesh.triangle triangle_index with
    | none => none
    | some (v0, v1, v2) =>
      let dir := ray.direction
      let edge1 := sub rd v1 v0
      let edge2 := sub rd v2 v0
      let pvec := Cross rd dir edge2
      let det := Dot rd edge1 pvec
      if |det| < rd (1 / 100000000) then some (false, ray, interaction)
      else
        let inv_det := rd (1 / det)
        let tvec := sub rd ray.origin v0
        let u := rd (Dot rd tvec pvec * inv_det)
        if u < 0 ∨ u > 1 then some (false, ray, interaction)
        else
          let qvec := Cross rd tvec edge1
          let v := rd (Dot rd dir qvec * inv_det)
          if v < 0 ∨ rd (u + v) > 1 then some (false, ray, interaction)
          else
            let t := rd (Dot rd edge2 qvec * inv_det)
            if t < ray.t_min ∨ t > ray.t_max then some (false, ray, interaction)
            else
              let interaction1 :=
                calculate interaction ⟨rf (rd (rd (1 - u) - v)), rf u, rf v⟩ mesh triangle_index
              if ¬ assertNear interaction1 ray t then none
              else if ¬ ray.withinTimeRange (rf t) then none
              else some (true, ray.setTimeMax (rf t), interaction1)

/-- The determinant `det` that the rounded `TriangleIntersect` computes. -/
def TriangleIntersect.det (rd : ℚ → ℚ) (ray : Ray) (v0 v1 v2 : Vec3 ℚ) : ℚ :=
  let edge1 := sub rd v1 v0
  let edge2 := sub rd v2 v0
  let pvec := Cross rd ray.direction edge2
  Dot rd edge1 pvec

/-- The barycentric coordinate `u` that the rounded `TriangleIntersect` computes. -/
def TriangleIntersect.u (rd : ℚ → ℚ) (ray : Ray) (v0 v1 v2 : Vec3 ℚ) : ℚ :=
  let edge1 := sub rd v1 v0
  let edge2 := sub rd v2 v0
  let pvec := Cross rd ray.direction edge2
  let det := Dot rd edge1 pvec
  let inv_det := rd (1 / det)
  let tvec := sub rd ray.origin v0
  rd (Dot rd tvec pvec * inv_det)

/-- The barycentric coordinate `v` that the rounded `TriangleIntersect` computes. -/
def TriangleIntersect.v (rd : ℚ → ℚ) (ray : Ray) (v0 v1 v2 : Vec3 ℚ) : ℚ :=
  let edge1 := sub rd v1 v0
  let edge2 := sub rd v2 v0
  let pvec := Cross rd ray.direction edge2
  let det := Dot rd edge1 pvec
  let inv_det := rd (1 / det)
  let tvec := sub rd ray.origin v0
  let qvec := Cross rd tvec edge1
  rd (Dot rd ray.direction qvec * inv_det)

/-- The ray parameter `t` that the rounded `TriangleIntersect` computes. -/
def TriangleIntersect.t (rd : ℚ → ℚ) (ray : Ray) (v0 v1 v2 : Vec3 ℚ) : ℚ :=
  let edge1 := sub rd v1 v0
  let edge2 := sub rd v2 v0
  let pvec := Cross rd ray.direction edge2
  let det := Dot rd edge1 pvec
  let inv_det := rd (1 / det)
  let tvec := sub rd ray.origin v0
  let qvec := Cross rd tvec edge1
  rd (Dot rd edge2 qvec * inv_det)

/-- The tests of lines 156-173 on the values that the rounded function computes:
the sum `u + v` is rounded before it is compared with `1`. -/
def TriangleIntersect.hitCond (rd : ℚ → ℚ) (ray : Ray) (v0 v1 v2 : Vec3 ℚ) : Prop :=
  ¬ |TriangleIntersect.det rd ray v0 v1 v2| < rd (1 / 100000000) ∧
    (0 ≤ TriangleIntersect.u rd ray v0 v1 v2 ∧ TriangleIntersect.u rd ray v0 v1 v2 ≤ 1) ∧
    0 ≤ TriangleIntersect.v rd ray v0 v1 v2 ∧
    rd (TriangleIntersect.u rd ray v0 v1 v2 + TriangleIntersect.v rd ray v0 v1 v2) ≤ 1 ∧
    ray.t_min ≤ TriangleIntersect.t rd ray v0 v1 v2 ∧
    TriangleIntersect.t rd ray v0 v1 v2 ≤ ray.t_max

/-- The weights that the rounded function hands to
`CalculateTriangleDifferentials`: `1 - u - v`, `u` and `v`, each cast to `Float`. -/
def TriangleIntersect.weights (rd rf : ℚ → ℚ) (ray : Ray) (v0 v1 v2 : Vec3 ℚ) : Vec3 ℚ :=
  ⟨rf (rd (rd (1 - TriangleIntersect.u rd ray v0 v1 v2) - TriangleIntersect.v rd ray v0 v1 v2)),
    rf (TriangleIntersect.u rd ray v0 v1 v2), rf (TriangleIntersect.v rd ray v0 v1 v2)⟩

end Rounded

/-- Mesh with the single triangle `(0,0,0)`, `(7,0,0)`, `(0,7,0)`. -/
def sampleMesh7 : TriangleMeshResource :=
  { vertices := [⟨0, 0, 0⟩, ⟨7, 0, 0⟩, ⟨0, 7, 0⟩], v_indices := [0, 1, 2] }

/-- Ray from `(1/4, 1/4, 1)` straight down the z axis, valid on `[1, 10]`: it
meets the plane `z = 0` at `t = 1 = t_min`. -/
def sampleRay7 : Ray :=
  { origin := ⟨1 / 4, 1 / 4, 1⟩, direction := ⟨0, 0, -1⟩,
    safe_inverse_direction := ⟨10000000000, 10000000000, -1⟩, t_min := 1, t_max := 10 }

/-- Mesh with the single triangle `(0,0,0)`, `(5,0,0)`, `(0,5,0)`. -/
def sampleMesh5 : TriangleMeshResource :=
  { vertices := [⟨0, 0, 0⟩, ⟨5, 0, 0⟩, ⟨0, 5, 0⟩], v_indices := [0, 1, 2] }

/-- Ray from `(3/2, 7/2, 1)` straight down the z axis, valid on `[0, 10]`: it
meets the triangle of `sampleMesh5` on its edge `x + y = 5`. -/
def sampleRay5 : Ray :=
  { origin := ⟨3 / 2, 7 / 2, 1⟩, direction := ⟨0, 0, -1⟩,
    safe_inverse_direction := ⟨10000000000, 10000000000, -1⟩, t_min := 0, t_max := 10 }

/-! ## `Distribution1D` in `Float` arithmetic (`math_utils.h`, lines 428-499)

A second embedding of the same source lines over the values of an IEEE 754
format `F` (the alias `Float` is not among the sources; it is `float`, the format
`binary32`, in the renderer as configured).  Every operation rounds to nearest,
ties to even, and overflows to an infinity.  The sign of a zero is not modelled:
in these functions a division by zero occurs only in the computation of
`uRemapped`, whose assertion fails on both infinities and on NaN. -/

/-- A value of an IEEE 754 format: a finite number, an infinity or a NaN. -/
inductive FVal where
  | fin (q : ℚ)
  | inf (negative : Bool)
  | nan
  deriving DecidableEq

/-- The value of the format `F` that a rational result is rounded to: the nearest
number of the format, an infinity beyond the largest finite number. -/
def FloatFormat.ofRat (F : FloatFormat) (q : ℚ) : FVal :=
  if F.maxFinite < |F.round q| then FVal.inf (decide (q < 0)) else FVal.fin (F.round q)

/-- Negation `-a`. -/
def FVal.neg : FVal → FVal
  | FVal.fin a => FVal.fin (-a)
  | FVal.inf s => FVal.inf (!s)
  | FVal.nan => FVal.nan

/-- Sum `a + b` in the format `F`. -/
def FVal.add (F : FloatFormat) : FVal → FVal → FVal
  | FVal.fin a, FVal.fin b => F.ofRat (a + b)
  | FVal.fin _, FVal.inf s => FVal.inf s
  | FVal.inf s, FVal.fin _ => FVal.inf s
  | FVal.inf s, FVal.inf t => if s = t then FVal.inf s else FVal.nan
  | _, _ => FVal.nan

/-- Difference `a - b` in the format `F`. -/
def FVal.sub (F : FloatFormat) (a b : FVal) : FVal := FVal.add F a (FVal.neg b)

/-- Product `a * b` in the format `F`. -/
def FVal.mul (F : FloatFormat) : FVal → FVal → FVal
  | FVal.fin a, FVal.fin b => F.ofRat (a * b)
  | FVal.fin a, FVal.inf s => if a = 0 then FVal.nan else FVal.inf (xor s (decide (a < 0)))
  | FVal.inf s, FVal.fin b => if b = 0 then FVal.nan else FVal.inf (xor s (decide (b < 0)))
  | FVal.inf s, FVal.inf t => FVal.inf (xor s t)
  | _, _ => FVal.nan

/-- Quotient `a / b` in the format `F`. -/
def FVal.div (F : FloatFormat) : FVal → FVal → FVal
  | FVal.fin a, FVal.fin b =>
    if b = 0 then (if a = 0 then FVal.nan else FVal.inf (decide (a < 0))) else F.ofRat (a / b)
  | FVal.fin _, FVal.inf _ => FVal.fin 0
  | FVal.inf s, FVal.fin b => FVal.inf (xor s (decide (b < 0)))
  | _, _ => FVal.nan

/-- Comparison `a <= b`; false when one side is a NaN. -/
def FVal.le : FVal → FVal → Bool
  | FVal.fin a, FVal.fin b => decide (a ≤ b)
  | FVal.fin _, FVal.inf s => !s
  | FVal.inf s, FVal.fin _ => s
  | FVal.inf s, FVal.inf t => s || !t
  | _, _ => false

/-- Comparison `a < b`; false when one side is a NaN. -/
def FVal.lt : FVal → FVal → Bool
  | FVal.fin a, FVal.fin b => decide (a < b)
  | FVal.fin _, FVal.inf s => !s
  | FVal.inf s, FVal.fin _ => s
  | FVal.inf s, FVal.inf t => s && !t
  | _, _ => false

/-- Comparison `a == 0`. -/
def FVal.isZero : FVal → Bool
  | FVal.fin a => decide (a = 0)
  | _ => false

namespace Rounded

/-- `Distribution1D` over the values of a floating-point format. -/
structure Distribution1D where
  func : List FVal
  cdf : List FVal
  funcInt : FVal

/-- The first loop of the constructor (lines 432-433) in the format `F`:
`cdf[i] = cdf[i - 1] + func[i - 1] / n`, the quotient and the sum each rounded. -/
def Distribution1D.stepIntegral (F : FloatFormat) (n : FVal) : FVal → List FVal → List FVal
  | acc, [] => [acc]
  | acc, x :: xs => acc :: Distribution1D.stepIntegral F n (FVal.add F acc (FVal.div F x n)) xs

/-- The constructor `Distribution1D(f, n)` (lines 430-442) in the format `F`; the
`int` values `n` and `i` are converted to the format where the source divides by
them. -/
def Distribution1D.new (F : FloatFormat) (f : List FVal) : Distribution1D :=
  let n := f.length
  let cdf := Distribution1D.stepIntegral F (F.ofRat (n : ℚ)) (FVal.fin 0) f
  let funcInt := cdf.getD n (FVal.fin 0)
  if funcInt.isZero then
    { func := f,
      cdf := cdf.take 1 ++ (List.range n).map
        (fun k => FVal.div F (F.ofRat (((k + 1 : Nat) : ℚ))) (F.ofRat (n : ℚ))),
      funcInt := funcInt }
  else
    { func := f,
      cdf := cdf.take 1 ++ (cdf.drop 1).map (fun c => FVal.div F c funcInt),
      funcInt := funcInt }

/-- `Distribution1D::size()`. -/
def Distribution1D.size (self : Distribution1D) : Int := (self.func.length : Int)

/-- Element `l[i]` of a vector for an `int` index; `none` when the index is
outside the vector. -/
def Distribution1D.at? (l : List FVal) (i : Int) : Option FVal :=
  if i < 0 then none else l[i.toNat]?

/-- `Distribution1D::sampleContinuous(u, pdf, off)` (lines 444-462) in the format
`F`, with the conventions of the exact embedding.  The search is the same
`FindInterval`; `offset` and `size()` are converted to the format in the last
line.  The assertion inside the `if` follows from the condition of the `if`. -/
def Distribution1D.sampleContinuous (F : FloatFormat) (self : Distribution1D) (u : FVal)
    (pdf : Bool) : Option (FVal × Option FVal × Int) := do
  let offset ← renderer.Distribution1D.FindInterval self.cdf.length
    (fun index => (self.cdf[index]?).map (fun c => FVal.le c u))
  let c0 ← Distribution1D.at? self.cdf offset
  let c1 ← Distribution1D.at? self.cdf (offset + 1)
  let du := FVal.sub F u c0
  let du := if FVal.lt (FVal.fin 0) (FVal.sub F c1 c0) then FVal.div F du (FVal.sub F c1 c0)
    else du
  let pdfOut ←
    if pdf then
      if FVal.lt (FVal.fin 0) self.funcInt then
        (Distribution1D.at? self.func offset).map (fun fo => some (FVal.div F fo self.funcInt))
      else some (some (FVal.fin 0))
    else some none
  pure (FVal.div F (FVal.add F (F.ofRat (offset : ℚ)) du) (F.ofRat (self.size : ℚ)), pdfOut,
    offset)

/-- `Distribution1D::sampleDiscrete(u, pdf, uRemapped)` (lines 463-473) in the
format `F`, with the conventions of the exact embedding. -/
def Distribution1D.sampleDiscrete (F : FloatFormat) (self : Distribution1D) (u : FVal)
    (pdf uRemapped : Bool) : Option (Int × Option FVal × Option FVal) := do
  let offset ← renderer.Distribution1D.FindInterval self.cdf.length
    (fun index => (self.cdf[index]?).map (fun c => FVal.le c u))
  let pdfOut ←
    if pdf then
      if FVal.lt (FVal.fin 0) self.funcInt then
        (Distribution1D.at? self.func offset).map
          (fun fo => some (FVal.div F fo (FVal.mul F self.funcInt (F.ofRat (self.size : ℚ)))))
      else some (some (FVal.fin 0))
    else some none
  let remappedOut ←
    if uRemapped then
      (Distribution1D.at? self.cdf offset).bind (fun c0 =>
        (Distribution1D.at? self.cdf (offset + 1)).bind (fun c1 =>
          let r := FVal.div F (FVal.sub F u c0) (FVal.sub F c1 c0)
          if FVal.le (FVal.fin 0) r ∧ FVal.le r (FVal.fin 1) then some (some r) else none))
    else some none
  pure (offset, pdfOut, remappedOut)

end Rounded

/-! ## `UniformSampleTriangle` in `Float` arithmetic (`math_utils.h`, lines 391-396) -/

/-- A determinant that passes the threshold test is not zero. -/
theorem det_ne_zero_of_not_small {d : ℚ} (h : ¬ |d| < 1 / 100000000) : d ≠ 0 := by
  intro h0
  apply h
  rw [h0]
  norm_num

/-- Cramer's rule behind the Moller-Trumbore values: with a non-zero determinant
the barycentric combination of the vertices is the ray point at `t`. -/
theorem barycentric_eq_point (ray : Ray) (v0 v1 v2 : Vec3 ℚ)
    (hdet : TriangleIntersect.det ray v0 v1 v2 ≠ 0) :
    Vec3.add
        (Vec3.add
          (Vec3.smul (1 - TriangleIntersect.u ray v0 v1 v2 - TriangleIntersect.v ray v0 v1 v2) v0)
          (Vec3.smul (TriangleIntersect.u ray v0 v1 v2) v1))
        (Vec3.smul (TriangleIntersect.v ray v0 v1 v2) v2)
      = ray.point (TriangleIntersect.t ray v0 v1 v2) := by
  obtain ⟨o, d, si, tmin, tmax⟩ := ray
  obtain ⟨ox, oy, oz⟩ := o
  obtain ⟨dx, dy, dz⟩ := d
  obtain ⟨ax, ay, az⟩ := v0
  obtain ⟨bx, b_y, bz⟩ := v1
  obtain ⟨cx, cy, cz⟩ := v2
  simp only [TriangleIntersect.det, Dot, Cross, Vec3.sub] at hdet
  simp only [TriangleIntersect.u, TriangleIntersect.v, TriangleIntersect.t, Ray.point, Dot, Cross,
    Vec3.sub, Vec3.add, Vec3.smul, Vec3.mk.injEq]
  refine ⟨?_, ?_, ?_⟩
  · field_simp
    ring
  · field_simp
    ring
  · field_simp
    ring

/-- A call whose hit test succeeds returns `true`, lowers `t_max` to `t` and
fills the interaction from the weights `(1 - u - v, u, v)`; no assertion fails. -/
theorem TriangleIntersect_hit (ray : Ray) (i : Nat) (mesh : TriangleMeshResource)
    (ia : SurfaceInteraction) (v0 v1 v2 : Vec3 ℚ)
    (hn : AllNormalized ray.direction = true) (htri : mesh.triangle i = some (v0, v1, v2))
    (h : TriangleIntersect.hitCond ray v0 v1 v2) :
    TriangleIntersect ray i mesh ia =
      some (true, ray.setTimeMax (TriangleIntersect.t ray v0 v1 v2),
        CalculateTriangleDifferentials ia
          ⟨1 - TriangleIntersect.u ray v0 v1 v2 - TriangleIntersect.v ray v0 v1 v2,
            TriangleIntersect.u ray v0 v1 v2, TriangleIntersect.v ray v0 v1 v2⟩ mesh i) := by
  obtain ⟨hd, hu, hv, huv, ht1, ht2⟩ := h
  have hu1 : TriangleIntersect.u ray v0 v1 v2 ≤ 1 := by linarith
  have hp := barycentric_eq_point ray v0 v1 v2 (det_ne_zero_of_not_small hd)
  have hnear : Near (CalculateTriangleDifferentials ia
          ⟨1 - TriangleIntersect.u ray v0 v1 v2 - TriangleIntersect.v ray v0 v1 v2,
            TriangleIntersect.u ray v0 v1 v2, TriangleIntersect.v ray v0 v1 v2⟩ mesh i).p
        (ray.point (TriangleIntersect.t ray v0 v1 v2)) = true := by
    simp only [CalculateTriangleDifferentials, htri, Near, decide_eq_true_eq]
    exact hp
  have hw : ray.withinTimeRange (TriangleIntersect.t ray v0 v1 v2) = true := by
    simp only [Ray.withinTimeRange, decide_eq_true_eq]
    exact ⟨ht1, ht2⟩
  unfold TriangleIntersect
  simp only [hn, htri]
  change (if ¬ true = true then none else
    if |TriangleIntersect.det ray v0 v1 v2| < 1 / 100000000 then some (false, ray, ia) else
    if TriangleIntersect.u ray v0 v1 v2 < 0 ∨ TriangleIntersect.u ray v0 v1 v2 > 1 then
      some (false, ray, ia) else
    if TriangleIntersect.v ray v0 v1 v2 < 0 ∨
        TriangleIntersect.u ray v0 v1 v2 + TriangleIntersect.v ray v0 v1 v2 > 1 then
      some (false, ray, ia) else
    if TriangleIntersect.t ray v0 v1 v2 < ray.t_min ∨ TriangleIntersect.t ray v0 v1 v2 > ray.t_max
      then some (false, ray, ia) else
    if ¬ Near (CalculateTriangleDifferentials ia
          ⟨1 - TriangleIntersect.u ray v0 v1 v2 - TriangleIntersect.v ray v0 v1 v2,
            TriangleIntersect.u ray v0 v1 v2, TriangleIntersect.v ray v0 v1 v2⟩ mesh i).p
        (ray.point (TriangleIntersect.t ray v0 v1 v2)) = true then none else
    if ¬ ray.withinTimeRange (TriangleIntersect.t ray v0 v1 v2) = true then none else
    some (true, ray.setTimeMax (TriangleIntersect.t ray v0 v1 v2),
        CalculateTriangleDifferentials ia
          ⟨1 - TriangleIntersect.u ray v0 v1 v2 - TriangleIntersect.v ray v0 v1 v2,
            TriangleIntersect.u ray v0 v1 v2, TriangleIntersect.v ray v0 v1 v2⟩ mesh i)) = _
  rw [if_neg (by simp), if_neg hd, if_neg (by push_neg; exact ⟨hu, hu1⟩),
    if_neg (by push_neg; exact ⟨hv, huv⟩), if_neg (by push_neg; exact ⟨ht1, ht2⟩),
    if_neg (by simp [hnear]), if_neg (by simp [hw])]

/-- A call whose hit test fails returns `false` and changes nothing; no assertion
fails. -/
theorem TriangleIntersect_miss (ray : Ray) (i : Nat) (mesh : TriangleMeshResource)
    (ia : SurfaceInteraction) (v0 v1 v2 : Vec3 ℚ)
    (hn : AllNormalized ray.direction = true) (htri : mesh.triangle i = some (v0, v1, v2))
    (h : ¬ TriangleIntersect.hitCond ray v0 v1 v2) :
    TriangleIntersect ray i mesh ia = some (false, ray, ia) := by
  unfold TriangleIntersect
  simp only [hn, htri]
  change (if ¬ true = true then none else
    if |TriangleIntersect.det ray v0 v1 v2| < 1 / 100000000 then some (false, ray, ia) else
    if TriangleIntersect.u ray v0 v1 v2 < 0 ∨ TriangleIntersect.u ray v0 v1 v2 > 1 then
      some (false, ray, ia) else
    if TriangleIntersect.v ray v0 v1 v2 < 0 ∨
        TriangleIntersect.u ray v0 v1 v2 + TriangleIntersect.v ray v0 v1 v2 > 1 then
      some (false, ray, ia) else
    if TriangleIntersect.t ray v0 v1 v2 < ray.t_min ∨ TriangleIntersect.t ray v0 v1 v2 > ray.t_max
      then some (false, ray, ia) else
    if ¬ Near (CalculateTriangleDifferentials ia
          ⟨1 - TriangleIntersect.u ray v0 v1 v2 - TriangleIntersect.v ray v0 v1 v2,
            TriangleIntersect.u ray v0 v1 v2, TriangleIntersect.v ray v0 v1 v2⟩ mesh i).p
        (ray.point (TriangleIntersect.t ray v0 v1 v2)) = true then none else
    if ¬ ray.withinTimeRange (TriangleIntersect.t ray v0 v1 v2) = true then none else
    some (true, ray.setTimeMax (TriangleIntersect.t ray v0 v1 v2),
        CalculateTriangleDifferentials ia
          ⟨1 - TriangleIntersect.u ray v0 v1 v2 - TriangleIntersect.v ray v0 v1 v2,
            TriangleIntersect.u ray v0 v1 v2, TriangleIntersect.v ray v0 v1 v2⟩ mesh i)) = _
  rw [if_neg (by simp)]
  by_cases hd : |TriangleIntersect.det ray v0 v1 v2| < 1 / 100000000
  · rw [if_pos hd]
  rw [if_neg hd]
  by_cases hu : TriangleIntersect.u ray v0 v1 v2 < 0 ∨ TriangleIntersect.u ray v0 v1 v2 > 1
  · rw [if_pos hu]
  rw [if_neg hu]
  by_cases hv : TriangleIntersect.v ray v0 v1 v2 < 0 ∨
        TriangleIntersect.u ray v0 v1 v2 + TriangleIntersect.v ray v0 v1 v2 > 1
  · rw [if_pos hv]
  rw [if_neg hv]
  by_cases ht : TriangleIntersect.t ray v0 v1 v2 < ray.t_min ∨
      TriangleIntersect.t ray v0 v1 v2 > ray.t_max
  · rw [if_pos ht]
  exfalso
  push_neg at hu hv ht
  exact h ⟨hd, hu.1, hv.1, hv.2, ht.1, ht.2⟩

/-- In a mesh whose indices all point into the vertex buffer, every triangle
below `v_indices.size() / 3` has its three vertices. -/
theorem triangle_isSome (mesh : TriangleMeshResource)
    (hidx : ∀ j ∈ mesh.v_indices, j < mesh.vertices.length) (i : Nat)
    (hi : i < mesh.v_indices.length / 3) :
    ∃ v0 v1 v2, mesh.triangle i = some (v0, v1, v2) := by
  have h3 : 3 * i + 2 < mesh.v_indices.length := by
    have := Nat.div_mul_le_self mesh.v_indices.length 3
    omega
  have h0 : 3 * i < mesh.v_indices.length := by omega
  have h1 : 3 * i + 1 < mesh.v_indices.length := by omega
  have e0 := hidx _ (List.getElem_mem h0)
  have e1 := hidx _ (List.getElem_mem h1)
  have e2 := hidx _ (List.getElem_mem h3)
  refine ⟨mesh.vertices[mesh.v_indices[3 * i]], mesh.vertices[mesh.v_indices[3 * i + 1]],
    mesh.vertices[mesh.v_indices[3 * i + 2]], ?_⟩
  unfold TriangleMeshResource.triangle
  rw [List.getElem?_eq_getElem h0, List.getElem?_eq_getElem h1, List.getElem?_eq_getElem h3]
  simp only
  rw [List.getElem?_eq_getElem e0, List.getElem?_eq_getElem e1, List.getElem?_eq_getElem e2]

/-- The hit parameter of a triangle against a ray is unique. -/
theorem hitAt_unique {ray : Ray} {mesh : TriangleMeshResource} {i : Nat} {a b : ℚ}
    (ha : TriangleIntersect.hitAt ray mesh i a) (hb : TriangleIntersect.hitAt ray mesh i b) :
    a = b := by
  obtain ⟨v0, v1, v2, h1, _, h3⟩ := ha
  obtain ⟨w0, w1, w2, g1, _, g3⟩ := hb
  rw [h1] at g1
  simp only [Option.some.injEq, Prod.mk.injEq] at g1
  obtain ⟨rfl, rfl, rfl⟩ := g1
  rw [← h3, ← g3]

/-- A hit parameter lies in the valid interval of the ray. -/
theorem hitAt_range {ray : Ray} {mesh : TriangleMeshResource} {i : Nat} {a : ℚ}
    (ha : TriangleIntersect.hitAt ray mesh i a) : ray.t_min ≤ a ∧ a ≤ ray.t_max := by
  obtain ⟨v0, v1, v2, _, h2, h3⟩ := ha
  rw [← h3]
  exact ⟨h2.2.2.2.2.1, h2.2.2.2.2.2⟩

/-- Lowering `t_max` keeps exactly the hits that are not behind the new `t_max`. -/
theorem hitAt_setTimeMax {ray : Ray} {mesh : TriangleMeshResource} {i : Nat} {m a : ℚ}
    (hm : m ≤ ray.t_max) :
    TriangleIntersect.hitAt (ray.setTimeMax m) mesh i a ↔
      TriangleIntersect.hitAt ray mesh i a ∧ a ≤ m := by
  constructor
  · rintro ⟨v0, v1, v2, h1, ⟨hd, hu, hv, huv, ht1, ht2⟩, h3⟩
    have ht2' : TriangleIntersect.t ray v0 v1 v2 ≤ m := ht2
    exact ⟨⟨v0, v1, v2, h1, ⟨hd, hu, hv, huv, ht1, le_trans ht2' hm⟩, h3⟩, by rw [← h3]; exact ht2'⟩
  · rintro ⟨⟨v0, v1, v2, h1, ⟨hd, hu, hv, huv, ht1, _⟩, h3⟩, ham⟩
    refine ⟨v0, v1, v2, h1, ⟨hd, hu, hv, huv, ht1, ?_⟩, h3⟩
    change TriangleIntersect.t ray v0 v1 v2 ≤ m
    rw [h3]
    exact ham

/-- A call on a triangle that passes the hit test. -/
theorem TriangleIntersect_of_hitAt {ray : Ray} {mesh : TriangleMeshResource} {i : Nat} {a : ℚ}
    (ia : SurfaceInteraction) (hn : AllNormalized ray.direction = true)
    (ha : TriangleIntersect.hitAt ray mesh i a) :
    ∃ ia1, TriangleIntersect ray i mesh ia = some (true, ray.setTimeMax a, ia1) := by
  obtain ⟨v0, v1, v2, h1, h2, h3⟩ := ha
  rw [TriangleIntersect_hit ray i mesh ia v0 v1 v2 hn h1 h2, h3]
  exact ⟨_, rfl⟩

/-- A call on a triangle that fails the hit test. -/
theorem TriangleIntersect_of_not_hitAt {ray : Ray} {mesh : TriangleMeshResource} {i : Nat}
    (ia : SurfaceInteraction) (hn : AllNormalized ray.direction = true)
    (htri : ∃ v0 v1 v2, mesh.triangle i = some (v0, v1, v2))
    (ha : ¬ ∃ a, TriangleIntersect.hitAt ray mesh i a) :
    TriangleIntersect ray i mesh ia = some (false, ray, ia) := by
  obtain ⟨v0, v1, v2, h1⟩ := htri
  apply TriangleIntersect_miss ray i mesh ia v0 v1 v2 hn h1
  intro hc
  exact ha ⟨_, v0, v1, v2, h1, hc, rfl⟩

/-- The boolean of a call says whether the triangle passes the hit test. -/
theorem TriangleIntersect_true_iff {ray : Ray} {mesh : TriangleMeshResource} {i : Nat}
    (ia : SurfaceInteraction) (hn : AllNormalized ray.direction = true)
    (htri : ∃ v0 v1 v2, mesh.triangle i = some (v0, v1, v2)) :
    (∃ r1, TriangleIntersect ray i mesh ia = some r1 ∧ r1.1 = true) ↔
      ∃ a, TriangleIntersect.hitAt ray mesh i a := by
  constructor
  · rintro ⟨r1, h1, h2⟩
    by_contra hc
    rw [TriangleIntersect_of_not_hitAt ia hn htri hc] at h1
    simp only [Option.some.injEq] at h1
    rw [← h1] at h2
    simp at h2
  · rintro ⟨a, ha⟩
    obtain ⟨ia1, h⟩ := TriangleIntersect_of_hitAt ia hn ha
    exact ⟨_, h, rfl⟩

/-- Specification of the loop of `Accel::intersect` started in any state: it
runs to the end, only lowers `t_max`, reports a hit exactly when `success` was
already set or a remaining triangle hits the current ray, and ends with `t_max`
at the least hit parameter among the remaining triangles. -/
theorem intersectLoop_spec (mesh : TriangleMeshResource) (l : List Nat) :
    ∀ (s : Bool) (r : Ray) (ia : SurfaceInteraction),
      AllNormalized r.direction = true →
      (∀ i ∈ l, ∃ v0 v1 v2, mesh.triangle i = some (v0, v1, v2)) →
      ∃ b r1 ia1, Accel.intersectLoop mesh l s r ia = some (b, r1, ia1) ∧
        (∃ m, m ≤ r.t_max ∧ r1 = r.setTimeMax m) ∧
        (b = true ↔ s = true ∨ ∃ i ∈ l, ∃ a, TriangleIntersect.hitAt r mesh i a) ∧
        ((∃ i ∈ l, ∃ a, TriangleIntersect.hitAt r mesh i a) →
          (∃ i ∈ l, TriangleIntersect.hitAt r mesh i r1.t_max) ∧
            ∀ i ∈ l, ∀ a, TriangleIntersect.hitAt r mesh i a → r1.t_max ≤ a) ∧
        ((¬ ∃ i ∈ l, ∃ a, TriangleIntersect.hitAt r mesh i a) → r1 = r ∧ ia1 = ia) := by
  induction l with
  | nil =>
    intro s r ia _ _
    exact ⟨s, r, ia, rfl, ⟨r.t_max, le_refl _, rfl⟩, by simp, by simp, fun _ => ⟨rfl, rfl⟩⟩
  | cons i rest IH =>
    intro s r ia hn htri
    have hti := htri i (List.mem_cons_self _ _)
    have hrest : ∀ j ∈ rest, ∃ v0 v1 v2, mesh.triangle j = some (v0, v1, v2) :=
      fun j hj => htri j (List.mem_cons_of_mem _ hj)
    by_cases hh : ∃ a, TriangleIntersect.hitAt r mesh i a
    · obtain ⟨a, ha⟩ := hh
      obtain ⟨ia2, hTI⟩ := TriangleIntersect_of_hitAt ia hn ha
      obtain ⟨_, hmax⟩ := hitAt_range ha
      obtain ⟨b, r1, ia1, hL, ⟨m, hm, hr1⟩, hb, hhit, hno⟩ :=
        IH (s || true) (r.setTimeMax a) ia2 hn hrest
      refine ⟨b, r1, ia1, ?_, ⟨m, le_trans hm hmax, hr1⟩, ?_, ?_, ?_⟩
      · simp only [Accel.intersectLoop, hTI]
        exact hL
      · constructor
        · intro _
          exact Or.inr ⟨i, List.mem_cons_self _ _, a, ha⟩
        · intro _
          exact hb.mpr (Or.inl (by simp))
      · intro _
        by_cases hr : ∃ j ∈ rest, ∃ c, TriangleIntersect.hitAt (r.setTimeMax a) mesh j c
        · obtain ⟨⟨j, hj, hjhit⟩, hle⟩ := hhit hr
          have hj2 := (hitAt_setTimeMax hmax).mp hjhit
          refine ⟨⟨j, List.mem_cons_of_mem _ hj, hj2.1⟩, ?_⟩
          intro k hk c hkc
          rcases List.mem_cons.mp hk with hki | hk2
          · subst hki
            rw [hitAt_unique hkc ha]
            exact hj2.2
          · by_cases hca : c ≤ a
            · exact hle k hk2 c ((hitAt_setTimeMax hmax).mpr ⟨hkc, hca⟩)
            · have := hj2.2
              linarith
        · obtain ⟨hr1a, _⟩ := hno hr
          have ht : r1.t_max = a := by rw [hr1a]; rfl
          refine ⟨⟨i, List.mem_cons_self _ _, by rw [ht]; exact ha⟩, ?_⟩
          intro k hk c hkc
          rw [ht]
          rcases List.mem_cons.mp hk with hki | hk2
          · subst hki
            exact le_of_eq (hitAt_unique ha hkc)
          · by_contra hlt
            push_neg at hlt
            exact hr ⟨k, hk2, c, (hitAt_setTimeMax hmax).mpr ⟨hkc, le_of_lt hlt⟩⟩
      · intro hnone
        exact absurd ⟨i, List.mem_cons_self _ _, a, ha⟩ hnone
    · have hTI := TriangleIntersect_of_not_hitAt ia hn hti hh
      have hex : (∃ j ∈ i :: rest, ∃ a, TriangleIntersect.hitAt r mesh j a) ↔
          (∃ j ∈ rest, ∃ a, TriangleIntersect.hitAt r mesh j a) := by
        constructor
        · rintro ⟨j, hj, c, hc⟩
          rcases List.mem_cons.mp hj with hji | hj2
          · subst hji
            exact absurd ⟨c, hc⟩ hh
          · exact ⟨j, hj2, c, hc⟩
        · rintro ⟨j, hj, c, hc⟩
          exact ⟨j, List.mem_cons_of_mem _ hj, c, hc⟩
      obtain ⟨b, r1, ia1, hL, hm, hb, hhit, hno⟩ := IH (s || false) r ia hn hrest
      refine ⟨b, r1, ia1, ?_, hm, ?_, ?_, ?_⟩
      · simp only [Accel.intersectLoop, hTI]
        exact hL
      · rw [hb, hex, Bool.or_false]
      · intro h
        obtain ⟨⟨j, hj, hjhit⟩, hle⟩ := hhit (hex.mp h)
        refine ⟨⟨j, List.mem_cons_of_mem _ hj, hjhit⟩, ?_⟩
        intro k hk c hkc
        rcases List.mem_cons.mp hk with hki | hk2
        · subst hki
          exact absurd ⟨c, hkc⟩ hh
        · exact hle k hk2 c hkc
      · intro h
        exact hno (fun h2 => h (hex.mpr h2))

/-- A call that returns does so on a unit direction and an existing triangle. -/
theorem TriangleIntersect_some_pre {ray : Ray} {mesh : TriangleMeshResource} {i : Nat}
    {ia : SurfaceInteraction} {r : Bool × Ray × SurfaceInteraction}
    (h : TriangleIntersect ray i mesh ia = some r) :
    AllNormalized ray.direction = true ∧ ∃ v0 v1 v2, mesh.triangle i = some (v0, v1, v2) := by
  by_cases hn : AllNormalized ray.direction = true
  · refine ⟨hn, ?_⟩
    cases htri : mesh.triangle i with
    | none =>
      unfold TriangleIntersect at h
      simp [hn, htri] at h
    | some vs =>
      obtain ⟨v0, v1, v2⟩ := vs
      exact ⟨v0, v1, v2, rfl⟩
  · unfold TriangleIntersect at h
    simp [hn] at h

/-- Inversion of a call that returns `true`. -/
theorem TriangleIntersect_true_inv {ray ray1 : Ray} {mesh : TriangleMeshResource} {i : Nat}
    {ia ia1 : SurfaceInteraction} {v0 v1 v2 : Vec3 ℚ}
    (htri : mesh.triangle i = some (v0, v1, v2))
    (h : TriangleIntersect ray i mesh ia = some (true, ray1, ia1)) :
    TriangleIntersect.hitCond ray v0 v1 v2 ∧
      ray1 = ray.setTimeMax (TriangleIntersect.t ray v0 v1 v2) ∧
      ia1 = CalculateTriangleDifferentials ia
        ⟨1 - TriangleIntersect.u ray v0 v1 v2 - TriangleIntersect.v ray v0 v1 v2,
          TriangleIntersect.u ray v0 v1 v2, TriangleIntersect.v ray v0 v1 v2⟩ mesh i := by
  have hn := (TriangleIntersect_some_pre h).1
  by_cases hc : TriangleIntersect.hitCond ray v0 v1 v2
  · rw [TriangleIntersect_hit ray i mesh ia v0 v1 v2 hn htri hc] at h
    simp only [Option.some.injEq, Prod.mk.injEq, true_and] at h
    exact ⟨hc, h.1.symm, h.2.symm⟩
  · rw [TriangleIntersect_miss ray i mesh ia v0 v1 v2 hn htri hc] at h
    simp at h

/-- Inversion of a call that returns `false`: nothing was written. -/
theorem TriangleIntersect_false_inv {ray ray1 : Ray} {mesh : TriangleMeshResource} {i : Nat}
    {ia ia1 : SurfaceInteraction}
    (h : TriangleIntersect ray i mesh ia = some (false, ray1, ia1)) :
    ray1 = ray ∧ ia1 = ia := by
  obtain ⟨hn, v0, v1, v2, htri⟩ := TriangleIntersect_some_pre h
  by_cases hc : TriangleIntersect.hitCond ray v0 v1 v2
  · rw [TriangleIntersect_hit ray i mesh ia v0 v1 v2 hn htri hc] at h
    simp at h
  · rw [TriangleIntersect_miss ray i mesh ia v0 v1 v2 hn htri hc] at h
    simp only [Option.some.injEq, Prod.mk.injEq, true_and] at h
    exact ⟨h.1.symm, h.2.symm⟩

/-- The loop of `Accel::intersect`, whenever it runs to the end, leaves `t_min`
alone and never raises `t_max`. -/
theorem intersectLoop_t_max_le (mesh : TriangleMeshResource) (l : List Nat) :
    ∀ (s : Bool) (ray : Ray) (ia : SurfaceInteraction) (r : Bool × Ray × SurfaceInteraction),
      Accel.intersectLoop mesh l s ray ia = some r →
      r.2.1.t_min = ray.t_min ∧ r.2.1.t_max ≤ ray.t_max := by
  induction l with
  | nil =>
    intro s ray ia r h
    simp only [Accel.intersectLoop, Option.some.injEq] at h
    rw [← h]
    exact ⟨rfl, le_refl _⟩
  | cons i rest IH =>
    intro s ray ia r h
    cases hTI : TriangleIntersect ray i mesh ia with
    | none => simp [Accel.intersectLoop, hTI] at h
    | some r1 =>
      obtain ⟨hit, ray1, ia1⟩ := r1
      simp only [Accel.intersectLoop, hTI] at h
      obtain ⟨h1, h2⟩ := IH _ _ _ _ h
      obtain ⟨_, v0, v1, v2, htri⟩ := TriangleIntersect_some_pre hTI
      cases hit with
      | true =>
        obtain ⟨hc, hr, _⟩ := TriangleIntersect_true_inv htri hTI
        rw [hr] at h1 h2
        exact ⟨h1, le_trans h2 hc.2.2.2.2.2⟩
      | false =>
        obtain ⟨hr, _⟩ := TriangleIntersect_false_inv hTI
        rw [hr] at h1 h2
        exact ⟨h1, h2⟩

/-! ## The accelerator: `Accel::intersect` -/

/-- Claim C1: for a ray with unit direction and a mesh whose indices point into
the vertex buffer, `Accel::intersect` runs to the end without a failed assertion
and returns `true` if and only if some triangle index `i < v_indices.size() / 3`
makes `TriangleIntersect` report a hit on the ray as it was passed in; on a mesh
with no triangle it returns `false`. -/
theorem Accel_intersect_true_iff (self : Accel) (ray : Ray) (ia : SurfaceInteraction)
    (hn : AllNormalized ray.direction = true)
    (hidx : ∀ j ∈ self.mesh.v_indices, j < self.mesh.vertices.length) :
    ∃ r, self.intersect ray ia = some r ∧
      (r.1 = true ↔ ∃ i, i < self.mesh.v_indices.length / 3 ∧
        ∃ r1, TriangleIntersect ray i self.mesh ia = some r1 ∧ r1.1 = true) ∧
      (self.mesh.v_indices.length / 3 = 0 → r.1 = false) := by
  have htri : ∀ i ∈ List.range (self.mesh.v_indices.length / 3),
      ∃ v0 v1 v2, self.mesh.triangle i = some (v0, v1, v2) :=
    fun i hi => triangle_isSome self.mesh hidx i (List.mem_range.mp hi)
  obtain ⟨b, r1, ia1, hL, _, hb, _, _⟩ := intersectLoop_spec self.mesh _ false ray ia hn htri
  have hiff : b = true ↔ ∃ i, i < self.mesh.v_indices.length / 3 ∧
      ∃ r1, TriangleIntersect ray i self.mesh ia = some r1 ∧ r1.1 = true := by
    rw [hb]
    constructor
    · rintro (h | ⟨i, hi, ha⟩)
      · exact absurd h (by simp)
      · exact ⟨i, List.mem_range.mp hi,
          (TriangleIntersect_true_iff ia hn (htri i hi)).mpr ha⟩
    · rintro ⟨i, hi, hr⟩
      have hi2 := List.mem_range.mpr hi
      exact Or.inr ⟨i, hi2, (TriangleIntersect_true_iff ia hn (htri i hi2)).mp hr⟩
  refine ⟨(b, r1, ia1), hL, hiff, ?_⟩
  intro h0
  cases hbv : b with
  | false => rfl
  | true =>
    obtain ⟨i, hi, _⟩ := hiff.mp hbv
    omega

/-- Witness of claim C1 on the sample accelerator and the sample ray. -/
theorem Accel_intersect_true_iff_witness :
    AllNormalized sampleRay.direction = true ∧
      (∀ j ∈ sampleAccel.mesh.v_indices, j < sampleAccel.mesh.vertices.length) ∧
      ∃ r, sampleAccel.intersect sampleRay sampleInteraction = some r ∧
        (r.1 = true ↔ ∃ i, i < sampleAccel.mesh.v_indices.length / 3 ∧
          ∃ r1, TriangleIntersect sampleRay i sampleAccel.mesh sampleInteraction = some r1 ∧
            r1.1 = true) ∧
        (sampleAccel.mesh.v_indices.length / 3 = 0 → r.1 = false) :=
  ⟨by simp [AllNormalized, sampleRay, Dot], by decide,
    Accel_intersect_true_iff sampleAccel sampleRay sampleInteraction
      (by simp [AllNormalized, sampleRay, Dot]) (by decide)⟩

/-- Claim C2 (nearest hit): for a ray with unit direction and a mesh whose
indices point into the vertex buffer, when `Accel::intersect` returns `true` the
ray's `t_max` afterwards is the hit parameter `t` of a triangle that hits the ray
as it was passed in and is at most the hit parameter of every such triangle; when
it returns `false`, `t_max` is unchanged. -/
theorem Accel_intersect_nearest (self : Accel) (ray : Ray) (ia : SurfaceInteraction)
    (hn : AllNormalized ray.direction = true)
    (hidx : ∀ j ∈ self.mesh.v_indices, j < self.mesh.vertices.length) :
    ∃ b ray1 ia1, self.intersect ray ia = some (b, ray1, ia1) ∧
      (b = true →
        (∃ i, i < self.mesh.v_indices.length / 3 ∧ ∃ v0 v1 v2,
          self.mesh.triangle i = some (v0, v1, v2) ∧
          (∃ r1, TriangleIntersect ray i self.mesh ia = some r1 ∧ r1.1 = true) ∧
          ray1.t_max = TriangleIntersect.t ray v0 v1 v2) ∧
        (∀ j, j < self.mesh.v_indices.length / 3 → ∀ w0 w1 w2,
          self.mesh.triangle j = some (w0, w1, w2) →
          (∃ r1, TriangleIntersect ray j self.mesh ia = some r1 ∧ r1.1 = true) →
          ray1.t_max ≤ TriangleIntersect.t ray w0 w1 w2)) ∧
      (b = false → ray1.t_max = ray.t_max) := by
  have htri : ∀ i ∈ List.range (self.mesh.v_indices.length / 3),
      ∃ v0 v1 v2, self.mesh.triangle i = some (v0, v1, v2) :=
    fun i hi => triangle_isSome self.mesh hidx i (List.mem_range.mp hi)
  obtain ⟨b, ray1, ia1, hL, _, hb, hhit, hno⟩ :=
    intersectLoop_spec self.mesh _ false ray ia hn htri
  refine ⟨b, ray1, ia1, hL, ?_, ?_⟩
  · intro hbt
    have hex := (hb.mp hbt).resolve_left (by simp)
    obtain ⟨⟨i, hi, v0, v1, v2, h1, h2, h3⟩, hle⟩ := hhit hex
    refine ⟨⟨i, List.mem_range.mp hi, v0, v1, v2, h1, ?_, h3.symm⟩, ?_⟩
    · exact (TriangleIntersect_true_iff ia hn (htri i hi)).mpr ⟨_, v0, v1, v2, h1, h2, h3⟩
    · intro j hj w0 w1 w2 hw hr
      have hj2 := List.mem_range.mpr hj
      obtain ⟨⟨rb, rr, ri⟩, hr1, hr2⟩ := hr
      simp only at hr2
      subst hr2
      have hc := (TriangleIntersect_true_inv hw hr1).1
      exact hle j hj2 _ ⟨w0, w1, w2, hw, hc, rfl⟩
  · intro hbf
    have hnone : ¬ ∃ i ∈ List.range (self.mesh.v_indices.length / 3),
        ∃ a, TriangleIntersect.hitAt ray self.mesh i a := by
      intro h
      have := hb.mpr (Or.inr h)
      rw [hbf] at this
      exact absurd this (by simp)
    rw [(hno hnone).1]

/-- Witness of claim C2 on the sample accelerator and the sample ray. -/
theorem Accel_intersect_nearest_witness :
    AllNormalized sampleRay.direction = true ∧
      (∀ j ∈ sampleAccel.mesh.v_indices, j < sampleAccel.mesh.vertices.length) ∧
      ∃ b ray1 ia1, sampleAccel.intersect sampleRay sampleInteraction = some (b, ray1, ia1) ∧
        (b = true →
          (∃ i, i < sampleAccel.mesh.v_indices.length / 3 ∧ ∃ v0 v1 v2,
            sampleAccel.mesh.triangle i = some (v0, v1, v2) ∧
            (∃ r1, TriangleIntersect sampleRay i sampleAccel.mesh sampleInteraction = some r1 ∧
              r1.1 = true) ∧
            ray1.t_max = TriangleIntersect.t sampleRay v0 v1 v2) ∧
          (∀ j, j < sampleAccel.mesh.v_indices.length / 3 → ∀ w0 w1 w2,
            sampleAccel.mesh.triangle j = some (w0, w1, w2) →
            (∃ r1, TriangleIntersect sampleRay j sampleAccel.mesh sampleInteraction = some r1 ∧
              r1.1 = true) →
            ray1.t_max ≤ TriangleIntersect.t sampleRay w0 w1 w2)) ∧
        (b = false → ray1.t_max = sampleRay.t_max) :=
  ⟨by simp [AllNormalized, sampleRay, Dot], by decide,
    Accel_intersect_nearest sampleAccel sampleRay sampleInteraction
      (by simp [AllNormalized, sampleRay, Dot]) (by decide)⟩

/-! ## The triangle test: `TriangleIntersect` -/

/-- In exact arithmetic: on a ray with unit direction and an existing triangle the
call returns a boolean; when `|det| >= 1e-8` it is `true` if and only if
`u >= 0`, `v >= 0`, `u + v <= 1` and `t_min <= t <= t_max` for the
Moller-Trumbore values `u`, `v`, `t` computed from `det`; when `|det| < 1e-8` it
is `false`. -/
theorem TriangleIntersect_exact_iff (ray : Ray) (i : Nat)
    (mesh : TriangleMeshResource) (ia : SurfaceInteraction) (v0 v1 v2 : Vec3 ℚ)
    (hn : AllNormalized ray.direction = true) (htri : mesh.triangle i = some (v0, v1, v2)) :
    ∃ r, TriangleIntersect ray i mesh ia = some r ∧
      (1 / 100000000 ≤ |Dot (Vec3.sub v1 v0) (Cross ray.direction (Vec3.sub v2 v0))| →
        (r.1 = true ↔
          0 ≤ TriangleIntersect.u ray v0 v1 v2 ∧ 0 ≤ TriangleIntersect.v ray v0 v1 v2 ∧
          TriangleIntersect.u ray v0 v1 v2 + TriangleIntersect.v ray v0 v1 v2 ≤ 1 ∧
          ray.t_min ≤ TriangleIntersect.t ray v0 v1 v2 ∧
          TriangleIntersect.t ray v0 v1 v2 ≤ ray.t_max)) ∧
      (|Dot (Vec3.sub v1 v0) (Cross ray.direction (Vec3.sub v2 v0))| < 1 / 100000000 →
        r.1 = false) := by
  by_cases hc : TriangleIntersect.hitCond ray v0 v1 v2
  · refine ⟨_, TriangleIntersect_hit ray i mesh ia v0 v1 v2 hn htri hc, ?_, ?_⟩
    · intro _
      exact ⟨fun _ => hc.2, fun _ => rfl⟩
    · intro hd
      exact absurd hd hc.1
  · refine ⟨_, TriangleIntersect_miss ray i mesh ia v0 v1 v2 hn htri hc, ?_, ?_⟩
    · intro hd
      constructor
      · intro h
        exact absurd h (by simp)
      · intro h
        exact absurd ⟨not_lt.mpr hd, h⟩ hc
    · intro _
      rfl

/-- Claim C4: for every hit reported by `TriangleIntersect` the interaction is
filled from the weights `(1 - u - v, u, v)`, and the barycentric interpolation of
the triangle's vertices with these weights is the ray point at the hit parameter:
`(1 - u - v) * v0 + u * v1 + v * v2 = ray.origin + t * ray.direction`. -/
theorem TriangleIntersect_hit_point (ray ray1 : Ray) (i : Nat) (mesh : TriangleMeshResource)
    (ia ia1 : SurfaceInteraction) (v0 v1 v2 : Vec3 ℚ)
    (htri : mesh.triangle i = some (v0, v1, v2))
    (hhit : TriangleIntersect ray i mesh ia = some (true, ray1, ia1)) :
    ia1 = CalculateTriangleDifferentials ia
        ⟨1 - TriangleIntersect.u ray v0 v1 v2 - TriangleIntersect.v ray v0 v1 v2,
          TriangleIntersect.u ray v0 v1 v2, TriangleIntersect.v ray v0 v1 v2⟩ mesh i ∧
      Vec3.add
          (Vec3.add
            (Vec3.smul
              (1 - TriangleIntersect.u ray v0 v1 v2 - TriangleIntersect.v ray v0 v1 v2) v0)
            (Vec3.smul (TriangleIntersect.u ray v0 v1 v2) v1))
          (Vec3.smul (TriangleIntersect.v ray v0 v1 v2) v2)
        = Vec3.add ray.origin (Vec3.smul (TriangleIntersect.t ray v0 v1 v2) ray.direction) ∧
      ia1.p = Vec3.add ray.origin (Vec3.smul ray1.t_max ray.direction) := by
  obtain ⟨hc, hr, hi⟩ := TriangleIntersect_true_inv htri hhit
  have hp := barycentric_eq_point ray v0 v1 v2 (det_ne_zero_of_not_small hc.1)
  refine ⟨hi, hp, ?_⟩
  rw [hi, hr]
  simp only [CalculateTriangleDifferentials, htri]
  exact hp

/-- Witness of claim C4: the sample ray hits the first sample triangle at `t = 1`
in the point `(1/4, 1/4, 0)`. -/
theorem TriangleIntersect_hit_point_witness :
    sampleMesh.triangle 0 = some (⟨0, 0, 0⟩, ⟨1, 0, 0⟩, ⟨0, 1, 0⟩) ∧
      TriangleIntersect sampleRay 0 sampleMesh sampleInteraction =
        some (true, sampleRay.setTimeMax 1, ⟨⟨1 / 4, 1 / 4, 0⟩⟩) ∧
      (⟨⟨1 / 4, 1 / 4, 0⟩⟩ : SurfaceInteraction).p =
        Vec3.add sampleRay.origin
          (Vec3.smul (sampleRay.setTimeMax 1).t_max sampleRay.direction) :=
  have h : TriangleIntersect sampleRay 0 sampleMesh sampleInteraction =
      some (true, sampleRay.setTimeMax 1, ⟨⟨1 / 4, 1 / 4, 0⟩⟩) := by
    simp [TriangleIntersect, AllNormalized, sampleRay, Dot, Cross, Vec3.sub, Vec3.add, Vec3.smul,
      TriangleMeshResource.triangle, sampleMesh, CalculateTriangleDifferentials, Near, Ray.point,
      Ray.withinTimeRange, Ray.setTimeMax, sampleInteraction]
    norm_num
  ⟨by decide, h,
    (TriangleIntersect_hit_point sampleRay (sampleRay.setTimeMax 1) 0 sampleMesh sampleInteraction
      ⟨⟨1 / 4, 1 / 4, 0⟩⟩ ⟨0, 0, 0⟩ ⟨1, 0, 0⟩ ⟨0, 1, 0⟩ (by decide) h).2.2⟩

/-- In exact arithmetic: for every hit reported by `TriangleIntersect` the three
barycentric weights `(1 - u - v, u, v)` handed to the interaction are each in
`[0, 1]` and sum to `1`. -/
theorem TriangleIntersect_exact_hit_weights (ray ray1 : Ray) (i : Nat) (mesh : TriangleMeshResource)
    (ia ia1 : SurfaceInteraction) (v0 v1 v2 : Vec3 ℚ)
    (htri : mesh.triangle i = some (v0, v1, v2))
    (hhit : TriangleIntersect ray i mesh ia = some (true, ray1, ia1)) :
    ∃ w : Vec3 ℚ, ia1 = CalculateTriangleDifferentials ia w mesh i ∧
      w = ⟨1 - TriangleIntersect.u ray v0 v1 v2 - TriangleIntersect.v ray v0 v1 v2,
        TriangleIntersect.u ray v0 v1 v2, TriangleIntersect.v ray v0 v1 v2⟩ ∧
      (0 ≤ w.x ∧ w.x ≤ 1) ∧ (0 ≤ w.y ∧ w.y ≤ 1) ∧ (0 ≤ w.z ∧ w.z ≤ 1) ∧
      w.x + w.y + w.z = 1 := by
  obtain ⟨⟨_, hu, hv, huv, _, _⟩, _, hi⟩ := TriangleIntersect_true_inv htri hhit
  refine ⟨_, hi, rfl, ⟨?_, ?_⟩, ⟨hu, ?_⟩, ⟨hv, ?_⟩, ?_⟩
  · simp only
    linarith
  · simp only
    linarith
  · simp only
    linarith
  · simp only
    linarith
  · simp only
    ring

/-- Claim C6 (shrinking interval): every call of `TriangleIntersect` leaves
`t_min` unchanged and `t_max` at most its value before the call, equal to the hit
parameter `t` on a hit; so the loop of `Accel::intersect`, from any state and
over any remaining triangles, never raises `t_max`, and the whole of
`Accel::intersect` returns with `t_min` unchanged and `t_max` not raised. -/
theorem t_max_only_shrinks :
    (∀ (ray : Ray) (i : Nat) (mesh : TriangleMeshResource) (ia : SurfaceInteraction)
        (b : Bool) (ray1 : Ray) (ia1 : SurfaceInteraction),
        TriangleIntersect ray i mesh ia = some (b, ray1, ia1) →
        ray1.t_min = ray.t_min ∧ ray1.t_max ≤ ray.t_max ∧
        (b = true → ∀ v0 v1 v2, mesh.triangle i = some (v0, v1, v2) →
          ray1.t_max = TriangleIntersect.t ray v0 v1 v2)) ∧
    (∀ (mesh : TriangleMeshResource) (l : List Nat) (s : Bool) (ray : Ray)
        (ia : SurfaceInteraction) (b : Bool) (ray1 : Ray) (ia1 : SurfaceInteraction),
        Accel.intersectLoop mesh l s ray ia = some (b, ray1, ia1) →
        ray1.t_min = ray.t_min ∧ ray1.t_max ≤ ray.t_max) ∧
    (∀ (self : Accel) (ray : Ray) (ia : SurfaceInteraction),
        AllNormalized ray.direction = true →
        (∀ j ∈ self.mesh.v_indices, j < self.mesh.vertices.length) →
        ∃ b ray1 ia1, self.intersect ray ia = some (b, ray1, ia1) ∧
          ray1.t_min = ray.t_min ∧ ray1.t_max ≤ ray.t_max) := by
  refine ⟨?_, ?_, ?_⟩
  · intro ray i mesh ia b ray1 ia1 h
    obtain ⟨_, v0, v1, v2, htri⟩ := TriangleIntersect_some_pre h
    cases b with
    | true =>
      obtain ⟨hc, hr, _⟩ := TriangleIntersect_true_inv htri h
      rw [hr]
      refine ⟨rfl, hc.2.2.2.2.2, ?_⟩
      intro _ w0 w1 w2 hw
      rw [htri] at hw
      simp only [Option.some.injEq, Prod.mk.injEq] at hw
      obtain ⟨rfl, rfl, rfl⟩ := hw
      rfl
    | false =>
      obtain ⟨hr, _⟩ := TriangleIntersect_false_inv h
      rw [hr]
      exact ⟨rfl, le_refl _, fun hb => absurd hb (by simp)⟩
  · intro mesh l s ray ia b ray1 ia1 h
    exact intersectLoop_t_max_le mesh l s ray ia _ h
  · intro self ray ia hn hidx
    have htri : ∀ i ∈ List.range (self.mesh.v_indices.length / 3),
        ∃ v0 v1 v2, self.mesh.triangle i = some (v0, v1, v2) :=
      fun i hi => triangle_isSome self.mesh hidx i (List.mem_range.mp hi)
    obtain ⟨b, ray1, ia1, hL, _, _, _, _⟩ := intersectLoop_spec self.mesh _ false ray ia hn htri
    exact ⟨b, ray1, ia1, hL, intersectLoop_t_max_le self.mesh _ false ray ia _ hL⟩

/-- Witness of claim C6: the call on the sample ray and the first sample triangle
lowers `t_max` from `10` to `1`. -/
theorem t_max_only_shrinks_witness :
    TriangleIntersect sampleRay 0 sampleMesh sampleInteraction =
        some (true, sampleRay.setTimeMax 1, ⟨⟨1 / 4, 1 / 4, 0⟩⟩) ∧
      (sampleRay.setTimeMax 1).t_min = sampleRay.t_min ∧
      (sampleRay.setTimeMax 1).t_max ≤ sampleRay.t_max :=
  have h : TriangleIntersect sampleRay 0 sampleMesh sampleInteraction =
      some (true, sampleRay.setTimeMax 1, ⟨⟨1 / 4, 1 / 4, 0⟩⟩) := by
    simp [TriangleIntersect, AllNormalized, sampleRay, Dot, Cross, Vec3.sub, Vec3.add, Vec3.smul,
      TriangleMeshResource.triangle, sampleMesh, CalculateTriangleDifferentials, Near, Ray.point,
      Ray.withinTimeRange, Ray.setTimeMax, sampleInteraction]
    norm_num
  have w := t_max_only_shrinks.1 sampleRay 0 sampleMesh sampleInteraction true
    (sampleRay.setTimeMax 1) ⟨⟨1 / 4, 1 / 4, 0⟩⟩ h
  ⟨h, w.1, w.2.1⟩

/-! ## The box test: `AABB::intersect` -/

/-- The body of `AABB::intersect` in terms of the slab entry and exit parameters. -/
theorem AABB_intersect_eq (self : AABB ℚ) (ray : Ray) (t_in t_out : ℚ) :
    self.intersect ray t_in t_out =
      if max (self.slabEnter ray) ray.t_min ≤ min (self.slabExit ray) ray.t_max ∧
          self.slabEnter ray ≤ self.slabExit ray then
        (true, max (self.slabEnter ray) ray.t_min, min (self.slabExit ray) ray.t_max)
      else (false, t_in, t_out) := by
  unfold AABB.intersect
  simp only
  change (if self.slabEnter ray > self.slabExit ray then (false, t_in, t_out)
    else if self.slabExit ray < ray.t_min ∨ self.slabEnter ray > ray.t_max then
      (false, t_in, t_out)
    else if max (self.slabEnter ray) ray.t_min > min (self.slabExit ray) ray.t_max then
      (false, t_in, t_out)
    else (true, max (self.slabEnter ray) ray.t_min, min (self.slabExit ray) ray.t_max)) = _
  by_cases h1 : self.slabEnter ray > self.slabExit ray
  · rw [if_pos h1, if_neg (fun h => absurd h.2 (not_le.mpr h1))]
  rw [if_neg h1]
  by_cases h2 : self.slabExit ray < ray.t_min ∨ self.slabEnter ray > ray.t_max
  · rw [if_pos h2, if_neg]
    rintro ⟨h, _⟩
    rw [max_le_iff, le_min_iff, le_min_iff] at h
    rcases h2 with h2 | h2
    · exact absurd (le_trans h.2.1 (le_refl _)) (not_le.mpr h2)
    · exact absurd h.1.2 (not_le.mpr h2)
  rw [if_neg h2]
  by_cases h3 : max (self.slabEnter ray) ray.t_min > min (self.slabExit ray) ray.t_max
  · rw [if_pos h3, if_neg (fun h => absurd h.1 (not_le.mpr h3))]
  rw [if_neg h3, if_pos ⟨not_lt.mp h3, not_lt.mp h1⟩]

/-- Claim C7: with `entry` the largest over the axes of the per-axis smaller slab
parameter and `exit` the smallest over the axes of the per-axis larger slab
parameter, `AABB::intersect` returns `true` if and only if `entry <= exit` and the
interval `[entry, exit]` has a point in common with `[t_min, t_max]`. -/
theorem AABB_intersect_true_iff (self : AABB ℚ) (ray : Ray) (t_in t_out : ℚ) :
    self.slabEnter ray =
        max (min ((self.low_bnd.x - ray.origin.x) * ray.safe_inverse_direction.x)
              ((self.upper_bnd.x - ray.origin.x) * ray.safe_inverse_direction.x))
          (max (min ((self.low_bnd.y - ray.origin.y) * ray.safe_inverse_direction.y)
                ((self.upper_bnd.y - ray.origin.y) * ray.safe_inverse_direction.y))
            (min ((self.low_bnd.z - ray.origin.z) * ray.safe_inverse_direction.z)
              ((self.upper_bnd.z - ray.origin.z) * ray.safe_inverse_direction.z))) ∧
      self.slabExit ray =
        min (max ((self.low_bnd.x - ray.origin.x) * ray.safe_inverse_direction.x)
              ((self.upper_bnd.x - ray.origin.x) * ray.safe_inverse_direction.x))
          (min (max ((self.low_bnd.y - ray.origin.y) * ray.safe_inverse_direction.y)
                ((self.upper_bnd.y - ray.origin.y) * ray.safe_inverse_direction.y))
            (max ((self.low_bnd.z - ray.origin.z) * ray.safe_inverse_direction.z)
              ((self.upper_bnd.z - ray.origin.z) * ray.safe_inverse_direction.z))) ∧
      ((self.intersect ray t_in t_out).1 = true ↔
        self.slabEnter ray ≤ self.slabExit ray ∧
          ∃ t, (self.slabEnter ray ≤ t ∧ t ≤ self.slabExit ray) ∧
            (ray.t_min ≤ t ∧ t ≤ ray.t_max)) := by
  refine ⟨rfl, rfl, ?_⟩
  rw [AABB_intersect_eq]
  constructor
  · intro h
    split_ifs at h with hc
    · obtain ⟨h1, h2⟩ := hc
      refine ⟨h2, max (self.slabEnter ray) ray.t_min, ⟨le_max_left _ _, ?_⟩, le_max_right _ _, ?_⟩
      · exact le_trans h1 (min_le_left _ _)
      · exact le_trans h1 (min_le_right _ _)
  · rintro ⟨h2, t, ⟨ha, hb⟩, hc, hd⟩
    rw [if_pos ⟨le_trans (max_le ha hc) (le_min hb hd), h2⟩]

/-- Claim C8: whenever `AABB::intersect` returns `true`, the reported times are
the slab entry and exit clamped to the ray's interval, `t_in = max(entry, t_min)`
and `t_out = min(exit, t_max)`, and `t_min <= t_in <= t_out <= t_max`. -/
theorem AABB_intersect_clamped (self : AABB ℚ) (ray : Ray) (t_in t_out : ℚ)
    (h : (self.intersect ray t_in t_out).1 = true) :
    (self.intersect ray t_in t_out).2.1 = max (self.slabEnter ray) ray.t_min ∧
      (self.intersect ray t_in t_out).2.2 = min (self.slabExit ray) ray.t_max ∧
      ray.t_min ≤ (self.intersect ray t_in t_out).2.1 ∧
      (self.intersect ray t_in t_out).2.1 ≤ (self.intersect ray t_in t_out).2.2 ∧
      (self.intersect ray t_in t_out).2.2 ≤ ray.t_max := by
  rw [AABB_intersect_eq] at h ⊢
  split_ifs at h ⊢ with hc
  exact ⟨rfl, rfl, le_max_right _ _, hc.1, min_le_right _ _⟩

/-- Witness of claim C8: a ray along the x axis enters the unit cube at `t = 1`
and leaves it at `t = 2`. -/
theorem AABB_intersect_clamped_witness :
    (sampleBox.intersect
        ⟨⟨-1, 1 / 2, 1 / 2⟩, ⟨1, 0, 0⟩, ⟨1, 10000000000, 10000000000⟩, 0, 10⟩ 0 0).1 = true ∧
      (sampleBox.intersect
        ⟨⟨-1, 1 / 2, 1 / 2⟩, ⟨1, 0, 0⟩, ⟨1, 10000000000, 10000000000⟩, 0, 10⟩ 0 0).2.1 =
        max (sampleBox.slabEnter
          ⟨⟨-1, 1 / 2, 1 / 2⟩, ⟨1, 0, 0⟩, ⟨1, 10000000000, 10000000000⟩, 0, 10⟩) 0 ∧
      (sampleBox.intersect
        ⟨⟨-1, 1 / 2, 1 / 2⟩, ⟨1, 0, 0⟩, ⟨1, 10000000000, 10000000000⟩, 0, 10⟩ 0 0)
        = (true, 1, 2) :=
  have h : sampleBox.intersect
      ⟨⟨-1, 1 / 2, 1 / 2⟩, ⟨1, 0, 0⟩, ⟨1, 10000000000, 10000000000⟩, 0, 10⟩ 0 0
      = (true, 1, 2) := by
    simp [AABB.intersect, sampleBox, Vec3.sub, Vec3.mul, Vec3.Min, Vec3.Max, ReduceMax, ReduceMin]
    norm_num
  have h1 : (sampleBox.intersect
      ⟨⟨-1, 1 / 2, 1 / 2⟩, ⟨1, 0, 0⟩, ⟨1, 10000000000, 10000000000⟩, 0, 10⟩ 0 0).1 = true := by
    rw [h]
  ⟨h1, (AABB_intersect_clamped sampleBox _ 0 0 h1).1, h⟩

/-- The smaller of the two plane parameters of an axis does not depend on the
order of the two corner coordinates. -/
theorem slab_min_swap (s : Bool) (l u o i : ℚ) :
    min (((if s then u else l) - o) * i) (((if s then l else u) - o) * i) =
      min ((l - o) * i) ((u - o) * i) := by
  cases s
  · rfl
  · exact min_comm _ _

/-- The larger of the two plane parameters of an axis does not depend on the
order of the two corner coordinates. -/
theorem slab_max_swap (s : Bool) (l u o i : ℚ) :
    max (((if s then u else l) - o) * i) (((if s then l else u) - o) * i) =
      max ((l - o) * i) ((u - o) * i) := by
  cases s
  · rfl
  · exact max_comm _ _

/-- Claim C9 (corner-order independence): exchanging the low and upper corner
coordinates of the box on any subset of the axes leaves the result of
`AABB::intersect` unchanged: the same boolean, the same `t_in` and `t_out`. -/
theorem AABB_intersect_swapAxes (self : AABB ℚ) (sx sy sz : Bool) (ray : Ray) (t_in t_out : ℚ) :
    (self.swapAxes sx sy sz).intersect ray t_in t_out = self.intersect ray t_in t_out := by
  have hE : (self.swapAxes sx sy sz).slabEnter ray = self.slabEnter ray := by
    simp only [AABB.swapAxes, AABB.slabEnter, Vec3.sub, Vec3.mul, Vec3.Min, ReduceMax,
      slab_min_swap]
  have hX : (self.swapAxes sx sy sz).slabExit ray = self.slabExit ray := by
    simp only [AABB.swapAxes, AABB.slabExit, Vec3.sub, Vec3.mul, Vec3.Max, ReduceMin,
      slab_max_swap]
  rw [AABB_intersect_eq, AABB_intersect_eq, hE, hX]

/-! ## The cached bound: `Accel::setTriangleMesh` and `Accel::getBound` -/

/-- A running minimum is below its start value and below every merged value, and
it is the start value or one of the merged values. -/
theorem foldl_min_spec {α β : Type} [LinearOrder β] (f : α → β) (qs : List α) :
    ∀ m0 : β,
      qs.foldl (fun m p => min m (f p)) m0 ≤ m0 ∧
        (∀ p ∈ qs, qs.foldl (fun m p => min m (f p)) m0 ≤ f p) ∧
        (qs.foldl (fun m p => min m (f p)) m0 = m0 ∨
          ∃ p ∈ qs, qs.foldl (fun m p => min m (f p)) m0 = f p) := by
  induction qs with
  | nil =>
    intro m0
    exact ⟨le_refl _, by simp, Or.inl rfl⟩
  | cons q rest IH =>
    intro m0
    obtain ⟨h1, h2, h3⟩ := IH (min m0 (f q))
    simp only [List.foldl_cons]
    refine ⟨le_trans h1 (min_le_left _ _), ?_, ?_⟩
    · intro p hp
      rcases List.mem_cons.mp hp with hpq | hpr
      · rw [hpq]
        exact le_trans h1 (min_le_right _ _)
      · exact h2 p hpr
    · rcases h3 with h3 | ⟨p, hp, h3⟩
      · rcases min_choice m0 (f q) with hm | hm
        · exact Or.inl (by rw [h3, hm])
        · exact Or.inr ⟨q, List.mem_cons_self _ _, by rw [h3, hm]⟩
      · exact Or.inr ⟨p, List.mem_cons_of_mem _ hp, h3⟩

/-- A running maximum is above its start value and above every merged value, and
it is the start value or one of the merged values. -/
theorem foldl_max_spec {α β : Type} [LinearOrder β] (f : α → β) (qs : List α) :
    ∀ m0 : β,
      m0 ≤ qs.foldl (fun m p => max m (f p)) m0 ∧
        (∀ p ∈ qs, f p ≤ qs.foldl (fun m p => max m (f p)) m0) ∧
        (qs.foldl (fun m p => max m (f p)) m0 = m0 ∨
          ∃ p ∈ qs, qs.foldl (fun m p => max m (f p)) m0 = f p) := by
  induction qs with
  | nil =>
    intro m0
    exact ⟨le_refl _, by simp, Or.inl rfl⟩
  | cons q rest IH =>
    intro m0
    obtain ⟨h1, h2, h3⟩ := IH (max m0 (f q))
    simp only [List.foldl_cons]
    refine ⟨le_trans (le_max_left _ _) h1, ?_, ?_⟩
    · intro p hp
      rcases List.mem_cons.mp hp with hpq | hpr
      · rw [hpq]
        exact le_trans (le_max_right _ _) h1
      · exact h2 p hpr
    · rcases h3 with h3 | ⟨p, hp, h3⟩
      · rcases max_choice m0 (f q) with hm | hm
        · exact Or.inl (by rw [h3, hm])
        · exact Or.inr ⟨q, List.mem_cons_self _ _, by rw [h3, hm]⟩
      · exact Or.inr ⟨p, List.mem_cons_of_mem _ hp, h3⟩

/-- A component of the low corner built by the loop of `setTriangleMesh` is the
running minimum of that component over the vertices. -/
theorem foldl_low_bnd (g : Vec3 EFloat → EFloat) (gq : Vec3 ℚ → ℚ)
    (hg : ∀ (a : Vec3 EFloat) (v : Vec3 ℚ),
      g (Vec3.Min a v.toEFloat) = min (g a) (EFloat.ofRat (gq v)))
    (vs : List (Vec3 ℚ)) :
    ∀ b : AABB EFloat,
      g (vs.foldl
          (fun (bound : AABB EFloat) (vertex : Vec3 ℚ) =>
            ({ low_bnd := Vec3.Min bound.low_bnd vertex.toEFloat,
               upper_bnd := Vec3.Max bound.upper_bnd vertex.toEFloat } : AABB EFloat))
          b).low_bnd =
        vs.foldl (fun m p => min m (EFloat.ofRat (gq p))) (g b.low_bnd) := by
  induction vs with
  | nil =>
    intro b
    rfl
  | cons v rest IH =>
    intro b
    simp only [List.foldl_cons]
    rw [IH, hg]

/-- A component of the upper corner built by the loop of `setTriangleMesh` is the
running maximum of that component over the vertices. -/
theorem foldl_upper_bnd (g : Vec3 EFloat → EFloat) (gq : Vec3 ℚ → ℚ)
    (hg : ∀ (a : Vec3 EFloat) (v : Vec3 ℚ),
      g (Vec3.Max a v.toEFloat) = max (g a) (EFloat.ofRat (gq v)))
    (vs : List (Vec3 ℚ)) :
    ∀ b : AABB EFloat,
      g (vs.foldl
          (fun (bound : AABB EFloat) (vertex : Vec3 ℚ) =>
            ({ low_bnd := Vec3.Min bound.low_bnd vertex.toEFloat,
               upper_bnd := Vec3.Max bound.upper_bnd vertex.toEFloat } : AABB EFloat))
          b).upper_bnd =
        vs.foldl (fun m p => max m (EFloat.ofRat (gq p))) (g b.upper_bnd) := by
  induction vs with
  | nil =>
    intro b
    rfl
  | cons v rest IH =>
    intro b
    simp only [List.foldl_cons]
    rw [IH, hg]

/-- No finite value is above `Float_INF`. -/
theorem not_Float_INF_le (q : ℚ) : ¬ Float_INF ≤ EFloat.ofRat q := by
  simp [Float_INF, EFloat.ofRat]

/-- No finite value is below `Float_MINUS_INF`. -/
theorem not_le_Float_MINUS_INF (q : ℚ) : ¬ EFloat.ofRat q ≤ Float_MINUS_INF := by
  simp [Float_MINUS_INF, EFloat.ofRat]

/-- Starting from `Float_INF`, the running minimum over a list bounds every
element from below and, when the list is not empty, is one of its elements. -/
theorem foldl_min_INF (gq : Vec3 ℚ → ℚ) (vs : List (Vec3 ℚ)) :
    (∀ p ∈ vs, vs.foldl (fun m p => min m (EFloat.ofRat (gq p))) Float_INF ≤
        EFloat.ofRat (gq p)) ∧
      (vs ≠ [] → ∃ p ∈ vs,
        vs.foldl (fun m p => min m (EFloat.ofRat (gq p))) Float_INF = EFloat.ofRat (gq p)) := by
  obtain ⟨_, h2, h3⟩ := foldl_min_spec (fun p => EFloat.ofRat (gq p)) vs Float_INF
  refine ⟨h2, ?_⟩
  intro hne
  rcases h3 with h3 | h3
  · obtain ⟨p, hp⟩ := List.exists_mem_of_ne_nil vs hne
    have := h2 p hp
    rw [h3] at this
    exact absurd this (not_Float_INF_le _)
  · exact h3

/-- Starting from `Float_MINUS_INF`, the running maximum over a list bounds every
element from above and, when the list is not empty, is one of its elements. -/
theorem foldl_max_MINUS_INF (gq : Vec3 ℚ → ℚ) (vs : List (Vec3 ℚ)) :
    (∀ p ∈ vs, EFloat.ofRat (gq p) ≤
        vs.foldl (fun m p => max m (EFloat.ofRat (gq p))) Float_MINUS_INF) ∧
      (vs ≠ [] → ∃ p ∈ vs,
        vs.foldl (fun m p => max m (EFloat.ofRat (gq p))) Float_MINUS_INF =
          EFloat.ofRat (gq p)) := by
  obtain ⟨_, h2, h3⟩ := foldl_max_spec (fun p => EFloat.ofRat (gq p)) vs Float_MINUS_INF
  refine ⟨h2, ?_⟩
  intro hne
  rcases h3 with h3 | h3
  · obtain ⟨p, hp⟩ := List.exists_mem_of_ne_nil vs hne
    have := h2 p hp
    rw [h3] at this
    exact absurd this (not_le_Float_MINUS_INF _)
  · exact h3

/-- The six components of the box cached by `setTriangleMesh`, as running
minima and maxima over the vertex buffer. -/
theorem setTriangleMesh_bound_components (self : Accel) (mesh : TriangleMeshResource) :
    (self.setTriangleMesh mesh).getBound.low_bnd.x =
        mesh.vertices.foldl (fun m p => min m (EFloat.ofRat p.x)) Float_INF ∧
      (self.setTriangleMesh mesh).getBound.low_bnd.y =
        mesh.vertices.foldl (fun m p => min m (EFloat.ofRat p.y)) Float_INF ∧
      (self.setTriangleMesh mesh).getBound.low_bnd.z =
        mesh.vertices.foldl (fun m p => min m (EFloat.ofRat p.z)) Float_INF ∧
      (self.setTriangleMesh mesh).getBound.upper_bnd.x =
        mesh.vertices.foldl (fun m p => max m (EFloat.ofRat p.x)) Float_MINUS_INF ∧
      (self.setTriangleMesh mesh).getBound.upper_bnd.y =
        mesh.vertices.foldl (fun m p => max m (EFloat.ofRat p.y)) Float_MINUS_INF ∧
      (self.setTriangleMesh mesh).getBound.upper_bnd.z =
        mesh.vertices.foldl (fun m p => max m (EFloat.ofRat p.z)) Float_MINUS_INF :=
  ⟨foldl_low_bnd Vec3.x Vec3.x (fun _ _ => rfl) mesh.vertices _,
    foldl_low_bnd Vec3.y Vec3.y (fun _ _ => rfl) mesh.vertices _,
    foldl_low_bnd Vec3.z Vec3.z (fun _ _ => rfl) mesh.vertices _,
    foldl_upper_bnd Vec3.x Vec3.x (fun _ _ => rfl) mesh.vertices _,
    foldl_upper_bnd Vec3.y Vec3.y (fun _ _ => rfl) mesh.vertices _,
    foldl_upper_bnd Vec3.z Vec3.z (fun _ _ => rfl) mesh.vertices _⟩

/-- Claim C10: after `Accel::setTriangleMesh(mesh)` the box returned by
`Accel::getBound()` covers every vertex of the mesh on every axis; for a mesh
with at least one vertex each component of the low corner is attained by a
vertex and each component of the upper corner is attained by a vertex, so the box
is the componentwise minimum and maximum of the vertices, and the low corner is
below the upper corner on every axis. -/
theorem setTriangleMesh_getBound_covers (self : Accel) (mesh : TriangleMeshResource) :
    (self.setTriangleMesh mesh).mesh = mesh ∧
    (∀ p ∈ mesh.vertices,
      ((self.setTriangleMesh mesh).getBound.low_bnd.x ≤ EFloat.ofRat p.x ∧
        EFloat.ofRat p.x ≤ (self.setTriangleMesh mesh).getBound.upper_bnd.x) ∧
      ((self.setTriangleMesh mesh).getBound.low_bnd.y ≤ EFloat.ofRat p.y ∧
        EFloat.ofRat p.y ≤ (self.setTriangleMesh mesh).getBound.upper_bnd.y) ∧
      ((self.setTriangleMesh mesh).getBound.low_bnd.z ≤ EFloat.ofRat p.z ∧
        EFloat.ofRat p.z ≤ (self.setTriangleMesh mesh).getBound.upper_bnd.z)) ∧
    (mesh.vertices ≠ [] →
      ((∃ p ∈ mesh.vertices,
          (self.setTriangleMesh mesh).getBound.low_bnd.x = EFloat.ofRat p.x) ∧
        (∃ p ∈ mesh.vertices,
          (self.setTriangleMesh mesh).getBound.low_bnd.y = EFloat.ofRat p.y) ∧
        (∃ p ∈ mesh.vertices,
          (self.setTriangleMesh mesh).getBound.low_bnd.z = EFloat.ofRat p.z)) ∧
      ((∃ p ∈ mesh.vertices,
          (self.setTriangleMesh mesh).getBound.upper_bnd.x = EFloat.ofRat p.x) ∧
        (∃ p ∈ mesh.vertices,
          (self.setTriangleMesh mesh).getBound.upper_bnd.y = EFloat.ofRat p.y) ∧
        (∃ p ∈ mesh.vertices,
          (self.setTriangleMesh mesh).getBound.upper_bnd.z = EFloat.ofRat p.z)) ∧
      ((self.setTriangleMesh mesh).getBound.low_bnd.x ≤
          (self.setTriangleMesh mesh).getBound.upper_bnd.x ∧
        (self.setTriangleMesh mesh).getBound.low_bnd.y ≤
          (self.setTriangleMesh mesh).getBound.upper_bnd.y ∧
        (self.setTriangleMesh mesh).getBound.low_bnd.z ≤
          (self.setTriangleMesh mesh).getBound.upper_bnd.z)) := by
  obtain ⟨hlx, hly, hlz, hux, huy, huz⟩ := setTriangleMesh_bound_components self mesh
  rw [hlx, hly, hlz, hux, huy, huz]
  obtain ⟨lx1, lx2⟩ := foldl_min_INF Vec3.x mesh.vertices
  obtain ⟨ly1, ly2⟩ := foldl_min_INF Vec3.y mesh.vertices
  obtain ⟨lz1, lz2⟩ := foldl_min_INF Vec3.z mesh.vertices
  obtain ⟨ux1, ux2⟩ := foldl_max_MINUS_INF Vec3.x mesh.vertices
  obtain ⟨uy1, uy2⟩ := foldl_max_MINUS_INF Vec3.y mesh.vertices
  obtain ⟨uz1, uz2⟩ := foldl_max_MINUS_INF Vec3.z mesh.vertices
  refine ⟨rfl, ?_, ?_⟩
  · intro p hp
    exact ⟨⟨lx1 p hp, ux1 p hp⟩, ⟨ly1 p hp, uy1 p hp⟩, ⟨lz1 p hp, uz1 p hp⟩⟩
  · intro hne
    obtain ⟨p, hp⟩ := List.exists_mem_of_ne_nil mesh.vertices hne
    exact ⟨⟨lx2 hne, ly2 hne, lz2 hne⟩, ⟨ux2 hne, uy2 hne, uz2 hne⟩,
      ⟨le_trans (lx1 p hp) (ux1 p hp), le_trans (ly1 p hp) (uy1 p hp),
        le_trans (lz1 p hp) (uz1 p hp)⟩⟩

/-- Witness of claim C10: the box cached for the sample mesh has its low corner
below its upper corner on every axis. -/
theorem setTriangleMesh_getBound_covers_witness :
    sampleMesh.vertices ≠ [] ∧
      (sampleAccel.getBound.low_bnd.x ≤ sampleAccel.getBound.upper_bnd.x ∧
        sampleAccel.getBound.low_bnd.y ≤ sampleAccel.getBound.upper_bnd.y ∧
        sampleAccel.getBound.low_bnd.z ≤ sampleAccel.getBound.upper_bnd.z) :=
  ⟨by simp [sampleMesh],
    ((setTriangleMesh_getBound_covers
      { mesh := { vertices := [], v_indices := [] }, bound := ⟨⟨0, 0, 0⟩, ⟨0, 0, 0⟩⟩ }
      sampleMesh).2.2 (by simp [sampleMesh])).2.2⟩

/-! ## The shading frame: `CoordinateSystemFromNormal` and `Frame` -/

/-- Lagrange: the vector product of two orthogonal unit vectors is a unit vector. -/
theorem Cross_unit (a b : Vec3f) (ha : Vec3f.Dot a a = 1) (hb : Vec3f.Dot b b = 1)
    (hab : Vec3f.Dot a b = 0) : Vec3f.Dot (Vec3f.Cross a b) (Vec3f.Cross a b) = 1 := by
  simp only [Vec3f.Dot, Vec3f.Cross] at *
  linear_combination (b.x * b.x + b.y * b.y + b.z * b.z) * ha + hb -
    (a.x * b.x + a.y * b.y + a.z * b.z) * hab

/-- A vector product is orthogonal to its first factor. -/
theorem Cross_dot_left (a b : Vec3f) : Vec3f.Dot (Vec3f.Cross a b) a = 0 := by
  simp only [Vec3f.Dot, Vec3f.Cross]
  ring

/-- A vector product is orthogonal to its second factor. -/
theorem Cross_dot_right (a b : Vec3f) : Vec3f.Dot (Vec3f.Cross a b) b = 0 := by
  simp only [Vec3f.Dot, Vec3f.Cross]
  ring

/-- A unit vector has length one. -/
theorem Norm_eq_one {a : Vec3f} (h : Vec3f.Dot a a = 1) : Vec3f.Norm a = 1 := by
  rw [Vec3f.Norm, h, Real.sqrt_one]

/-- Normalizing a unit vector leaves it unchanged. -/
theorem Normalize_unit {a : Vec3f} (h : Vec3f.Dot a a = 1) : Vec3f.Normalize a = a := by
  simp [Vec3f.Normalize, Norm_eq_one h]

/-- The bitangent built from a vector `(p, q)` of positive squared length is a
unit vector: `(q / s)^2 + (p / s)^2 = 1` for `s = sqrt (p^2 + q^2)`. -/
theorem invLen_sq (p q : ℝ) (h : Real.sqrt (p * p + q * q) ≠ 0) :
    q * (1 / Real.sqrt (p * p + q * q)) * (q * (1 / Real.sqrt (p * p + q * q))) +
      -p * (1 / Real.sqrt (p * p + q * q)) * (-p * (1 / Real.sqrt (p * p + q * q))) = 1 := by
  have hs : Real.sqrt (p * p + q * q) * Real.sqrt (p * p + q * q) = p * p + q * q :=
    Real.mul_self_sqrt (add_nonneg (mul_self_nonneg _) (mul_self_nonneg _))
  field_simp
  linarith

/-- For a unit normal `CoordinateSystemFromNormal` returns, and the bitangent `y`
is a unit vector orthogonal to the normal, the tangent is `Cross(y, n)`. -/
theorem CoordinateSystemFromNormal_spec (n : Vec3f) (hn : Vec3f.Dot n n = 1) :
    ∃ y, CoordinateSystemFromNormal n = some (Vec3f.Cross y n, y) ∧
      Vec3f.Dot y y = 1 ∧ Vec3f.Dot y n = 0 := by
  unfold CoordinateSystemFromNormal
  simp only
  by_cases hb : |n.x| > |n.y|
  · have hx : n.x ≠ 0 := by
      intro h
      rw [h, abs_zero] at hb
      exact absurd hb (not_lt.mpr (abs_nonneg _))
    have hpos : 0 < n.x * n.x + n.z * n.z :=
      add_pos_of_pos_of_nonneg (mul_self_pos.mpr hx) (mul_self_nonneg _)
    have hs : Real.sqrt (n.x * n.x + n.z * n.z) ≠ 0 := ne_of_gt (Real.sqrt_pos.mpr hpos)
    rw [if_pos hb, if_neg hs]
    refine ⟨_, rfl, ?_, ?_⟩
    · have := invLen_sq n.x n.z hs
      simp only [Vec3f.Dot]
      linarith
    · simp only [Vec3f.Dot]
      ring
  · have hpos : 0 < n.y * n.y + n.z * n.z := by
      by_contra hc
      have hy : n.y = 0 := by nlinarith [mul_self_nonneg n.y, mul_self_nonneg n.z]
      have hz : n.z = 0 := by nlinarith [mul_self_nonneg n.y, mul_self_nonneg n.z]
      have hx : n.x = 0 := by
        rw [hy, abs_zero] at hb
        exact abs_eq_zero.mp (le_antisymm (not_lt.mp hb) (abs_nonneg _))
      simp only [Vec3f.Dot, hx, hy, hz] at hn
      norm_num at hn
    have hs : Real.sqrt (n.y * n.y + n.z * n.z) ≠ 0 := ne_of_gt (Real.sqrt_pos.mpr hpos)
    rw [if_neg hb, if_neg hs]
    refine ⟨_, rfl, ?_, ?_⟩
    · have := invLen_sq n.y n.z hs
      simp only [Vec3f.Dot]
      linarith
    · simp only [Vec3f.Dot]
      ring

/-- Completeness of the frame `(Cross(y, n), y, n)` for orthogonal unit vectors
`y` and `n`: every vector is the sum of its three projections. -/
theorem frame_complete (y n v : Vec3f) (hy : Vec3f.Dot y y = 1) (hn : Vec3f.Dot n n = 1)
    (hyn : Vec3f.Dot y n = 0) :
    Vec3f.add
        (Vec3f.add (Vec3f.smul (Vec3f.Dot v (Vec3f.Cross y n)) (Vec3f.Cross y n))
          (Vec3f.smul (Vec3f.Dot v y) y))
        (Vec3f.smul (Vec3f.Dot v n) n) = v := by
  obtain ⟨y1, y2, y3⟩ := y
  obtain ⟨n1, n2, n3⟩ := n
  obtain ⟨v1, v2, v3⟩ := v
  simp only [Vec3f.Dot, Vec3f.Cross, Vec3f.add, Vec3f.smul, Vec3.mk.injEq] at *
  refine ⟨?_, ?_, ?_⟩
  · linear_combination
      ((n1 * n1 + n2 * n2 + n3 * n3) * v1 - (v1 * n1 + v2 * n2 + v3 * n3) * n1) * hy +
      (v1 - (v1 * y1 + v2 * y2 + v3 * y3) * y1) * hn +
      (-(y1 * n1 + y2 * n2 + y3 * n3) * v1 + (v1 * n1 + v2 * n2 + v3 * n3) * y1 +
        (v1 * y1 + v2 * y2 + v3 * y3) * n1) * hyn
  · linear_combination
      ((n1 * n1 + n2 * n2 + n3 * n3) * v2 - (v1 * n1 + v2 * n2 + v3 * n3) * n2) * hy +
      (v2 - (v1 * y1 + v2 * y2 + v3 * y3) * y2) * hn +
      (-(y1 * n1 + y2 * n2 + y3 * n3) * v2 + (v1 * n1 + v2 * n2 + v3 * n3) * y2 +
        (v1 * y1 + v2 * y2 + v3 * y3) * n2) * hyn
  · linear_combination
      ((n1 * n1 + n2 * n2 + n3 * n3) * v3 - (v1 * n1 + v2 * n2 + v3 * n3) * n3) * hy +
      (v3 - (v1 * y1 + v2 * y2 + v3 * y3) * y3) * hn +
      (-(y1 * n1 + y2 * n2 + y3 * n3) * v3 + (v1 * n1 + v2 * n2 + v3 * n3) * y3 +
        (v1 * y1 + v2 * y2 + v3 * y3) * n3) * hyn

/-- Parseval for the frame `(Cross(y, n), y, n)`: the squared projections of a
vector sum to its squared length. -/
theorem frame_parseval (y n v : Vec3f) (hy : Vec3f.Dot y y = 1) (hn : Vec3f.Dot n n = 1)
    (hyn : Vec3f.Dot y n = 0) :
    Vec3f.Dot v (Vec3f.Cross y n) * Vec3f.Dot v (Vec3f.Cross y n) +
        Vec3f.Dot v y * Vec3f.Dot v y + Vec3f.Dot v n * Vec3f.Dot v n = Vec3f.Dot v v := by
  have h := frame_complete y n v hy hn hyn
  have hx := congrArg Vec3.x h
  have h2 := congrArg Vec3.y h
  have h3 := congrArg Vec3.z h
  simp only [Vec3f.add, Vec3f.smul] at hx h2 h3
  simp only [Vec3f.Dot] at *
  linear_combination v.x * hx + v.y * h2 + v.z * h3

/-- For a unit normal the constructor `Frame(n)` returns the frame
`(n, Cross(y, n), y)` for a unit vector `y` orthogonal to `n`. -/
theorem Frame_ofNormal_spec (n : Vec3f) (hn : Vec3f.Dot n n = 1) :
    ∃ y, Frame.ofNormal n = some { n := n, x := Vec3f.Cross y n, y := y } ∧
      CoordinateSystemFromNormal n = some (Vec3f.Cross y n, y) ∧
      Vec3f.Dot y y = 1 ∧ Vec3f.Dot y n = 0 := by
  obtain ⟨y, h, hy, hyn⟩ := CoordinateSystemFromNormal_spec n hn
  refine ⟨y, ?_, h, hy, hyn⟩
  unfold Frame.ofNormal
  rw [h]

/-- Claim C11: for every unit normal `n` the frame built by `Frame(n)` through
`CoordinateSystemFromNormal` consists of three mutually orthonormal vectors: `x`,
`y` and `n` each have unit length and
`Dot(x, y) = Dot(x, n) = Dot(y, n) = 0`. -/
theorem Frame_orthonormal (n : Vec3f) (hn : Vec3f.Dot n n = 1) :
    ∃ fr : Frame, Frame.ofNormal n = some fr ∧ fr.n = n ∧
      CoordinateSystemFromNormal n = some (fr.x, fr.y) ∧
      (Vec3f.Norm fr.x = 1 ∧ Vec3f.Norm fr.y = 1 ∧ Vec3f.Norm fr.n = 1) ∧
      (Vec3f.Dot fr.x fr.y = 0 ∧ Vec3f.Dot fr.x fr.n = 0 ∧ Vec3f.Dot fr.y fr.n = 0) := by
  obtain ⟨y, h, hc, hy, hyn⟩ := Frame_ofNormal_spec n hn
  exact ⟨_, h, rfl, hc,
    ⟨Norm_eq_one (Cross_unit y n hy hn hyn), Norm_eq_one hy, Norm_eq_one hn⟩,
    ⟨Cross_dot_left y n, Cross_dot_right y n, hyn⟩⟩

/-- The frame of the normal `(0, 0, 1)`, as printed by `conventions.cpp`. -/
theorem CoordinateSystemFromNormal_z :
    CoordinateSystemFromNormal ⟨0, 0, 1⟩ = some (⟨1, 0, 0⟩, ⟨0, 1, 0⟩) := by
  simp [CoordinateSystemFromNormal, Vec3f.Cross]

/-- Witness of claim C11: the normal `(0, 0, 1)` is a unit vector and its frame
is `x = (1, 0, 0)`, `y = (0, 1, 0)`. -/
theorem Frame_orthonormal_witness :
    Vec3f.Dot ⟨0, 0, 1⟩ ⟨0, 0, 1⟩ = 1 ∧
      CoordinateSystemFromNormal ⟨0, 0, 1⟩ = some (⟨1, 0, 0⟩, ⟨0, 1, 0⟩) ∧
      ∃ fr : Frame, Frame.ofNormal ⟨0, 0, 1⟩ = some fr ∧ fr.n = ⟨0, 0, 1⟩ ∧
        CoordinateSystemFromNormal ⟨0, 0, 1⟩ = some (fr.x, fr.y) ∧
        (Vec3f.Norm fr.x = 1 ∧ Vec3f.Norm fr.y = 1 ∧ Vec3f.Norm fr.n = 1) ∧
        (Vec3f.Dot fr.x fr.y = 0 ∧ Vec3f.Dot fr.x fr.n = 0 ∧ Vec3f.Dot fr.y fr.n = 0) :=
  ⟨by norm_num [Vec3f.Dot], CoordinateSystemFromNormal_z,
    Frame_orthonormal ⟨0, 0, 1⟩ (by norm_num [Vec3f.Dot])⟩

/-- Claim C12 (frame round-trip): for every unit normal `n` and every unit vector
`v`, `Frame(n).LocalToWorld(Frame(n).WorldToLocal(v))` equals `v`. -/
theorem Frame_roundtrip (n v : Vec3f) (hn : Vec3f.Dot n n = 1) (hv : Vec3f.Dot v v = 1) :
    ∃ fr : Frame, Frame.ofNormal n = some fr ∧ fr.LocalToWorld (fr.WorldToLocal v) = v := by
  obtain ⟨y, h, _, hy, hyn⟩ := Frame_ofNormal_spec n hn
  refine ⟨_, h, ?_⟩
  have hl : Vec3f.Dot
      (⟨Vec3f.Dot v (Vec3f.Cross y n), Vec3f.Dot v y, Vec3f.Dot v n⟩ : Vec3f)
      ⟨Vec3f.Dot v (Vec3f.Cross y n), Vec3f.Dot v y, Vec3f.Dot v n⟩ = 1 := by
    rw [← hv, ← frame_parseval y n v hy hn hyn]
    rfl
  unfold Frame.LocalToWorld Frame.WorldToLocal
  simp only
  rw [Normalize_unit hl]
  simp only
  rw [frame_complete y n v hy hn hyn, Normalize_unit hv]

/-- Witness of claim C12, the example of `conventions.cpp`: in the frame of the
normal `(0, 1, 0)` the vector `(0, 1, 0)` has the local coordinates `(0, 0, 1)` and
is mapped back to itself. -/
theorem Frame_roundtrip_witness :
    (Vec3f.Dot ⟨0, 1, 0⟩ ⟨0, 1, 0⟩ = 1) ∧
      Frame.ofNormal ⟨0, 1, 0⟩ = some { n := ⟨0, 1, 0⟩, x := ⟨1, 0, 0⟩, y := ⟨0, 0, -1⟩ } ∧
      ∃ fr : Frame, Frame.ofNormal ⟨0, 1, 0⟩ = some fr ∧
        fr.LocalToWorld (fr.WorldToLocal ⟨0, 1, 0⟩) = ⟨0, 1, 0⟩ :=
  ⟨by norm_num [Vec3f.Dot],
    by
      simp [Frame.ofNormal, CoordinateSystemFromNormal, Vec3f.Cross]
      norm_num,
    Frame_roundtrip ⟨0, 1, 0⟩ ⟨0, 1, 0⟩ (by norm_num [Vec3f.Dot]) (by norm_num [Vec3f.Dot])⟩

/-! ## `Distribution1D`: construction and cdf inversion -/

/-- The running sums have one entry more than there are samples. -/
theorem stepIntegral_length (n : ℚ) (f : List ℚ) :
    ∀ acc, (Distribution1D.stepIntegral n acc f).length = f.length + 1 := by
  induction f with
  | nil => intro acc; rfl
  | cons x xs IH =>
    intro acc
    simp [Distribution1D.stepIntegral, IH]

/-- The running sums start with the start value. -/
theorem stepIntegral_eq_cons (n : ℚ) (f : List ℚ) (acc : ℚ) :
    ∃ rest, Distribution1D.stepIntegral n acc f = acc :: rest := by
  cases f with
  | nil => exact ⟨[], rfl⟩
  | cons x xs => exact ⟨_, rfl⟩

/-- The last running sum is the start value plus the sum of the samples over `n`. -/
theorem stepIntegral_last (n : ℚ) (f : List ℚ) :
    ∀ acc, (Distribution1D.stepIntegral n acc f).getD f.length 0 = acc + f.sum / n := by
  induction f with
  | nil => intro acc; simp [Distribution1D.stepIntegral]
  | cons x xs IH =>
    intro acc
    simp only [Distribution1D.stepIntegral, List.length_cons, List.getD_cons_succ, IH,
      List.sum_cons]
    ring

/-- With non-negative samples no running sum is below the start value. -/
theorem stepIntegral_ge (n : ℚ) (hn : 0 ≤ n) (f : List ℚ) :
    ∀ acc, (∀ x ∈ f, 0 ≤ x) → ∀ c ∈ Distribution1D.stepIntegral n acc f, acc ≤ c := by
  induction f with
  | nil =>
    intro acc _ c hc
    simp only [Distribution1D.stepIntegral, List.mem_singleton] at hc
    rw [hc]
  | cons x xs IH =>
    intro acc hf c hc
    simp only [Distribution1D.stepIntegral, List.mem_cons] at hc
    rcases hc with hc | hc
    · rw [hc]
    · have hx : 0 ≤ x / n := div_nonneg (hf x (List.mem_cons_self _ _)) hn
      have := IH (acc + x / n) (fun y hy => hf y (List.mem_cons_of_mem _ hy)) c hc
      linarith

/-- With non-negative samples the running sums are non-decreasing. -/
theorem stepIntegral_pairwise (n : ℚ) (hn : 0 ≤ n) (f : List ℚ) :
    ∀ acc, (∀ x ∈ f, 0 ≤ x) →
      (Distribution1D.stepIntegral n acc f).Pairwise (fun a b => a ≤ b) := by
  induction f with
  | nil =>
    intro acc _
    simp [Distribution1D.stepIntegral]
  | cons x xs IH =>
    intro acc hf
    have hx : 0 ≤ x / n := div_nonneg (hf x (List.mem_cons_self _ _)) hn
    have hxs : ∀ y ∈ xs, 0 ≤ y := fun y hy => hf y (List.mem_cons_of_mem _ hy)
    simp only [Distribution1D.stepIntegral, List.pairwise_cons]
    refine ⟨?_, IH _ hxs⟩
    intro c hc
    have := stepIntegral_ge n hn xs (acc + x / n) hxs c hc
    linarith

/-- The integral stored by the constructor is the sum of the samples over `n`. -/
theorem new_funcInt (f : List ℚ) :
    (Distribution1D.new f).funcInt = f.sum / (f.length : ℚ) := by
  have h := stepIntegral_last (f.length : ℚ) f 0
  rw [zero_add] at h
  unfold Distribution1D.new
  simp only
  split_ifs <;> exact h

/-- The cdf stored by the constructor when the integral is zero: the ramp `i / n`. -/
theorem new_cdf_of_zero (f : List ℚ) (h0 : f.sum / (f.length : ℚ) = 0) :
    (Distribution1D.new f).cdf =
      (List.range (f.length + 1)).map (fun i => ((i : Nat) : ℚ) / (f.length : ℚ)) := by
  have h := stepIntegral_last (f.length : ℚ) f 0
  rw [zero_add, h0] at h
  obtain ⟨rest, hr⟩ := stepIntegral_eq_cons (f.length : ℚ) f 0
  unfold Distribution1D.new
  simp only [h, if_true]
  rw [hr, List.range_succ_eq_map]
  simp [Function.comp_def]

/-- The cdf stored by the constructor when the integral is not zero: the running
sums divided by the integral. -/
theorem new_cdf_of_ne_zero (f : List ℚ) (h0 : f.sum / (f.length : ℚ) ≠ 0) :
    (Distribution1D.new f).cdf =
      (Distribution1D.stepIntegral (f.length : ℚ) 0 f).map
        (fun c => c / (f.sum / (f.length : ℚ))) := by
  have h := stepIntegral_last (f.length : ℚ) f 0
  rw [zero_add] at h
  obtain ⟨rest, hr⟩ := stepIntegral_eq_cons (f.length : ℚ) f 0
  unfold Distribution1D.new
  simp only [h, if_neg h0]
  rw [hr]
  simp

/-- The cdf stored by the constructor for `n >= 1` non-negative samples has
`n + 1` entries, starts at `0`, ends at `1` and is non-decreasing. -/
theorem new_cdf_valid (f : List ℚ) (hn : 1 ≤ f.length) (hf : ∀ x ∈ f, 0 ≤ x) :
    (Distribution1D.new f).cdf.length = f.length + 1 ∧
      (Distribution1D.new f).cdf[0]? = some 0 ∧
      (Distribution1D.new f).cdf[f.length]? = some 1 ∧
      (Distribution1D.new f).cdf.Pairwise (fun a b => a ≤ b) := by
  have hnpos : (0 : ℚ) < (f.length : ℚ) := by exact_mod_cast hn
  by_cases h0 : f.sum / (f.length : ℚ) = 0
  · rw [new_cdf_of_zero f h0]
    refine ⟨by simp, by simp, ?_, ?_⟩
    · rw [List.getElem?_map, List.getElem?_range (Nat.lt_succ_self _)]
      simp [ne_of_gt hnpos]
    · rw [List.pairwise_map]
      refine List.Pairwise.imp ?_ (List.pairwise_lt_range _)
      intro a b hab
      exact div_le_div_of_nonneg_right (by exact_mod_cast le_of_lt hab) (le_of_lt hnpos)
  · rw [new_cdf_of_ne_zero f h0]
    have hsum : 0 ≤ f.sum := List.sum_nonneg hf
    have hF : 0 < f.sum / (f.length : ℚ) :=
      lt_of_le_of_ne (div_nonneg hsum (le_of_lt hnpos)) (Ne.symm h0)
    obtain ⟨rest, hr⟩ := stepIntegral_eq_cons (f.length : ℚ) f 0
    have hlen := stepIntegral_length (f.length : ℚ) f 0
    have hlast := stepIntegral_last (f.length : ℚ) f 0
    rw [zero_add] at hlast
    refine ⟨by simp [hlen], by rw [hr]; simp, ?_, ?_⟩
    · rw [List.getElem?_map, List.getElem?_eq_getElem (by rw [hlen]; omega)]
      rw [List.getD_eq_getElem _ _ (by rw [hlen]; omega)] at hlast
      simp only [Option.map_some', Option.some.injEq]
      rw [hlast]
      exact div_self h0
    · rw [List.pairwise_map]
      refine List.Pairwise.imp ?_ (stepIntegral_pairwise _ (le_of_lt hnpos) f 0 hf)
      intro a b hab
      exact div_le_div_of_nonneg_right hab (le_of_lt hF)

/-- Reading a vector at a natural index through an `int`. -/
theorem at?_natCast (l : List ℚ) (k : Nat) : Distribution1D.at? l (k : Int) = l[k]? := by
  simp [Distribution1D.at?]

/-- Reading a vector one past a natural index through an `int`. -/
theorem at?_natCast_succ (l : List ℚ) (k : Nat) :
    Distribution1D.at? l ((k : Int) + 1) = l[k + 1]? := by
  have h : ((k : Int) + 1) = ((k + 1 : Nat) : Int) := by push_cast; rfl
  rw [h, at?_natCast]

/-- Specification of the bisection loop for a predicate that is defined on
`[0, size)` and true exactly on an initial segment: from any state whose window
`[first, first + len)` holds the boundary, the loop ends at the boundary. -/
theorem FindInterval_loop_spec (pred : Nat → Option Bool) (size : Nat)
    (hdef : ∀ i, i < size → ∃ b, pred i = some b)
    (hmono : ∀ i j, i ≤ j → j < size → pred j = some true → pred i = some true) :
    ∀ len first, first + len ≤ size → (∀ i, i < first → pred i = some true) →
      (∀ i, first + len ≤ i → i < size → pred i = some false) →
      ∃ k, Distribution1D.FindInterval.loop pred first len = some k ∧ first ≤ k ∧
        k ≤ first + len ∧ (∀ i, i < k → pred i = some true) ∧
        (∀ i, k ≤ i → i < size → pred i = some false) := by
  intro len
  induction len using Nat.strong_induction_on with
  | _ len IH =>
    intro first hle hT hF
    rw [Distribution1D.FindInterval.loop]
    by_cases hlen : len > 0
    · obtain ⟨b, hb⟩ := hdef (first + len / 2) (by omega)
      simp only [hlen, if_true, hb]
      cases b with
      | false =>
        have hF2 : ∀ i, first + len / 2 ≤ i → i < size → pred i = some false := by
          intro i hi1 hi2
          obtain ⟨c, hc⟩ := hdef i hi2
          cases c with
          | false => exact hc
          | true =>
            have := hmono (first + len / 2) i hi1 hi2 hc
            rw [hb] at this
            exact absurd this (by simp)
        obtain ⟨k, hk, h1, h2, h3, h4⟩ := IH (len / 2) (by omega) first (by omega) hT hF2
        exact ⟨k, hk, h1, by omega, h3, h4⟩
      | true =>
        have hT2 : ∀ i, i < first + len / 2 + 1 → pred i = some true := by
          intro i hi
          exact hmono i (first + len / 2) (by omega) (by omega) hb
        have hF2 : ∀ i, first + len / 2 + 1 + (len - (len / 2 + 1)) ≤ i → i < size →
            pred i = some false := by
          intro i hi1 hi2
          exact hF i (by omega) hi2
        obtain ⟨k, hk, h1, h2, h3, h4⟩ :=
          IH (len - (len / 2 + 1)) (by omega) (first + len / 2 + 1) (by omega) hT2 hF2
        exact ⟨k, hk, by omega, by omega, h3, h4⟩
    · simp only [hlen, if_false]
      exact ⟨first, rfl, le_refl _, by omega, hT, fun i hi1 hi2 => hF i (by omega) hi2⟩

/-- On a cdf with `n + 1 >= 2` entries that starts at `0`, ends at `1` and is
non-decreasing, and for `u` in `[0, 1)`, `FindInterval` returns the largest index
whose cdf value is at most `u`; it is below `n`. -/
theorem FindInterval_cdf (cdf : List ℚ) (n : Nat) (hn : 1 ≤ n) (hlen : cdf.length = n + 1)
    (h0 : cdf[0]? = some 0) (h1 : cdf[n]? = some 1) (hmono : cdf.Pairwise (fun a b => a ≤ b))
    (u : ℚ) (hu0 : 0 ≤ u) (hu1 : u < 1) :
    ∃ k : Nat,
      Distribution1D.FindInterval cdf.length
          (fun index => (cdf[index]?).map (fun c => decide (c ≤ u))) = some (k : Int) ∧
        k < n ∧
        (∃ c0 c1, cdf[k]? = some c0 ∧ cdf[k + 1]? = some c1 ∧ c0 ≤ u ∧ u < c1) ∧
        (∀ j c, cdf[j]? = some c → c ≤ u → j ≤ k) := by
  have hdef : ∀ i, i < cdf.length →
      ∃ b, (fun index => (cdf[index]?).map (fun c => decide (c ≤ u))) i = some b := by
    intro i hi
    refine ⟨decide (cdf[i] ≤ u), ?_⟩
    simp [List.getElem?_eq_getElem hi]
  have hm : ∀ i j, i ≤ j → j < cdf.length →
      (fun index => (cdf[index]?).map (fun c => decide (c ≤ u))) j = some true →
      (fun index => (cdf[index]?).map (fun c => decide (c ≤ u))) i = some true := by
    intro i j hij hj hpj
    have hi : i < cdf.length := lt_of_le_of_lt hij hj
    simp only [List.getElem?_eq_getElem hj, List.getElem?_eq_getElem hi, Option.map_some',
      Option.some.injEq, decide_eq_true_eq] at hpj ⊢
    rcases Nat.lt_or_ge i j with hlt | hge
    · exact le_trans (List.pairwise_iff_getElem.mp hmono i j hi hj hlt) hpj
    · have : i = j := le_antisymm hij hge
      subst this
      exact hpj
  obtain ⟨K, hK, _, hKle, hT, hF⟩ :=
    FindInterval_loop_spec _ cdf.length hdef hm cdf.length 0 (by omega)
      (fun i hi => absurd hi (Nat.not_lt_zero i)) (fun i hi1 hi2 => absurd hi2 (by omega))
  have hK1 : 1 ≤ K := by
    by_contra hc
    have hK0 : K = 0 := by omega
    have := hF 0 (by omega) (by omega)
    simp only [h0, Option.map_some', Option.some.injEq, decide_eq_false_iff_not] at this
    exact this hu0
  have hKn : K ≤ n := by
    by_contra hc
    have := hT n (by omega)
    simp only [h1, Option.map_some', Option.some.injEq, decide_eq_true_eq] at this
    linarith
  refine ⟨K - 1, ?_, by omega, ?_, ?_⟩
  · unfold Distribution1D.FindInterval
    rw [hK]
    simp only [Option.some.injEq, stdClamp, hlen]
    have e : ((K : Int) - 1) = ((K - 1 : Nat) : Int) := by omega
    rw [if_neg (by omega), if_neg (by omega), e]
  · have hk1 : K - 1 < cdf.length := by omega
    have hk2 : K - 1 + 1 < cdf.length := by omega
    refine ⟨cdf[K - 1], cdf[K - 1 + 1], List.getElem?_eq_getElem hk1,
      List.getElem?_eq_getElem hk2, ?_, ?_⟩
    · have := hT (K - 1) (by omega)
      simpa [List.getElem?_eq_getElem hk1] using this
    · have := hF (K - 1 + 1) (by omega) hk2
      simpa [List.getElem?_eq_getElem hk2] using this
  · intro j c hj hc
    by_contra hjk
    have hjlen : j < cdf.length := by
      by_contra hge
      rw [List.getElem?_eq_none (by omega)] at hj
      exact absurd hj (by simp)
    have := hF j (by omega) hjlen
    simp only [hj, Option.map_some', Option.some.injEq, decide_eq_false_iff_not] at this
    exact this hc

/-- The constructor stores the samples unchanged. -/
theorem new_func (f : List ℚ) : (Distribution1D.new f).func = f := by
  unfold Distribution1D.new
  simp only
  split_ifs <;> rfl

/-- Consecutive running sums differ by the sample over `n`. -/
theorem stepIntegral_succ (n : ℚ) (f : List ℚ) :
    ∀ (acc : ℚ) (k : Nat) (x : ℚ), f[k]? = some x →
      ∃ s, (Distribution1D.stepIntegral n acc f)[k]? = some s ∧
        (Distribution1D.stepIntegral n acc f)[k + 1]? = some (s + x / n) := by
  induction f with
  | nil =>
    intro acc k x hx
    simp at hx
  | cons y ys IH =>
    intro acc k x hx
    cases k with
    | zero =>
      simp only [List.getElem?_cons_zero, Option.some.injEq] at hx
      subst hx
      obtain ⟨rest, hr⟩ := stepIntegral_eq_cons n ys (acc + y / n)
      exact ⟨acc, by simp [Distribution1D.stepIntegral], by
        simp [Distribution1D.stepIntegral, hr]⟩
    | succ k =>
      simp only [List.getElem?_cons_succ] at hx
      obtain ⟨s, h1, h2⟩ := IH (acc + y / n) k x hx
      exact ⟨s, by simpa [Distribution1D.stepIntegral] using h1, by
        simpa [Distribution1D.stepIntegral] using h2⟩

/-- The value of `sampleDiscrete` once the offset and the entries it reads are
known. -/
theorem sampleDiscrete_eq (self : Distribution1D) (u : ℚ) (pdf uRemapped : Bool) (k : Nat)
    (c0 c1 fo : ℚ)
    (hk : Distribution1D.FindInterval self.cdf.length
      (fun index => (self.cdf[index]?).map (fun c => decide (c ≤ u))) = some (k : Int))
    (h0 : self.cdf[k]? = some c0) (h1 : self.cdf[k + 1]? = some c1)
    (hf : self.func[k]? = some fo) (hu0 : c0 ≤ u) (hu1 : u < c1) :
    self.sampleDiscrete u pdf uRemapped =
      some ((k : Int),
        if pdf then some (if self.funcInt > 0 then fo / (self.funcInt * self.size) else 0)
        else none,
        if uRemapped then some ((u - c0) / (c1 - c0)) else none) := by
  have hd : 0 < c1 - c0 := by linarith
  have hr0 : 0 ≤ (u - c0) / (c1 - c0) := div_nonneg (by linarith) (le_of_lt hd)
  have hr1 : (u - c0) / (c1 - c0) ≤ 1 := by
    rw [div_le_one hd]
    linarith
  unfold Distribution1D.sampleDiscrete
  rw [hk]
  simp only [Option.bind_eq_bind, Option.some_bind, at?_natCast, at?_natCast_succ, h0, h1, hf,
    Option.map_some']
  cases pdf <;> cases uRemapped <;> by_cases hF : self.funcInt > 0 <;>
    simp [hF, hr0, hr1]

/-- The value of `sampleContinuous` once the offset and the entries it reads are
known. -/
theorem sampleContinuous_eq (self : Distribution1D) (u : ℚ) (pdf : Bool) (k : Nat)
    (c0 c1 fo : ℚ)
    (hk : Distribution1D.FindInterval self.cdf.length
      (fun index => (self.cdf[index]?).map (fun c => decide (c ≤ u))) = some (k : Int))
    (h0 : self.cdf[k]? = some c0) (h1 : self.cdf[k + 1]? = some c1)
    (hf : self.func[k]? = some fo) (hu0 : c0 ≤ u) (hu1 : u < c1) :
    self.sampleContinuous u pdf =
      some ((((k : Int) : ℚ) + (u - c0) / (c1 - c0)) / (self.size : ℚ),
        (if pdf then some (if self.funcInt > 0 then fo / self.funcInt else 0) else none),
        (k : Int)) := by
  have hd : 0 < c1 - c0 := by linarith
  unfold Distribution1D.sampleContinuous
  rw [hk]
  simp only [Option.bind_eq_bind, Option.some_bind, at?_natCast, at?_natCast_succ, h0, h1, hf,
    Option.map_some']
  cases pdf <;> by_cases hF : self.funcInt > 0 <;> simp [hF, hd]

/-- For `n >= 1` non-negative samples and `u` in `[0, 1)` the bisection finds a
bucket `k < n` with `cdf[k] <= u < cdf[k + 1]`, the largest index whose cdf value
is at most `u`, and every entry read for that bucket exists. -/
theorem new_FindInterval (f : List ℚ) (hn : 1 ≤ f.length) (hf : ∀ x ∈ f, 0 ≤ x) (u : ℚ)
    (hu0 : 0 ≤ u) (hu1 : u < 1) :
    ∃ (k : Nat) (c0 c1 fo : ℚ),
      Distribution1D.FindInterval (Distribution1D.new f).cdf.length
          (fun index => ((Distribution1D.new f).cdf[index]?).map (fun c => decide (c ≤ u))) =
        some (k : Int) ∧
      k < f.length ∧ (Distribution1D.new f).cdf[k]? = some c0 ∧
      (Distribution1D.new f).cdf[k + 1]? = some c1 ∧ (Distribution1D.new f).func[k]? = some fo ∧
      c0 ≤ u ∧ u < c1 ∧
      (∀ j c, (Distribution1D.new f).cdf[j]? = some c → c ≤ u → j ≤ k) := by
  obtain ⟨hlen, h0, h1, hm⟩ := new_cdf_valid f hn hf
  obtain ⟨k, hk, hkn, ⟨c0, c1, hc0, hc1, hle, hlt⟩, hmax⟩ :=
    FindInterval_cdf _ f.length hn hlen h0 h1 hm u hu0 hu1
  refine ⟨k, c0, c1, f[k], hk, hkn, hc0, hc1, ?_, hle, hlt, hmax⟩
  rw [new_func, List.getElem?_eq_getElem hkn]

/-- The distribution built from the samples `[1, 1, 1, 1]`. -/
theorem new_ones : Distribution1D.new [1, 1, 1, 1] =
    ⟨[1, 1, 1, 1], [0, 1 / 4, 1 / 2, 3 / 4, 1], 1⟩ := by
  simp [Distribution1D.new, Distribution1D.stepIntegral]
  norm_num

/-- The distribution built from the single sample `[0]`. -/
theorem new_single_zero : Distribution1D.new [0] = ⟨[0], [0, 1], 0⟩ := by
  simp [Distribution1D.new, Distribution1D.stepIntegral, List.range_succ]

/-- On the samples `[1, 1, 1, 1]`, `sampleDiscrete(0.5)` returns bucket `2` with
pdf `1/4`. -/
theorem sampleDiscrete_ones_half :
    (Distribution1D.new [1, 1, 1, 1]).sampleDiscrete (1 / 2) true true =
      some (2, some (1 / 4), some 0) := by
  rw [new_ones]
  have hk : Distribution1D.FindInterval ([0, 1 / 4, 1 / 2, 3 / 4, 1] : List ℚ).length
      (fun index => (([0, 1 / 4, 1 / 2, 3 / 4, 1] : List ℚ)[index]?).map
        (fun c => decide (c ≤ 1 / 2))) = some ((2 : Nat) : Int) := by
    unfold Distribution1D.FindInterval
    rw [Distribution1D.FindInterval.loop]
    norm_num
    rw [Distribution1D.FindInterval.loop]
    norm_num
    rw [Distribution1D.FindInterval.loop]
    norm_num
    rw [Distribution1D.FindInterval.loop]
    norm_num [stdClamp]
  rw [sampleDiscrete_eq ⟨[1, 1, 1, 1], [0, 1 / 4, 1 / 2, 3 / 4, 1], 1⟩ (1 / 2) true true 2
    (1 / 2) (3 / 4) 1 hk rfl rfl rfl (le_refl _) (by norm_num)]
  norm_num [Distribution1D.size]

/-- On the single sample `[0]`, `sampleDiscrete(0.0)` returns bucket `0` and
writes the pdf `0`. -/
theorem sampleDiscrete_single_zero :
    (Distribution1D.new [0]).sampleDiscrete 0 true false = some (0, some 0, none) := by
  rw [new_single_zero]
  have hk : Distribution1D.FindInterval ([0, 1] : List ℚ).length
      (fun index => (([0, 1] : List ℚ)[index]?).map
        (fun c => decide (c ≤ 0))) = some ((0 : Nat) : Int) := by
    unfold Distribution1D.FindInterval
    rw [Distribution1D.FindInterval.loop]
    norm_num
    rw [Distribution1D.FindInterval.loop]
    norm_num
    rw [Distribution1D.FindInterval.loop]
    norm_num [stdClamp]
  rw [sampleDiscrete_eq ⟨[0], [0, 1], 0⟩ 0 true false 0
    0 1 0 hk rfl rfl rfl (le_refl _) (by norm_num)]
  norm_num

/-- In exact arithmetic: for `n >= 1` non-negative samples and `u` in `[0, 1)`,
the pdf that `sampleDiscrete` writes equals `cdf[offset + 1] - cdf[offset]`, the
mass of the bucket it returns, whenever `funcInt > 0`; when `funcInt = 0` (all
samples zero) the pdf written is `0`. -/
theorem sampleDiscrete_pdf_exact (f : List ℚ) (hn : 1 ≤ f.length) (hf : ∀ x ∈ f, 0 ≤ x) (u : ℚ)
    (hu0 : 0 ≤ u) (hu1 : u < 1) (uRemapped : Bool) :
    ∃ (offset : Int) (pdfv : ℚ) (remappedOut : Option ℚ) (c0 c1 : ℚ),
      (Distribution1D.new f).sampleDiscrete u true uRemapped =
        some (offset, some pdfv, remappedOut) ∧
      Distribution1D.at? (Distribution1D.new f).cdf offset = some c0 ∧
      Distribution1D.at? (Distribution1D.new f).cdf (offset + 1) = some c1 ∧
      ((Distribution1D.new f).funcInt > 0 → pdfv = c1 - c0) ∧
      ((Distribution1D.new f).funcInt = 0 → pdfv = 0) := by
  obtain ⟨k, c0, c1, fo, hk, hkn, hc0, hc1, hfo, hle, hlt, hmax⟩ :=
    new_FindInterval f hn hf u hu0 hu1
  have hnpos : (0 : ℚ) < (f.length : ℚ) := by exact_mod_cast hn
  refine ⟨(k : Int), _, _, c0, c1,
    sampleDiscrete_eq _ u true uRemapped k c0 c1 fo hk hc0 hc1 hfo hle hlt, ?_, ?_, ?_, ?_⟩
  · rw [at?_natCast, hc0]
  · rw [at?_natCast_succ, hc1]
  · intro hF
    rw [if_pos hF]
    have hF0 : f.sum / (f.length : ℚ) ≠ 0 := by
      rw [← new_funcInt]
      exact ne_of_gt hF
    rw [new_func] at hfo
    obtain ⟨s, hs0, hs1⟩ := stepIntegral_succ (f.length : ℚ) f 0 k fo hfo
    rw [new_cdf_of_ne_zero f hF0, List.getElem?_map] at hc0 hc1
    rw [hs0] at hc0
    rw [hs1] at hc1
    simp only [Option.map_some', Option.some.injEq] at hc0 hc1
    rw [← hc0, ← hc1, new_funcInt]
    have hsz : (((Distribution1D.new f).size : Int) : ℚ) = (f.length : ℚ) := by
      simp [Distribution1D.size, new_func]
    rw [hsz]
    have hsum : f.sum ≠ 0 := by
      intro h
      apply hF0
      rw [h, zero_div]
    have hlen0 : (f.length : ℚ) ≠ 0 := ne_of_gt hnpos
    field_simp
  · intro hF
    rw [if_neg (by rw [hF]; exact lt_irrefl _)]

/-- Claim C17: a `Distribution1D` constructed from `n >= 1` samples that are all
zero finds the integral `cdf[n] = 0` after the first loop, so it takes the
`funcInt == 0` branch (the branch without a division by `funcInt`); it stores
`funcInt = 0` and the uniform ramp `cdf[i] = i / n` for every `0 <= i <= n`, which
ends at `cdf[n] = 1`. -/
theorem Distribution1D_new_all_zero (f : List ℚ) (hn : 1 ≤ f.length) (hz : ∀ x ∈ f, x = 0) :
    (Distribution1D.stepIntegral (f.length : ℚ) 0 f).getD f.length 0 = 0 ∧
      (Distribution1D.new f).funcInt = 0 ∧
      (Distribution1D.new f).cdf =
        (Distribution1D.stepIntegral (f.length : ℚ) 0 f).take 1 ++
          (List.range f.length).map (fun k => (((k + 1 : Nat) : ℚ)) / (f.length : ℚ)) ∧
      (∀ i, i ≤ f.length → (Distribution1D.new f).cdf[i]? = some ((i : ℚ) / (f.length : ℚ))) ∧
      (Distribution1D.new f).cdf[f.length]? = some 1 := by
  have hsum : f.sum = 0 := List.sum_eq_zero hz
  have h0 : f.sum / (f.length : ℚ) = 0 := by rw [hsum, zero_div]
  have hlast := stepIntegral_last (f.length : ℚ) f 0
  rw [zero_add, h0] at hlast
  have hnpos : (0 : ℚ) < (f.length : ℚ) := by exact_mod_cast hn
  have hramp : ∀ i, i ≤ f.length →
      (Distribution1D.new f).cdf[i]? = some ((i : ℚ) / (f.length : ℚ)) := by
    intro i hi
    rw [new_cdf_of_zero f h0, List.getElem?_map, List.getElem?_range (by omega)]
    rfl
  refine ⟨hlast, by rw [new_funcInt, h0], ?_, hramp, ?_⟩
  · unfold Distribution1D.new
    simp only [hlast, if_true]
  · rw [hramp f.length (le_refl _), div_self (ne_of_gt hnpos)]

/-- Witness of claim C17: the samples `[0, 0, 0, 0]` give the cdf
`[0, 1/4, 1/2, 3/4, 1]`. -/
theorem Distribution1D_new_all_zero_witness :
    (1 ≤ ([0, 0, 0, 0] : List ℚ).length ∧ ∀ x ∈ ([0, 0, 0, 0] : List ℚ), x = 0) ∧
      (Distribution1D.new [0, 0, 0, 0]).cdf = [0, 1 / 4, 1 / 2, 3 / 4, 1] ∧
      (Distribution1D.new [0, 0, 0, 0]).funcInt = 0 :=
  ⟨⟨by decide, by simp⟩,
    by
      simp [Distribution1D.new, Distribution1D.stepIntegral, List.range_succ]
      norm_num,
    (Distribution1D_new_all_zero [0, 0, 0, 0] (by decide) (by simp)).2.1⟩

/-! ## The BSDFs: `IdealDiffusion` and `PerfectRefraction` -/

/-- Counterexample to claim C18 as stated: for a one-sided material with the unit
normal `(0, 0, 1)` and `wi = wo = (0, 0, -1)` the two directions are on the same
side of the oriented normal, yet `evaluate` returns the zero vector and not the
texture value `(1, 1, 1)` divided by pi. -/
theorem IdealDiffusion_evaluate_counterexample :
    bsdf.obtainOrientedNormal ⟨⟨0, 0, -1⟩, ⟨0, 0, -1⟩, ⟨0, 0, 1⟩⟩ false = some ⟨0, 0, 1⟩ ∧
      ¬ (Vec3f.Dot (⟨0, 0, -1⟩ : Vec3f) ⟨0, 0, 1⟩ * Vec3f.Dot (⟨0, 0, -1⟩ : Vec3f) ⟨0, 0, 1⟩
          < 0) ∧
      bsdf.IdealDiffusion.evaluate ⟨fun _ => ⟨1, 1, 1⟩, false⟩
          ⟨⟨0, 0, -1⟩, ⟨0, 0, -1⟩, ⟨0, 0, 1⟩⟩ = some ⟨0, 0, 0⟩ ∧
      (⟨0, 0, 0⟩ : Vec3f) ≠ Vec3f.muls ⟨1, 1, 1⟩ bsdf.INV_PI := by
  have h1 : bsdf.obtainOrientedNormal ⟨⟨0, 0, -1⟩, ⟨0, 0, -1⟩, ⟨0, 0, 1⟩⟩ false =
      some ⟨0, 0, 1⟩ := by
    simp [bsdf.obtainOrientedNormal, Vec3f.Dot]
  refine ⟨h1, by norm_num [Vec3f.Dot], ?_, ?_⟩
  · unfold bsdf.IdealDiffusion.evaluate
    simp only [h1]
    norm_num [Vec3f.Dot]
  · intro h
    have hx := congrArg Vec3.x h
    simp only [Vec3f.muls, bsdf.INV_PI, one_mul] at hx
    have hpi := Real.pi_pos
    have : (0 : ℝ) < 1 / Real.pi := by positivity
    linarith

/-- Claim C18, amended: for an interaction with a unit shading normal
`IdealDiffusion::evaluate` returns the zero vector whenever `wi` or `wo` lies
below the oriented normal (`Dot(wi, normal) < 0` or `Dot(wo, normal) < 0`), in
particular whenever `wi` and `wo` are on opposite sides of it, and otherwise
returns the texture value times `INV_PI`, which is componentwise non-negative for
a non-negative texture value. -/
theorem IdealDiffusion_evaluate_spec (self : bsdf.IdealDiffusion)
    (ia : bsdf.SurfaceInteraction) (hn : Vec3f.Dot ia.shading_n ia.shading_n = 1) :
    ∃ normal, bsdf.obtainOrientedNormal ia self.twosided = some normal ∧
      ((Vec3f.Dot ia.wi normal < 0 ∨ Vec3f.Dot ia.wo normal < 0) →
        self.evaluate ia = some ⟨0, 0, 0⟩) ∧
      (Vec3f.Dot ia.wi normal * Vec3f.Dot ia.wo normal < 0 →
        self.evaluate ia = some ⟨0, 0, 0⟩) ∧
      (¬ (Vec3f.Dot ia.wi normal < 0 ∨ Vec3f.Dot ia.wo normal < 0) →
        self.evaluate ia = some (Vec3f.muls (self.texture ia) bsdf.INV_PI)) ∧
      ((0 ≤ (self.texture ia).x ∧ 0 ≤ (self.texture ia).y ∧ 0 ≤ (self.texture ia).z) →
        ∃ r, self.evaluate ia = some r ∧ 0 ≤ r.x ∧ 0 ≤ r.y ∧ 0 ≤ r.z) := by
  obtain ⟨normal, hN⟩ : ∃ normal, bsdf.obtainOrientedNormal ia self.twosided = some normal := by
    unfold bsdf.obtainOrientedNormal
    rw [if_pos hn]
    exact ⟨_, rfl⟩
  have hinv : 0 ≤ bsdf.INV_PI := by
    unfold bsdf.INV_PI
    have := Real.pi_pos
    positivity
  refine ⟨_, hN, ?_, ?_, ?_, ?_⟩
  · intro h
    unfold bsdf.IdealDiffusion.evaluate
    simp only [hN]
    rw [if_pos h]
  · intro h
    unfold bsdf.IdealDiffusion.evaluate
    simp only [hN]
    rw [if_pos]
    by_contra hc
    push_neg at hc
    exact absurd (mul_nonneg hc.1 hc.2) (not_le.mpr h)
  · intro h
    unfold bsdf.IdealDiffusion.evaluate
    simp only [hN]
    rw [if_neg h]
  · rintro ⟨hx, hy, hz⟩
    unfold bsdf.IdealDiffusion.evaluate
    simp only [hN]
    by_cases h : Vec3f.Dot ia.wi normal < 0 ∨ Vec3f.Dot ia.wo normal < 0
    · rw [if_pos h]
      exact ⟨_, rfl, le_refl _, le_refl _, le_refl _⟩
    · rw [if_neg h]
      exact ⟨_, rfl, mul_nonneg hx hinv, mul_nonneg hy hinv, mul_nonneg hz hinv⟩

/-- Witness of claim C18, amended: a two-sided material seen from below its unit
normal `(0, 0, 1)`. -/
theorem IdealDiffusion_evaluate_spec_witness :
    Vec3f.Dot (⟨0, 0, 1⟩ : Vec3f) ⟨0, 0, 1⟩ = 1 ∧
      ∃ normal, bsdf.obtainOrientedNormal ⟨⟨0, 0, -1⟩, ⟨0, 0, -1⟩, ⟨0, 0, 1⟩⟩ true =
          some normal ∧
        (¬ (Vec3f.Dot (⟨0, 0, -1⟩ : Vec3f) normal < 0 ∨
            Vec3f.Dot (⟨0, 0, -1⟩ : Vec3f) normal < 0) →
          bsdf.IdealDiffusion.evaluate ⟨fun _ => ⟨1, 1, 1⟩, true⟩
              ⟨⟨0, 0, -1⟩, ⟨0, 0, -1⟩, ⟨0, 0, 1⟩⟩ =
            some (Vec3f.muls ⟨1, 1, 1⟩ bsdf.INV_PI)) :=
  have h := IdealDiffusion_evaluate_spec ⟨fun _ => ⟨1, 1, 1⟩, true⟩
    ⟨⟨0, 0, -1⟩, ⟨0, 0, -1⟩, ⟨0, 0, 1⟩⟩ (by norm_num [Vec3f.Dot])
  ⟨by norm_num [Vec3f.Dot], h.choose, h.choose_spec.1, h.choose_spec.2.2.2.1⟩

/-- Cauchy-Schwarz for unit vectors: the squared cosine is at most one. -/
theorem Dot_sq_le_one (a b : Vec3f) (ha : Vec3f.Dot a a = 1) (hb : Vec3f.Dot b b = 1) :
    Vec3f.Dot a b * Vec3f.Dot a b ≤ 1 := by
  have hL : Vec3f.Dot (Vec3f.Cross a b) (Vec3f.Cross a b) =
      Vec3f.Dot a a * Vec3f.Dot b b - Vec3f.Dot a b * Vec3f.Dot a b := by
    simp only [Vec3f.Dot, Vec3f.Cross]
    ring
  have hnn : 0 ≤ Vec3f.Dot (Vec3f.Cross a b) (Vec3f.Cross a b) := by
    simp only [Vec3f.Dot]
    exact add_nonneg (add_nonneg (mul_self_nonneg _) (mul_self_nonneg _)) (mul_self_nonneg _)
  rw [hL, ha, hb] at hnn
  linarith

/-- `Refract` in the case of total internal reflection: it returns `false` and
leaves the output vector alone. -/
theorem Refract_false (wi n : Vec3f) (eta : ℝ) (wt : Vec3f)
    (h : eta * eta * max 0 (1 - Vec3f.Dot n wi * Vec3f.Dot n wi) ≥ 1) :
    Refract wi n eta wt = some (false, wt) := by
  unfold Refract
  simp only
  rw [if_pos h]

/-- `Refract` without total internal reflection, for unit vectors: it returns
`true` and writes the unit vector
`eta * -wi + (eta * cos_theta_I - cos_theta_T) * n`, whose cosine with the normal
is `-cos_theta_T < 0`. -/
theorem Refract_true (wi n : Vec3f) (eta : ℝ) (wt : Vec3f)
    (hwi : Vec3f.Dot wi wi = 1) (hn : Vec3f.Dot n n = 1)
    (h : ¬ eta * eta * max 0 (1 - Vec3f.Dot n wi * Vec3f.Dot n wi) ≥ 1) :
    Refract wi n eta wt = some (true,
        Vec3f.add (Vec3f.smul eta (Vec3f.neg wi))
          (Vec3f.smul (eta * Vec3f.Dot n wi -
            Real.sqrt (1 - eta * eta * max 0 (1 - Vec3f.Dot n wi * Vec3f.Dot n wi))) n)) ∧
      Vec3f.Dot n (Vec3f.add (Vec3f.smul eta (Vec3f.neg wi))
          (Vec3f.smul (eta * Vec3f.Dot n wi -
            Real.sqrt (1 - eta * eta * max 0 (1 - Vec3f.Dot n wi * Vec3f.Dot n wi))) n)) =
        -Real.sqrt (1 - eta * eta * max 0 (1 - Vec3f.Dot n wi * Vec3f.Dot n wi)) ∧
      0 < Real.sqrt (1 - eta * eta * max 0 (1 - Vec3f.Dot n wi * Vec3f.Dot n wi)) := by
  have hcs := Dot_sq_le_one n wi hn hwi
  have hmax : max 0 (1 - Vec3f.Dot n wi * Vec3f.Dot n wi) = 1 - Vec3f.Dot n wi * Vec3f.Dot n wi :=
    max_eq_right (by linarith)
  have hlt : eta * eta * max 0 (1 - Vec3f.Dot n wi * Vec3f.Dot n wi) < 1 := not_le.mp h
  have hpos : 0 < 1 - eta * eta * max 0 (1 - Vec3f.Dot n wi * Vec3f.Dot n wi) := by linarith
  have hsq := Real.mul_self_sqrt (le_of_lt hpos)
  have hspos := Real.sqrt_pos.mpr hpos
  have hdot : Vec3f.Dot n (Vec3f.add (Vec3f.smul eta (Vec3f.neg wi))
      (Vec3f.smul (eta * Vec3f.Dot n wi -
        Real.sqrt (1 - eta * eta * max 0 (1 - Vec3f.Dot n wi * Vec3f.Dot n wi))) n)) =
      -Real.sqrt (1 - eta * eta * max 0 (1 - Vec3f.Dot n wi * Vec3f.Dot n wi)) := by
    generalize Real.sqrt (1 - eta * eta * max 0 (1 - Vec3f.Dot n wi * Vec3f.Dot n wi)) = s
    simp only [Vec3f.Dot, Vec3f.add, Vec3f.smul, Vec3f.neg] at hn ⊢
    linear_combination (eta * (n.x * wi.x + n.y * wi.y + n.z * wi.z) - s) * hn
  have hunit : Vec3f.Dot (Vec3f.add (Vec3f.smul eta (Vec3f.neg wi))
      (Vec3f.smul (eta * Vec3f.Dot n wi -
        Real.sqrt (1 - eta * eta * max 0 (1 - Vec3f.Dot n wi * Vec3f.Dot n wi))) n))
      (Vec3f.add (Vec3f.smul eta (Vec3f.neg wi))
      (Vec3f.smul (eta * Vec3f.Dot n wi -
        Real.sqrt (1 - eta * eta * max 0 (1 - Vec3f.Dot n wi * Vec3f.Dot n wi))) n)) = 1 := by
    rw [hmax] at hsq ⊢
    generalize Real.sqrt (1 - eta * eta * (1 - Vec3f.Dot n wi * Vec3f.Dot n wi)) = s at hsq ⊢
    simp only [Vec3f.Dot, Vec3f.add, Vec3f.smul, Vec3f.neg] at hn hwi hsq ⊢
    linear_combination
      (eta * (n.x * wi.x + n.y * wi.y + n.z * wi.z) - s) ^ 2 * hn + eta ^ 2 * hwi + hsq
  refine ⟨?_, hdot, hspos⟩
  unfold Refract
  simp only
  rw [if_neg h, Normalize_unit hunit, if_pos hunit]

/-- `PerfectRefraction::sample` when `Refract` reports total internal reflection:
the mirror direction is stored and returned, the density is `1`. -/
theorem sample_of_Refract_false (self : bsdf.PerfectRefraction) (ia : bsdf.SurfaceInteraction)
    (w : Vec3f)
    (h : Refract ia.wo ia.shading_n
      (if Vec3f.Dot ia.shading_n ia.wo > 0 then self.eta else 1 / self.eta) ⟨0, 0, 0⟩ =
        some (false, w)) :
    self.sample ia =
      some (Reflect ia.wo ia.shading_n, { ia with wi := Reflect ia.wo ia.shading_n }, 1) := by
  unfold bsdf.PerfectRefraction.sample
  simp only [decide_eq_true_eq, h]
  simp

/-- `PerfectRefraction::sample` when `Refract` succeeds: the vector written by
`Refract` is stored and returned, the density is `1`. -/
theorem sample_of_Refract_true (self : bsdf.PerfectRefraction) (ia : bsdf.SurfaceInteraction)
    (w : Vec3f)
    (h : Refract ia.wo ia.shading_n
      (if Vec3f.Dot ia.shading_n ia.wo > 0 then self.eta else 1 / self.eta) ⟨0, 0, 0⟩ =
        some (true, w)) :
    self.sample ia = some (w, { ia with wi := w }, 1) := by
  unfold bsdf.PerfectRefraction.sample
  simp only [decide_eq_true_eq, h]
  simp

/-- Without total internal reflection, for unit `wo` and unit shading normal `n`,
the direction produced by `PerfectRefraction::sample` always has a negative
cosine with `n`, whether the ray enters (`Dot(n, wo) > 0`) or exits
(`Dot(n, wo) < 0`). -/
theorem sample_refracted_below_normal (self : bsdf.PerfectRefraction)
    (ia : bsdf.SurfaceInteraction) (hwo : Vec3f.Dot ia.wo ia.wo = 1)
    (hn : Vec3f.Dot ia.shading_n ia.shading_n = 1)
    (h : ¬ (if Vec3f.Dot ia.shading_n ia.wo > 0 then self.eta else 1 / self.eta) *
        (if Vec3f.Dot ia.shading_n ia.wo > 0 then self.eta else 1 / self.eta) *
        max 0 (1 - Vec3f.Dot ia.shading_n ia.wo * Vec3f.Dot ia.shading_n ia.wo) ≥ 1) :
    ∃ wi, self.sample ia = some (wi, { ia with wi := wi }, 1) ∧
      Vec3f.Dot ia.shading_n wi < 0 := by
  obtain ⟨h1, h2, h3⟩ := Refract_true ia.wo ia.shading_n _ ⟨0, 0, 0⟩ hwo hn h
  refine ⟨_, sample_of_Refract_true self ia _ h1, ?_⟩
  rw [h2]
  linarith

/-- Claim C19 (total-internal-reflection fallback): whenever
`sin2_theta_T = eta_corrected^2 * max(0, 1 - Dot(n, wo)^2) >= 1`, with
`eta_corrected = eta` if `Dot(n, wo) > 0` and `1 / eta` otherwise, `Refract`
returns `false` and `PerfectRefraction::sample` returns, and stores in
`interaction.wi`, exactly `Reflect(wo, n) = -wo + 2 * Dot(wo, n) * n`, with the
density set to `1`.  The directions need not even be unit vectors. -/
theorem PerfectRefraction_sample_total_internal_reflection (self : bsdf.PerfectRefraction)
    (ia : bsdf.SurfaceInteraction)
    (hT : (if Vec3f.Dot ia.shading_n ia.wo > 0 then self.eta else 1 / self.eta) *
        (if Vec3f.Dot ia.shading_n ia.wo > 0 then self.eta else 1 / self.eta) *
        max 0 (1 - Vec3f.Dot ia.shading_n ia.wo * Vec3f.Dot ia.shading_n ia.wo) ≥ 1) :
    (∀ wt, Refract ia.wo ia.shading_n
        (if Vec3f.Dot ia.shading_n ia.wo > 0 then self.eta else 1 / self.eta) wt =
          some (false, wt)) ∧
      self.sample ia =
        some (Reflect ia.wo ia.shading_n, { ia with wi := Reflect ia.wo ia.shading_n }, 1) ∧
      Reflect ia.wo ia.shading_n =
        Vec3f.add (Vec3f.neg ia.wo)
          (Vec3f.smul (2 * Vec3f.Dot ia.wo ia.shading_n) ia.shading_n) :=
  ⟨fun wt => Refract_false ia.wo ia.shading_n _ wt hT,
    sample_of_Refract_false self ia _ (Refract_false ia.wo ia.shading_n _ _ hT), rfl⟩

/-- Witness of claim C19: with `eta = 3/2`, the unit normal `(0, 0, 1)` and the
unit direction `wo = (4/5, 0, 3/5)`, `sin2_theta_T = 36/25 >= 1` and the sample is
the mirror direction `(-4/5, 0, 3/5)`. -/
theorem PerfectRefraction_sample_total_internal_reflection_witness :
    (Vec3f.Dot (⟨4 / 5, 0, 3 / 5⟩ : Vec3f) ⟨4 / 5, 0, 3 / 5⟩ = 1 ∧
      Vec3f.Dot (⟨0, 0, 1⟩ : Vec3f) ⟨0, 0, 1⟩ = 1) ∧
      bsdf.PerfectRefraction.sample ⟨3 / 2⟩ ⟨⟨4 / 5, 0, 3 / 5⟩, ⟨0, 0, 0⟩, ⟨0, 0, 1⟩⟩ =
        some (Reflect ⟨4 / 5, 0, 3 / 5⟩ ⟨0, 0, 1⟩,
          ⟨⟨4 / 5, 0, 3 / 5⟩, Reflect ⟨4 / 5, 0, 3 / 5⟩ ⟨0, 0, 1⟩, ⟨0, 0, 1⟩⟩, 1) ∧
      Reflect ⟨4 / 5, 0, 3 / 5⟩ ⟨0, 0, 1⟩ = ⟨-(4 / 5), 0, 3 / 5⟩ :=
  ⟨⟨by norm_num [Vec3f.Dot], by norm_num [Vec3f.Dot]⟩,
    (PerfectRefraction_sample_total_internal_reflection ⟨3 / 2⟩
      ⟨⟨4 / 5, 0, 3 / 5⟩, ⟨0, 0, 0⟩, ⟨0, 0, 1⟩⟩ (by
        norm_num [Vec3f.Dot])).2.1,
    by norm_num [Reflect, Vec3f.Dot, Vec3f.add, Vec3f.neg, Vec3f.smul]⟩

/-- Claim C20 fails on the code in the exiting case.  With `eta = 3/2`, the unit
shading normal `n = (0, 0, 1)` and the unit direction `wo = (0, 0, -1)` (the ray
exits along the normal, there is no total internal reflection),
`PerfectRefraction::sample` returns and stores `wi = (0, 0, -1)`: `Dot(n, wi)` and
`Dot(n, wo)` are both negative, the sampled direction is on the same side of the
surface as `wo`. -/
theorem PerfectRefraction_sample_exiting_same_side :
    (Vec3f.Dot (⟨0, 0, -1⟩ : Vec3f) ⟨0, 0, -1⟩ = 1 ∧
      Vec3f.Dot (⟨0, 0, 1⟩ : Vec3f) ⟨0, 0, 1⟩ = 1 ∧
      Vec3f.Dot (⟨0, 0, 1⟩ : Vec3f) ⟨0, 0, -1⟩ ≠ 0 ∧
      ¬ ((1 / (3 / 2) : ℝ) * (1 / (3 / 2)) *
        max 0 (1 - Vec3f.Dot (⟨0, 0, 1⟩ : Vec3f) ⟨0, 0, -1⟩ *
          Vec3f.Dot (⟨0, 0, 1⟩ : Vec3f) ⟨0, 0, -1⟩) ≥ 1)) ∧
      bsdf.PerfectRefraction.sample ⟨3 / 2⟩ ⟨⟨0, 0, -1⟩, ⟨0, 0, 0⟩, ⟨0, 0, 1⟩⟩ =
        some (⟨0, 0, -1⟩, ⟨⟨0, 0, -1⟩, ⟨0, 0, -1⟩, ⟨0, 0, 1⟩⟩, 1) ∧
      Vec3f.Dot (⟨0, 0, 1⟩ : Vec3f) ⟨0, 0, -1⟩ < 0 := by
  refine ⟨⟨by norm_num [Vec3f.Dot], by norm_num [Vec3f.Dot], by norm_num [Vec3f.Dot],
    by norm_num [Vec3f.Dot]⟩, ?_, by norm_num [Vec3f.Dot]⟩
  have hR : Refract (⟨0, 0, -1⟩ : Vec3f) ⟨0, 0, 1⟩ (1 / (3 / 2)) ⟨0, 0, 0⟩ =
      some (true, ⟨0, 0, -1⟩) := by
    have hunit : Vec3f.Dot (⟨0, 0, -1⟩ : Vec3f) ⟨0, 0, -1⟩ = 1 := by norm_num [Vec3f.Dot]
    unfold Refract
    norm_num [Vec3f.Dot, Vec3f.add, Vec3f.smul, Vec3f.neg]
    rw [Normalize_unit hunit]
    norm_num [Vec3f.Dot]
  have h := sample_of_Refract_true ⟨3 / 2⟩ ⟨⟨0, 0, -1⟩, ⟨0, 0, 0⟩, ⟨0, 0, 1⟩⟩ ⟨0, 0, -1⟩ (by
    have hc : ¬ Vec3f.Dot (⟨0, 0, 1⟩ : Vec3f) ⟨0, 0, -1⟩ > 0 := by norm_num [Vec3f.Dot]
    simp only [if_neg hc]
    exact hR)
  exact h

/-! ## Sampling warps -/

/-- Claim C24: for every `u` in `[0, 1)^2`, `UniformSampleDisk(u)` has Euclidean
norm `sqrt(u.x)`, which is at most `1`; `u.y` may be any number. -/
theorem UniformSampleDisk_norm (u : Vec2f) (hx : 0 ≤ u.x ∧ u.x < 1) :
    Real.sqrt ((UniformSampleDisk u).x * (UniformSampleDisk u).x +
        (UniformSampleDisk u).y * (UniformSampleDisk u).y) = Real.sqrt u.x ∧
      Real.sqrt ((UniformSampleDisk u).x * (UniformSampleDisk u).x +
        (UniformSampleDisk u).y * (UniformSampleDisk u).y) ≤ 1 := by
  have hsq : Real.sqrt u.x * Real.sqrt u.x = u.x := Real.mul_self_sqrt hx.1
  have hcs := Real.cos_sq_add_sin_sq (2 * PI * u.y)
  have h : (UniformSampleDisk u).x * (UniformSampleDisk u).x +
      (UniformSampleDisk u).y * (UniformSampleDisk u).y = u.x := by
    simp only [UniformSampleDisk]
    linear_combination (Real.sqrt u.x * Real.sqrt u.x) * hcs + hsq
  rw [h]
  refine ⟨rfl, ?_⟩
  calc Real.sqrt u.x ≤ Real.sqrt 1 := Real.sqrt_le_sqrt (le_of_lt hx.2)
    _ = 1 := Real.sqrt_one


/-- Witness of claim C24: the sample `u = (1/4, 0)`. -/
theorem UniformSampleDisk_norm_witness :
    ((0 : ℝ) ≤ 1 / 4 ∧ (1 / 4 : ℝ) < 1) ∧
      Real.sqrt ((UniformSampleDisk ⟨1 / 4, 0⟩).x * (UniformSampleDisk ⟨1 / 4, 0⟩).x +
        (UniformSampleDisk ⟨1 / 4, 0⟩).y * (UniformSampleDisk ⟨1 / 4, 0⟩).y) ≤ 1 :=
  ⟨⟨by norm_num, by norm_num⟩,
    (UniformSampleDisk_norm ⟨1 / 4, 0⟩ ⟨by norm_num, by norm_num⟩).2⟩

/-- A spherical direction built from a sine and a cosine is a unit vector. -/
theorem SphericalDirection_unit (s c phi : ℝ) (h : s * s + c * c = 1) :
    Vec3f.Dot (SphericalDirection s c phi) (SphericalDirection s c phi) = 1 := by
  have hcs := Real.cos_sq_add_sin_sq phi
  simp only [SphericalDirection, Vec3f.Dot]
  linear_combination (s * s) * hcs + h

/-- Claim C25: for every `u` in `[0, 1)^2`, `UniformSampleHemisphere(u)` is a unit
vector whose z component equals `1 - u.x` and is therefore non-negative; `u.y`
may be any number. -/
theorem UniformSampleHemisphere_unit (u : Vec2f) (hx : 0 ≤ u.x ∧ u.x < 1) :
    Vec3f.Norm (UniformSampleHemisphere u) = 1 ∧
      (UniformSampleHemisphere u).z = 1 - u.x ∧ 0 ≤ (UniformSampleHemisphere u).z := by
  have hz : (UniformSampleHemisphere u).z = 1 - u.x := by
    simp only [UniformSampleHemisphere, SphericalDirection.ofAngles, SphericalDirection]
    exact Real.cos_arccos (by linarith [hx.2]) (by linarith [hx.1])
  refine ⟨?_, hz, by rw [hz]; linarith [hx.2]⟩
  apply Norm_eq_one
  simp only [UniformSampleHemisphere, SphericalDirection.ofAngles]
  apply SphericalDirection_unit
  have := Real.sin_sq_add_cos_sq (Real.arccos (1 - u.x))
  linear_combination this

/-- Witness of claim C25: the sample `u = (1/4, 0)`. -/
theorem UniformSampleHemisphere_unit_witness :
    ((0 : ℝ) ≤ 1 / 4 ∧ (1 / 4 : ℝ) < 1) ∧
      Vec3f.Norm (UniformSampleHemisphere ⟨1 / 4, 0⟩) = 1 ∧
      (UniformSampleHemisphere ⟨1 / 4, 0⟩).z = 1 - 1 / 4 :=
  ⟨⟨by norm_num, by norm_num⟩,
    (UniformSampleHemisphere_unit ⟨1 / 4, 0⟩ ⟨by norm_num, by norm_num⟩).1,
    (UniformSampleHemisphere_unit ⟨1 / 4, 0⟩ ⟨by norm_num, by norm_num⟩).2.1⟩

/-- One axis of the slab test: for a non-empty slab `[l, u]` and a direction
component `d != 0` with exact reciprocal, the ray coordinate `o + t * d` lies in
the slab exactly when `t` lies between the smaller and the larger plane
parameter. -/
theorem slab_axis (l u o d t : ℚ) (hlu : l ≤ u) (hd : d ≠ 0) :
    (l ≤ o + t * d ∧ o + t * d ≤ u) ↔
      (min ((l - o) * (1 / d)) ((u - o) * (1 / d)) ≤ t ∧
        t ≤ max ((l - o) * (1 / d)) ((u - o) * (1 / d))) := by
  rcases lt_or_gt_of_ne hd with hneg | hpos
  · have hinv : 1 / d < 0 := one_div_neg.mpr hneg
    have hle : (u - o) * (1 / d) ≤ (l - o) * (1 / d) :=
      mul_le_mul_of_nonpos_right (by linarith) (le_of_lt hinv)
    rw [min_eq_right hle, max_eq_left hle, mul_one_div, mul_one_div, div_le_iff_of_neg hneg,
      le_div_iff_of_neg hneg]
    constructor
    · rintro ⟨h1, h2⟩
      exact ⟨by linarith, by linarith⟩
    · rintro ⟨h1, h2⟩
      exact ⟨by linarith, by linarith⟩
  · have hinv : 0 < 1 / d := one_div_pos.mpr hpos
    have hle : (l - o) * (1 / d) ≤ (u - o) * (1 / d) :=
      mul_le_mul_of_nonneg_right (by linarith) (le_of_lt hinv)
    rw [min_eq_left hle, max_eq_right hle, mul_one_div, mul_one_div, div_le_iff₀ hpos,
      le_div_iff₀ hpos]
    constructor
    · rintro ⟨h1, h2⟩
      exact ⟨by linarith, by linarith⟩
    · rintro ⟨h1, h2⟩
      exact ⟨by linarith, by linarith⟩

/-- For a box with `low_bnd <= upper_bnd`, a direction without zero component and
the exact reciprocal direction, the ray point at `t` lies in the box exactly when
`t` lies between the slab entry and the slab exit parameter. -/
theorem contains_point_iff (self : AABB ℚ) (ray : Ray) (t : ℚ)
    (hbox : self.low_bnd.x ≤ self.upper_bnd.x ∧ self.low_bnd.y ≤ self.upper_bnd.y ∧
      self.low_bnd.z ≤ self.upper_bnd.z)
    (hdir : ray.direction.x ≠ 0 ∧ ray.direction.y ≠ 0 ∧ ray.direction.z ≠ 0)
    (hinv : ray.safe_inverse_direction =
      ⟨1 / ray.direction.x, 1 / ray.direction.y, 1 / ray.direction.z⟩) :
    self.contains (ray.point t) ↔ (self.slabEnter ray ≤ t ∧ t ≤ self.slabExit ray) := by
  obtain ⟨⟨lx, ly, lz⟩, ⟨ux, uy, uz⟩⟩ := self
  obtain ⟨⟨ox, oy, oz⟩, ⟨dx, dy, dz⟩, inv, tmin, tmax⟩ := ray
  simp only at hbox hdir hinv
  subst hinv
  have hx := slab_axis lx ux ox dx t hbox.1 hdir.1
  have hy := slab_axis ly uy oy dy t hbox.2.1 hdir.2.1
  have hz := slab_axis lz uz oz dz t hbox.2.2 hdir.2.2
  simp only [AABB.contains, Ray.point, Vec3.add, Vec3.smul, AABB.slabEnter, AABB.slabExit,
    Vec3.sub, Vec3.mul, Vec3.Min, Vec3.Max, ReduceMax, ReduceMin]
  rw [max_le_iff, max_le_iff, le_min_iff, le_min_iff, hx, hy, hz]
  constructor
  · rintro ⟨⟨a1, a2⟩, ⟨b1, b2⟩, c1, c2⟩
    exact ⟨⟨a1, b1, c1⟩, a2, b2, c2⟩
  · rintro ⟨⟨a1, b1, c1⟩, a2, b2, c2⟩
    exact ⟨⟨a1, a2⟩, ⟨b1, b2⟩, c1, c2⟩

/-- Claim C28 (geometric correctness of the slab test): for a box with
`low_bnd <= upper_bnd` on every axis and a ray whose direction has no zero
component and whose `safe_inverse_direction` is the exact componentwise
reciprocal of the direction, `AABB::intersect` returns `true` if and only if some
`t` in `[t_min, t_max]` has `origin + t * direction` inside the box, and then
`[t_in, t_out]` is exactly the set of such `t`. -/
theorem AABB_intersect_geometric (self : AABB ℚ) (ray : Ray) (t_in t_out : ℚ)
    (hbox : self.low_bnd.x ≤ self.upper_bnd.x ∧ self.low_bnd.y ≤ self.upper_bnd.y ∧
      self.low_bnd.z ≤ self.upper_bnd.z)
    (hdir : ray.direction.x ≠ 0 ∧ ray.direction.y ≠ 0 ∧ ray.direction.z ≠ 0)
    (hinv : ray.safe_inverse_direction =
      ⟨1 / ray.direction.x, 1 / ray.direction.y, 1 / ray.direction.z⟩) :
    ((self.intersect ray t_in t_out).1 = true ↔
        ∃ t, (ray.t_min ≤ t ∧ t ≤ ray.t_max) ∧ self.contains (ray.point t)) ∧
      ((self.intersect ray t_in t_out).1 = true →
        ∀ t, ((ray.t_min ≤ t ∧ t ≤ ray.t_max) ∧ self.contains (ray.point t)) ↔
          ((self.intersect ray t_in t_out).2.1 ≤ t ∧
            t ≤ (self.intersect ray t_in t_out).2.2)) := by
  have hc := fun t => contains_point_iff self ray t hbox hdir hinv
  rw [AABB_intersect_eq]
  constructor
  · constructor
    · intro h
      split_ifs at h with hcond
      obtain ⟨h1, h2⟩ := hcond
      refine ⟨max (self.slabEnter ray) ray.t_min, ⟨le_max_right _ _, ?_⟩, ?_⟩
      · exact le_trans h1 (min_le_right _ _)
      · rw [hc]
        exact ⟨le_max_left _ _, le_trans h1 (min_le_left _ _)⟩
    · rintro ⟨t, ⟨ht1, ht2⟩, hin⟩
      rw [hc] at hin
      rw [if_pos ⟨le_trans (max_le hin.1 ht1) (le_min hin.2 ht2), le_trans hin.1 hin.2⟩]
  · intro h t
    split_ifs at h ⊢ with hcond
    rw [hc]
    simp only [max_le_iff, le_min_iff]
    tauto

/-- Witness of claim C28: the unit cube and a diagonal ray from `(-1, -1, -1)`
with direction `(1, 1, 1)`: it is inside the cube exactly for `t` in `[1, 2]`. -/
theorem AABB_intersect_geometric_witness :
    ((sampleBox.low_bnd.x ≤ sampleBox.upper_bnd.x ∧ sampleBox.low_bnd.y ≤ sampleBox.upper_bnd.y ∧
        sampleBox.low_bnd.z ≤ sampleBox.upper_bnd.z) ∧
      ((1 : ℚ) ≠ 0 ∧ (1 : ℚ) ≠ 0 ∧ (1 : ℚ) ≠ 0)) ∧
      sampleBox.intersect ⟨⟨-1, -1, -1⟩, ⟨1, 1, 1⟩, ⟨1 / 1, 1 / 1, 1 / 1⟩, 0, 10⟩ 0 0 =
        (true, 1, 2) ∧
      ((sampleBox.intersect ⟨⟨-1, -1, -1⟩, ⟨1, 1, 1⟩, ⟨1 / 1, 1 / 1, 1 / 1⟩, 0, 10⟩ 0 0).1 = true ↔
        ∃ t, ((0 : ℚ) ≤ t ∧ t ≤ 10) ∧
          sampleBox.contains
            (Ray.point ⟨⟨-1, -1, -1⟩, ⟨1, 1, 1⟩, ⟨1 / 1, 1 / 1, 1 / 1⟩, 0, 10⟩ t)) :=
  ⟨⟨by simp [sampleBox], by norm_num⟩,
    by
      simp [AABB.intersect, sampleBox, Vec3.sub, Vec3.mul, Vec3.Min, Vec3.Max, ReduceMax,
        ReduceMin]
      norm_num,
    (AABB_intersect_geometric sampleBox
      ⟨⟨-1, -1, -1⟩, ⟨1, 1, 1⟩, ⟨1 / 1, 1 / 1, 1 / 1⟩, 0, 10⟩ 0 0 (by simp [sampleBox])
      (by norm_num) rfl).1⟩


/-! ## Snell's law: `Refract` -/

/-- The inner product is symmetric. -/
theorem Dot_comm (a b : Vec3f) : Vec3f.Dot a b = Vec3f.Dot b a := by
  simp only [Vec3f.Dot]
  ring

/-- A vector written by a successful `Refract` is a unit vector. -/
theorem Refract_true_unit {wi n : Vec3f} {eta : ℝ} {wt0 w : Vec3f}
    (h : Refract wi n eta wt0 = some (true, w)) : Vec3f.Dot w w = 1 := by
  unfold Refract at h
  simp only at h
  split_ifs at h with h1 h2
  · simp at h
  · simp only [Option.some.injEq, Prod.mk.injEq, true_and] at h
    rw [← h]
    exact h2

/-- `Refract` returns `false` only in the branch of total internal reflection. -/
theorem Refract_false_inv {wi n : Vec3f} {eta : ℝ} {wt0 w : Vec3f}
    (h : Refract wi n eta wt0 = some (false, w)) :
    eta * eta * max 0 (1 - Vec3f.Dot n wi * Vec3f.Dot n wi) ≥ 1 := by
  unfold Refract at h
  simp only at h
  split_ifs at h with h1 h2
  · exact h1
  · simp at h

/-- Claim C29 (Snell's law for `Refract`): for unit vectors `wi` and `n` and every
`eta` with `eta^2 * (1 - Dot(n, wi)^2) < 1`, `Refract` returns `true` and writes a
unit vector `wt` whose component perpendicular to `n` is `-eta` times the
perpendicular component of `wi` and whose normal component is
`Dot(wt, n) = -sqrt(1 - eta^2 * (1 - Dot(n, wi)^2))`; it returns `false` exactly
when `eta^2 * max(0, 1 - Dot(n, wi)^2) >= 1`.  The sign of `eta` plays no role. -/
theorem Refract_snell (wi n : Vec3f) (eta : ℝ) (wt0 : Vec3f) (hwi : Vec3f.Dot wi wi = 1)
    (hn : Vec3f.Dot n n = 1) :
    (eta * eta * (1 - Vec3f.Dot n wi * Vec3f.Dot n wi) < 1 →
      ∃ wt, Refract wi n eta wt0 = some (true, wt) ∧ Vec3f.Norm wt = 1 ∧
        Vec3f.perp wt n = Vec3f.smul (-eta) (Vec3f.perp wi n) ∧
        Vec3f.Dot wt n =
          -Real.sqrt (1 - eta * eta * (1 - Vec3f.Dot n wi * Vec3f.Dot n wi))) ∧
      ((∃ w, Refract wi n eta wt0 = some (false, w)) ↔
        eta * eta * max 0 (1 - Vec3f.Dot n wi * Vec3f.Dot n wi) ≥ 1) := by
  have hcs := Dot_sq_le_one n wi hn hwi
  have hmax : max 0 (1 - Vec3f.Dot n wi * Vec3f.Dot n wi) = 1 - Vec3f.Dot n wi * Vec3f.Dot n wi :=
    max_eq_right (by linarith)
  constructor
  · intro hlt
    have hnot : ¬ eta * eta * max 0 (1 - Vec3f.Dot n wi * Vec3f.Dot n wi) ≥ 1 := by
      rw [hmax]
      exact not_le.mpr hlt
    obtain ⟨h1, h2, _⟩ := Refract_true wi n eta wt0 hwi hn hnot
    rw [hmax] at h1 h2
    refine ⟨_, h1, Norm_eq_one (Refract_true_unit h1), ?_, ?_⟩
    · unfold Vec3f.perp
      rw [Dot_comm _ n, h2, Dot_comm wi n]
      generalize Real.sqrt (1 - eta * eta * (1 - Vec3f.Dot n wi * Vec3f.Dot n wi)) = s
      generalize Vec3f.Dot n wi = c
      simp only [Vec3f.sub, Vec3f.smul, Vec3f.add, Vec3f.neg, Vec3.mk.injEq]
      refine ⟨?_, ?_, ?_⟩ <;> ring
    · rw [Dot_comm _ n, h2]
  · constructor
    · rintro ⟨w, hw⟩
      exact Refract_false_inv hw
    · intro h
      exact ⟨wt0, Refract_false wi n eta wt0 h⟩

/-- Witness of claim C29: normal incidence, `wi = n = (0, 0, 1)` and
`eta = 2/3`. -/
theorem Refract_snell_witness :
    (Vec3f.Dot (⟨0, 0, 1⟩ : Vec3f) ⟨0, 0, 1⟩ = 1 ∧
      (2 / 3 : ℝ) * (2 / 3) *
        (1 - Vec3f.Dot (⟨0, 0, 1⟩ : Vec3f) ⟨0, 0, 1⟩ * Vec3f.Dot (⟨0, 0, 1⟩ : Vec3f) ⟨0, 0, 1⟩)
        < 1) ∧
      ∃ wt, Refract ⟨0, 0, 1⟩ ⟨0, 0, 1⟩ (2 / 3) ⟨0, 0, 0⟩ = some (true, wt) ∧
        Vec3f.Norm wt = 1 ∧
        Vec3f.perp wt ⟨0, 0, 1⟩ = Vec3f.smul (-(2 / 3)) (Vec3f.perp ⟨0, 0, 1⟩ ⟨0, 0, 1⟩) ∧
        Vec3f.Dot wt ⟨0, 0, 1⟩ =
          -Real.sqrt (1 - 2 / 3 * (2 / 3) *
            (1 - Vec3f.Dot (⟨0, 0, 1⟩ : Vec3f) ⟨0, 0, 1⟩ *
              Vec3f.Dot (⟨0, 0, 1⟩ : Vec3f) ⟨0, 0, 1⟩)) :=
  ⟨⟨by norm_num [Vec3f.Dot], by norm_num [Vec3f.Dot]⟩,
    (Refract_snell ⟨0, 0, 1⟩ ⟨0, 0, 1⟩ (2 / 3) ⟨0, 0, 0⟩ (by norm_num [Vec3f.Dot])
      (by norm_num [Vec3f.Dot])).1 (by norm_num [Vec3f.Dot])⟩


/-! ## The BSDF variants: `isDelta`, `Glass::sample`, `crossConfiguration` -/

/-- Claim C21: for every one of the four BSDF variants, if `isDelta()` is `true`
then `evaluate` returns the zero vector and `pdf` returns `0` for every
interaction; `isDelta()` is `true` exactly for `PerfectRefraction` and `Glass` and
`false` for `IdealDiffusion` and `MicrofacetReflection`. -/
theorem BSDF_isDelta_spec :
    (∀ (b : bsdf.BSDF) (ia : bsdf.SurfaceInteraction), b.isDelta = true →
        b.evaluate ia = some ⟨0, 0, 0⟩ ∧ b.pdf ia = 0) ∧
      (∀ b : bsdf.BSDF, b.isDelta = true ↔
        (∃ p, b = bsdf.BSDF.perfectRefraction p) ∨ (∃ g, b = bsdf.BSDF.glass g)) ∧
      (∀ b : bsdf.BSDF, b.isDelta = false ↔
        (∃ d, b = bsdf.BSDF.idealDiffusion d) ∨
          (∃ m, b = bsdf.BSDF.microfacetReflection m)) := by
  refine ⟨?_, ?_, ?_⟩
  · intro b ia h
    cases b with
    | idealDiffusion d => simp [bsdf.BSDF.isDelta, bsdf.IdealDiffusion.isDelta] at h
    | perfectRefraction p => exact ⟨rfl, rfl⟩
    | glass g => exact ⟨rfl, rfl⟩
    | microfacetReflection m =>
      simp [bsdf.BSDF.isDelta, bsdf.MicrofacetReflection.isDelta] at h
  · intro b
    cases b <;>
      simp [bsdf.BSDF.isDelta, bsdf.IdealDiffusion.isDelta, bsdf.PerfectRefraction.isDelta,
        bsdf.Glass.isDelta, bsdf.MicrofacetReflection.isDelta]
  · intro b
    cases b <;>
      simp [bsdf.BSDF.isDelta, bsdf.IdealDiffusion.isDelta, bsdf.PerfectRefraction.isDelta,
        bsdf.Glass.isDelta, bsdf.MicrofacetReflection.isDelta]

/-- The mirror direction of a unit vector about a unit normal is a unit vector. -/
theorem Reflect_unit (wo n : Vec3f) (hwo : Vec3f.Dot wo wo = 1) (hn : Vec3f.Dot n n = 1) :
    Vec3f.Dot (Reflect wo n) (Reflect wo n) = 1 := by
  simp only [Reflect, Vec3f.Dot, Vec3f.add, Vec3f.neg, Vec3f.smul] at *
  linear_combination hwo + 4 * (wo.x * n.x + wo.y * n.y + wo.z * n.z) ^ 2 * hn

/-- Counterexample to claim C22 as stated: for `wo = n = (0, 0, 1)` the call
`Glass::sample` returns the zero vector and leaves `interaction.wi` at its old
value `(0, 0, 0)`; the zero vector is neither the mirror direction `Reflect(wo, n)`
nor a vector written by a successful `Refract`, whatever the index of
refraction. -/
theorem Glass_sample_counterexample :
    (Vec3f.Dot (⟨0, 0, 1⟩ : Vec3f) ⟨0, 0, 1⟩ = 1) ∧
      bsdf.Glass.sample ⟨⟨1, 1, 1⟩, ⟨1, 1, 1⟩, 3 / 2⟩ ⟨⟨0, 0, 1⟩, ⟨0, 0, 0⟩, ⟨0, 0, 1⟩⟩ 0 =
        (⟨0, 0, 0⟩, ⟨⟨0, 0, 1⟩, ⟨0, 0, 0⟩, ⟨0, 0, 1⟩⟩, 0) ∧
      (⟨0, 0, 0⟩ : Vec3f) ≠ Reflect ⟨0, 0, 1⟩ ⟨0, 0, 1⟩ ∧
      ∀ (eta : ℝ) (wt0 w : Vec3f),
        Refract ⟨0, 0, 1⟩ ⟨0, 0, 1⟩ eta wt0 = some (true, w) → w ≠ ⟨0, 0, 0⟩ := by
  refine ⟨by norm_num [Vec3f.Dot], rfl, ?_, ?_⟩
  · intro h
    have hz := congrArg Vec3.z h
    norm_num [Reflect, Vec3f.Dot, Vec3f.add, Vec3f.neg, Vec3f.smul] at hz
  · intro eta wt0 w hw h0
    have hu := Refract_true_unit hw
    rw [h0] at hu
    norm_num [Vec3f.Dot] at hu

/-- Claim C22, amended: `Glass::sample` is an unimplemented stub; for every
interaction it returns the zero vector and leaves the interaction, including
`interaction.wi`, and the density behind `pdf` unchanged. -/
theorem Glass_sample_stub (self : bsdf.Glass) (ia : bsdf.SurfaceInteraction) (pdf : ℝ) :
    (self.sample ia pdf).1 = ⟨0, 0, 0⟩ ∧ (self.sample ia pdf).2.1 = ia ∧
      (self.sample ia pdf).2.1.wi = ia.wi ∧ (self.sample ia pdf).2.2 = pdf :=
  ⟨rfl, rfl, rfl, rfl⟩

/-- Claim C23: with a configured `texture_name`, `crossConfiguration` of
`IdealDiffusion` and of `MicrofacetReflection` throws if and only if that name is
absent from `context.textures`; when it throws, the object (its texture binding
included) and its properties are left as they were; when it does not, the binding
is exactly the texture mapped to that name (and the properties are cleared). -/
theorem crossConfiguration_spec (properties : bsdf.Properties)
    (context : bsdf.CrossConfigurationContext) (name : String)
    (hname : properties.getProperty "texture_name" = Except.ok name) :
    (∀ d : bsdf.IdealDiffusion,
      ((∃ msg, (d.crossConfiguration properties context).1 = Except.error msg) ↔
        context.textures.lookup name = none) ∧
      ((∃ msg, (d.crossConfiguration properties context).1 = Except.error msg) →
        (d.crossConfiguration properties context).2.1 = d ∧
          (d.crossConfiguration properties context).2.2 = properties) ∧
      (∀ tex, context.textures.lookup name = some tex →
        (d.crossConfiguration properties context).1 = Except.ok () ∧
          (d.crossConfiguration properties context).2.1 = { d with texture := tex } ∧
          (d.crossConfiguration properties context).2.2 = properties.clearProperties)) ∧
    (∀ m : bsdf.MicrofacetReflection,
      ((∃ msg, (m.crossConfiguration properties context).1 = Except.error msg) ↔
        context.textures.lookup name = none) ∧
      ((∃ msg, (m.crossConfiguration properties context).1 = Except.error msg) →
        (m.crossConfiguration properties context).2.1 = m ∧
          (m.crossConfiguration properties context).2.2 = properties) ∧
      (∀ tex, context.textures.lookup name = some tex →
        (m.crossConfiguration properties context).1 = Except.ok () ∧
          (m.crossConfiguration properties context).2.1 = { m with R := tex } ∧
          (m.crossConfiguration properties context).2.2 = properties.clearProperties)) := by
  constructor
  · intro d
    unfold bsdf.IdealDiffusion.crossConfiguration
    simp only [hname]
    cases hl : context.textures.lookup name with
    | none => simp
    | some tex => simp
  · intro m
    unfold bsdf.MicrofacetReflection.crossConfiguration
    simp only [hname]
    cases hl : context.textures.lookup name with
    | none => simp
    | some tex => simp

/-- Witness of claim C23: the name `wood` is configured and the context maps it to
a texture, so `crossConfiguration` succeeds. -/
theorem crossConfiguration_spec_witness :
    bsdf.Properties.getProperty ⟨[("texture_name", "wood")]⟩ "texture_name" =
        Except.ok "wood" ∧
      (bsdf.IdealDiffusion.crossConfiguration ⟨fun _ => ⟨0, 0, 0⟩, false⟩
          ⟨[("texture_name", "wood")]⟩ ⟨[("wood", fun _ => ⟨1, 1, 1⟩)]⟩).1 = Except.ok () :=
  ⟨rfl,
    ((crossConfiguration_spec ⟨[("texture_name", "wood")]⟩ ⟨[("wood", fun _ => ⟨1, 1, 1⟩)]⟩
      "wood" rfl).1 ⟨fun _ => ⟨0, 0, 0⟩, false⟩).2.2 (fun _ => ⟨1, 1, 1⟩) rfl |>.1⟩


/-! ## Two-sided symmetry of `IdealDiffusion::evaluate` -/

/-- Negating a vector twice gives it back. -/
theorem Vec3f_neg_neg (v : Vec3f) : Vec3f.neg (Vec3f.neg v) = v := by
  obtain ⟨x, y, z⟩ := v
  simp [Vec3f.neg]

/-- The dot product changes sign when its first argument is negated. -/
theorem Dot_neg_left (a b : Vec3f) : Vec3f.Dot (Vec3f.neg a) b = -Vec3f.Dot a b := by
  simp only [Vec3f.Dot, Vec3f.neg]
  ring

/-- The dot product changes sign when its second argument is negated. -/
theorem Dot_neg_right (a b : Vec3f) : Vec3f.Dot a (Vec3f.neg b) = -Vec3f.Dot a b := by
  simp only [Vec3f.Dot, Vec3f.neg]
  ring

/-- With a unit shading normal, the two-sided oriented normal is the shading
normal, negated exactly when `cosThetaO() < 0`. -/
theorem obtainOrientedNormal_twosided (ia : bsdf.SurfaceInteraction)
    (hn : Vec3f.Dot ia.shading_n ia.shading_n = 1) :
    bsdf.obtainOrientedNormal ia true =
      some (if Vec3f.Dot ia.shading_n ia.wo < 0 then Vec3f.neg ia.shading_n
        else ia.shading_n) := by
  unfold bsdf.obtainOrientedNormal bsdf.SurfaceInteraction.cosThetaO
  rw [if_pos hn]
  simp

/-- Counterexample to claim C30 as stated: for the two-sided diffuse BSDF with the
constant texture `(1, 1, 1)`, `wo = (1, 0, 0)` (so `Dot(n, wo) = 0`),
`wi = (0, 0, 1)` and `n = (0, 0, 1)`, the oriented normal is `n` for the
interaction and `-n` for the interaction with the normal negated, and `evaluate`
returns `(1, 1, 1) * INV_PI` for the first and the zero vector for the second. -/
theorem twosided_symmetry_counterexample :
    bsdf.obtainOrientedNormal ⟨⟨1, 0, 0⟩, ⟨0, 0, 1⟩, ⟨0, 0, 1⟩⟩ true = some ⟨0, 0, 1⟩ ∧
      bsdf.obtainOrientedNormal ⟨⟨1, 0, 0⟩, ⟨0, 0, 1⟩, Vec3f.neg ⟨0, 0, 1⟩⟩ true =
        some ⟨0, 0, -1⟩ ∧
      bsdf.IdealDiffusion.evaluate ⟨fun _ => ⟨1, 1, 1⟩, true⟩
          ⟨⟨1, 0, 0⟩, ⟨0, 0, 1⟩, ⟨0, 0, 1⟩⟩ = some (Vec3f.muls ⟨1, 1, 1⟩ bsdf.INV_PI) ∧
      bsdf.IdealDiffusion.evaluate ⟨fun _ => ⟨1, 1, 1⟩, true⟩
          ⟨⟨1, 0, 0⟩, ⟨0, 0, 1⟩, Vec3f.neg ⟨0, 0, 1⟩⟩ = some ⟨0, 0, 0⟩ ∧
      bsdf.IdealDiffusion.evaluate ⟨fun _ => ⟨1, 1, 1⟩, true⟩
          ⟨⟨1, 0, 0⟩, ⟨0, 0, 1⟩, ⟨0, 0, 1⟩⟩ ≠
        bsdf.IdealDiffusion.evaluate ⟨fun _ => ⟨1, 1, 1⟩, true⟩
          ⟨⟨1, 0, 0⟩, ⟨0, 0, 1⟩, Vec3f.neg ⟨0, 0, 1⟩⟩ := by
  have h1 : bsdf.obtainOrientedNormal ⟨⟨1, 0, 0⟩, ⟨0, 0, 1⟩, ⟨0, 0, 1⟩⟩ true =
      some ⟨0, 0, 1⟩ := by
    simp [bsdf.obtainOrientedNormal, bsdf.SurfaceInteraction.cosThetaO, Vec3f.Dot]
  have h2 : bsdf.obtainOrientedNormal ⟨⟨1, 0, 0⟩, ⟨0, 0, 1⟩, Vec3f.neg ⟨0, 0, 1⟩⟩ true =
      some ⟨0, 0, -1⟩ := by
    simp [bsdf.obtainOrientedNormal, bsdf.SurfaceInteraction.cosThetaO, Vec3f.Dot, Vec3f.neg]
  have e1 : bsdf.IdealDiffusion.evaluate ⟨fun _ => ⟨1, 1, 1⟩, true⟩
      ⟨⟨1, 0, 0⟩, ⟨0, 0, 1⟩, ⟨0, 0, 1⟩⟩ = some (Vec3f.muls ⟨1, 1, 1⟩ bsdf.INV_PI) := by
    unfold bsdf.IdealDiffusion.evaluate
    simp only [h1]
    norm_num [Vec3f.Dot]
  have e2 : bsdf.IdealDiffusion.evaluate ⟨fun _ => ⟨1, 1, 1⟩, true⟩
      ⟨⟨1, 0, 0⟩, ⟨0, 0, 1⟩, Vec3f.neg ⟨0, 0, 1⟩⟩ = some ⟨0, 0, 0⟩ := by
    unfold bsdf.IdealDiffusion.evaluate
    simp only [h2]
    norm_num [Vec3f.Dot]
  refine ⟨h1, h2, e1, e2, ?_⟩
  rw [e1, e2]
  intro h
  have hx := congrArg Vec3.x (Option.some.inj h)
  simp only [Vec3f.muls, bsdf.INV_PI, one_mul] at hx
  have hpi := Real.pi_pos
  have : (0 : ℝ) < 1 / Real.pi := by positivity
  linarith

/-- Claim C30, amended: for a two-sided `IdealDiffusion` and an interaction with a
unit shading normal `n`, the oriented normal always satisfies
`Dot(wo, normal) >= 0`; whenever `Dot(n, wo) ≠ 0`, the oriented normal is the same
for the interaction and for the interaction with `n` negated, it satisfies
`Dot(wo, normal) > 0`, and, the texture value not depending on the normal,
`evaluate` returns the same value for both, for all directions `wi`. -/
theorem twosided_symmetry (self : bsdf.IdealDiffusion) (htwo : self.twosided = true)
    (ia : bsdf.SurfaceInteraction) (hn : Vec3f.Dot ia.shading_n ia.shading_n = 1) :
    (∃ normal, bsdf.obtainOrientedNormal ia self.twosided = some normal ∧
        0 ≤ Vec3f.Dot ia.wo normal) ∧
      (Vec3f.Dot ia.shading_n ia.wo ≠ 0 →
        (∃ normal, bsdf.obtainOrientedNormal ia self.twosided = some normal ∧
          bsdf.obtainOrientedNormal { ia with shading_n := Vec3f.neg ia.shading_n }
            self.twosided = some normal ∧
          0 < Vec3f.Dot ia.wo normal) ∧
        (self.texture { ia with shading_n := Vec3f.neg ia.shading_n } = self.texture ia →
          self.evaluate ia =
            self.evaluate { ia with shading_n := Vec3f.neg ia.shading_n })) := by
  have hn2 : Vec3f.Dot (Vec3f.neg ia.shading_n) (Vec3f.neg ia.shading_n) = 1 := by
    rw [Dot_neg_left, Dot_neg_right, neg_neg, hn]
  have hN := obtainOrientedNormal_twosided ia hn
  have hN2 := obtainOrientedNormal_twosided { ia with shading_n := Vec3f.neg ia.shading_n } hn2
  simp only [Dot_neg_left, Vec3f_neg_neg] at hN2
  have hc : Vec3f.Dot ia.wo ia.shading_n = Vec3f.Dot ia.shading_n ia.wo := Dot_comm _ _
  rw [htwo]
  constructor
  · refine ⟨_, hN, ?_⟩
    by_cases h : Vec3f.Dot ia.shading_n ia.wo < 0
    · rw [if_pos h, Dot_neg_right, hc]
      linarith
    · rw [if_neg h, hc]
      linarith
  · intro hne
    have hsame : bsdf.obtainOrientedNormal { ia with shading_n := Vec3f.neg ia.shading_n } true =
        bsdf.obtainOrientedNormal ia true := by
      rw [hN, hN2]
      by_cases h : Vec3f.Dot ia.shading_n ia.wo < 0
      · have h2 : ¬ (-Vec3f.Dot ia.shading_n ia.wo < 0) := by linarith
        rw [if_pos h, if_neg h2]
      · have h2 : -Vec3f.Dot ia.shading_n ia.wo < 0 := by
          rcases lt_or_gt_of_ne hne with h3 | h3
          · exact absurd h3 h
          · linarith
        rw [if_neg h, if_pos h2]
    constructor
    · refine ⟨_, hN, ?_, ?_⟩
      · rw [hsame, hN]
      · by_cases h : Vec3f.Dot ia.shading_n ia.wo < 0
        · rw [if_pos h, Dot_neg_right, hc]
          linarith
        · rw [if_neg h, hc]
          rcases lt_or_gt_of_ne hne with h3 | h3
          · exact absurd h3 h
          · exact h3
    · intro htex
      unfold bsdf.IdealDiffusion.evaluate
      rw [htwo, hsame, htex]

/-- Witness of claim C30 (amended): the two-sided constant-texture BSDF seen from
below the shading normal, `wo = (0, 0, -1)` and `n = (0, 0, 1)`. -/
theorem twosided_symmetry_witness :
    (true = true ∧ Vec3f.Dot (⟨0, 0, 1⟩ : Vec3f) ⟨0, 0, 1⟩ = 1) ∧
      ∃ normal, bsdf.obtainOrientedNormal ⟨⟨0, 0, -1⟩, ⟨0, 0, -1⟩, ⟨0, 0, 1⟩⟩ true =
        some normal ∧ 0 ≤ Vec3f.Dot (⟨0, 0, -1⟩ : Vec3f) normal :=
  ⟨⟨rfl, by norm_num [Vec3f.Dot]⟩,
    (twosided_symmetry ⟨fun _ => ⟨1, 1, 1⟩, true⟩ rfl ⟨⟨0, 0, -1⟩, ⟨0, 0, -1⟩, ⟨0, 0, 1⟩⟩
      (by norm_num [Vec3f.Dot])).1⟩

/-! ## The Beckmann masking terms: `lambda`, `G1`, `G` -/

/-- The rational fit of `lambda` stays above `-1/10000` for every positive `a`. -/
theorem lambda_fit_lower (a : ℝ) (h0 : 0 < a) :
    -(1 / 10000) < BeckmannDistribution.lambda.fit a := by
  unfold BeckmannDistribution.lambda.fit
  have hden : 0 < 3.535 * a + 2.181 * a * a := by nlinarith [mul_pos h0 h0]
  rw [lt_div_iff₀ hden]
  nlinarith [sq_nonneg (a - 1.588), mul_pos h0 h0]

/-- The rational fit of `lambda` is non-negative for `0 < a <= 1.54`. -/
theorem lambda_fit_nonneg (a : ℝ) (h0 : 0 < a) (h1 : a ≤ 1.54) :
    0 ≤ BeckmannDistribution.lambda.fit a := by
  unfold BeckmannDistribution.lambda.fit
  have hden : 0 < 3.535 * a + 2.181 * a * a := by nlinarith [mul_pos h0 h0]
  apply div_nonneg _ (le_of_lt hden)
  nlinarith [mul_nonneg (sub_nonneg.mpr h1) (sub_nonneg.mpr h1)]

/-- The two outcomes of `lambda`: zero, or the rational fit at the value `a` of
the source, which then lies in `(0, 1.6)`. -/
theorem lambda_cases (self : BeckmannDistribution) (w : Vec3f) :
    (self.lambda w = 0 ∧
        (CosTheta w = 0 ∨ BeckmannDistribution.lambda.alpha self w * |TanTheta w| = 0 ∨
          BeckmannDistribution.lambda.a self w ≥ 1.6)) ∨
      (0 < BeckmannDistribution.lambda.a self w ∧ BeckmannDistribution.lambda.a self w < 1.6 ∧
        self.lambda w = BeckmannDistribution.lambda.fit (BeckmannDistribution.lambda.a self w)) := by
  unfold BeckmannDistribution.lambda BeckmannDistribution.lambda.a
    BeckmannDistribution.lambda.alpha BeckmannDistribution.lambda.fit
  simp only
  by_cases hc : CosTheta w = 0
  · left
    rw [if_pos hc]
    exact ⟨rfl, Or.inl hc⟩
  · rw [if_neg hc]
    by_cases hp : Real.sqrt (Cos2Phi w * self.alpha_x * self.alpha_x +
        Sin2Phi w * self.alpha_y * self.alpha_y) * |TanTheta w| = 0
    · left
      rw [if_pos hp]
      exact ⟨rfl, Or.inr (Or.inl hp)⟩
    · rw [if_neg hp]
      by_cases ha : 1 / (Real.sqrt (Cos2Phi w * self.alpha_x * self.alpha_x +
          Sin2Phi w * self.alpha_y * self.alpha_y) * |TanTheta w|) ≥ 1.6
      · left
        rw [if_pos ha]
        exact ⟨rfl, Or.inr (Or.inr ha)⟩
      · right
        rw [if_neg ha]
        have hpos : 0 < Real.sqrt (Cos2Phi w * self.alpha_x * self.alpha_x +
            Sin2Phi w * self.alpha_y * self.alpha_y) * |TanTheta w| :=
          lt_of_le_of_ne (mul_nonneg (Real.sqrt_nonneg _) (abs_nonneg _)) (Ne.symm hp)
        exact ⟨one_div_pos.mpr hpos, not_le.mp ha, rfl⟩

/-- The value of `lambda` is above `-1/10000` for every distribution and direction. -/
theorem lambda_lower (self : BeckmannDistribution) (w : Vec3f) :
    -(1 / 10000) < self.lambda w := by
  rcases lambda_cases self w with ⟨h, _⟩ | ⟨h0, _, h⟩
  · rw [h]
    norm_num
  · rw [h]
    exact lambda_fit_lower _ h0

/-- The spherical quantities of the sample direction `(4/5, 0, 3/5)`. -/
theorem sample_direction_steep :
    TanTheta ⟨4 / 5, 0, 3 / 5⟩ = 4 / 3 ∧ Cos2Phi ⟨4 / 5, 0, 3 / 5⟩ = 1 ∧
      Sin2Phi ⟨4 / 5, 0, 3 / 5⟩ = 0 := by
  have hs : SinTheta ⟨4 / 5, 0, 3 / 5⟩ = 4 / 5 := by
    unfold SinTheta Sin2Theta Cos2Theta
    rw [show max (0 : ℝ) (1 - 3 / 5 * (3 / 5)) = 4 / 5 * (4 / 5) by norm_num]
    exact Real.sqrt_mul_self (by norm_num)
  refine ⟨?_, ?_, ?_⟩
  · unfold TanTheta CosTheta
    rw [hs]
    norm_num
  · unfold Cos2Phi CosPhi
    simp only [hs]
    norm_num [stdClampFloat]
  · unfold Sin2Phi SinPhi
    simp only [hs]
    norm_num [stdClampFloat]

/-- The spherical quantities of the sample direction `(3/5, 0, 4/5)`. -/
theorem sample_direction_flat :
    TanTheta ⟨3 / 5, 0, 4 / 5⟩ = 3 / 4 ∧ Cos2Phi ⟨3 / 5, 0, 4 / 5⟩ = 1 ∧
      Sin2Phi ⟨3 / 5, 0, 4 / 5⟩ = 0 := by
  have hs : SinTheta ⟨3 / 5, 0, 4 / 5⟩ = 3 / 5 := by
    unfold SinTheta Sin2Theta Cos2Theta
    rw [show max (0 : ℝ) (1 - 4 / 5 * (4 / 5)) = 3 / 5 * (3 / 5) by norm_num]
    exact Real.sqrt_mul_self (by norm_num)
  refine ⟨?_, ?_, ?_⟩
  · unfold TanTheta CosTheta
    rw [hs]
    norm_num
  · unfold Cos2Phi CosPhi
    simp only [hs]
    norm_num [stdClampFloat]
  · unfold Sin2Phi SinPhi
    simp only [hs]
    norm_num [stdClampFloat]

/-- For the distribution with `alpha_x = alpha_y = 12/25` the direction
`(4/5, 0, 3/5)` has `a = 25/16 = 1.5625` and `lambda` is the rational fit there. -/
theorem lambda_steep :
    BeckmannDistribution.lambda ⟨12 / 25, 12 / 25⟩ ⟨4 / 5, 0, 3 / 5⟩ =
      BeckmannDistribution.lambda.fit (25 / 16) := by
  obtain ⟨ht, hc, hs⟩ := sample_direction_steep
  unfold BeckmannDistribution.lambda BeckmannDistribution.lambda.fit CosTheta
  simp only [ht, hc, hs]
  have hq : Real.sqrt (1 * (12 / 25) * (12 / 25) + 0 * (12 / 25) * (12 / 25)) = 12 / 25 := by
    rw [show (1 : ℝ) * (12 / 25) * (12 / 25) + 0 * (12 / 25) * (12 / 25) =
      12 / 25 * (12 / 25) by norm_num]
    exact Real.sqrt_mul_self (by norm_num)
  rw [hq]
  norm_num [abs_of_pos]

/-- For the distribution with `alpha_x = alpha_y = 12/25` the direction
`(3/5, 0, 4/5)` has `a = 25/9 >= 1.6` and `lambda` is zero. -/
theorem lambda_flat :
    BeckmannDistribution.lambda ⟨12 / 25, 12 / 25⟩ ⟨3 / 5, 0, 4 / 5⟩ = 0 := by
  obtain ⟨ht, hc, hs⟩ := sample_direction_flat
  unfold BeckmannDistribution.lambda CosTheta
  simp only [ht, hc, hs]
  have hq : Real.sqrt (1 * (12 / 25) * (12 / 25) + 0 * (12 / 25) * (12 / 25)) = 12 / 25 := by
    rw [show (1 : ℝ) * (12 / 25) * (12 / 25) + 0 * (12 / 25) * (12 / 25) =
      12 / 25 * (12 / 25) by norm_num]
    exact Real.sqrt_mul_self (by norm_num)
  rw [hq]
  norm_num [abs_of_pos]

/-- Counterexample to claim C34 as stated: the isotropic distribution with
`alpha = 12/25` and the unit direction `w = (4/5, 0, 3/5)`, with `w.z = 3/5` and
`tan(theta) = 4/3`.  There `a = 1.5625`, `lambda(w)` is negative and
`G1(w) > 1`; with `wi = (3/5, 0, 4/5)`, where `lambda(wi) = 0` and `G1(wi) = 1`,
`G(w, wi)` exceeds `min(G1(w), G1(wi))`. -/
theorem Beckmann_masking_counterexample :
    ((0 : ℝ) < 12 / 25 ∧ Vec3f.Dot (⟨4 / 5, 0, 3 / 5⟩ : Vec3f) ⟨4 / 5, 0, 3 / 5⟩ = 1 ∧
        Vec3f.Dot (⟨3 / 5, 0, 4 / 5⟩ : Vec3f) ⟨3 / 5, 0, 4 / 5⟩ = 1 ∧
        TanTheta ⟨4 / 5, 0, 3 / 5⟩ = 4 / 3 ∧ TanTheta ⟨3 / 5, 0, 4 / 5⟩ = 3 / 4) ∧
      BeckmannDistribution.lambda ⟨12 / 25, 12 / 25⟩ ⟨4 / 5, 0, 3 / 5⟩ < 0 ∧
      1 < BeckmannDistribution.G1 ⟨12 / 25, 12 / 25⟩ ⟨4 / 5, 0, 3 / 5⟩ ∧
      BeckmannDistribution.G1 ⟨12 / 25, 12 / 25⟩ ⟨3 / 5, 0, 4 / 5⟩ = 1 ∧
      min (BeckmannDistribution.G1 ⟨12 / 25, 12 / 25⟩ ⟨4 / 5, 0, 3 / 5⟩)
          (BeckmannDistribution.G1 ⟨12 / 25, 12 / 25⟩ ⟨3 / 5, 0, 4 / 5⟩) <
        BeckmannDistribution.G ⟨12 / 25, 12 / 25⟩ ⟨4 / 5, 0, 3 / 5⟩ ⟨3 / 5, 0, 4 / 5⟩ := by
  have hl : BeckmannDistribution.lambda ⟨12 / 25, 12 / 25⟩ ⟨4 / 5, 0, 3 / 5⟩ < 0 := by
    rw [lambda_steep]
    norm_num [BeckmannDistribution.lambda.fit]
  have hlow := lambda_lower ⟨12 / 25, 12 / 25⟩ ⟨4 / 5, 0, 3 / 5⟩
  have hpos : 0 < 1 + BeckmannDistribution.lambda ⟨12 / 25, 12 / 25⟩ ⟨4 / 5, 0, 3 / 5⟩ := by
    linarith
  have hG1 : 1 < BeckmannDistribution.G1 ⟨12 / 25, 12 / 25⟩ ⟨4 / 5, 0, 3 / 5⟩ := by
    unfold BeckmannDistribution.G1
    rw [lt_div_iff₀ hpos]
    linarith
  have hG1f : BeckmannDistribution.G1 ⟨12 / 25, 12 / 25⟩ ⟨3 / 5, 0, 4 / 5⟩ = 1 := by
    unfold BeckmannDistribution.G1
    rw [lambda_flat]
    norm_num
  refine ⟨⟨by norm_num, by norm_num [Vec3f.Dot], by norm_num [Vec3f.Dot],
    sample_direction_steep.1, sample_direction_flat.1⟩, hl, hG1, hG1f, ?_⟩
  rw [hG1f, min_eq_right (le_of_lt hG1)]
  unfold BeckmannDistribution.G
  rw [lambda_flat, add_zero, lt_div_iff₀ hpos]
  linarith

/-- Claim C34, amended: for every `BeckmannDistribution` and every direction `w`
(in particular for positive `alpha_x`, `alpha_y` and unit `w` with `w.z != 0` and
finite non-zero `tan(theta)`), `lambda(w) > -1/10000`, so `0 < G1(w) < 1.0002`;
`lambda(w) >= 0` and `G1(w) <= 1` hold whenever the value `a` of the source is at
most `1.54` or at least `1.6`; `G(wo, wi) > 0` for all `wo`, `wi`, and
`G(wo, wi) <= min(G1(wo), G1(wi))` whenever `lambda(wo)` and `lambda(wi)` are
non-negative. -/
theorem Beckmann_masking (self : BeckmannDistribution) (w wo wi : Vec3f) :
    (-(1 / 10000) < self.lambda w ∧ 0 < self.G1 w ∧ self.G1 w < 1 + 1 / 5000) ∧
      ((BeckmannDistribution.lambda.a self w ≤ 1.54 ∨
          BeckmannDistribution.lambda.a self w ≥ 1.6) →
        0 ≤ self.lambda w ∧ self.G1 w ≤ 1) ∧
      0 < self.G wo wi ∧
      (0 ≤ self.lambda wo → 0 ≤ self.lambda wi →
        self.G wo wi ≤ min (self.G1 wo) (self.G1 wi)) := by
  have hw := lambda_lower self w
  have ho := lambda_lower self wo
  have hi := lambda_lower self wi
  refine ⟨⟨hw, ?_, ?_⟩, ?_, ?_, ?_⟩
  · unfold BeckmannDistribution.G1
    apply one_div_pos.mpr
    linarith
  · unfold BeckmannDistribution.G1
    rw [div_lt_iff₀ (by linarith)]
    nlinarith
  · intro ha
    have hl : 0 ≤ self.lambda w := by
      rcases lambda_cases self w with ⟨h, _⟩ | ⟨h0, h1, h⟩
      · rw [h]
      · rw [h]
        rcases ha with ha | ha
        · exact lambda_fit_nonneg _ h0 ha
        · exact absurd h1 (not_lt.mpr ha)
    refine ⟨hl, ?_⟩
    unfold BeckmannDistribution.G1
    rw [div_le_iff₀ (by linarith)]
    linarith
  · unfold BeckmannDistribution.G
    apply one_div_pos.mpr
    linarith
  · intro h1 h2
    unfold BeckmannDistribution.G BeckmannDistribution.G1
    rw [le_min_iff]
    constructor
    · apply one_div_le_one_div_of_le (by linarith)
      linarith
    · apply one_div_le_one_div_of_le (by linarith)
      linarith

/-! ## Right-handedness of the local frame -/

/-- For a unit vector `y` orthogonal to `n`, `Cross(Cross(y, n), y) = n`. -/
theorem Cross_Cross_self (y n : Vec3f) (hy : Vec3f.Dot y y = 1) (hyn : Vec3f.Dot y n = 0) :
    Vec3f.Cross (Vec3f.Cross y n) y = n := by
  obtain ⟨yx, yy, yz⟩ := y
  obtain ⟨nx, ny, nz⟩ := n
  simp only [Vec3f.Dot, Vec3f.Cross, Vec3.mk.injEq] at *
  refine ⟨?_, ?_, ?_⟩
  · linear_combination nx * hy - yx * hyn
  · linear_combination ny * hy - yy * hyn
  · linear_combination nz * hy - yz * hyn

/-- Claim C31 (right-handedness of the local frame): for every unit normal `n`,
`CoordinateSystemFromNormal` returns a tangent `x` and a bitangent `y` with
`Cross(x, y) = n`. -/
theorem CoordinateSystemFromNormal_right_handed (n : Vec3f) (hn : Vec3f.Dot n n = 1) :
    ∃ x y, CoordinateSystemFromNormal n = some (x, y) ∧ Vec3f.Cross x y = n := by
  obtain ⟨y, h, hy, hyn⟩ := CoordinateSystemFromNormal_spec n hn
  exact ⟨_, y, h, Cross_Cross_self y n hy hyn⟩

/-- Witness of claim C31, the example of `conventions.cpp`: for `n = (0, 0, 1)` the
frame is `x = (1, 0, 0)`, `y = (0, 1, 0)` and `Cross(x, y) = (0, 0, 1)`. -/
theorem CoordinateSystemFromNormal_right_handed_witness :
    Vec3f.Dot ⟨0, 0, 1⟩ ⟨0, 0, 1⟩ = 1 ∧
      CoordinateSystemFromNormal ⟨0, 0, 1⟩ = some (⟨1, 0, 0⟩, ⟨0, 1, 0⟩) ∧
      Vec3f.Cross ⟨1, 0, 0⟩ ⟨0, 1, 0⟩ = (⟨0, 0, 1⟩ : Vec3f) ∧
      ∃ x y, CoordinateSystemFromNormal ⟨0, 0, 1⟩ = some (x, y) ∧
        Vec3f.Cross x y = ⟨0, 0, 1⟩ :=
  ⟨by norm_num [Vec3f.Dot], CoordinateSystemFromNormal_z, by simp [Vec3f.Cross],
    CoordinateSystemFromNormal_right_handed ⟨0, 0, 1⟩ (by norm_num [Vec3f.Dot])⟩

/-! ## Frame effect of a miss -/

/-- The loop of `Accel::intersect` that ends with `success = false` started with
`success = false` and wrote nothing. -/
theorem intersectLoop_false_inv (mesh : TriangleMeshResource) (l : List Nat) :
    ∀ (s : Bool) (ray : Ray) (ia : SurfaceInteraction) (ray1 : Ray) (ia1 : SurfaceInteraction),
      Accel.intersectLoop mesh l s ray ia = some (false, ray1, ia1) →
      s = false ∧ ray1 = ray ∧ ia1 = ia := by
  induction l with
  | nil =>
    intro s ray ia ray1 ia1 h
    simp only [Accel.intersectLoop, Option.some.injEq, Prod.mk.injEq] at h
    exact ⟨h.1, h.2.1.symm, h.2.2.symm⟩
  | cons i rest IH =>
    intro s ray ia ray1 ia1 h
    cases hTI : TriangleIntersect ray i mesh ia with
    | none => simp [Accel.intersectLoop, hTI] at h
    | some r1 =>
      obtain ⟨hit, ray2, ia2⟩ := r1
      simp only [Accel.intersectLoop, hTI] at h
      obtain ⟨hs, hr, hi⟩ := IH _ _ _ _ _ h
      simp only [Bool.or_eq_false_iff] at hs
      obtain ⟨hs1, hs2⟩ := hs
      rw [hs2] at hTI
      obtain ⟨hr2, hi2⟩ := TriangleIntersect_false_inv hTI
      exact ⟨hs1, hr.trans hr2, hi.trans hi2⟩

/-- Claim C32 (frame effect): every call of `TriangleIntersect` that returns
`false` leaves the ray and the `SurfaceInteraction` exactly as they were before
the call; hence when `Accel::intersect` returns `false` neither the ray nor the
interaction has been modified. -/
theorem intersect_false_unchanged :
    (∀ (ray : Ray) (i : Nat) (mesh : TriangleMeshResource) (ia : SurfaceInteraction)
        (ray1 : Ray) (ia1 : SurfaceInteraction),
        TriangleIntersect ray i mesh ia = some (false, ray1, ia1) →
        ray1 = ray ∧ ia1 = ia) ∧
    (∀ (self : Accel) (ray : Ray) (ia : SurfaceInteraction) (ray1 : Ray)
        (ia1 : SurfaceInteraction),
        self.intersect ray ia = some (false, ray1, ia1) → ray1 = ray ∧ ia1 = ia) := by
  constructor
  · intro ray i mesh ia ray1 ia1 h
    exact TriangleIntersect_false_inv h
  · intro self ray ia ray1 ia1 h
    exact (intersectLoop_false_inv self.mesh _ false ray ia ray1 ia1 h).2

/-- Witness of claim C32: the sample ray moved to the origin `(2, 2, 1)` misses
both triangles of the sample mesh; `TriangleIntersect` and `Accel::intersect`
return `false` with the ray and the interaction as passed in. -/
theorem intersect_false_unchanged_witness :
    TriangleIntersect { sampleRay with origin := ⟨2, 2, 1⟩ } 0 sampleMesh sampleInteraction =
        some (false, { sampleRay with origin := ⟨2, 2, 1⟩ }, sampleInteraction) ∧
      sampleAccel.intersect { sampleRay with origin := ⟨2, 2, 1⟩ } sampleInteraction =
        some (false, { sampleRay with origin := ⟨2, 2, 1⟩ }, sampleInteraction) ∧
      ({ sampleRay with origin := ⟨2, 2, 1⟩ } : Ray) = { sampleRay with origin := ⟨2, 2, 1⟩ } ∧
      sampleInteraction = sampleInteraction :=
  have h0 : TriangleIntersect { sampleRay with origin := ⟨2, 2, 1⟩ } 0 sampleMesh
      sampleInteraction =
      some (false, { sampleRay with origin := ⟨2, 2, 1⟩ }, sampleInteraction) := by
    simp [TriangleIntersect, AllNormalized, sampleRay, Dot, Cross, Vec3.sub,
      TriangleMeshResource.triangle, sampleMesh]
  have h1 : TriangleIntersect { sampleRay with origin := ⟨2, 2, 1⟩ } 1 sampleMesh
      sampleInteraction =
      some (false, { sampleRay with origin := ⟨2, 2, 1⟩ }, sampleInteraction) := by
    simp [TriangleIntersect, AllNormalized, sampleRay, Dot, Cross, Vec3.sub,
      TriangleMeshResource.triangle, sampleMesh]
  have hA : sampleAccel.intersect { sampleRay with origin := ⟨2, 2, 1⟩ } sampleInteraction =
      some (false, { sampleRay with origin := ⟨2, 2, 1⟩ }, sampleInteraction) := by
    have hm : sampleAccel.mesh = sampleMesh := rfl
    have hl : List.range (sampleMesh.v_indices.length / 3) = [0, 1] := by decide
    unfold Accel.intersect
    rw [hm, hl]
    simp only [Accel.intersectLoop, h0, h1, Bool.or_false]
  ⟨h0, hA, intersect_false_unchanged.2 sampleAccel _ sampleInteraction _ _ hA⟩

/-! ## `Distribution1D`: sampled buckets and bounds of the bisection -/

/-- For a non-zero integral, consecutive cdf entries differ by the sample of the
bucket over `funcInt * n`. -/
theorem new_cdf_step (f : List ℚ) (hn : 1 ≤ f.length) (h0 : f.sum / (f.length : ℚ) ≠ 0)
    (k : Nat) (c0 c1 fo : ℚ) (hc0 : (Distribution1D.new f).cdf[k]? = some c0)
    (hc1 : (Distribution1D.new f).cdf[k + 1]? = some c1) (hfo : f[k]? = some fo) :
    c1 - c0 = fo / (f.sum / (f.length : ℚ) * (f.length : ℚ)) := by
  have hnpos : (0 : ℚ) < (f.length : ℚ) := by exact_mod_cast hn
  obtain ⟨s, hs0, hs1⟩ := stepIntegral_succ (f.length : ℚ) f 0 k fo hfo
  rw [new_cdf_of_ne_zero f h0, List.getElem?_map] at hc0 hc1
  rw [hs0] at hc0
  rw [hs1] at hc1
  simp only [Option.map_some', Option.some.injEq] at hc0 hc1
  rw [← hc0, ← hc1]
  have hsum : f.sum ≠ 0 := by
    intro h
    apply h0
    rw [h, zero_div]
  have hlen0 : (f.length : ℚ) ≠ 0 := ne_of_gt hnpos
  field_simp

/-- In exact arithmetic: for `n >= 1` non-negative samples with `funcInt > 0`
and `u` in `[0, 1)`, the offset returned by `sampleDiscrete(u)`, which is also the
offset chosen by `sampleContinuous(u)`, has `func[offset] > 0`, and the pdf that
either function writes is strictly positive. -/
theorem sampled_bucket_positive_exact (f : List ℚ) (hn : 1 ≤ f.length) (hf : ∀ x ∈ f, 0 ≤ x)
    (hF : (Distribution1D.new f).funcInt > 0) (u : ℚ) (hu0 : 0 ≤ u) (hu1 : u < 1)
    (uRemapped : Bool) :
    ∃ (offset : Int) (fo pd pc x : ℚ) (remappedOut : Option ℚ),
      (Distribution1D.new f).sampleDiscrete u true uRemapped =
        some (offset, some pd, remappedOut) ∧
      (Distribution1D.new f).sampleContinuous u true = some (x, some pc, offset) ∧
      Distribution1D.at? (Distribution1D.new f).func offset = some fo ∧
      0 < fo ∧ 0 < pd ∧ 0 < pc := by
  obtain ⟨k, c0, c1, fo, hk, hkn, hc0, hc1, hfo, hle, hlt, _⟩ :=
    new_FindInterval f hn hf u hu0 hu1
  have hnpos : (0 : ℚ) < (f.length : ℚ) := by exact_mod_cast hn
  have hFpos : 0 < f.sum / (f.length : ℚ) := by
    rw [← new_funcInt]
    exact hF
  have hstep := new_cdf_step f hn (ne_of_gt hFpos) k c0 c1 fo hc0 hc1 (by rw [← new_func f]; exact hfo)
  have hprod : 0 < f.sum / (f.length : ℚ) * (f.length : ℚ) := mul_pos hFpos hnpos
  have hfo_pos : 0 < fo := by
    have hd : 0 < fo / (f.sum / (f.length : ℚ) * (f.length : ℚ)) := by
      rw [← hstep]
      linarith
    by_contra hneg
    have : fo / (f.sum / (f.length : ℚ) * (f.length : ℚ)) ≤ 0 :=
      div_nonpos_of_nonpos_of_nonneg (not_lt.mp hneg) (le_of_lt hprod)
    linarith
  have hsz : (((Distribution1D.new f).size : Int) : ℚ) = (f.length : ℚ) := by
    simp [Distribution1D.size, new_func]
  refine ⟨(k : Int), fo, _, _, _, _,
    sampleDiscrete_eq _ u true uRemapped k c0 c1 fo hk hc0 hc1 hfo hle hlt,
    sampleContinuous_eq _ u true k c0 c1 fo hk hc0 hc1 hfo hle hlt, ?_, hfo_pos, ?_, ?_⟩
  · rw [at?_natCast, hfo]
  · rw [if_pos hF, hsz, new_funcInt]
    exact div_pos hfo_pos hprod
  · rw [if_pos hF, new_funcInt]
    exact div_pos hfo_pos hFpos

/-- The distribution built from the samples `[0, 1]`. -/
theorem new_zero_one : Distribution1D.new [0, 1] = ⟨[0, 1], [0, 0, 1], 1 / 2⟩ := by
  simp [Distribution1D.new, Distribution1D.stepIntegral]

/-- On the samples `[0, 1]`, `sampleDiscrete(0.0)` skips the empty bucket `0` and
returns bucket `1` with pdf `1`. -/
theorem sampleDiscrete_zero_one :
    (Distribution1D.new [0, 1]).sampleDiscrete 0 true false = some (1, some 1, none) := by
  rw [new_zero_one]
  have hk : Distribution1D.FindInterval ([0, 0, 1] : List ℚ).length
      (fun index => (([0, 0, 1] : List ℚ)[index]?).map
        (fun c => decide (c ≤ 0))) = some ((1 : Nat) : Int) := by
    unfold Distribution1D.FindInterval
    rw [Distribution1D.FindInterval.loop]
    norm_num
    rw [Distribution1D.FindInterval.loop]
    norm_num
    rw [Distribution1D.FindInterval.loop]
    norm_num [stdClamp]
  rw [sampleDiscrete_eq ⟨[0, 1], [0, 0, 1], 1 / 2⟩ 0 true false 1
    0 1 1 hk rfl rfl rfl (le_refl _) (by norm_num)]
  norm_num [Distribution1D.size]

/-- The cdf stored by the constructor has one entry more than there are samples,
whatever the samples. -/
theorem new_cdf_length (f : List ℚ) : (Distribution1D.new f).cdf.length = f.length + 1 := by
  have hl := stepIntegral_length (f.length : ℚ) f 0
  unfold Distribution1D.new
  simp only
  split_ifs
  · simp only [List.length_append, List.length_take, List.length_map, List.length_range, hl]
    omega
  · simp only [List.length_append, List.length_take, List.length_map, List.length_drop, hl]
    omega

/-- The bisection loop on a predicate that is defined on `[0, size)` runs to the
end from every state whose window lies in `[0, size]`, and ends inside the
window. -/
theorem FindInterval_loop_total (pred : Nat → Option Bool) (size : Nat)
    (hdef : ∀ i, i < size → ∃ b, pred i = some b) :
    ∀ len first, first + len ≤ size →
      ∃ k, Distribution1D.FindInterval.loop pred first len = some k ∧ first ≤ k ∧
        k ≤ first + len := by
  intro len
  induction len using Nat.strong_induction_on with
  | _ len IH =>
    intro first hle
    rw [Distribution1D.FindInterval.loop]
    by_cases hlen : len > 0
    · obtain ⟨b, hb⟩ := hdef (first + len / 2) (by omega)
      simp only [hlen, if_true, hb]
      cases b with
      | false =>
        obtain ⟨k, hk, h1, h2⟩ := IH (len / 2) (by omega) first (by omega)
        exact ⟨k, hk, h1, by omega⟩
      | true =>
        obtain ⟨k, hk, h1, h2⟩ :=
          IH (len - (len / 2 + 1)) (by omega) (first + len / 2 + 1) (by omega)
        exact ⟨k, hk, by omega, by omega⟩
    · simp only [hlen, if_false]
      exact ⟨first, rfl, le_refl _, by omega⟩

/-- The bisection loop only reads the predicate inside `[0, size)`: two predicates
that agree there give the same result. -/
theorem FindInterval_loop_congr (pred pred2 : Nat → Option Bool) (size : Nat)
    (hagree : ∀ i, i < size → pred2 i = pred i) :
    ∀ len first, first + len ≤ size →
      Distribution1D.FindInterval.loop pred2 first len =
        Distribution1D.FindInterval.loop pred first len := by
  intro len
  induction len using Nat.strong_induction_on with
  | _ len IH =>
    intro first hle
    rw [Distribution1D.FindInterval.loop, Distribution1D.FindInterval.loop.eq_1 pred]
    by_cases hlen : len > 0
    · simp only [hlen, if_true, hagree (first + len / 2) (by omega)]
      cases pred (first + len / 2) with
      | none => rfl
      | some b =>
        cases b with
        | false => exact IH (len / 2) (by omega) first (by omega)
        | true => exact IH (len - (len / 2 + 1)) (by omega) (first + len / 2 + 1) (by omega)
    · simp only [hlen, if_false]

/-- The result of `std::clamp` lies between its bounds. -/
theorem stdClamp_bounds (v lo hi : Int) (h : lo ≤ hi) :
    lo ≤ stdClamp v lo hi ∧ stdClamp v lo hi ≤ hi := by
  unfold stdClamp
  split_ifs <;> omega

/-- Claim C35: for `n >= 1` samples of any sign and every `u`, also outside
`[0, 1)`, `FindInterval` runs to the end and returns an offset with
`0 <= offset <= n - 1`; it evaluates the predicate only at indices in `[0, n]`
(no read outside the cdf, and the result does not depend on the predicate
elsewhere); the entries `func[offset]`, `cdf[offset]` and `cdf[offset + 1]` exist,
and `sampleContinuous` and `sampleDiscrete` (without `uRemapped`, whose assertion
is a separate matter) return with that offset. -/
theorem FindInterval_in_bounds (f : List ℚ) (hn : 1 ≤ f.length) (u : ℚ) (pdf : Bool) :
    ∃ offset : Int,
      Distribution1D.FindInterval (Distribution1D.new f).cdf.length
          (fun index => ((Distribution1D.new f).cdf[index]?).map (fun c => decide (c ≤ u))) =
        some offset ∧
      (0 ≤ offset ∧ offset ≤ (f.length : Int) - 1) ∧
      (∀ pred2 : Nat → Option Bool,
        (∀ i, i ≤ f.length →
          pred2 i = ((Distribution1D.new f).cdf[i]?).map (fun c => decide (c ≤ u))) →
        Distribution1D.FindInterval (Distribution1D.new f).cdf.length pred2 = some offset) ∧
      (∃ fo c0 c1, Distribution1D.at? (Distribution1D.new f).func offset = some fo ∧
        Distribution1D.at? (Distribution1D.new f).cdf offset = some c0 ∧
        Distribution1D.at? (Distribution1D.new f).cdf (offset + 1) = some c1) ∧
      (∃ x pdfOut, (Distribution1D.new f).sampleContinuous u pdf = some (x, pdfOut, offset)) ∧
      (∃ pdfOut, (Distribution1D.new f).sampleDiscrete u pdf false =
        some (offset, pdfOut, none)) := by
  have hlen := new_cdf_length f
  have hdef : ∀ i, i < (Distribution1D.new f).cdf.length →
      ∃ b, (fun index => ((Distribution1D.new f).cdf[index]?).map
        (fun c => decide (c ≤ u))) i = some b := by
    intro i hi
    refine ⟨decide ((Distribution1D.new f).cdf[i] ≤ u), ?_⟩
    simp [List.getElem?_eq_getElem hi]
  obtain ⟨K, hK, _, _⟩ :=
    FindInterval_loop_total _ (Distribution1D.new f).cdf.length hdef
      (Distribution1D.new f).cdf.length 0 (by omega)
  have hb := stdClamp_bounds ((K : Int) - 1) 0 (((Distribution1D.new f).cdf.length : Int) - 2)
    (by omega)
  obtain ⟨k, hk⟩ : ∃ k : Nat,
      stdClamp ((K : Int) - 1) 0 (((Distribution1D.new f).cdf.length : Int) - 2) = (k : Int) :=
    ⟨(stdClamp ((K : Int) - 1) 0 (((Distribution1D.new f).cdf.length : Int) - 2)).toNat, by
      omega⟩
  have hkn : k < f.length := by omega
  have hFI : Distribution1D.FindInterval (Distribution1D.new f).cdf.length
      (fun index => ((Distribution1D.new f).cdf[index]?).map (fun c => decide (c ≤ u))) =
      some (k : Int) := by
    unfold Distribution1D.FindInterval
    rw [hK]
    exact congrArg some hk
  have hfo : (Distribution1D.new f).func[k]? = some f[k] := by
    rw [new_func, List.getElem?_eq_getElem hkn]
  obtain ⟨c0, hc0⟩ : ∃ c0, (Distribution1D.new f).cdf[k]? = some c0 :=
    ⟨_, List.getElem?_eq_getElem (by omega)⟩
  obtain ⟨c1, hc1⟩ : ∃ c1, (Distribution1D.new f).cdf[k + 1]? = some c1 :=
    ⟨_, List.getElem?_eq_getElem (by omega)⟩
  refine ⟨(k : Int), hFI, ⟨by omega, by omega⟩, ?_, ⟨f[k], c0, c1, ?_, ?_, ?_⟩, ?_, ?_⟩
  · intro pred2 h2
    have hc := FindInterval_loop_congr
      (fun index => ((Distribution1D.new f).cdf[index]?).map (fun c => decide (c ≤ u))) pred2
      (Distribution1D.new f).cdf.length (fun i hi => h2 i (by omega))
      (Distribution1D.new f).cdf.length 0 (by omega)
    unfold Distribution1D.FindInterval
    rw [hc, hK]
    exact congrArg some hk
  · rw [at?_natCast, hfo]
  · rw [at?_natCast, hc0]
  · rw [at?_natCast_succ, hc1]
  · unfold Distribution1D.sampleContinuous
    rw [hFI]
    simp only [Option.bind_eq_bind, Option.some_bind, at?_natCast, at?_natCast_succ, hc0, hc1,
      hfo, Option.map_some']
    cases pdf <;> by_cases hF : (Distribution1D.new f).funcInt > 0 <;> simp [hF]
  · unfold Distribution1D.sampleDiscrete
    rw [hFI]
    simp only [Option.bind_eq_bind, Option.some_bind, at?_natCast, hfo, Option.map_some']
    cases pdf <;> by_cases hF : (Distribution1D.new f).funcInt > 0 <;> simp [hF]

/-- Witness of claim C35: the samples `[1, 1]` and `u = 5`, outside `[0, 1)`. -/
theorem FindInterval_in_bounds_witness :
    1 ≤ ([1, 1] : List ℚ).length ∧
      ∃ offset : Int,
        Distribution1D.FindInterval (Distribution1D.new [1, 1]).cdf.length
            (fun index => ((Distribution1D.new [1, 1]).cdf[index]?).map
              (fun c => decide (c ≤ 5))) = some offset ∧
        (0 ≤ offset ∧ offset ≤ (([1, 1] : List ℚ).length : Int) - 1) :=
  ⟨by decide,
    (FindInterval_in_bounds [1, 1] (by decide) 5 true).imp (fun _ h => ⟨h.1, h.2.1⟩)⟩

/-! ## Lemmas on rounding -/

/-- The binary logarithm of a number in the binade `[2^e, 2^(e+1))`. -/
theorem log_two_eq {α : Type} [LinearOrderedField α] [FloorRing α] (x : α) (e : Int)
    (h1 : (2 : α) ^ e ≤ x) (h2 : x < (2 : α) ^ (e + 1)) : Int.log 2 x = e := by
  have hx : 0 < x := lt_of_lt_of_le (zpow_pos (by norm_num) e) h1
  have ha : e ≤ Int.log 2 x := by
    rw [← Int.zpow_le_iff_le_log (by norm_num) hx]
    simpa using h1
  have hb : Int.log 2 x < e + 1 := by
    rw [← Int.lt_zpow_iff_log_lt (by norm_num) hx]
    simpa using h2
  omega

/-- A number within less than one half of an integer rounds to that integer. -/
theorem roundHalfEven_eq {α : Type} [LinearOrderedField α] [FloorRing α] (x : α) (m : Int)
    (h : |x - (m : α)| < 1 / 2) : roundHalfEven x = m := by
  rw [abs_lt] at h
  obtain ⟨h1, h2⟩ := h
  unfold roundHalfEven
  simp only
  by_cases hx : (m : α) ≤ x
  · have hf : Int.floor x = m := by
      rw [Int.floor_eq_iff]
      constructor
      · exact hx
      · linarith
    rw [hf, if_pos (by linarith)]
  · have hf : Int.floor x = m - 1 := by
      rw [Int.floor_eq_iff]
      push_cast
      constructor
      · linarith
      · linarith [not_le.mp hx]
    rw [hf]
    push_cast
    rw [if_neg (by linarith), if_pos (by linarith)]
    ring

/-- A number half way between `m` and `m + 1` rounds to the even one of them. -/
theorem roundHalfEven_tie {α : Type} [LinearOrderedField α] [FloorRing α] (x : α) (m : Int)
    (h : x = (m : α) + 1 / 2) : roundHalfEven x = if m % 2 = 0 then m else m + 1 := by
  have hf : Int.floor x = m := by
    rw [Int.floor_eq_iff, h]
    constructor
    · linarith
    · linarith
  unfold roundHalfEven
  simp only
  rw [hf, h, if_neg (by simp), if_neg (by simp)]

/-- Rounding to the nearest integer commutes with negation. -/
theorem roundHalfEven_neg {α : Type} [LinearOrderedField α] [FloorRing α] (x : α) :
    roundHalfEven (-x) = -roundHalfEven x := by
  have hf0 := Int.floor_le x
  have hf1 := Int.lt_floor_add_one x
  rcases lt_trichotomy (x - (Int.floor x : α)) (1 / 2) with h | h | h
  · rw [roundHalfEven_eq x (Int.floor x) (by rw [abs_lt]; constructor <;> linarith),
      roundHalfEven_eq (-x) (-Int.floor x) (by push_cast; rw [abs_lt]; constructor <;> linarith)]
  · have hx : x = (Int.floor x : α) + 1 / 2 := by linarith
    have hnx : -x = ((-(Int.floor x + 1) : Int) : α) + 1 / 2 := by
      push_cast
      linarith
    rw [roundHalfEven_tie x (Int.floor x) hx, roundHalfEven_tie (-x) (-(Int.floor x + 1)) hnx]
    by_cases hp : Int.floor x % 2 = 0
    · rw [if_pos hp, if_neg (by omega)]
      ring
    · rw [if_neg hp, if_pos (by omega)]
  · rw [roundHalfEven_eq x (Int.floor x + 1) (by push_cast; rw [abs_lt]; constructor <;> linarith),
      roundHalfEven_eq (-x) (-(Int.floor x + 1))
        (by push_cast; rw [abs_lt]; constructor <;> linarith)]

/-- Rounding commutes with negation. -/
theorem round_neg {α : Type} [LinearOrderedField α] [FloorRing α] (F : FloatFormat) (x : α) :
    F.round (-x) = -F.round x := by
  unfold FloatFormat.round FloatFormat.ulpExp
  rw [abs_neg, neg_div, roundHalfEven_neg]
  push_cast
  ring

/-- Rounding of a positive number in the binade `[2^e, 2^(e+1))` that is nearer to
`m * 2^u` than to any other multiple of the unit in the last place `2^u`. -/
theorem round_eq {α : Type} [LinearOrderedField α] [FloorRing α] (F : FloatFormat) (x : α)
    (e u m : Int) (h1 : (2 : α) ^ e ≤ x) (h2 : x < (2 : α) ^ (e + 1))
    (hu : max e F.emin - ((F.prec : Int) - 1) = u)
    (hlo : (m : α) - 1 / 2 < x / (2 : α) ^ u) (hhi : x / (2 : α) ^ u < (m : α) + 1 / 2) :
    F.round x = (m : α) * (2 : α) ^ u := by
  have hx : 0 < x := lt_of_lt_of_le (zpow_pos (by norm_num) e) h1
  unfold FloatFormat.round FloatFormat.ulpExp
  rw [abs_of_pos hx, log_two_eq x e h1 h2, hu,
    roundHalfEven_eq _ m (by rw [abs_lt]; constructor <;> linarith)]

/-- Rounding of a positive number in the binade `[2^e, 2^(e+1))` that is half way
between `m * 2^u` and `(m + 1) * 2^u`. -/
theorem round_tie {α : Type} [LinearOrderedField α] [FloorRing α] (F : FloatFormat) (x : α)
    (e u m : Int) (h1 : (2 : α) ^ e ≤ x) (h2 : x < (2 : α) ^ (e + 1))
    (hu : max e F.emin - ((F.prec : Int) - 1) = u)
    (htie : x / (2 : α) ^ u = (m : α) + 1 / 2) :
    F.round x = ((if m % 2 = 0 then m else m + 1 : Int) : α) * (2 : α) ^ u := by
  have hx : 0 < x := lt_of_lt_of_le (zpow_pos (by norm_num) e) h1
  unfold FloatFormat.round FloatFormat.ulpExp
  rw [abs_of_pos hx, log_two_eq x e h1 h2, hu, roundHalfEven_tie _ m htie]

/-- Zero rounds to zero. -/
theorem round_zero {α : Type} [LinearOrderedField α] [FloorRing α] (F : FloatFormat) :
    F.round (0 : α) = 0 := by
  unfold FloatFormat.round
  rw [zero_div, roundHalfEven_eq (0 : α) 0 (by norm_num)]
  simp

/-- The nearest integer is within one half. -/
theorem roundHalfEven_near {α : Type} [LinearOrderedField α] [FloorRing α] (x : α) :
    (roundHalfEven x : α) - 1 / 2 ≤ x ∧ x ≤ (roundHalfEven x : α) + 1 / 2 := by
  have hf0 := Int.floor_le x
  have hf1 := Int.lt_floor_add_one x
  unfold roundHalfEven
  simp only
  by_cases h1 : x - (Int.floor x : α) < 1 / 2
  · rw [if_pos h1]
    constructor <;> linarith
  · rw [if_neg h1]
    by_cases h2 : 1 / 2 < x - (Int.floor x : α)
    · rw [if_pos h2]
      push_cast
      constructor <;> linarith
    · rw [if_neg h2]
      have h3 : x - (Int.floor x : α) = 1 / 2 := le_antisymm (not_lt.mp h2) (not_lt.mp h1)
      by_cases h4 : Int.floor x % 2 = 0
      · rw [if_pos h4]
        constructor <;> linarith
      · rw [if_neg h4]
        push_cast
        constructor <;> linarith

/-- An integer rounds to itself. -/
theorem roundHalfEven_intCast {α : Type} [LinearOrderedField α] [FloorRing α] (m : Int) :
    roundHalfEven (m : α) = m :=
  roundHalfEven_eq (m : α) m (by simp)

/-- Rounding to the nearest integer is monotone. -/
theorem roundHalfEven_mono {α : Type} [LinearOrderedField α] [FloorRing α] (x y : α)
    (h : x ≤ y) : roundHalfEven x ≤ roundHalfEven y := by
  rcases eq_or_lt_of_le h with h | h
  · rw [h]
  · have hx := (roundHalfEven_near x).1
    have hy := (roundHalfEven_near y).2
    have hlt : (roundHalfEven x : α) < (roundHalfEven y : α) + 1 := by linarith
    have hlt2 : roundHalfEven x < roundHalfEven y + 1 := by exact_mod_cast hlt
    omega

/-- The unit in the last place is positive. -/
theorem ulp_pos {α : Type} [LinearOrderedField α] [FloorRing α] (F : FloatFormat) (x : α) :
    (0 : α) < (2 : α) ^ F.ulpExp x := zpow_pos (by norm_num) _

/-- Rounding keeps the sign of a non-negative number. -/
theorem round_nonneg {α : Type} [LinearOrderedField α] [FloorRing α] (F : FloatFormat) (x : α)
    (hx : 0 ≤ x) : 0 ≤ F.round x := by
  unfold FloatFormat.round
  have h0 : (0 : Int) ≤ roundHalfEven (x / (2 : α) ^ F.ulpExp x) := by
    have := roundHalfEven_mono (0 : α) (x / (2 : α) ^ F.ulpExp x)
      (div_nonneg hx (le_of_lt (ulp_pos F x)))
    rw [show (0 : α) = ((0 : Int) : α) by simp, roundHalfEven_intCast] at this
    exact this
  exact mul_nonneg (by exact_mod_cast h0) (le_of_lt (ulp_pos F x))

/-- A positive number rounds to at most the next power of two above its binade. -/
theorem round_le_pow {α : Type} [LinearOrderedField α] [FloorRing α] (F : FloatFormat) (x : α)
    (hx : 0 < x) : F.round x ≤ (2 : α) ^ (max (Int.log 2 x) F.emin + 1) := by
  have h2 : x < (2 : α) ^ (Int.log 2 x + 1) := by
    simpa using Int.lt_zpow_succ_log_self (by norm_num : 1 < 2) x
  have h3 : (2 : α) ^ (Int.log 2 x + 1) ≤ (2 : α) ^ (max (Int.log 2 x) F.emin + 1) :=
    zpow_le_zpow_right₀ (by norm_num) (by omega)
  have hu : F.ulpExp x = max (Int.log 2 x) F.emin - ((F.prec : Int) - 1) := by
    unfold FloatFormat.ulpExp
    rw [abs_of_pos hx]
  have hpow : (2 : α) ^ (max (Int.log 2 x) F.emin + 1) =
      (((2 ^ F.prec : Nat) : Int) : α) * (2 : α) ^ F.ulpExp x := by
    rw [hu]
    push_cast
    rw [← zpow_natCast, ← zpow_add₀ (by norm_num : (2 : α) ≠ 0)]
    congr 1
    omega
  have hle : x / (2 : α) ^ F.ulpExp x ≤ (((2 ^ F.prec : Nat) : Int) : α) := by
    rw [div_le_iff₀ (ulp_pos F x), ← hpow]
    exact le_of_lt (lt_of_lt_of_le h2 h3)
  have hm := roundHalfEven_mono _ _ hle
  rw [roundHalfEven_intCast] at hm
  rw [hpow]
  unfold FloatFormat.round
  exact mul_le_mul_of_nonneg_right (by exact_mod_cast hm) (le_of_lt (ulp_pos F x))

/-- A positive normal number rounds to at least the power of two below it. -/
theorem pow_le_round {α : Type} [LinearOrderedField α] [FloorRing α] (F : FloatFormat) (x : α)
    (hp : 1 ≤ F.prec) (hx : 0 < x) (he : F.emin ≤ Int.log 2 x) :
    (2 : α) ^ Int.log 2 x ≤ F.round x := by
  have h1 : (2 : α) ^ Int.log 2 x ≤ x := by
    simpa using Int.zpow_log_le_self (by norm_num : 1 < 2) hx
  have hu : F.ulpExp x = Int.log 2 x - ((F.prec : Int) - 1) := by
    unfold FloatFormat.ulpExp
    rw [abs_of_pos hx, max_eq_left he]
  have hpow : (2 : α) ^ Int.log 2 x =
      (((2 ^ (F.prec - 1) : Nat) : Int) : α) * (2 : α) ^ F.ulpExp x := by
    rw [hu]
    push_cast
    rw [← zpow_natCast, ← zpow_add₀ (by norm_num : (2 : α) ≠ 0)]
    congr 1
    omega
  have hle : (((2 ^ (F.prec - 1) : Nat) : Int) : α) ≤ x / (2 : α) ^ F.ulpExp x := by
    rw [le_div_iff₀ (ulp_pos F x), ← hpow]
    exact h1
  have hm := roundHalfEven_mono _ _ hle
  rw [roundHalfEven_intCast] at hm
  rw [hpow]
  unfold FloatFormat.round
  exact mul_le_mul_of_nonneg_right (by exact_mod_cast hm) (le_of_lt (ulp_pos F x))

/-- Rounding is monotone on the positive numbers. -/
theorem round_mono_pos {α : Type} [LinearOrderedField α] [FloorRing α] (F : FloatFormat)
    (hp : 1 ≤ F.prec) (x y : α) (hx : 0 < x) (h : x ≤ y) : F.round x ≤ F.round y := by
  have hy : 0 < y := lt_of_lt_of_le hx h
  have hlog : Int.log 2 x ≤ Int.log 2 y := Int.log_mono_right hx h
  have hux : F.ulpExp x = max (Int.log 2 x) F.emin - ((F.prec : Int) - 1) := by
    unfold FloatFormat.ulpExp
    rw [abs_of_pos hx]
  have huy : F.ulpExp y = max (Int.log 2 y) F.emin - ((F.prec : Int) - 1) := by
    unfold FloatFormat.ulpExp
    rw [abs_of_pos hy]
  by_cases hE : max (Int.log 2 x) F.emin = max (Int.log 2 y) F.emin
  · have hu : F.ulpExp x = F.ulpExp y := by rw [hux, huy, hE]
    unfold FloatFormat.round
    rw [hu]
    have hm := roundHalfEven_mono (x / (2 : α) ^ F.ulpExp y) (y / (2 : α) ^ F.ulpExp y)
      (div_le_div_of_nonneg_right h (le_of_lt (ulp_pos F y)))
    exact mul_le_mul_of_nonneg_right (by exact_mod_cast hm) (le_of_lt (ulp_pos F y))
  · have hlt : max (Int.log 2 x) F.emin + 1 ≤ Int.log 2 y := by omega
    have hey : F.emin ≤ Int.log 2 y := by omega
    calc F.round x ≤ (2 : α) ^ (max (Int.log 2 x) F.emin + 1) := round_le_pow F x hx
      _ ≤ (2 : α) ^ Int.log 2 y := zpow_le_zpow_right₀ (by norm_num) hlt
      _ ≤ F.round y := pow_le_round F y hp hy hey

/-- Rounding is monotone. -/
theorem round_mono {α : Type} [LinearOrderedField α] [FloorRing α] (F : FloatFormat)
    (hp : 1 ≤ F.prec) (x y : α) (h : x ≤ y) : F.round x ≤ F.round y := by
  rcases lt_or_le 0 x with hx | hx
  · exact round_mono_pos F hp x y hx h
  · rcases le_or_lt 0 y with hy | hy
    · have h1 : F.round x ≤ 0 := by
        have := round_nonneg F (-x) (by linarith)
        rw [round_neg] at this
        linarith
      exact le_trans h1 (round_nonneg F y hy)
    · have := round_mono_pos F hp (-y) (-x) (by linarith) (by linarith)
      rw [round_neg, round_neg] at this
      linarith

/-- A positive multiple of the unit in the last place of its own binade is a
number of the format. -/
theorem round_of_mul_ulp {α : Type} [LinearOrderedField α] [FloorRing α] (F : FloatFormat)
    (y : α) (m : Int) (h : y = (m : α) * (2 : α) ^ F.ulpExp y) : F.round y = y := by
  have hq : y / (2 : α) ^ F.ulpExp y = (m : α) := by
    rw [div_eq_iff (ne_of_gt (ulp_pos F y))]
    exact h
  unfold FloatFormat.round
  rw [hq, roundHalfEven_intCast]
  exact h.symm

/-- Rounding is idempotent on the positive numbers. -/
theorem round_idem_pos {α : Type} [LinearOrderedField α] [FloorRing α] (F : FloatFormat)
    (hp : 1 ≤ F.prec) (x : α) (hx : 0 < x) : F.round (F.round x) = F.round x := by
  have hux : F.ulpExp x = max (Int.log 2 x) F.emin - ((F.prec : Int) - 1) := by
    unfold FloatFormat.ulpExp
    rw [abs_of_pos hx]
  rcases eq_or_lt_of_le (round_nonneg F x (le_of_lt hx)) with h0 | h0
  · rw [← h0, round_zero]
  · have huy : F.ulpExp (F.round x) =
        max (Int.log 2 (F.round x)) F.emin - ((F.prec : Int) - 1) := by
      unfold FloatFormat.ulpExp
      rw [abs_of_pos h0]
    have hle := round_le_pow F x hx
    have hlow : max (Int.log 2 x) F.emin ≤ max (Int.log 2 (F.round x)) F.emin := by
      by_cases he : F.emin ≤ Int.log 2 x
      · have h1 := pow_le_round F x hp hx he
        have h2 : Int.log 2 x ≤ Int.log 2 (F.round x) := by
          rw [← Int.zpow_le_iff_le_log (by norm_num) h0]
          simpa using h1
        omega
      · omega
    rcases eq_or_lt_of_le hle with hE | hE
    · have hlog : Int.log 2 (F.round x) = max (Int.log 2 x) F.emin + 1 := by
        rw [hE]
        have := Int.log_zpow (R := α) (b := 2) (by norm_num) (max (Int.log 2 x) F.emin + 1)
        simpa using this
      apply round_of_mul_ulp F (F.round x) ((2 ^ (F.prec - 1) : Nat) : Int)
      rw [huy, hlog]
      nth_rewrite 1 [hE]
      push_cast
      rw [← zpow_natCast, ← zpow_add₀ (by norm_num : (2 : α) ≠ 0)]
      congr 1
      omega
    · have hlog : Int.log 2 (F.round x) < max (Int.log 2 x) F.emin + 1 := by
        rw [← Int.lt_zpow_iff_log_lt (by norm_num) h0]
        simpa using hE
      have hu : F.ulpExp (F.round x) = F.ulpExp x := by
        rw [huy, hux]
        omega
      apply round_of_mul_ulp F (F.round x) (roundHalfEven (x / (2 : α) ^ F.ulpExp x))
      rw [hu]
      rfl

/-- Rounding is idempotent: a rounded number is a number of the format. -/
theorem round_idem {α : Type} [LinearOrderedField α] [FloorRing α] (F : FloatFormat)
    (hp : 1 ≤ F.prec) (x : α) : F.round (F.round x) = F.round x := by
  rcases lt_trichotomy 0 x with hx | hx | hx
  · exact round_idem_pos F hp x hx
  · rw [← hx, round_zero, round_zero]
  · have := round_idem_pos F hp (-x) (by linarith)
    rw [round_neg, round_neg] at this
    linarith

/-- One is a number of every format whose exponent range holds `0`. -/
theorem round_one {α : Type} [LinearOrderedField α] [FloorRing α] (F : FloatFormat)
    (hp : 1 ≤ F.prec) (he : F.emin ≤ 0) : F.round (1 : α) = 1 := by
  have hlog : Int.log 2 (1 : α) = 0 := Int.log_one_right 2
  apply round_of_mul_ulp F (1 : α) ((2 ^ (F.prec - 1) : Nat) : Int)
  unfold FloatFormat.ulpExp
  rw [abs_one, hlog, max_eq_left he]
  push_cast
  rw [← zpow_natCast, ← zpow_add₀ (by norm_num : (2 : α) ≠ 0)]
  have : ((F.prec - 1 : Nat) : Int) + (0 - ((F.prec : Int) - 1)) = 0 := by omega
  rw [this, zpow_zero]

/-! ## Concrete roundings -/

/-- A rational whose rounding is in the finite range rounds to a finite value. -/
theorem ofRat_fin (F : FloatFormat) (q r : ℚ) (h : F.round q = r)
    (hr : -F.maxFinite ≤ r ∧ r ≤ F.maxFinite) : F.ofRat q = FVal.fin r := by
  unfold FloatFormat.ofRat
  rw [h, if_neg (not_lt.mpr (abs_le.mpr hr))]

/-- A rational whose rounding is beyond the finite range rounds to an infinity. -/
theorem ofRat_inf (F : FloatFormat) (q r : ℚ) (h : F.round q = r) (hr : F.maxFinite < r) :
    F.ofRat q = FVal.inf (decide (q < 0)) := by
  unfold FloatFormat.ofRat
  rw [h, if_pos (lt_abs.mpr (Or.inl hr))]

/-- The largest finite number of `binary32`. -/
theorem maxFinite32 :
    (binary32.maxFinite : ℚ) = 340282346638528859811704183484516925440 := by
  norm_num [FloatFormat.maxFinite, binary32]

/-- Zero is a number of `binary32`. -/
theorem ofRat32_zero : binary32.ofRat 0 = FVal.fin 0 :=
  ofRat_fin binary32 0 0 (round_zero binary32) (by rw [maxFinite32]; norm_num)

/-- A rounding in `binary64`. -/
theorem round64_p7 : binary64.round (7 : ℚ) = 7 := by
  rw [round_eq binary64 (7 : ℚ) (2) (-50) 7881299347898368 (by norm_num) (by norm_num)
    (by decide) (by norm_num) (by norm_num)]
  norm_num

/-- A rounding in `binary64`. -/
theorem round64_p49 : binary64.round (49 : ℚ) = 49 := by
  rw [round_eq binary64 (49 : ℚ) (5) (-47) 6896136929411072 (by norm_num) (by norm_num)
    (by decide) (by norm_num) (by norm_num)]
  norm_num

/-- A rounding in `binary64`. -/
theorem round64_p1 : binary64.round (1 : ℚ) = 1 := by
  rw [round_eq binary64 (1 : ℚ) (0) (-52) 4503599627370496 (by norm_num) (by norm_num)
    (by decide) (by norm_num) (by norm_num)]
  norm_num

/-- A rounding in `binary64`. -/
theorem round64_p1_4 : binary64.round (1 / 4 : ℚ) = 1 / 4 := by
  rw [round_eq binary64 (1 / 4 : ℚ) (-2) (-54) 4503599627370496 (by norm_num) (by norm_num)
    (by decide) (by norm_num) (by norm_num)]
  norm_num

/-- A rounding in `binary64`. -/
theorem round64_p7_4 : binary64.round (7 / 4 : ℚ) = 7 / 4 := by
  rw [round_eq binary64 (7 / 4 : ℚ) (0) (-52) 7881299347898368 (by norm_num) (by norm_num)
    (by decide) (by norm_num) (by norm_num)]
  norm_num

/-- A rounding in `binary64`. -/
theorem round64_p1_100000000 : binary64.round (1 / 100000000 : ℚ) = 3022314549036573 / 302231454903657293676544 := by
  rw [round_eq binary64 (1 / 100000000 : ℚ) (-27) (-79) 6044629098073146 (by norm_num) (by norm_num)
    (by decide) (by norm_num) (by norm_num)]
  norm_num

/-- A rounding in `binary64`. -/
theorem round64_p1_49 : binary64.round (1 / 49 : ℚ) = 5882252574524729 / 288230376151711744 := by
  rw [round_eq binary64 (1 / 49 : ℚ) (-6) (-58) 5882252574524729 (by norm_num) (by norm_num)
    (by decide) (by norm_num) (by norm_num)]
  norm_num

/-- A rounding in `binary64`. -/
theorem round64_x3e368d0f : binary64.round (41175768021673103 / 1152921504606846976 : ℚ) = 2573485501354569 / 72057594037927936 := by
  rw [round_eq binary64 (41175768021673103 / 1152921504606846976 : ℚ) (-5) (-57) 5146971002709138 (by norm_num) (by norm_num)
    (by decide) (by norm_num) (by norm_num)]
  norm_num

/-- A rounding in `binary64`. -/
theorem round64_xeba9bf91 : binary64.round (288230376151711721 / 288230376151711744 : ℚ) = 9007199254740991 / 9007199254740992 := by
  rw [round_eq binary64 (288230376151711721 / 288230376151711744 : ℚ) (-1) (-53) 9007199254740991 (by norm_num) (by norm_num)
    (by decide) (by norm_num) (by norm_num)]
  norm_num

/-- A rounding in `binary64`. -/
theorem round64_p5 : binary64.round (5 : ℚ) = 5 := by
  rw [round_eq binary64 (5 : ℚ) (2) (-50) 5629499534213120 (by norm_num) (by norm_num)
    (by decide) (by norm_num) (by norm_num)]
  norm_num

/-- A rounding in `binary64`. -/
theorem round64_p25 : binary64.round (25 : ℚ) = 25 := by
  rw [round_eq binary64 (25 : ℚ) (4) (-48) 7036874417766400 (by norm_num) (by norm_num)
    (by decide) (by norm_num) (by norm_num)]
  norm_num

/-- A rounding in `binary64`. -/
theorem round64_p3_2 : binary64.round (3 / 2 : ℚ) = 3 / 2 := by
  rw [round_eq binary64 (3 / 2 : ℚ) (0) (-52) 6755399441055744 (by norm_num) (by norm_num)
    (by decide) (by norm_num) (by norm_num)]
  norm_num

/-- A rounding in `binary64`. -/
theorem round64_p7_2 : binary64.round (7 / 2 : ℚ) = 7 / 2 := by
  rw [round_eq binary64 (7 / 2 : ℚ) (1) (-51) 7881299347898368 (by norm_num) (by norm_num)
    (by decide) (by norm_num) (by norm_num)]
  norm_num

/-- A rounding in `binary64`. -/
theorem round64_p15_2 : binary64.round (15 / 2 : ℚ) = 15 / 2 := by
  rw [round_eq binary64 (15 / 2 : ℚ) (2) (-50) 8444249301319680 (by norm_num) (by norm_num)
    (by decide) (by norm_num) (by norm_num)]
  norm_num

/-- A rounding in `binary64`. -/
theorem round64_p35_2 : binary64.round (35 / 2 : ℚ) = 35 / 2 := by
  rw [round_eq binary64 (35 / 2 : ℚ) (4) (-48) 4925812092436480 (by norm_num) (by norm_num)
    (by decide) (by norm_num) (by norm_num)]
  norm_num

/-- A rounding in `binary64`. -/
theorem round64_p1_25 : binary64.round (1 / 25 : ℚ) = 5764607523034235 / 144115188075855872 := by
  rw [round_eq binary64 (1 / 25 : ℚ) (-5) (-57) 5764607523034235 (by norm_num) (by norm_num)
    (by decide) (by norm_num) (by norm_num)]
  norm_num

/-- A rounding in `binary64`. -/
theorem round64_x127905b4 : binary64.round (86469112845513525 / 288230376151711744 : ℚ) = 5404319552844595 / 18014398509481984 := by
  rw [round_eq binary64 (86469112845513525 / 288230376151711744 : ℚ) (-2) (-54) 5404319552844595 (by norm_num) (by norm_num)
    (by decide) (by norm_num) (by norm_num)]
  norm_num

/-- A rounding in `binary64`. -/
theorem round64_xb81cb380 : binary64.round (201761263306198225 / 288230376151711744 : ℚ) = 6305039478318695 / 9007199254740992 := by
  rw [round_eq binary64 (201761263306198225 / 288230376151711744 : ℚ) (-1) (-53) 6305039478318695 (by norm_num) (by norm_num)
    (by decide) (by norm_num) (by norm_num)]
  norm_num

/-- A rounding in `binary64`. -/
theorem round64_x1ab396ed : binary64.round (18014398509481985 / 18014398509481984 : ℚ) = 1 := by
  rw [round_eq binary64 (18014398509481985 / 18014398509481984 : ℚ) (0) (-52) 4503599627370496 (by norm_num) (by norm_num)
    (by decide) (by norm_num) (by norm_num)]
  norm_num

/-- A rounding in `binary64`. -/
theorem round64_xf194261f : binary64.round (144115188075855875 / 144115188075855872 : ℚ) = 1 := by
  rw [round_eq binary64 (144115188075855875 / 144115188075855872 : ℚ) (0) (-52) 4503599627370496 (by norm_num) (by norm_num)
    (by decide) (by norm_num) (by norm_num)]
  norm_num

/-- A rounding in `binary64`. -/
theorem round64_x3b2fce42 : binary64.round (12610078956637389 / 18014398509481984 : ℚ) = 3152519739159347 / 4503599627370496 := by
  rw [round_tie binary64 (12610078956637389 / 18014398509481984 : ℚ) (-1) (-53) 6305039478318694 (by norm_num) (by norm_num)
    (by decide) (by norm_num)]
  norm_num

/-- A rounding in `binary64`. -/
theorem round64_p1_9007199254740992 : binary64.round (1 / 9007199254740992 : ℚ) = 1 / 9007199254740992 := by
  rw [round_eq binary64 (1 / 9007199254740992 : ℚ) (-53) (-105) 4503599627370496 (by norm_num) (by norm_num)
    (by decide) (by norm_num) (by norm_num)]
  norm_num

/-- A rounding in `binary32`. -/
theorem round32_p1_9007199254740992 : binary32.round (1 / 9007199254740992 : ℚ) = 1 / 9007199254740992 := by
  rw [round_eq binary32 (1 / 9007199254740992 : ℚ) (-53) (-76) 8388608 (by norm_num) (by norm_num)
    (by decide) (by norm_num) (by norm_num)]
  norm_num

/-- A rounding in `binary32` with the range check. -/
theorem ofRat32_p1_9007199254740992 : binary32.ofRat (1 / 9007199254740992) = FVal.fin (1 / 9007199254740992) :=
  ofRat_fin binary32 _ _ round32_p1_9007199254740992 (by rw [maxFinite32]; norm_num)

/-- A rounding in `binary32`. -/
theorem round32_x0e9d6711 : binary32.round (5404319552844595 / 18014398509481984 : ℚ) = 5033165 / 16777216 := by
  rw [round_eq binary32 (5404319552844595 / 18014398509481984 : ℚ) (-2) (-25) 10066330 (by norm_num) (by norm_num)
    (by decide) (by norm_num) (by norm_num)]
  norm_num

/-- A rounding in `binary32` with the range check. -/
theorem ofRat32_x0e9d6711 : binary32.ofRat (5404319552844595 / 18014398509481984) = FVal.fin (5033165 / 16777216) :=
  ofRat_fin binary32 _ _ round32_x0e9d6711 (by rw [maxFinite32]; norm_num)

/-- A rounding in `binary32`. -/
theorem round32_p5592405_16777216 : binary32.round (5592405 / 16777216 : ℚ) = 5592405 / 16777216 := by
  rw [round_eq binary32 (5592405 / 16777216 : ℚ) (-2) (-25) 11184810 (by norm_num) (by norm_num)
    (by decide) (by norm_num) (by norm_num)]
  norm_num

/-- A rounding in `binary32` with the range check. -/
theorem ofRat32_p5592405_16777216 : binary32.ofRat (5592405 / 16777216) = FVal.fin (5592405 / 16777216) :=
  ofRat_fin binary32 _ _ round32_p5592405_16777216 (by rw [maxFinite32]; norm_num)

/-- A rounding in `binary32`. -/
theorem round32_p1_3 : binary32.round (1 / 3 : ℚ) = 11184811 / 33554432 := by
  rw [round_eq binary32 (1 / 3 : ℚ) (-2) (-25) 11184811 (by norm_num) (by norm_num)
    (by decide) (by norm_num) (by norm_num)]
  norm_num

/-- A rounding in `binary32` with the range check. -/
theorem ofRat32_p1_3 : binary32.ofRat (1 / 3) = FVal.fin (11184811 / 33554432) :=
  ofRat_fin binary32 _ _ round32_p1_3 (by rw [maxFinite32]; norm_num)

/-- A rounding in `binary32`. -/
theorem round32_p11184811_33554432 : binary32.round (11184811 / 33554432 : ℚ) = 11184811 / 33554432 := by
  rw [round_eq binary32 (11184811 / 33554432 : ℚ) (-2) (-25) 11184811 (by norm_num) (by norm_num)
    (by decide) (by norm_num) (by norm_num)]
  norm_num

/-- A rounding in `binary32` with the range check. -/
theorem ofRat32_p11184811_33554432 : binary32.ofRat (11184811 / 33554432) = FVal.fin (11184811 / 33554432) :=
  ofRat_fin binary32 _ _ round32_p11184811_33554432 (by rw [maxFinite32]; norm_num)

/-- A rounding in `binary32`. -/
theorem round32_p1_2 : binary32.round (1 / 2 : ℚ) = 1 / 2 := by
  rw [round_eq binary32 (1 / 2 : ℚ) (-1) (-24) 8388608 (by norm_num) (by norm_num)
    (by decide) (by norm_num) (by norm_num)]
  norm_num

/-- A rounding in `binary32` with the range check. -/
theorem ofRat32_p1_2 : binary32.ofRat (1 / 2) = FVal.fin (1 / 2) :=
  ofRat_fin binary32 _ _ round32_p1_2 (by rw [maxFinite32]; norm_num)

/-- A rounding in `binary32`. -/
theorem round32_p11184811_16777216 : binary32.round (11184811 / 16777216 : ℚ) = 11184811 / 16777216 := by
  rw [round_eq binary32 (11184811 / 16777216 : ℚ) (-1) (-24) 11184811 (by norm_num) (by norm_num)
    (by decide) (by norm_num) (by norm_num)]
  norm_num

/-- A rounding in `binary32` with the range check. -/
theorem ofRat32_p11184811_16777216 : binary32.ofRat (11184811 / 16777216) = FVal.fin (11184811 / 16777216) :=
  ofRat_fin binary32 _ _ round32_p11184811_16777216 (by rw [maxFinite32]; norm_num)

/-- A rounding in `binary32`. -/
theorem round32_x7601c3ad : binary32.round (6305039478318695 / 9007199254740992 : ℚ) = 11744051 / 16777216 := by
  rw [round_eq binary32 (6305039478318695 / 9007199254740992 : ℚ) (-1) (-24) 11744051 (by norm_num) (by norm_num)
    (by decide) (by norm_num) (by norm_num)]
  norm_num

/-- A rounding in `binary32` with the range check. -/
theorem ofRat32_x7601c3ad : binary32.ofRat (6305039478318695 / 9007199254740992) = FVal.fin (11744051 / 16777216) :=
  ofRat_fin binary32 _ _ round32_x7601c3ad (by rw [maxFinite32]; norm_num)

/-- A rounding in `binary32`. -/
theorem round32_p1 : binary32.round (1 : ℚ) = 1 := by
  rw [round_eq binary32 (1 : ℚ) (0) (-23) 8388608 (by norm_num) (by norm_num)
    (by decide) (by norm_num) (by norm_num)]
  norm_num

/-- A rounding in `binary32` with the range check. -/
theorem ofRat32_p1 : binary32.ofRat (1) = FVal.fin (1) :=
  ofRat_fin binary32 _ _ round32_p1 (by rw [maxFinite32]; norm_num)

/-- A rounding in `binary32`. -/
theorem round32_p33554433_33554432 : binary32.round (33554433 / 33554432 : ℚ) = 1 := by
  rw [round_eq binary32 (33554433 / 33554432 : ℚ) (0) (-23) 8388608 (by norm_num) (by norm_num)
    (by decide) (by norm_num) (by norm_num)]
  norm_num

/-- A rounding in `binary32` with the range check. -/
theorem ofRat32_p33554433_33554432 : binary32.ofRat (33554433 / 33554432) = FVal.fin (1) :=
  ofRat_fin binary32 _ _ round32_p33554433_33554432 (by rw [maxFinite32]; norm_num)

/-- A rounding in `binary32`. -/
theorem round32_p2 : binary32.round (2 : ℚ) = 2 := by
  rw [round_eq binary32 (2 : ℚ) (1) (-22) 8388608 (by norm_num) (by norm_num)
    (by decide) (by norm_num) (by norm_num)]
  norm_num

/-- A rounding in `binary32` with the range check. -/
theorem ofRat32_p2 : binary32.ofRat (2) = FVal.fin (2) :=
  ofRat_fin binary32 _ _ round32_p2 (by rw [maxFinite32]; norm_num)

/-- A rounding in `binary32`. -/
theorem round32_p3 : binary32.round (3 : ℚ) = 3 := by
  rw [round_eq binary32 (3 : ℚ) (1) (-22) 12582912 (by norm_num) (by norm_num)
    (by decide) (by norm_num) (by norm_num)]
  norm_num

/-- A rounding in `binary32` with the range check. -/
theorem ofRat32_p3 : binary32.ofRat (3) = FVal.fin (3) :=
  ofRat_fin binary32 _ _ round32_p3 (by rw [maxFinite32]; norm_num)

/-- A rounding in `binary32`. -/
theorem round32_xdbeee981 : binary32.round (85070591730234615865843651857942052864 : ℚ) = 85070591730234615865843651857942052864 := by
  rw [round_eq binary32 (85070591730234615865843651857942052864 : ℚ) (126) (103) 8388608 (by norm_num) (by norm_num)
    (by decide) (by norm_num) (by norm_num)]
  norm_num

/-- A rounding in `binary32` with the range check. -/
theorem ofRat32_xdbeee981 : binary32.ofRat (85070591730234615865843651857942052864) = FVal.fin (85070591730234615865843651857942052864) :=
  ofRat_fin binary32 _ _ round32_xdbeee981 (by rw [maxFinite32]; norm_num)

/-- A rounding in `binary32`. -/
theorem round32_xdb17e0ec : binary32.round (170141183460469231731687303715884105728 : ℚ) = 170141183460469231731687303715884105728 := by
  rw [round_eq binary32 (170141183460469231731687303715884105728 : ℚ) (127) (104) 8388608 (by norm_num) (by norm_num)
    (by decide) (by norm_num) (by norm_num)]
  norm_num

/-- A rounding in `binary32` with the range check. -/
theorem ofRat32_xdb17e0ec : binary32.ofRat (170141183460469231731687303715884105728) = FVal.fin (170141183460469231731687303715884105728) :=
  ofRat_fin binary32 _ _ round32_xdb17e0ec (by rw [maxFinite32]; norm_num)

/-- A rounding in `binary32`. -/
theorem round32_x471972f6 : binary32.round (340282366920938463463374607431768211456 : ℚ) = 340282366920938463463374607431768211456 := by
  rw [round_eq binary32 (340282366920938463463374607431768211456 : ℚ) (128) (105) 8388608 (by norm_num) (by norm_num)
    (by decide) (by norm_num) (by norm_num)]
  norm_num

/-- A rounding in `binary32` that overflows. -/
theorem ofRat32_x471972f6 : binary32.ofRat (340282366920938463463374607431768211456) = FVal.inf false :=
  (ofRat_inf binary32 _ _ round32_x471972f6 (by rw [maxFinite32]; norm_num)).trans (by norm_num)

/-- Reading a vector of `Float` values at a natural index through an `int`. -/
theorem Rounded_at?_natCast (l : List FVal) (k : Nat) :
    Rounded.Distribution1D.at? l (k : Int) = l[k]? := by
  simp [Rounded.Distribution1D.at?]

/-- Reading a vector of `Float` values one past a natural index through an `int`. -/
theorem Rounded_at?_natCast_succ (l : List FVal) (k : Nat) :
    Rounded.Distribution1D.at? l ((k : Int) + 1) = l[k + 1]? := by
  have h : ((k : Int) + 1) = ((k + 1 : Nat) : Int) := by push_cast; rfl
  rw [h, Rounded_at?_natCast]

/-- The value of the rounded `sampleContinuous` once the offset and the entries it
reads are known. -/
theorem Rounded_sampleContinuous_eq (F : FloatFormat) (self : Rounded.Distribution1D) (u : FVal)
    (pdf : Bool) (k : Nat) (c0 c1 fo : FVal)
    (hk : Distribution1D.FindInterval self.cdf.length
      (fun index => (self.cdf[index]?).map (fun c => FVal.le c u)) = some (k : Int))
    (h0 : self.cdf[k]? = some c0) (h1 : self.cdf[k + 1]? = some c1)
    (hf : self.func[k]? = some fo) :
    self.sampleContinuous F u pdf =
      some (FVal.div F
          (FVal.add F (F.ofRat (k : ℚ))
            (if FVal.lt (FVal.fin 0) (FVal.sub F c1 c0) = true then
              FVal.div F (FVal.sub F u c0) (FVal.sub F c1 c0)
            else FVal.sub F u c0))
          (F.ofRat (self.size : ℚ)),
        (if pdf = true then
          some (if FVal.lt (FVal.fin 0) self.funcInt = true then FVal.div F fo self.funcInt
            else FVal.fin 0)
        else none),
        (k : Int)) := by
  unfold Rounded.Distribution1D.sampleContinuous
  rw [hk]
  simp only [Option.bind_eq_bind, Option.some_bind, Rounded_at?_natCast, Rounded_at?_natCast_succ,
    h0, h1, hf, Option.map_some']
  cases pdf <;> by_cases hF : FVal.lt (FVal.fin 0) self.funcInt = true <;> simp [hF]

/-- The value of the rounded `sampleDiscrete`, without `uRemapped`, once the offset
and the sample it reads are known. -/
theorem Rounded_sampleDiscrete_eq (F : FloatFormat) (self : Rounded.Distribution1D) (u : FVal)
    (pdf : Bool) (k : Nat) (fo : FVal)
    (hk : Distribution1D.FindInterval self.cdf.length
      (fun index => (self.cdf[index]?).map (fun c => FVal.le c u)) = some (k : Int))
    (hf : self.func[k]? = some fo) :
    self.sampleDiscrete F u pdf false =
      some ((k : Int),
        (if pdf = true then
          some (if FVal.lt (FVal.fin 0) self.funcInt = true then
            FVal.div F fo (FVal.mul F self.funcInt (F.ofRat (self.size : ℚ)))
            else FVal.fin 0)
        else none),
        none) := by
  unfold Rounded.Distribution1D.sampleDiscrete
  rw [hk]
  simp only [Option.bind_eq_bind, Option.some_bind, Rounded_at?_natCast, hf, Option.map_some']
  cases pdf <;> by_cases hF : FVal.lt (FVal.fin 0) self.funcInt = true <;> simp [hF]

/-- The offset that the rounded `sampleDiscrete` returns is the result of
`FindInterval`. -/
theorem Rounded_sampleDiscrete_offset (F : FloatFormat) (self : Rounded.Distribution1D)
    (u : FVal) (pdf b : Bool) (offset : Int) (pd r : Option FVal)
    (h : self.sampleDiscrete F u pdf b = some (offset, pd, r)) :
    Distribution1D.FindInterval self.cdf.length
      (fun index => (self.cdf[index]?).map (fun c => FVal.le c u)) = some offset := by
  unfold Rounded.Distribution1D.sampleDiscrete at h
  cases hFI : Distribution1D.FindInterval self.cdf.length
      (fun index => (self.cdf[index]?).map (fun c => FVal.le c u)) with
  | none =>
    rw [hFI] at h
    simp at h
  | some o =>
    rw [hFI] at h
    have inv : ∀ (X : Option (Option FVal)) (D : Option FVal),
        (if b = true then X.bind (fun y => some (o, D, y)) else some (o, D, none))
          = some (offset, pd, r) → o = offset := by
      intro X D hX
      cases b with
      | false =>
        simp at hX
        exact hX.1
      | true =>
        cases X with
        | none => simp at hX
        | some y =>
          simp at hX
          exact hX.1
    congr 1
    cases pdf with
    | false =>
      simp at h
      exact inv _ _ h
    | true =>
      by_cases hF : FVal.lt (FVal.fin 0) self.funcInt = true
      · cases hfo : Rounded.Distribution1D.at? self.func o with
        | none => simp [hF, hfo] at h
        | some fo =>
          simp [hF, hfo] at h
          exact inv _ _ h
      · simp [hF] at h
        exact inv _ _ h

/-! ## `Distribution1D` in `Float` arithmetic: the search and the constructor -/

/-- The bisection loop of `FindInterval` ends at a boundary of the predicate: the
index before the result satisfies it and the result does not.  No monotonicity
is needed. -/
theorem FindInterval_loop_boundary (pred : Nat → Option Bool) (size : Nat)
    (hdef : ∀ i, i < size → ∃ b, pred i = some b) :
    ∀ len first, first + len ≤ size → (first = 0 ∨ pred (first - 1) = some true) →
      (first + len = size ∨ pred (first + len) = some false) →
      ∃ k, Distribution1D.FindInterval.loop pred first len = some k ∧ k ≤ size ∧
        (k = 0 ∨ pred (k - 1) = some true) ∧ (k = size ∨ pred k = some false) := by
  intro len
  induction len using Nat.strong_induction_on with
  | _ len IH =>
    intro first hle hT hF
    rw [Distribution1D.FindInterval.loop]
    by_cases hlen : len > 0
    · obtain ⟨b, hb⟩ := hdef (first + len / 2) (by omega)
      simp only [hlen, if_true, hb]
      cases b with
      | false =>
        exact IH (len / 2) (by omega) first (by omega) hT (Or.inr hb)
      | true =>
        have e : first + len / 2 + 1 + (len - (len / 2 + 1)) = first + len := by omega
        exact IH (len - (len / 2 + 1)) (by omega) (first + len / 2 + 1) (by omega)
          (Or.inr (by simpa using hb)) (by rw [e]; exact hF)
    · simp only [hlen, if_false]
      have e : first + len = first := by omega
      rw [e] at hF
      exact ⟨first, rfl, by omega, hT, hF⟩

/-- The largest finite number of a format is not negative. -/
theorem maxFinite_nonneg (F : FloatFormat) : (0 : ℚ) ≤ F.maxFinite := by
  unfold FloatFormat.maxFinite
  have h1 : (1 : ℚ) ≤ (2 : ℚ) ^ F.prec := one_le_pow₀ (by norm_num)
  exact mul_nonneg (by linarith) (le_of_lt (zpow_pos (by norm_num) _))

/-- The largest finite number of a format whose exponent range holds `0` is at
least `1`. -/
theorem one_le_maxFinite (F : FloatFormat) (hp : 1 ≤ F.prec) (hx : 0 ≤ F.emax) :
    (1 : ℚ) ≤ F.maxFinite := by
  unfold FloatFormat.maxFinite
  have h1 : (2 : ℚ) ^ (F.prec - 1) ≤ (2 : ℚ) ^ F.prec - 1 := by
    have h2 : (2 : ℚ) ^ F.prec = 2 * (2 : ℚ) ^ (F.prec - 1) := by
      rw [← pow_succ']
      congr 1
      omega
    have h3 : (1 : ℚ) ≤ (2 : ℚ) ^ (F.prec - 1) := one_le_pow₀ (by norm_num)
    linarith
  have h4 : (2 : ℚ) ^ (F.prec - 1) * (2 : ℚ) ^ (F.emax - ((F.prec : Int) - 1)) =
      (2 : ℚ) ^ F.emax := by
    rw [← zpow_natCast, ← zpow_add₀ (by norm_num : (2 : ℚ) ≠ 0)]
    congr 1
    omega
  have h5 : (1 : ℚ) ≤ (2 : ℚ) ^ F.emax := one_le_zpow₀ (by norm_num) hx
  calc (1 : ℚ) ≤ (2 : ℚ) ^ F.emax := h5
    _ = (2 : ℚ) ^ (F.prec - 1) * (2 : ℚ) ^ (F.emax - ((F.prec : Int) - 1)) := h4.symm
    _ ≤ ((2 : ℚ) ^ F.prec - 1) * (2 : ℚ) ^ (F.emax - ((F.prec : Int) - 1)) :=
      mul_le_mul_of_nonneg_right h1 (le_of_lt (zpow_pos (by norm_num) _))

/-- Zero is a number of every format. -/
theorem ofRat_zero (F : FloatFormat) : F.ofRat 0 = FVal.fin 0 := by
  unfold FloatFormat.ofRat
  rw [round_zero, abs_zero, if_neg (not_lt.mpr (maxFinite_nonneg F))]

/-- One is a number of every format whose exponent range holds `0`. -/
theorem ofRat_one (F : FloatFormat) (hp : 1 ≤ F.prec) (he : F.emin ≤ 0) (hx : 0 ≤ F.emax) :
    F.ofRat 1 = FVal.fin 1 := by
  unfold FloatFormat.ofRat
  rw [round_one F hp he, abs_one, if_neg (not_lt.mpr (one_le_maxFinite F hp hx))]

/-- A finite result of a rounding is a number of the format. -/
theorem ofRat_idem (F : FloatFormat) (hp : 1 ≤ F.prec) (q r : ℚ)
    (h : F.ofRat q = FVal.fin r) : F.ofRat r = FVal.fin r := by
  unfold FloatFormat.ofRat at h
  by_cases hc : F.maxFinite < |F.round q|
  · rw [if_pos hc] at h
    exact absurd h (by simp)
  · rw [if_neg hc] at h
    have hr : F.round q = r := by simpa using h
    unfold FloatFormat.ofRat
    rw [← hr, round_idem F hp, if_neg hc]

/-- A finite sum is a number of the format. -/
theorem add_canonical (F : FloatFormat) (hp : 1 ≤ F.prec) (a b : FVal) (r : ℚ)
    (h : FVal.add F a b = FVal.fin r) : F.ofRat r = FVal.fin r := by
  cases a with
  | fin x =>
    cases b with
    | fin y => exact ofRat_idem F hp _ r h
    | inf t => simp [FVal.add] at h
    | nan => simp [FVal.add] at h
  | inf s =>
    cases b with
    | fin y => simp [FVal.add] at h
    | inf t =>
      simp only [FVal.add] at h
      split_ifs at h
    | nan => simp [FVal.add] at h
  | nan => simp [FVal.add] at h

/-- Adding zero to a number of the format, to an infinity or to a NaN does not
change it. -/
theorem add_zero_canonical (F : FloatFormat) (a : FVal)
    (h : ∀ r, a = FVal.fin r → F.ofRat r = FVal.fin r) : FVal.add F a (FVal.fin 0) = a := by
  cases a with
  | fin x =>
    simp only [FVal.add, add_zero]
    exact h x rfl
  | inf s => rfl
  | nan => rfl

/-- The count of samples, `n >= 1`, converted to the format is not zero, so that
`0 / n` is `0`. -/
theorem div_zero_natCast (F : FloatFormat) (hp : 1 ≤ F.prec) (he : F.emin ≤ 0) (n : Nat)
    (hn : 1 ≤ n) : FVal.div F (FVal.fin 0) (F.ofRat (n : ℚ)) = FVal.fin 0 := by
  have h1 : (1 : ℚ) ≤ F.round (n : ℚ) := by
    have := round_mono F hp (1 : ℚ) (n : ℚ) (by exact_mod_cast hn)
    rwa [round_one F hp he] at this
  unfold FloatFormat.ofRat
  by_cases hc : F.maxFinite < |F.round (n : ℚ)|
  · rw [if_pos hc]
    rfl
  · rw [if_neg hc]
    simp only [FVal.div]
    rw [if_neg (by linarith), zero_div, ofRat_zero]

/-- Zero divided by a positive value of the format is zero. -/
theorem div_zero_pos (F : FloatFormat) (c : FVal) (h : FVal.lt (FVal.fin 0) c = true) :
    FVal.div F (FVal.fin 0) c = FVal.fin 0 := by
  cases c with
  | fin b =>
    simp only [FVal.lt, decide_eq_true_eq] at h
    simp only [FVal.div]
    rw [if_neg (ne_of_gt h), zero_div, ofRat_zero]
  | inf s => rfl
  | nan => simp [FVal.lt] at h

/-- A positive value divided by itself is not at most a number below `1`: the
quotient is `1`, or a NaN when the value is an infinity. -/
theorem div_self_not_le (F : FloatFormat) (hp : 1 ≤ F.prec) (he : F.emin ≤ 0) (hx : 0 ≤ F.emax)
    (c : FVal) (h : FVal.lt (FVal.fin 0) c = true) (u : ℚ) (hu : u < 1) :
    FVal.le (FVal.div F c c) (FVal.fin u) = false := by
  cases c with
  | fin b =>
    simp only [FVal.lt, decide_eq_true_eq] at h
    simp only [FVal.div]
    rw [if_neg (ne_of_gt h), div_self (ne_of_gt h), ofRat_one F hp he hx]
    simp only [FVal.le, decide_eq_false_iff_not, not_le]
    exact hu
  | inf s => rfl
  | nan => simp [FVal.lt] at h

/-- The running sums of the rounded constructor start with the start value. -/
theorem Rounded_stepIntegral_cons (F : FloatFormat) (n acc : FVal) (l : List FVal) :
    ∃ t, Rounded.Distribution1D.stepIntegral F n acc l = acc :: t ∧ t.length = l.length := by
  induction l generalizing acc with
  | nil => exact ⟨[], rfl, rfl⟩
  | cons x xs ih =>
    obtain ⟨t, ht, hl⟩ := ih (FVal.add F acc (FVal.div F x n))
    refine ⟨Rounded.Distribution1D.stepIntegral F n (FVal.add F acc (FVal.div F x n)) xs, rfl, ?_⟩
    rw [ht]
    simp [hl]

/-- One step of the first loop of the rounded constructor:
`cdf[k + 1] = cdf[k] + func[k] / n`, and `cdf[k]` is a number of the format, an
infinity or a NaN when the start value is. -/
theorem Rounded_stepIntegral_succ (F : FloatFormat) (hp : 1 ≤ F.prec) (n : FVal) :
    ∀ (l : List FVal) (acc : FVal) (k : Nat) (x : FVal), l[k]? = some x →
      (∀ r, acc = FVal.fin r → F.ofRat r = FVal.fin r) →
      ∃ a, (Rounded.Distribution1D.stepIntegral F n acc l)[k]? = some a ∧
        (Rounded.Distribution1D.stepIntegral F n acc l)[k + 1]? =
          some (FVal.add F a (FVal.div F x n)) ∧
        (∀ r, a = FVal.fin r → F.ofRat r = FVal.fin r) := by
  intro l
  induction l with
  | nil =>
    intro acc k x hx
    simp at hx
  | cons y ys ih =>
    intro acc k x hx hacc
    cases k with
    | zero =>
      simp only [List.getElem?_cons_zero, Option.some.injEq] at hx
      subst hx
      obtain ⟨t, ht, _⟩ := Rounded_stepIntegral_cons F n (FVal.add F acc (FVal.div F y n)) ys
      refine ⟨acc, ?_, ?_, hacc⟩
      · simp only [Rounded.Distribution1D.stepIntegral, List.getElem?_cons_zero]
      · simp only [Rounded.Distribution1D.stepIntegral, ht, zero_add, List.getElem?_cons_succ,
          List.getElem?_cons_zero]
    | succ j =>
      simp only [List.getElem?_cons_succ] at hx
      obtain ⟨a, h1, h2, h3⟩ := ih (FVal.add F acc (FVal.div F y n)) j x hx
        (fun r hr => add_canonical F hp _ _ r hr)
      refine ⟨a, ?_, ?_, h3⟩
      · simp only [Rounded.Distribution1D.stepIntegral, List.getElem?_cons_succ]
        exact h1
      · simp only [Rounded.Distribution1D.stepIntegral, List.getElem?_cons_succ]
        exact h2

/-- A positive value is not zero. -/
theorem isZero_of_pos (c : FVal) (h : FVal.lt (FVal.fin 0) c = true) : c.isZero = false := by
  cases c with
  | fin b =>
    simp only [FVal.lt, decide_eq_true_eq] at h
    simp only [FVal.isZero, decide_eq_false_iff_not]
    exact ne_of_gt h
  | inf s => rfl
  | nan => rfl

/-- The rounded constructor when the integral it finds is positive: the second
loop divides the entries `1 .. n` by the integral (line 440). -/
theorem Rounded_new_of_pos (F : FloatFormat) (fs : List FVal)
    (h : FVal.lt (FVal.fin 0) (Rounded.Distribution1D.new F fs).funcInt = true) :
    ∃ t, Rounded.Distribution1D.stepIntegral F (F.ofRat (fs.length : ℚ)) (FVal.fin 0) fs =
        FVal.fin 0 :: t ∧ t.length = fs.length ∧
      FVal.lt (FVal.fin 0) ((FVal.fin 0 :: t).getD fs.length (FVal.fin 0)) = true ∧
      Rounded.Distribution1D.new F fs =
        ⟨fs, FVal.fin 0 ::
            t.map (fun c => FVal.div F c ((FVal.fin 0 :: t).getD fs.length (FVal.fin 0))),
          (FVal.fin 0 :: t).getD fs.length (FVal.fin 0)⟩ := by
  obtain ⟨t, ht, hl⟩ := Rounded_stepIntegral_cons F (F.ofRat (fs.length : ℚ)) (FVal.fin 0) fs
  have hI : (Rounded.Distribution1D.new F fs).funcInt =
      (FVal.fin 0 :: t).getD fs.length (FVal.fin 0) := by
    unfold Rounded.Distribution1D.new
    simp only [ht]
    split_ifs <;> rfl
  rw [hI] at h
  refine ⟨t, ht, hl, h, ?_⟩
  unfold Rounded.Distribution1D.new
  simp only [ht]
  rw [if_neg (by rw [isZero_of_pos _ h]; simp)]
  simp

/-! ## `Distribution1D` in `Float` arithmetic: bounds on the values -/

/-- A non-negative rational rounds to a non-negative number of the format or
overflows to `+inf`. -/
theorem ofRat_nonneg (F : FloatFormat) (q : ℚ) (hq : 0 ≤ q) :
    F.ofRat q = FVal.inf false ∨ ∃ r, F.ofRat q = FVal.fin r ∧ 0 ≤ r := by
  unfold FloatFormat.ofRat
  by_cases hc : F.maxFinite < |F.round q|
  · rw [if_pos hc]
    left
    simp [not_lt.mpr hq]
  · rw [if_neg hc]
    exact Or.inr ⟨_, rfl, round_nonneg F q hq⟩

/-- The rounded constructor stores the samples unchanged. -/
theorem Rounded_new_func (F : FloatFormat) (fs : List FVal) :
    (Rounded.Distribution1D.new F fs).func = fs := by
  unfold Rounded.Distribution1D.new
  simp only
  split_ifs <;> rfl

/-- The sum of two values that are each a non-negative number or `+inf` is a
non-negative number or `+inf`. -/
theorem add_nonneg_or_inf (F : FloatFormat) (a b : FVal)
    (ha : a = FVal.inf false ∨ ∃ r, a = FVal.fin r ∧ 0 ≤ r)
    (hb : b = FVal.inf false ∨ ∃ r, b = FVal.fin r ∧ 0 ≤ r) :
    FVal.add F a b = FVal.inf false ∨ ∃ r, FVal.add F a b = FVal.fin r ∧ 0 ≤ r := by
  rcases ha with ha | ⟨x, ha, hx⟩
  · rcases hb with hb | ⟨y, hb, _⟩
    · rw [ha, hb]
      left
      rfl
    · rw [ha, hb]
      left
      rfl
  · rcases hb with hb | ⟨y, hb, hy⟩
    · rw [ha, hb]
      left
      rfl
    · rw [ha, hb]
      exact ofRat_nonneg F (x + y) (add_nonneg hx hy)

/-- A non-negative sample divided by the count of samples, `n >= 1`, is a
non-negative number or `+inf`. -/
theorem div_natCast_nonneg (F : FloatFormat) (hp : 1 ≤ F.prec) (he : F.emin ≤ 0) (n : Nat)
    (hn : 1 ≤ n) (q : ℚ) (hq : 0 ≤ q) :
    FVal.div F (FVal.fin q) (F.ofRat (n : ℚ)) = FVal.inf false ∨
      ∃ r, FVal.div F (FVal.fin q) (F.ofRat (n : ℚ)) = FVal.fin r ∧ 0 ≤ r := by
  have h1 : (1 : ℚ) ≤ F.round (n : ℚ) := by
    have := round_mono F hp (1 : ℚ) (n : ℚ) (by exact_mod_cast hn)
    rwa [round_one F hp he] at this
  unfold FloatFormat.ofRat
  by_cases hc : F.maxFinite < |F.round (n : ℚ)|
  · rw [if_pos hc]
    exact Or.inr ⟨0, rfl, le_refl _⟩
  · rw [if_neg hc]
    simp only [FVal.div]
    rw [if_neg (by linarith)]
    exact ofRat_nonneg F _ (div_nonneg hq (by linarith))

/-- Every running sum of the rounded constructor on non-negative samples is a
non-negative number or `+inf`. -/
theorem Rounded_stepIntegral_nonneg (F : FloatFormat) (hp : 1 ≤ F.prec) (he : F.emin ≤ 0)
    (n : Nat) (hn : 1 ≤ n) :
    ∀ (l : List ℚ) (acc : FVal), (∀ x ∈ l, 0 ≤ x) →
      (acc = FVal.inf false ∨ ∃ r, acc = FVal.fin r ∧ 0 ≤ r) →
      ∀ v ∈ Rounded.Distribution1D.stepIntegral F (F.ofRat (n : ℚ)) acc (l.map FVal.fin),
        v = FVal.inf false ∨ ∃ r, v = FVal.fin r ∧ 0 ≤ r := by
  intro l
  induction l with
  | nil =>
    intro acc _ hacc v hv
    simp only [List.map_nil, Rounded.Distribution1D.stepIntegral, List.mem_singleton] at hv
    rw [hv]
    exact hacc
  | cons y ys ih =>
    intro acc hl hacc v hv
    simp only [List.map_cons, Rounded.Distribution1D.stepIntegral, List.mem_cons] at hv
    rcases hv with hv | hv
    · rw [hv]
      exact hacc
    · exact ih _ (fun x hx => hl x (List.mem_cons_of_mem _ hx))
        (add_nonneg_or_inf F _ _ hacc
          (div_natCast_nonneg F hp he n hn y (hl y (List.mem_cons_self _ _)))) v hv

/-- A non-negative number or `+inf` divided by a positive value is not
negative: it is a non-negative number, `+inf` or a NaN. -/
theorem div_pos_not_neg (F : FloatFormat) (v c : FVal)
    (hv : v = FVal.inf false ∨ ∃ r, v = FVal.fin r ∧ 0 ≤ r)
    (hc : FVal.lt (FVal.fin 0) c = true) : FVal.lt (FVal.div F v c) (FVal.fin 0) = false := by
  cases c with
  | fin b =>
    simp only [FVal.lt, decide_eq_true_eq] at hc
    rcases hv with hv | ⟨r, hv, hr⟩
    · rw [hv]
      simp [FVal.div, FVal.lt, not_lt.mpr (le_of_lt hc)]
    · rw [hv]
      simp only [FVal.div]
      rw [if_neg (ne_of_gt hc)]
      rcases ofRat_nonneg F (r / b) (div_nonneg hr (le_of_lt hc)) with h | ⟨s, h, hs⟩
      · rw [h]
        rfl
      · rw [h]
        simp only [FVal.lt, decide_eq_false_iff_not, not_lt]
        exact hs
  | inf s =>
    rcases hv with hv | ⟨r, hv, _⟩
    · rw [hv]
      rfl
    · rw [hv]
      simp [FVal.div, FVal.lt]
  | nan => simp [FVal.lt] at hc

/-- The search `FindInterval` over a vector of `n + 1 >= 2` values that starts
with `0`, has no negative entry and whose last entry is not at most `u`, for
`u >= 0`: it ends at an index `k < n` with `0 <= L[k] <= u`, while `L[k + 1]` is a
number above `u`, `+inf` or a NaN. -/
theorem FindInterval_bracket (L : List FVal) (n : Nat) (hn : 1 ≤ n) (hlen : L.length = n + 1)
    (h0 : L[0]? = some (FVal.fin 0)) (u : ℚ) (hu0 : 0 ≤ u)
    (hlast : ∀ c, L[n]? = some c → FVal.le c (FVal.fin u) = false)
    (hnn : ∀ c ∈ L, FVal.lt c (FVal.fin 0) = false) :
    ∃ (k : Nat) (a : ℚ) (c1 : FVal),
      Distribution1D.FindInterval L.length
        (fun index => (L[index]?).map (fun c => FVal.le c (FVal.fin u))) = some (k : Int) ∧
      k < n ∧ L[k]? = some (FVal.fin a) ∧ L[k + 1]? = some c1 ∧ 0 ≤ a ∧ a ≤ u ∧
      (c1 = FVal.inf false ∨ c1 = FVal.nan ∨ ∃ b, c1 = FVal.fin b ∧ u < b) := by
  have hdef : ∀ i, i < L.length →
      ∃ b, (fun index => (L[index]?).map (fun c => FVal.le c (FVal.fin u))) i = some b := by
    intro i hi
    refine ⟨FVal.le L[i] (FVal.fin u), ?_⟩
    simp only [List.getElem?_eq_getElem hi, Option.map_some']
  obtain ⟨K, hK, hKle, hT, hB⟩ :=
    FindInterval_loop_boundary _ _ hdef L.length 0 (by omega) (Or.inl rfl) (Or.inl (by omega))
  rw [hlen] at hKle hB
  have hK0 : K ≠ 0 := by
    intro hz
    rw [hz] at hB
    rcases hB with hB | hB
    · omega
    · simp only [h0, Option.map_some', Option.some.injEq, FVal.le,
        decide_eq_false_iff_not] at hB
      exact hB hu0
  have hKn : K ≠ n + 1 := by
    intro hKe
    rcases hT with hT | hT
    · exact hK0 hT
    · rw [hKe] at hT
      simp only [Nat.add_sub_cancel] at hT
      have hnl : n < L.length := by omega
      rw [List.getElem?_eq_getElem hnl] at hT
      simp only [Option.map_some', Option.some.injEq] at hT
      rw [hlast _ (List.getElem?_eq_getElem hnl)] at hT
      exact absurd hT (by simp)
  have hT1 : (L[K - 1]?).map (fun c => FVal.le c (FVal.fin u)) = some true := by
    rcases hT with hT | hT
    · exact absurd hT hK0
    · exact hT
  have hB1 : (L[K]?).map (fun c => FVal.le c (FVal.fin u)) = some false := by
    rcases hB with hB | hB
    · exact absurd hB hKn
    · exact hB
  obtain ⟨k, hk⟩ : ∃ k, K = k + 1 := ⟨K - 1, by omega⟩
  subst hk
  simp only [Nat.add_sub_cancel] at hT1
  have hkn : k < n := by omega
  have hck : k < L.length := by omega
  have hck1 : k + 1 < L.length := by omega
  have hn0 := hnn _ (List.getElem_mem hck)
  have hn1 := hnn _ (List.getElem_mem hck1)
  rw [List.getElem?_eq_getElem hck] at hT1
  rw [List.getElem?_eq_getElem hck1] at hB1
  simp only [Option.map_some', Option.some.injEq] at hT1 hB1
  have hFI : Distribution1D.FindInterval L.length
      (fun index => (L[index]?).map (fun c => FVal.le c (FVal.fin u))) = some (k : Int) := by
    unfold Distribution1D.FindInterval
    rw [hK]
    simp only [Option.some.injEq, stdClamp, hlen]
    push_cast
    rw [if_neg (by omega), if_neg (by omega)]
    ring
  have hc0 := List.getElem?_eq_getElem hck
  have hc1 := List.getElem?_eq_getElem hck1
  generalize L[k] = c0 at hn0 hT1 hc0
  generalize L[k + 1] = c1 at hn1 hB1 hc1
  cases c0 with
  | fin a =>
    simp only [FVal.le, decide_eq_true_eq] at hT1
    simp only [FVal.lt, decide_eq_false_iff_not, not_lt] at hn0
    refine ⟨k, a, c1, hFI, hkn, hc0, hc1, hn0, hT1, ?_⟩
    cases c1 with
    | fin b =>
      simp only [FVal.le, decide_eq_false_iff_not, not_le] at hB1
      exact Or.inr (Or.inr ⟨b, rfl, hB1⟩)
    | inf s =>
      simp only [FVal.le] at hB1
      rw [hB1]
      exact Or.inl rfl
    | nan => exact Or.inr (Or.inl rfl)
  | inf s =>
    simp only [FVal.le] at hT1
    simp only [FVal.lt] at hn0
    rw [hT1] at hn0
    exact absurd hn0 (by simp)
  | nan => simp [FVal.le] at hT1

/-- The count of samples, `n >= 1`, converted to the format is positive. -/
theorem ofRat_natCast_pos (F : FloatFormat) (hp : 1 ≤ F.prec) (he : F.emin ≤ 0) (n : Nat)
    (hn : 1 ≤ n) : FVal.lt (FVal.fin 0) (F.ofRat (n : ℚ)) = true := by
  have h1 : (1 : ℚ) ≤ F.round (n : ℚ) := by
    have := round_mono F hp (1 : ℚ) (n : ℚ) (by exact_mod_cast hn)
    rwa [round_one F hp he] at this
  unfold FloatFormat.ofRat
  by_cases hc : F.maxFinite < |F.round (n : ℚ)|
  · rw [if_pos hc]
    have : ¬ ((n : ℚ) < 0) := not_lt.mpr (by positivity)
    simp [FVal.lt, this]
  · rw [if_neg hc]
    simp only [FVal.lt, decide_eq_true_eq]
    linarith

/-- The rounded constructor on non-negative samples when the integral it finds is
not positive: the integral is `0` and the cdf is the ramp `fl(i / n)`
(line 438). -/
theorem Rounded_new_of_not_pos (F : FloatFormat) (hp : 1 ≤ F.prec) (he : F.emin ≤ 0)
    (f : List ℚ) (hn : 1 ≤ f.length) (hf : ∀ x ∈ f, 0 ≤ x)
    (h : ¬ FVal.lt (FVal.fin 0) (Rounded.Distribution1D.new F (f.map FVal.fin)).funcInt = true) :
    Rounded.Distribution1D.new F (f.map FVal.fin) =
      ⟨f.map FVal.fin, FVal.fin 0 :: (List.range f.length).map
          (fun k => FVal.div F (F.ofRat (((k + 1 : Nat) : ℚ))) (F.ofRat (f.length : ℚ))),
        FVal.fin 0⟩ := by
  obtain ⟨t, ht, hl⟩ := Rounded_stepIntegral_cons F (F.ofRat ((f.map FVal.fin).length : ℚ))
    (FVal.fin 0) (f.map FVal.fin)
  simp only [List.length_map] at ht hl
  have hraw := Rounded_stepIntegral_nonneg F hp he f.length hn f (FVal.fin 0) hf
    (Or.inr ⟨0, rfl, le_refl _⟩)
  rw [ht] at hraw
  have hI : (Rounded.Distribution1D.new F (f.map FVal.fin)).funcInt =
      (FVal.fin 0 :: t).getD f.length (FVal.fin 0) := by
    unfold Rounded.Distribution1D.new
    simp only [List.length_map, ht]
    split_ifs <;> rfl
  have hlt : f.length < (FVal.fin 0 :: t).length := by
    simp [hl]
  have hget : (FVal.fin 0 :: t).getD f.length (FVal.fin 0) = (FVal.fin 0 :: t)[f.length] := by
    simp [List.getD, List.getElem?_eq_getElem hlt]
  have hz : (FVal.fin 0 :: t).getD f.length (FVal.fin 0) = FVal.fin 0 := by
    rw [hI, hget] at h
    rw [hget]
    rcases hraw _ (List.getElem_mem hlt) with hv | ⟨r, hv, hr⟩
    · rw [hv] at h
      exact absurd rfl h
    · rw [hv] at h
      simp only [FVal.lt, decide_eq_true_eq, not_lt] at h
      rw [hv, le_antisymm h hr]
  unfold Rounded.Distribution1D.new
  simp only [List.length_map, ht, hz]
  rw [if_pos (by simp [FVal.isZero])]
  simp

/-- In every format of `Float`, on `n >= 1` non-negative samples and for `u` in
`[0, 1)`, the search `FindInterval` over the rounded cdf ends in a bucket `k < n`
with `0 <= cdf[k] <= u`, while `cdf[k + 1]` is a number above `u`, `+inf` or a
NaN. -/
theorem Rounded_FindInterval_spec (F : FloatFormat) (hp : 1 ≤ F.prec) (he : F.emin ≤ 0)
    (hx : 0 ≤ F.emax) (f : List ℚ) (hn : 1 ≤ f.length) (hf : ∀ x ∈ f, 0 ≤ x)
    (u : ℚ) (hu0 : 0 ≤ u) (hu1 : u < 1) :
    ∃ (k : Nat) (a : ℚ) (c1 : FVal),
      Distribution1D.FindInterval (Rounded.Distribution1D.new F (f.map FVal.fin)).cdf.length
        (fun index => ((Rounded.Distribution1D.new F (f.map FVal.fin)).cdf[index]?).map
          (fun c => FVal.le c (FVal.fin u))) = some (k : Int) ∧
      k < f.length ∧
      (Rounded.Distribution1D.new F (f.map FVal.fin)).cdf[k]? = some (FVal.fin a) ∧
      (Rounded.Distribution1D.new F (f.map FVal.fin)).cdf[k + 1]? = some c1 ∧
      0 ≤ a ∧ a ≤ u ∧
      (c1 = FVal.inf false ∨ c1 = FVal.nan ∨ ∃ b, c1 = FVal.fin b ∧ u < b) := by
  obtain ⟨m, hm⟩ : ∃ m, f.length = m + 1 := ⟨f.length - 1, by omega⟩
  by_cases hF : FVal.lt (FVal.fin 0) (Rounded.Distribution1D.new F (f.map FVal.fin)).funcInt = true
  · obtain ⟨t, ht, hl, hpos, hnew⟩ := Rounded_new_of_pos F (f.map FVal.fin) hF
    rw [hnew]
    simp only [List.length_map] at ht hl hpos
    simp only [List.length_map]
    have htm : m < t.length := by omega
    have hI : (FVal.fin 0 :: t).getD f.length (FVal.fin 0) = t[m] := by
      rw [hm]
      simp [List.getD, List.getElem?_eq_getElem htm]
    rw [hI] at hpos
    rw [hI]
    have hraw := Rounded_stepIntegral_nonneg F hp he f.length hn f (FVal.fin 0) hf
      (Or.inr ⟨0, rfl, le_refl _⟩)
    rw [ht] at hraw
    refine FindInterval_bracket _ f.length hn (by simp [hl]) (by simp) u hu0 ?_ ?_
    · intro c hc
      rw [hm] at hc
      simp only [List.getElem?_cons_succ, List.getElem?_map, List.getElem?_eq_getElem htm,
        Option.map_some', Option.some.injEq] at hc
      rw [← hc]
      exact div_self_not_le F hp he hx _ hpos u hu1
    · intro c hc
      simp only [List.mem_cons, List.mem_map] at hc
      rcases hc with hc | ⟨v, hv, hc⟩
      · rw [hc]
        simp [FVal.lt]
      · rw [← hc]
        exact div_pos_not_neg F v _ (hraw v (List.mem_cons_of_mem _ hv)) hpos
  · rw [Rounded_new_of_not_pos F hp he f hn hf hF]
    have hnpos := ofRat_natCast_pos F hp he f.length hn
    refine FindInterval_bracket _ f.length hn (by simp) (by simp) u hu0 ?_ ?_
    · intro c hc
      rw [hm] at hc
      simp only [List.getElem?_cons_succ, List.getElem?_map] at hc
      rw [List.getElem?_range (by omega)] at hc
      simp only [Option.map_some', Option.some.injEq] at hc
      rw [← hc, ← hm]
      exact div_self_not_le F hp he hx _ hnpos u hu1
    · intro c hc
      simp only [List.mem_cons, List.mem_map, List.mem_range] at hc
      rcases hc with hc | ⟨j, _, hc⟩
      · rw [hc]
        simp [FVal.lt]
      · rw [← hc]
        exact div_pos_not_neg F _ _ (ofRat_nonneg F _ (by positivity)) hnpos

/-- In every format of `Float`, on `n >= 1` non-negative samples whose integral
is found positive and for `u` in `[0, 1)`, the bucket in which `FindInterval`
ends has a positive sample `func[k]`: a zero sample leaves
`cdf[k + 1] = cdf[k]`, which is not a boundary of the search. -/
theorem Rounded_FindInterval_positive (F : FloatFormat) (hp : 1 ≤ F.prec) (he : F.emin ≤ 0)
    (hx : 0 ≤ F.emax) (f : List ℚ) (hn : 1 ≤ f.length) (hf : ∀ x ∈ f, 0 ≤ x)
    (hF : FVal.lt (FVal.fin 0) (Rounded.Distribution1D.new F (f.map FVal.fin)).funcInt = true)
    (u : ℚ) (hu0 : 0 ≤ u) (hu1 : u < 1) :
    ∃ (k : Nat) (fo : ℚ) (c0 c1 : FVal),
      Distribution1D.FindInterval (Rounded.Distribution1D.new F (f.map FVal.fin)).cdf.length
        (fun index => ((Rounded.Distribution1D.new F (f.map FVal.fin)).cdf[index]?).map
          (fun c => FVal.le c (FVal.fin u))) = some (k : Int) ∧
      (Rounded.Distribution1D.new F (f.map FVal.fin)).cdf[k]? = some c0 ∧
      (Rounded.Distribution1D.new F (f.map FVal.fin)).cdf[k + 1]? = some c1 ∧
      (Rounded.Distribution1D.new F (f.map FVal.fin)).func[k]? = some (FVal.fin fo) ∧
      0 < fo := by
  obtain ⟨k, a, c1, hk, hkn, hc0, hc1, ha0, hau, hc⟩ :=
    Rounded_FindInterval_spec F hp he hx f hn hf u hu0 hu1
  have hfk : (f.map FVal.fin)[k]? = some (FVal.fin f[k]) := by
    simp [List.getElem?_eq_getElem hkn]
  have hfo0 : 0 ≤ f[k] := hf _ (List.getElem_mem hkn)
  refine ⟨k, f[k], FVal.fin a, c1, hk, hc0, hc1, by rw [Rounded_new_func]; exact hfk, ?_⟩
  rcases eq_or_lt_of_le hfo0 with h0 | h0
  · exfalso
    obtain ⟨t, ht, hl, hpos, hnew⟩ := Rounded_new_of_pos F (f.map FVal.fin) hF
    rw [hnew] at hc0 hc1
    simp only [List.length_map] at ht hl hpos hc0 hc1
    obtain ⟨m, hm⟩ : ∃ m, f.length = m + 1 := ⟨f.length - 1, by omega⟩
    have htm : m < t.length := by omega
    have hI : (FVal.fin 0 :: t).getD f.length (FVal.fin 0) = t[m] := by
      rw [hm]
      simp [List.getD, List.getElem?_eq_getElem htm]
    rw [hI] at hpos hc0 hc1
    rw [← h0] at hfk
    obtain ⟨v, h1, h2, h3⟩ := Rounded_stepIntegral_succ F hp (F.ofRat ((f.map FVal.fin).length : ℚ))
      (f.map FVal.fin) (FVal.fin 0) k (FVal.fin 0) hfk (fun r hr => by
        have : r = 0 := by
          injection hr with hr
          exact hr.symm
        rw [this]
        exact ofRat_zero F)
    rw [List.length_map, div_zero_natCast F hp he f.length hn, add_zero_canonical F v h3,
      ht] at h2
    rw [List.length_map, ht] at h1
    simp only [List.getElem?_cons_succ] at h2
    have hck1 : (FVal.fin 0 :: t.map (fun c => FVal.div F c t[m]))[k + 1]? =
        some (FVal.div F v t[m]) := by
      simp only [List.getElem?_cons_succ, List.getElem?_map, h2, Option.map_some']
    have hck0 : (FVal.fin 0 :: t.map (fun c => FVal.div F c t[m]))[k]? =
        some (FVal.div F v t[m]) := by
      cases k with
      | zero =>
        simp only [List.getElem?_cons_zero, Option.some.injEq] at h1
        rw [← h1, div_zero_pos F _ hpos]
        simp only [List.getElem?_cons_zero]
      | succ j =>
        simp only [List.getElem?_cons_succ] at h1
        simp only [List.getElem?_cons_succ, List.getElem?_map, h1, Option.map_some']
    rw [hck0] at hc0
    rw [hck1, hc0] at hc1
    have hc1' : c1 = FVal.fin a := (Option.some.inj hc1).symm
    rcases hc with hc | hc | ⟨b, hc, hb⟩
    · rw [hc1'] at hc
      exact absurd hc (by simp)
    · rw [hc1'] at hc
      exact absurd hc (by simp)
    · rw [hc1'] at hc
      have : a = b := by
        injection hc
      linarith
  · exact h0

/-- With exact rounding the rounded embedding of `TriangleIntersect` is the exact
embedding. -/
theorem Rounded_TriangleIntersect_exact :
    Rounded.TriangleIntersect id id AllNormalized CalculateTriangleDifferentials
      (fun interaction ray t => Near interaction.p (ray.point t)) = TriangleIntersect := rfl

/-- The rounded `TriangleIntersect` on a unit direction and an existing triangle,
written with the values it computes. -/
theorem Rounded_TriangleIntersect_eq (rd rf : ℚ → ℚ) (allNormalized : Vec3 ℚ → Bool)
    (calculate : SurfaceInteraction → Vec3 ℚ → TriangleMeshResource → Nat → SurfaceInteraction)
    (assertNear : SurfaceInteraction → Ray → ℚ → Bool)
    (ray : Ray) (i : Nat) (mesh : TriangleMeshResource) (ia : SurfaceInteraction)
    (v0 v1 v2 : Vec3 ℚ) (hn : allNormalized ray.direction = true)
    (htri : mesh.triangle i = some (v0, v1, v2)) :
    Rounded.TriangleIntersect rd rf allNormalized calculate assertNear ray i mesh ia =
      (if |Rounded.TriangleIntersect.det rd ray v0 v1 v2| < rd (1 / 100000000) then
        some (false, ray, ia) else
      if Rounded.TriangleIntersect.u rd ray v0 v1 v2 < 0 ∨
          Rounded.TriangleIntersect.u rd ray v0 v1 v2 > 1 then some (false, ray, ia) else
      if Rounded.TriangleIntersect.v rd ray v0 v1 v2 < 0 ∨
          rd (Rounded.TriangleIntersect.u rd ray v0 v1 v2 +
            Rounded.TriangleIntersect.v rd ray v0 v1 v2) > 1 then some (false, ray, ia) else
      if Rounded.TriangleIntersect.t rd ray v0 v1 v2 < ray.t_min ∨
          Rounded.TriangleIntersect.t rd ray v0 v1 v2 > ray.t_max then some (false, ray, ia) else
      if ¬ assertNear (calculate ia (Rounded.TriangleIntersect.weights rd rf ray v0 v1 v2) mesh i)
          ray (Rounded.TriangleIntersect.t rd ray v0 v1 v2) = true then none else
      if ¬ ray.withinTimeRange (rf (Rounded.TriangleIntersect.t rd ray v0 v1 v2)) = true then none
      else some (true, ray.setTimeMax (rf (Rounded.TriangleIntersect.t rd ray v0 v1 v2)),
        calculate ia (Rounded.TriangleIntersect.weights rd rf ray v0 v1 v2) mesh i)) := by
  unfold Rounded.TriangleIntersect
  simp only [hn, htri]
  rw [if_neg (by simp)]
  rfl

/-- A call of the rounded `TriangleIntersect` whose tests fail on the computed
values returns `false` and changes nothing. -/
theorem Rounded_TriangleIntersect_miss (rd rf : ℚ → ℚ) (allNormalized : Vec3 ℚ → Bool)
    (calculate : SurfaceInteraction → Vec3 ℚ → TriangleMeshResource → Nat → SurfaceInteraction)
    (assertNear : SurfaceInteraction → Ray → ℚ → Bool)
    (ray : Ray) (i : Nat) (mesh : TriangleMeshResource) (ia : SurfaceInteraction)
    (v0 v1 v2 : Vec3 ℚ) (hn : allNormalized ray.direction = true)
    (htri : mesh.triangle i = some (v0, v1, v2))
    (h : ¬ Rounded.TriangleIntersect.hitCond rd ray v0 v1 v2) :
    Rounded.TriangleIntersect rd rf allNormalized calculate assertNear ray i mesh ia =
      some (false, ray, ia) := by
  rw [Rounded_TriangleIntersect_eq rd rf allNormalized calculate assertNear ray i mesh ia v0 v1 v2
    hn htri]
  by_cases hd : |Rounded.TriangleIntersect.det rd ray v0 v1 v2| < rd (1 / 100000000)
  · rw [if_pos hd]
  rw [if_neg hd]
  by_cases hu : Rounded.TriangleIntersect.u rd ray v0 v1 v2 < 0 ∨
      Rounded.TriangleIntersect.u rd ray v0 v1 v2 > 1
  · rw [if_pos hu]
  rw [if_neg hu]
  by_cases hv : Rounded.TriangleIntersect.v rd ray v0 v1 v2 < 0 ∨
      rd (Rounded.TriangleIntersect.u rd ray v0 v1 v2 +
        Rounded.TriangleIntersect.v rd ray v0 v1 v2) > 1
  · rw [if_pos hv]
  rw [if_neg hv]
  by_cases ht : Rounded.TriangleIntersect.t rd ray v0 v1 v2 < ray.t_min ∨
      Rounded.TriangleIntersect.t rd ray v0 v1 v2 > ray.t_max
  · rw [if_pos ht]
  exfalso
  push_neg at hu hv ht
  exact h ⟨hd, hu, hv.1, hv.2, ht.1, ht.2⟩

/-- A call of the rounded `TriangleIntersect` whose tests pass on the computed
values hands over the weights and, unless an assertion fails, returns `true`. -/
theorem Rounded_TriangleIntersect_hit (rd rf : ℚ → ℚ) (allNormalized : Vec3 ℚ → Bool)
    (calculate : SurfaceInteraction → Vec3 ℚ → TriangleMeshResource → Nat → SurfaceInteraction)
    (assertNear : SurfaceInteraction → Ray → ℚ → Bool)
    (ray : Ray) (i : Nat) (mesh : TriangleMeshResource) (ia : SurfaceInteraction)
    (v0 v1 v2 : Vec3 ℚ) (hn : allNormalized ray.direction = true)
    (htri : mesh.triangle i = some (v0, v1, v2))
    (h : Rounded.TriangleIntersect.hitCond rd ray v0 v1 v2) :
    Rounded.TriangleIntersect rd rf allNormalized calculate assertNear ray i mesh ia =
      (if ¬ assertNear (calculate ia (Rounded.TriangleIntersect.weights rd rf ray v0 v1 v2) mesh i)
          ray (Rounded.TriangleIntersect.t rd ray v0 v1 v2) = true then none else
      if ¬ ray.withinTimeRange (rf (Rounded.TriangleIntersect.t rd ray v0 v1 v2)) = true then none
      else some (true, ray.setTimeMax (rf (Rounded.TriangleIntersect.t rd ray v0 v1 v2)),
        calculate ia (Rounded.TriangleIntersect.weights rd rf ray v0 v1 v2) mesh i)) := by
  obtain ⟨hd, hu, hv, huv, ht1, ht2⟩ := h
  rw [Rounded_TriangleIntersect_eq rd rf allNormalized calculate assertNear ray i mesh ia v0 v1 v2
    hn htri, if_neg hd, if_neg (by push_neg; exact hu), if_neg (by push_neg; exact ⟨hv, huv⟩),
    if_neg (by push_neg; exact ⟨ht1, ht2⟩)]

/-- The boolean of the rounded `TriangleIntersect`, when the call returns, is the
outcome of the tests on the computed values; a `true` call has handed over the
computed weights. -/
theorem Rounded_TriangleIntersect_spec (rd rf : ℚ → ℚ) (allNormalized : Vec3 ℚ → Bool)
    (calculate : SurfaceInteraction → Vec3 ℚ → TriangleMeshResource → Nat → SurfaceInteraction)
    (assertNear : SurfaceInteraction → Ray → ℚ → Bool)
    (ray : Ray) (i : Nat) (mesh : TriangleMeshResource) (ia : SurfaceInteraction)
    (v0 v1 v2 : Vec3 ℚ) (hn : allNormalized ray.direction = true)
    (htri : mesh.triangle i = some (v0, v1, v2)) (r : Bool × Ray × SurfaceInteraction)
    (hr : Rounded.TriangleIntersect rd rf allNormalized calculate assertNear ray i mesh ia =
      some r) :
    (r.1 = true ↔ Rounded.TriangleIntersect.hitCond rd ray v0 v1 v2) ∧
      (r.1 = true →
        r.2.2 = calculate ia (Rounded.TriangleIntersect.weights rd rf ray v0 v1 v2) mesh i) := by
  by_cases hc : Rounded.TriangleIntersect.hitCond rd ray v0 v1 v2
  · rw [Rounded_TriangleIntersect_hit rd rf allNormalized calculate assertNear ray i mesh ia
      v0 v1 v2 hn htri hc] at hr
    split_ifs at hr
    simp only [Option.some.injEq] at hr
    rw [← hr]
    exact ⟨⟨fun _ => hc, fun _ => rfl⟩, fun _ => rfl⟩
  · rw [Rounded_TriangleIntersect_miss rd rf allNormalized calculate assertNear ray i mesh ia
      v0 v1 v2 hn htri hc] at hr
    simp only [Option.some.injEq] at hr
    rw [← hr]
    exact ⟨⟨fun h => absurd h (by simp), fun h => absurd h hc⟩, fun h => absurd h (by simp)⟩

/-- The values that `TriangleIntersect` computes in `double` arithmetic for the
triangle `(0,0,0)`, `(7,0,0)`, `(0,7,0)` and the ray `sampleRay7`:
`t = 49 * fl(1/49)` is the largest `double` below `1`. -/
theorem Rounded_values7 :
    Rounded.TriangleIntersect.det binary64.round sampleRay7 ⟨0, 0, 0⟩ ⟨7, 0, 0⟩ ⟨0, 7, 0⟩ = 49 ∧
      Rounded.TriangleIntersect.u binary64.round sampleRay7 ⟨0, 0, 0⟩ ⟨7, 0, 0⟩ ⟨0, 7, 0⟩ =
        2573485501354569 / 72057594037927936 ∧
      Rounded.TriangleIntersect.v binary64.round sampleRay7 ⟨0, 0, 0⟩ ⟨7, 0, 0⟩ ⟨0, 7, 0⟩ =
        2573485501354569 / 72057594037927936 ∧
      Rounded.TriangleIntersect.t binary64.round sampleRay7 ⟨0, 0, 0⟩ ⟨7, 0, 0⟩ ⟨0, 7, 0⟩ =
        9007199254740991 / 9007199254740992 := by
  refine ⟨?_, ?_, ?_, ?_⟩ <;>
    norm_num [Rounded.TriangleIntersect.det, Rounded.TriangleIntersect.u,
      Rounded.TriangleIntersect.v, Rounded.TriangleIntersect.t, sampleRay7, Rounded.Dot,
      Rounded.Cross, Rounded.sub, round_zero, round_neg, round64_p7, round64_p49, round64_p1,
      round64_p1_4, round64_p7_4, round64_p1_49, round64_x3e368d0f, round64_xeba9bf91]

/-- The values that `TriangleIntersect` computes in `double` arithmetic for the
triangle `(0,0,0)`, `(5,0,0)`, `(0,5,0)` and the ray `sampleRay5`: the sum
`u + v` exceeds `1` by `2^-54` and rounds to `1`. -/
theorem Rounded_values5 :
    Rounded.TriangleIntersect.det binary64.round sampleRay5 ⟨0, 0, 0⟩ ⟨5, 0, 0⟩ ⟨0, 5, 0⟩ = 25 ∧
      Rounded.TriangleIntersect.u binary64.round sampleRay5 ⟨0, 0, 0⟩ ⟨5, 0, 0⟩ ⟨0, 5, 0⟩ =
        5404319552844595 / 18014398509481984 ∧
      Rounded.TriangleIntersect.v binary64.round sampleRay5 ⟨0, 0, 0⟩ ⟨5, 0, 0⟩ ⟨0, 5, 0⟩ =
        6305039478318695 / 9007199254740992 ∧
      Rounded.TriangleIntersect.t binary64.round sampleRay5 ⟨0, 0, 0⟩ ⟨5, 0, 0⟩ ⟨0, 5, 0⟩ = 1 := by
  refine ⟨?_, ?_, ?_, ?_⟩ <;>
    norm_num [Rounded.TriangleIntersect.det, Rounded.TriangleIntersect.u,
      Rounded.TriangleIntersect.v, Rounded.TriangleIntersect.t, sampleRay5, Rounded.Dot,
      Rounded.Cross, Rounded.sub, round_zero, round_neg, round64_p5, round64_p25, round64_p1,
      round64_p3_2, round64_p7_2, round64_p15_2, round64_p35_2, round64_p1_25,
      round64_x127905b4, round64_xb81cb380, round64_xf194261f]

/-- Counterexample to claim C3 as stated: the triangle `(0,0,0)`, `(7,0,0)`,
`(0,7,0)` and the ray from `(1/4, 1/4, 1)` with direction `(0, 0, -1)` valid on
`[1, 10]`.  The determinant is `49` and the Moller-Trumbore values are
`u = v = 1/28` and `t = 1 = t_min`, so every condition of the claim holds; in
`double` arithmetic the function computes `t = 49 * fl(1/49)`, the largest
`double` below `1`, and returns `false`. -/
theorem TriangleIntersect_true_iff_barycentric_counterexample :
    (AllNormalized sampleRay7.direction = true ∧
        sampleMesh7.triangle 0 = some (⟨0, 0, 0⟩, ⟨7, 0, 0⟩, ⟨0, 7, 0⟩)) ∧
      (1 / 100000000 ≤
          |Dot (Vec3.sub ⟨7, 0, 0⟩ ⟨0, 0, 0⟩)
            (Cross sampleRay7.direction (Vec3.sub ⟨0, 7, 0⟩ ⟨0, 0, 0⟩))| ∧
        0 ≤ TriangleIntersect.u sampleRay7 ⟨0, 0, 0⟩ ⟨7, 0, 0⟩ ⟨0, 7, 0⟩ ∧
        0 ≤ TriangleIntersect.v sampleRay7 ⟨0, 0, 0⟩ ⟨7, 0, 0⟩ ⟨0, 7, 0⟩ ∧
        TriangleIntersect.u sampleRay7 ⟨0, 0, 0⟩ ⟨7, 0, 0⟩ ⟨0, 7, 0⟩ +
          TriangleIntersect.v sampleRay7 ⟨0, 0, 0⟩ ⟨7, 0, 0⟩ ⟨0, 7, 0⟩ ≤ 1 ∧
        sampleRay7.t_min ≤ TriangleIntersect.t sampleRay7 ⟨0, 0, 0⟩ ⟨7, 0, 0⟩ ⟨0, 7, 0⟩ ∧
        TriangleIntersect.t sampleRay7 ⟨0, 0, 0⟩ ⟨7, 0, 0⟩ ⟨0, 7, 0⟩ ≤ sampleRay7.t_max) ∧
      Rounded.TriangleIntersect.t binary64.round sampleRay7 ⟨0, 0, 0⟩ ⟨7, 0, 0⟩ ⟨0, 7, 0⟩ =
        9007199254740991 / 9007199254740992 ∧
      ∀ (calculate : SurfaceInteraction → Vec3 ℚ → TriangleMeshResource → Nat →
          SurfaceInteraction) (assertNear : SurfaceInteraction → Ray → ℚ → Bool),
        Rounded.TriangleIntersect binary64.round binary32.round AllNormalized calculate
          assertNear sampleRay7 0 sampleMesh7 sampleInteraction =
            some (false, sampleRay7, sampleInteraction) := by
  have hn : AllNormalized sampleRay7.direction = true := by
    simp [AllNormalized, sampleRay7, Dot]
  have htri : sampleMesh7.triangle 0 = some (⟨0, 0, 0⟩, ⟨7, 0, 0⟩, ⟨0, 7, 0⟩) := by decide
  obtain ⟨_, _, _, ht⟩ := Rounded_values7
  refine ⟨⟨hn, htri⟩, ?_, ht, ?_⟩
  · norm_num [TriangleIntersect.u, TriangleIntersect.v, TriangleIntersect.t, sampleRay7, Dot,
      Cross, Vec3.sub]
  · intro calculate assertNear
    apply Rounded_TriangleIntersect_miss _ _ _ _ _ _ _ _ _ _ _ _ hn htri
    rintro ⟨_, _, _, _, h1, _⟩
    rw [ht] at h1
    norm_num [sampleRay7] at h1

/-- Claim C3, amended: on a ray with unit direction and an existing triangle,
`TriangleIntersect`, whenever it returns, returns `true` if and only if the values
it computes pass its tests: `|det| >= 1e-8`, `0 <= u <= 1`, `v >= 0`,
`u + v <= 1` for the rounded sum and `t_min <= t <= t_max`, where `det`, `u`,
`v`, `t` are the Moller-Trumbore values as computed in the internal scalar type,
every operation rounded (whatever the rounding); when a test fails it returns
`false`.  In exact arithmetic the call always returns; when `|det| >= 1e-8` it is
`true` if and only if `u >= 0`, `v >= 0`, `u + v <= 1` and `t_min <= t <= t_max`
for the exact Moller-Trumbore values, and when `|det| < 1e-8` it is `false`. -/
theorem TriangleIntersect_true_iff_barycentric (ray : Ray) (i : Nat)
    (mesh : TriangleMeshResource) (ia : SurfaceInteraction) (v0 v1 v2 : Vec3 ℚ)
    (hn : AllNormalized ray.direction = true) (htri : mesh.triangle i = some (v0, v1, v2)) :
    (∀ (rd rf : ℚ → ℚ) (allNormalized : Vec3 ℚ → Bool)
        (calculate : SurfaceInteraction → Vec3 ℚ → TriangleMeshResource → Nat →
          SurfaceInteraction) (assertNear : SurfaceInteraction → Ray → ℚ → Bool),
        allNormalized ray.direction = true →
        (∀ r, Rounded.TriangleIntersect rd rf allNormalized calculate assertNear ray i mesh ia =
            some r →
          (r.1 = true ↔ Rounded.TriangleIntersect.hitCond rd ray v0 v1 v2)) ∧
        (¬ Rounded.TriangleIntersect.hitCond rd ray v0 v1 v2 →
          Rounded.TriangleIntersect rd rf allNormalized calculate assertNear ray i mesh ia =
            some (false, ray, ia))) ∧
      ∃ r, TriangleIntersect ray i mesh ia = some r ∧
        (1 / 100000000 ≤ |Dot (Vec3.sub v1 v0) (Cross ray.direction (Vec3.sub v2 v0))| →
          (r.1 = true ↔
            0 ≤ TriangleIntersect.u ray v0 v1 v2 ∧ 0 ≤ TriangleIntersect.v ray v0 v1 v2 ∧
            TriangleIntersect.u ray v0 v1 v2 + TriangleIntersect.v ray v0 v1 v2 ≤ 1 ∧
            ray.t_min ≤ TriangleIntersect.t ray v0 v1 v2 ∧
            TriangleIntersect.t ray v0 v1 v2 ≤ ray.t_max)) ∧
        (|Dot (Vec3.sub v1 v0) (Cross ray.direction (Vec3.sub v2 v0))| < 1 / 100000000 →
          r.1 = false) := by
  refine ⟨?_, TriangleIntersect_exact_iff ray i mesh ia v0 v1 v2 hn htri⟩
  intro rd rf allNormalized calculate assertNear hn2
  refine ⟨?_, ?_⟩
  · intro r hr
    exact (Rounded_TriangleIntersect_spec rd rf allNormalized calculate assertNear ray i mesh ia
      v0 v1 v2 hn2 htri r hr).1
  · intro hc
    exact Rounded_TriangleIntersect_miss rd rf allNormalized calculate assertNear ray i mesh ia
      v0 v1 v2 hn2 htri hc

/-- Witness of claim C3 (amended): the sample ray against the first sample
triangle. -/
theorem TriangleIntersect_true_iff_barycentric_witness :
    AllNormalized sampleRay.direction = true ∧
      sampleMesh.triangle 0 = some (⟨0, 0, 0⟩, ⟨1, 0, 0⟩, ⟨0, 1, 0⟩) ∧
      ∃ r, TriangleIntersect sampleRay 0 sampleMesh sampleInteraction = some r ∧
        (1 / 100000000 ≤
            |Dot (Vec3.sub ⟨1, 0, 0⟩ ⟨0, 0, 0⟩)
              (Cross sampleRay.direction (Vec3.sub ⟨0, 1, 0⟩ ⟨0, 0, 0⟩))| →
          (r.1 = true ↔
            0 ≤ TriangleIntersect.u sampleRay ⟨0, 0, 0⟩ ⟨1, 0, 0⟩ ⟨0, 1, 0⟩ ∧
            0 ≤ TriangleIntersect.v sampleRay ⟨0, 0, 0⟩ ⟨1, 0, 0⟩ ⟨0, 1, 0⟩ ∧
            TriangleIntersect.u sampleRay ⟨0, 0, 0⟩ ⟨1, 0, 0⟩ ⟨0, 1, 0⟩ +
              TriangleIntersect.v sampleRay ⟨0, 0, 0⟩ ⟨1, 0, 0⟩ ⟨0, 1, 0⟩ ≤ 1 ∧
            sampleRay.t_min ≤ TriangleIntersect.t sampleRay ⟨0, 0, 0⟩ ⟨1, 0, 0⟩ ⟨0, 1, 0⟩ ∧
            TriangleIntersect.t sampleRay ⟨0, 0, 0⟩ ⟨1, 0, 0⟩ ⟨0, 1, 0⟩ ≤ sampleRay.t_max)) ∧
        (|Dot (Vec3.sub ⟨1, 0, 0⟩ ⟨0, 0, 0⟩)
              (Cross sampleRay.direction (Vec3.sub ⟨0, 1, 0⟩ ⟨0, 0, 0⟩))| < 1 / 100000000 →
          r.1 = false) :=
  ⟨by simp [AllNormalized, sampleRay, Dot], by decide,
    (TriangleIntersect_true_iff_barycentric sampleRay 0 sampleMesh sampleInteraction _ _ _
      (by simp [AllNormalized, sampleRay, Dot]) (by decide)).2⟩

/-- Counterexample to claim C5 as stated: the triangle `(0,0,0)`, `(5,0,0)`,
`(0,5,0)` and the ray from `(3/2, 7/2, 1)` with direction `(0, 0, -1)`.  In
`double` arithmetic `u + v` exceeds `1` by `2^-54` and rounds to `1`, so every
test passes, and the weights handed over are `(-2^-53, u, v)`: the first one is
negative.  Whenever the assertion `AssertNear` passes, the call reports the hit;
it passes when the position is interpolated by `CalculateTriangleDifferentials`
and compared with `ray(t)` up to `10^-6` in each coordinate. -/
theorem TriangleIntersect_hit_weights_counterexample :
    (AllNormalized sampleRay5.direction = true ∧
        sampleMesh5.triangle 0 = some (⟨0, 0, 0⟩, ⟨5, 0, 0⟩, ⟨0, 5, 0⟩)) ∧
      Rounded.TriangleIntersect.weights binary64.round binary32.round sampleRay5
          ⟨0, 0, 0⟩ ⟨5, 0, 0⟩ ⟨0, 5, 0⟩ =
        ⟨-(1 / 9007199254740992), 5033165 / 16777216, 11744051 / 16777216⟩ ∧
      (-(1 / 9007199254740992) : ℚ) < 0 ∧
      (∀ (calculate : SurfaceInteraction → Vec3 ℚ → TriangleMeshResource → Nat →
          SurfaceInteraction) (assertNear : SurfaceInteraction → Ray → ℚ → Bool),
        assertNear (calculate sampleInteraction
          ⟨-(1 / 9007199254740992), 5033165 / 16777216, 11744051 / 16777216⟩ sampleMesh5 0)
          sampleRay5 1 = true →
        Rounded.TriangleIntersect binary64.round binary32.round AllNormalized calculate
          assertNear sampleRay5 0 sampleMesh5 sampleInteraction =
            some (true, sampleRay5.setTimeMax 1, calculate sampleInteraction
              ⟨-(1 / 9007199254740992), 5033165 / 16777216, 11744051 / 16777216⟩
              sampleMesh5 0)) ∧
      Rounded.TriangleIntersect binary64.round binary32.round AllNormalized
          CalculateTriangleDifferentials
          (fun interaction ray t =>
            decide (|interaction.p.x - (ray.point t).x| ≤ 1 / 1000000 ∧
              |interaction.p.y - (ray.point t).y| ≤ 1 / 1000000 ∧
              |interaction.p.z - (ray.point t).z| ≤ 1 / 1000000))
          sampleRay5 0 sampleMesh5 sampleInteraction =
        some (true, sampleRay5.setTimeMax 1,
          ⟨⟨25165825 / 16777216, 58720255 / 16777216, 0⟩⟩) := by
  have hn : AllNormalized sampleRay5.direction = true := by
    simp [AllNormalized, sampleRay5, Dot]
  have htri : sampleMesh5.triangle 0 = some (⟨0, 0, 0⟩, ⟨5, 0, 0⟩, ⟨0, 5, 0⟩) := by decide
  obtain ⟨hd, hu, hv, ht⟩ := Rounded_values5
  have hw : Rounded.TriangleIntersect.weights binary64.round binary32.round sampleRay5
      ⟨0, 0, 0⟩ ⟨5, 0, 0⟩ ⟨0, 5, 0⟩ =
      ⟨-(1 / 9007199254740992), 5033165 / 16777216, 11744051 / 16777216⟩ := by
    unfold Rounded.TriangleIntersect.weights
    rw [hu, hv]
    norm_num [round_neg, round64_x3b2fce42, round64_p1_9007199254740992,
      round32_p1_9007199254740992, round32_x0e9d6711, round32_x7601c3ad]
  have hc : Rounded.TriangleIntersect.hitCond binary64.round sampleRay5
      ⟨0, 0, 0⟩ ⟨5, 0, 0⟩ ⟨0, 5, 0⟩ := by
    unfold Rounded.TriangleIntersect.hitCond
    rw [hd, hu, hv, ht]
    norm_num [sampleRay5, round64_p1_100000000, round64_x1ab396ed]
  have hgen : ∀ (calculate : SurfaceInteraction → Vec3 ℚ → TriangleMeshResource → Nat →
      SurfaceInteraction) (assertNear : SurfaceInteraction → Ray → ℚ → Bool),
      assertNear (calculate sampleInteraction
        ⟨-(1 / 9007199254740992), 5033165 / 16777216, 11744051 / 16777216⟩ sampleMesh5 0)
        sampleRay5 1 = true →
      Rounded.TriangleIntersect binary64.round binary32.round AllNormalized calculate
        assertNear sampleRay5 0 sampleMesh5 sampleInteraction =
          some (true, sampleRay5.setTimeMax 1, calculate sampleInteraction
            ⟨-(1 / 9007199254740992), 5033165 / 16777216, 11744051 / 16777216⟩
            sampleMesh5 0) := by
    intro calculate assertNear hnear
    rw [Rounded_TriangleIntersect_hit _ _ _ _ _ _ _ _ _ _ _ _ hn htri hc, hw, ht, round32_p1,
      if_neg (not_not.mpr hnear), if_neg (by simp [Ray.withinTimeRange, sampleRay5])]
  have hp : CalculateTriangleDifferentials sampleInteraction
      ⟨-(1 / 9007199254740992), 5033165 / 16777216, 11744051 / 16777216⟩ sampleMesh5 0 =
      ⟨⟨25165825 / 16777216, 58720255 / 16777216, 0⟩⟩ := by
    simp only [CalculateTriangleDifferentials, htri, sampleInteraction, Vec3.add, Vec3.smul]
    norm_num
  refine ⟨⟨hn, htri⟩, hw, by norm_num, hgen, ?_⟩
  rw [hgen CalculateTriangleDifferentials _ ?_, hp]
  rw [hp]
  norm_num [Ray.point, sampleRay5, Vec3.add, Vec3.smul, abs_le]

/-- Claim C5, amended: for every hit reported by `TriangleIntersect` the weights
handed to the interaction are the casts to `Float` of `1 - u - v`, `u` and `v` as
computed in the internal scalar type, where the computed `u` and `v` satisfy
`0 <= u <= 1`, `0 <= v` and `u + v <= 1` for the rounded sum (whatever the
rounding; the first weight can then be slightly negative).  In exact arithmetic
the three weights `(1 - u - v, u, v)` are each in `[0, 1]` and sum to `1`. -/
theorem TriangleIntersect_hit_weights (ray ray1 : Ray) (i : Nat) (mesh : TriangleMeshResource)
    (ia ia1 : SurfaceInteraction) (v0 v1 v2 : Vec3 ℚ)
    (htri : mesh.triangle i = some (v0, v1, v2)) :
    (∀ (rd rf : ℚ → ℚ) (allNormalized : Vec3 ℚ → Bool)
        (calculate : SurfaceInteraction → Vec3 ℚ → TriangleMeshResource → Nat →
          SurfaceInteraction) (assertNear : SurfaceInteraction → Ray → ℚ → Bool),
        allNormalized ray.direction = true →
        Rounded.TriangleIntersect rd rf allNormalized calculate assertNear ray i mesh ia =
          some (true, ray1, ia1) →
        ia1 = calculate ia (Rounded.TriangleIntersect.weights rd rf ray v0 v1 v2) mesh i ∧
          Rounded.TriangleIntersect.weights rd rf ray v0 v1 v2 =
            ⟨rf (rd (rd (1 - Rounded.TriangleIntersect.u rd ray v0 v1 v2) -
                Rounded.TriangleIntersect.v rd ray v0 v1 v2)),
              rf (Rounded.TriangleIntersect.u rd ray v0 v1 v2),
              rf (Rounded.TriangleIntersect.v rd ray v0 v1 v2)⟩ ∧
          (0 ≤ Rounded.TriangleIntersect.u rd ray v0 v1 v2 ∧
            Rounded.TriangleIntersect.u rd ray v0 v1 v2 ≤ 1) ∧
          0 ≤ Rounded.TriangleIntersect.v rd ray v0 v1 v2 ∧
          rd (Rounded.TriangleIntersect.u rd ray v0 v1 v2 +
            Rounded.TriangleIntersect.v rd ray v0 v1 v2) ≤ 1) ∧
      (TriangleIntersect ray i mesh ia = some (true, ray1, ia1) →
        ∃ w : Vec3 ℚ, ia1 = CalculateTriangleDifferentials ia w mesh i ∧
          w = ⟨1 - TriangleIntersect.u ray v0 v1 v2 - TriangleIntersect.v ray v0 v1 v2,
            TriangleIntersect.u ray v0 v1 v2, TriangleIntersect.v ray v0 v1 v2⟩ ∧
          (0 ≤ w.x ∧ w.x ≤ 1) ∧ (0 ≤ w.y ∧ w.y ≤ 1) ∧ (0 ≤ w.z ∧ w.z ≤ 1) ∧
          w.x + w.y + w.z = 1) := by
  refine ⟨?_, fun hhit => TriangleIntersect_exact_hit_weights ray ray1 i mesh ia ia1 v0 v1 v2
    htri hhit⟩
  intro rd rf allNormalized calculate assertNear hn hr
  obtain ⟨h1, h2⟩ := Rounded_TriangleIntersect_spec rd rf allNormalized calculate assertNear
    ray i mesh ia v0 v1 v2 hn htri _ hr
  obtain ⟨_, hu, hv, huv, _, _⟩ := h1.mp rfl
  exact ⟨h2 rfl, rfl, hu, hv, huv⟩

/-- Witness of claim C5 (amended): in exact arithmetic the sample ray hits the
second sample triangle with the weights `(1/2, 1/4, 1/4)`. -/
theorem TriangleIntersect_hit_weights_witness :
    sampleMesh.triangle 1 = some (⟨0, 0, 1 / 2⟩, ⟨1, 0, 1 / 2⟩, ⟨0, 1, 1 / 2⟩) ∧
      TriangleIntersect sampleRay 1 sampleMesh sampleInteraction =
        some (true, sampleRay.setTimeMax (1 / 2), ⟨⟨1 / 4, 1 / 4, 1 / 2⟩⟩) ∧
      ∃ w : Vec3 ℚ,
        (⟨⟨1 / 4, 1 / 4, 1 / 2⟩⟩ : SurfaceInteraction) =
          CalculateTriangleDifferentials sampleInteraction w sampleMesh 1 ∧
        w = ⟨1 - TriangleIntersect.u sampleRay ⟨0, 0, 1 / 2⟩ ⟨1, 0, 1 / 2⟩ ⟨0, 1, 1 / 2⟩ -
              TriangleIntersect.v sampleRay ⟨0, 0, 1 / 2⟩ ⟨1, 0, 1 / 2⟩ ⟨0, 1, 1 / 2⟩,
            TriangleIntersect.u sampleRay ⟨0, 0, 1 / 2⟩ ⟨1, 0, 1 / 2⟩ ⟨0, 1, 1 / 2⟩,
            TriangleIntersect.v sampleRay ⟨0, 0, 1 / 2⟩ ⟨1, 0, 1 / 2⟩ ⟨0, 1, 1 / 2⟩⟩ ∧
        (0 ≤ w.x ∧ w.x ≤ 1) ∧ (0 ≤ w.y ∧ w.y ≤ 1) ∧ (0 ≤ w.z ∧ w.z ≤ 1) ∧
        w.x + w.y + w.z = 1 :=
  have h : TriangleIntersect sampleRay 1 sampleMesh sampleInteraction =
      some (true, sampleRay.setTimeMax (1 / 2), ⟨⟨1 / 4, 1 / 4, 1 / 2⟩⟩) := by
    simp [TriangleIntersect, AllNormalized, sampleRay, Dot, Cross, Vec3.sub, Vec3.add, Vec3.smul,
      TriangleMeshResource.triangle, sampleMesh, CalculateTriangleDifferentials, Near, Ray.point,
      Ray.withinTimeRange, Ray.setTimeMax, sampleInteraction]
    norm_num
  ⟨rfl, h,
    (TriangleIntersect_hit_weights sampleRay (sampleRay.setTimeMax (1 / 2)) 1 sampleMesh
      sampleInteraction ⟨⟨1 / 4, 1 / 4, 1 / 2⟩⟩ ⟨0, 0, 1 / 2⟩ ⟨1, 0, 1 / 2⟩ ⟨0, 1, 1 / 2⟩ rfl).2 h⟩

/-! ## `Distribution1D` in `float` arithmetic: three traces -/

/-- The distribution built in `float` arithmetic from the samples
`{2^127, 2^127}`. -/
theorem Rounded_new_big :
    Rounded.Distribution1D.new binary32
        [FVal.fin 170141183460469231731687303715884105728,
          FVal.fin 170141183460469231731687303715884105728] =
      ⟨[FVal.fin 170141183460469231731687303715884105728,
          FVal.fin 170141183460469231731687303715884105728],
        [FVal.fin 0, FVal.fin (1 / 2), FVal.fin 1],
        FVal.fin 170141183460469231731687303715884105728⟩ := by
  have h1 : FVal.div binary32 (FVal.fin 170141183460469231731687303715884105728) (FVal.fin 2) =
      FVal.fin 85070591730234615865843651857942052864 := by
    norm_num [FVal.div, ofRat32_xdbeee981]
  have h2 : FVal.add binary32 (FVal.fin 0) (FVal.fin 85070591730234615865843651857942052864) =
      FVal.fin 85070591730234615865843651857942052864 := by
    norm_num [FVal.add, ofRat32_xdbeee981]
  have h3 : FVal.add binary32 (FVal.fin 85070591730234615865843651857942052864)
      (FVal.fin 85070591730234615865843651857942052864) =
      FVal.fin 170141183460469231731687303715884105728 := by
    norm_num [FVal.add, ofRat32_xdb17e0ec]
  have h4 : FVal.isZero (FVal.fin 170141183460469231731687303715884105728) = false := by
    norm_num [FVal.isZero]
  have h5 : FVal.div binary32 (FVal.fin 85070591730234615865843651857942052864)
      (FVal.fin 170141183460469231731687303715884105728) = FVal.fin (1 / 2) := by
    norm_num [FVal.div, ofRat32_p1_2]
  have h6 : FVal.div binary32 (FVal.fin 170141183460469231731687303715884105728)
      (FVal.fin 170141183460469231731687303715884105728) = FVal.fin 1 := by
    norm_num [FVal.div, ofRat32_p1]
  have hn : binary32.ofRat (((2 : Nat) : ℚ)) = FVal.fin 2 := by
    rw [Nat.cast_ofNat]
    exact ofRat32_p2
  simp only [Rounded.Distribution1D.new, Rounded.Distribution1D.stepIntegral, List.length_cons,
    List.length_nil, Nat.zero_add, Nat.reduceAdd, hn, h1, h2, h3, List.getD_cons_succ,
    List.getD_cons_zero, h4, Bool.false_eq_true, if_false, List.take_succ_cons, List.take_zero,
    List.drop_succ_cons, List.drop_zero, List.map_cons, List.map_nil, h5, h6, List.cons_append,
    List.nil_append]

/-- On the samples `{2^127, 2^127}` and for `u = 0`, `sampleDiscrete` in `float`
arithmetic returns bucket `0` and writes the pdf `0`: the product
`funcInt * size() = 2^128` overflows to `+inf`. -/
theorem Rounded_sampleDiscrete_big :
    (Rounded.Distribution1D.new binary32
        [FVal.fin 170141183460469231731687303715884105728,
          FVal.fin 170141183460469231731687303715884105728]).sampleDiscrete binary32
        (FVal.fin 0) true false =
      some (0, some (FVal.fin 0), none) := by
  rw [Rounded_new_big]
  have hk : Distribution1D.FindInterval
      ([FVal.fin 0, FVal.fin (1 / 2), FVal.fin 1] : List FVal).length
      (fun index => (([FVal.fin 0, FVal.fin (1 / 2), FVal.fin 1] : List FVal)[index]?).map
        (fun c => FVal.le c (FVal.fin 0))) = some ((0 : Nat) : Int) := by
    unfold Distribution1D.FindInterval
    rw [Distribution1D.FindInterval.loop]
    norm_num [FVal.le]
    rw [Distribution1D.FindInterval.loop]
    norm_num [FVal.le]
    rw [Distribution1D.FindInterval.loop]
    norm_num [stdClamp]
  have h1 : FVal.mul binary32 (FVal.fin 170141183460469231731687303715884105728) (FVal.fin 2) =
      FVal.inf false := by
    norm_num [FVal.mul, ofRat32_x471972f6]
  have h2 : FVal.div binary32 (FVal.fin 170141183460469231731687303715884105728)
      (FVal.inf false) = FVal.fin 0 := rfl
  rw [Rounded_sampleDiscrete_eq binary32
    ⟨[FVal.fin 170141183460469231731687303715884105728,
        FVal.fin 170141183460469231731687303715884105728],
      [FVal.fin 0, FVal.fin (1 / 2), FVal.fin 1],
      FVal.fin 170141183460469231731687303715884105728⟩
    (FVal.fin 0) true 0 (FVal.fin 170141183460469231731687303715884105728) hk rfl]
  simp only [Rounded.Distribution1D.size, List.length_cons, List.length_nil, FVal.lt]
  norm_num [ofRat32_p2, h1, h2]

/-- Counterexample to claim C33 as stated: the non-negative samples
`{2^127, 2^127}`, for which `funcInt = 2^127 > 0`, and `u = 0`.  In `float`
arithmetic `sampleDiscrete` returns bucket `0`, whose sample `2^127` is positive,
and reports the pdf `0`, which is not strictly positive. -/
theorem sampled_bucket_positive_counterexample :
    ((0 : ℚ) ≤ 170141183460469231731687303715884105728 ∧ (0 : ℚ) ≤ 0 ∧ (0 : ℚ) < 1) ∧
      (Rounded.Distribution1D.new binary32
          [FVal.fin 170141183460469231731687303715884105728,
            FVal.fin 170141183460469231731687303715884105728]).funcInt =
        FVal.fin 170141183460469231731687303715884105728 ∧
      FVal.lt (FVal.fin 0) (FVal.fin 170141183460469231731687303715884105728) = true ∧
      (Rounded.Distribution1D.new binary32
          [FVal.fin 170141183460469231731687303715884105728,
            FVal.fin 170141183460469231731687303715884105728]).sampleDiscrete binary32
          (FVal.fin 0) true false =
        some (0, some (FVal.fin 0), none) ∧
      FVal.lt (FVal.fin 0) (FVal.fin 0) = false := by
  refine ⟨by norm_num, ?_, by norm_num [FVal.lt], Rounded_sampleDiscrete_big,
    by norm_num [FVal.lt]⟩
  rw [Rounded_new_big]

/-- The distribution built in `float` arithmetic from the samples `{1, 1, 1}`:
`fl(1/3)`, `2 fl(1/3)` and their sum, which rounds to `1`. -/
theorem Rounded_new_ones :
    Rounded.Distribution1D.new binary32 [FVal.fin 1, FVal.fin 1, FVal.fin 1] =
      ⟨[FVal.fin 1, FVal.fin 1, FVal.fin 1],
        [FVal.fin 0, FVal.fin (11184811 / 33554432), FVal.fin (11184811 / 16777216), FVal.fin 1],
        FVal.fin 1⟩ := by
  norm_num [Rounded.Distribution1D.new, Rounded.Distribution1D.stepIntegral, FVal.add, FVal.div,
    FVal.isZero, ofRat32_p3, ofRat32_p1_3, ofRat32_p11184811_33554432,
    ofRat32_p11184811_16777216, ofRat32_p33554433_33554432, ofRat32_p1]

/-- On the samples `{1, 1, 1}` and for `u = 7/8`, `sampleDiscrete` in `float`
arithmetic returns bucket `2` and writes the pdf `fl(1/3) = 0.33333334`, while
`cdf[3] - cdf[2] = 0.33333331`. -/
theorem Rounded_sampleDiscrete_ones :
    (Rounded.Distribution1D.new binary32 [FVal.fin 1, FVal.fin 1, FVal.fin 1]).sampleDiscrete
        binary32 (FVal.fin (7 / 8)) true false =
        some (2, some (FVal.fin (11184811 / 33554432)), none) ∧
      FVal.sub binary32 (FVal.fin 1) (FVal.fin (11184811 / 16777216)) =
        FVal.fin (5592405 / 16777216) ∧
      (11184811 / 33554432 : ℚ) ≠ 5592405 / 16777216 := by
  rw [Rounded_new_ones]
  have hk : Distribution1D.FindInterval
      ([FVal.fin 0, FVal.fin (11184811 / 33554432), FVal.fin (11184811 / 16777216),
        FVal.fin 1] : List FVal).length
      (fun index => (([FVal.fin 0, FVal.fin (11184811 / 33554432),
        FVal.fin (11184811 / 16777216), FVal.fin 1] : List FVal)[index]?).map
        (fun c => FVal.le c (FVal.fin (7 / 8)))) = some ((2 : Nat) : Int) := by
    unfold Distribution1D.FindInterval
    rw [Distribution1D.FindInterval.loop]
    norm_num [FVal.le]
    rw [Distribution1D.FindInterval.loop]
    norm_num [FVal.le]
    rw [Distribution1D.FindInterval.loop]
    norm_num [stdClamp]
  have h1 : FVal.mul binary32 (FVal.fin 1) (FVal.fin 3) = FVal.fin 3 := by
    norm_num [FVal.mul, ofRat32_p3]
  have h2 : FVal.div binary32 (FVal.fin 1) (FVal.fin 3) = FVal.fin (11184811 / 33554432) := by
    norm_num [FVal.div, ofRat32_p1_3]
  refine ⟨?_, ?_, by norm_num⟩
  · rw [Rounded_sampleDiscrete_eq binary32
      ⟨[FVal.fin 1, FVal.fin 1, FVal.fin 1],
        [FVal.fin 0, FVal.fin (11184811 / 33554432), FVal.fin (11184811 / 16777216), FVal.fin 1],
        FVal.fin 1⟩
      (FVal.fin (7 / 8)) true 2 (FVal.fin 1) hk rfl]
    simp only [Rounded.Distribution1D.size, List.length_cons, List.length_nil, FVal.lt]
    norm_num [ofRat32_p3, h1, h2]
  · norm_num [FVal.sub, FVal.add, FVal.neg, ofRat32_p5592405_16777216]

/-! ## Claim C15 in exact and in `float` arithmetic -/

/-- In every format, when `sampleDiscrete` returns, the pdf it writes is
`func[offset] / (funcInt * size())` if `funcInt > 0` and `0` otherwise (line 468). -/
theorem Rounded_sampleDiscrete_pdf (F : FloatFormat) (self : Rounded.Distribution1D) (u : FVal)
    (b : Bool) (offset : Int) (pd : FVal) (r : Option FVal)
    (h : self.sampleDiscrete F u true b = some (offset, some pd, r)) :
    (FVal.lt (FVal.fin 0) self.funcInt = true →
        ∃ fo, Rounded.Distribution1D.at? self.func offset = some fo ∧
          pd = FVal.div F fo (FVal.mul F self.funcInt (F.ofRat (self.size : ℚ)))) ∧
      (¬ FVal.lt (FVal.fin 0) self.funcInt = true → pd = FVal.fin 0) := by
  have inv : ∀ (X : Option (Option FVal)) (D : FVal) (o : Int),
      (if b = true then X.bind (fun y => some (o, some D, y)) else some (o, some D, none))
        = some (offset, some pd, r) → o = offset ∧ D = pd := by
    intro X D o hX
    cases b with
    | false =>
      simp at hX
      exact ⟨hX.1, hX.2.1⟩
    | true =>
      cases X with
      | none => simp at hX
      | some y =>
        simp at hX
        exact ⟨hX.1, hX.2.1⟩
  unfold Rounded.Distribution1D.sampleDiscrete at h
  cases hFI : Distribution1D.FindInterval self.cdf.length
      (fun index => (self.cdf[index]?).map (fun c => FVal.le c u)) with
  | none =>
    rw [hFI] at h
    simp at h
  | some o =>
    rw [hFI] at h
    by_cases hF : FVal.lt (FVal.fin 0) self.funcInt = true
    · cases hfo : Rounded.Distribution1D.at? self.func o with
      | none => simp [hF, hfo] at h
      | some fo =>
        simp [hF, hfo] at h
        obtain ⟨h1, h2⟩ := inv _ _ _ h
        subst h1
        exact ⟨fun _ => ⟨fo, hfo, h2.symm⟩, fun hn => absurd hF hn⟩
    · simp [hF] at h
      obtain ⟨_, h2⟩ := inv _ _ _ h
      exact ⟨fun hp => absurd hp hF, fun _ => h2.symm⟩

/-- Counterexample to claim C15 as stated.  For the single sample `[0]` and
`u = 0` the pdf written by `sampleDiscrete` is `0`, while the bucket returned has
the mass `cdf[1] - cdf[0] = 1`.  In `float` arithmetic, for the samples
`{1, 1, 1}` and `u = 7/8`, the pdf written is `fl(1/3) = 11184811 / 2^25`, while
`cdf[3] - cdf[2] = 5592405 / 2^24`, a difference that `float` computes without
rounding. -/
theorem sampleDiscrete_pdf_counterexample :
    ((1 ≤ ([0] : List ℚ).length ∧ (∀ x ∈ ([0] : List ℚ), 0 ≤ x) ∧ (0 : ℚ) ≤ 0 ∧ (0 : ℚ) < 1) ∧
      ∃ (offset : Int) (pdfv c0 c1 : ℚ),
        (Distribution1D.new [0]).sampleDiscrete 0 true false = some (offset, some pdfv, none) ∧
        Distribution1D.at? (Distribution1D.new [0]).cdf offset = some c0 ∧
        Distribution1D.at? (Distribution1D.new [0]).cdf (offset + 1) = some c1 ∧
        pdfv ≠ c1 - c0) ∧
      ∃ (offset : Int) (pdfv c0 c1 : ℚ),
        (Rounded.Distribution1D.new binary32
            [FVal.fin 1, FVal.fin 1, FVal.fin 1]).sampleDiscrete binary32 (FVal.fin (7 / 8))
            true false = some (offset, some (FVal.fin pdfv), none) ∧
        Rounded.Distribution1D.at? (Rounded.Distribution1D.new binary32
            [FVal.fin 1, FVal.fin 1, FVal.fin 1]).cdf offset = some (FVal.fin c0) ∧
        Rounded.Distribution1D.at? (Rounded.Distribution1D.new binary32
            [FVal.fin 1, FVal.fin 1, FVal.fin 1]).cdf (offset + 1) = some (FVal.fin c1) ∧
        FVal.sub binary32 (FVal.fin c1) (FVal.fin c0) = FVal.fin (c1 - c0) ∧
        pdfv ≠ c1 - c0 := by
  refine ⟨⟨⟨by decide, by simp, le_refl _, by norm_num⟩, 0, 0, 0, 1, sampleDiscrete_single_zero,
    ?_, ?_, by norm_num⟩, 2, 11184811 / 33554432, 11184811 / 16777216, 1,
    Rounded_sampleDiscrete_ones.1, ?_, ?_, ?_, by norm_num⟩
  · rw [new_single_zero]
    rfl
  · rw [new_single_zero]
    rfl
  · rw [Rounded_new_ones]
    rfl
  · rw [Rounded_new_ones]
    rfl
  · rw [Rounded_sampleDiscrete_ones.2.1]
    norm_num

/-- Claim C15, amended: for `n >= 1` non-negative samples and `u` in `[0, 1)`.
In exact arithmetic the pdf that `sampleDiscrete` writes equals
`cdf[offset + 1] - cdf[offset]`, the mass of the bucket it returns, whenever
`funcInt > 0`, and it is `0` when `funcInt = 0` (all samples zero).  In every
format of `Float` (at least one significand bit, `0` in the exponent range)
`sampleDiscrete(u)` returns the offset of a bucket, and the pdf written by every
call that returns is the rounded quotient `func[offset] / (funcInt * size())` if
`funcInt > 0` and `0` otherwise. -/
theorem sampleDiscrete_pdf (f : List ℚ) (hn : 1 ≤ f.length) (hf : ∀ x ∈ f, 0 ≤ x) (u : ℚ)
    (hu0 : 0 ≤ u) (hu1 : u < 1) (uRemapped : Bool) :
    (∃ (offset : Int) (pdfv : ℚ) (remappedOut : Option ℚ) (c0 c1 : ℚ),
      (Distribution1D.new f).sampleDiscrete u true uRemapped =
        some (offset, some pdfv, remappedOut) ∧
      Distribution1D.at? (Distribution1D.new f).cdf offset = some c0 ∧
      Distribution1D.at? (Distribution1D.new f).cdf (offset + 1) = some c1 ∧
      ((Distribution1D.new f).funcInt > 0 → pdfv = c1 - c0) ∧
      ((Distribution1D.new f).funcInt = 0 → pdfv = 0)) ∧
    ∀ F : FloatFormat, 1 ≤ F.prec → F.emin ≤ 0 → 0 ≤ F.emax →
      (∃ (k : Nat) (pd : FVal),
        (Rounded.Distribution1D.new F (f.map FVal.fin)).sampleDiscrete F (FVal.fin u) true
            false = some ((k : Int), some pd, none) ∧ k < f.length) ∧
      ∀ (offset : Int) (pd : FVal) (r : Option FVal),
        (Rounded.Distribution1D.new F (f.map FVal.fin)).sampleDiscrete F (FVal.fin u) true
            uRemapped = some (offset, some pd, r) →
          (FVal.lt (FVal.fin 0) (Rounded.Distribution1D.new F (f.map FVal.fin)).funcInt = true →
            ∃ fo, Rounded.Distribution1D.at?
                (Rounded.Distribution1D.new F (f.map FVal.fin)).func offset = some fo ∧
              pd = FVal.div F fo
                (FVal.mul F (Rounded.Distribution1D.new F (f.map FVal.fin)).funcInt
                  (F.ofRat ((Rounded.Distribution1D.new F (f.map FVal.fin)).size : ℚ)))) ∧
          (¬ FVal.lt (FVal.fin 0) (Rounded.Distribution1D.new F (f.map FVal.fin)).funcInt = true →
            pd = FVal.fin 0) := by
  refine ⟨sampleDiscrete_pdf_exact f hn hf u hu0 hu1 uRemapped, ?_⟩
  intro F hp he hx
  refine ⟨?_, fun offset pd r h =>
    Rounded_sampleDiscrete_pdf F _ (FVal.fin u) uRemapped offset pd r h⟩
  obtain ⟨k, a, c1, hk, hkn, _⟩ := Rounded_FindInterval_spec F hp he hx f hn hf u hu0 hu1
  have hfo : (Rounded.Distribution1D.new F (f.map FVal.fin)).func[k]? =
      some (FVal.fin f[k]) := by
    rw [Rounded_new_func]
    simp [List.getElem?_eq_getElem hkn]
  have hd := Rounded_sampleDiscrete_eq F _ (FVal.fin u) true k (FVal.fin f[k]) hk hfo
  rw [if_pos rfl] at hd
  exact ⟨k, _, hd, hkn⟩

/-- Witness of claim C15, amended: for the samples `[1, 1, 1, 1]` and `u = 0.5`
the pdf written in exact arithmetic is `1/4`. -/
theorem sampleDiscrete_pdf_witness :
    (Distribution1D.new [1, 1, 1, 1]).sampleDiscrete (1 / 2) true true =
        some (2, some (1 / 4), some 0) ∧
      ∃ (offset : Int) (pdfv : ℚ) (remappedOut : Option ℚ) (c0 c1 : ℚ),
        (Distribution1D.new [1, 1, 1, 1]).sampleDiscrete (1 / 2) true true =
          some (offset, some pdfv, remappedOut) ∧
        Distribution1D.at? (Distribution1D.new [1, 1, 1, 1]).cdf offset = some c0 ∧
        Distribution1D.at? (Distribution1D.new [1, 1, 1, 1]).cdf (offset + 1) = some c1 ∧
        ((Distribution1D.new [1, 1, 1, 1]).funcInt > 0 → pdfv = c1 - c0) ∧
        ((Distribution1D.new [1, 1, 1, 1]).funcInt = 0 → pdfv = 0) :=
  ⟨sampleDiscrete_ones_half,
    (sampleDiscrete_pdf [1, 1, 1, 1] (by decide)
      (by
        intro x hx
        simp only [List.mem_cons, List.mem_singleton, List.not_mem_nil, or_false, or_self] at hx
        rw [hx]
        norm_num)
      (1 / 2) (by norm_num) (by norm_num) true).1⟩

/-! ## Claim C26 in exact and in `float` arithmetic -/

/-- The distribution built in `float` arithmetic from the samples `{0, 1}`. -/
theorem Rounded_new_zero_one :
    Rounded.Distribution1D.new binary32 [FVal.fin 0, FVal.fin 1] =
      ⟨[FVal.fin 0, FVal.fin 1], [FVal.fin 0, FVal.fin 0, FVal.fin 1], FVal.fin (1 / 2)⟩ := by
  norm_num [Rounded.Distribution1D.new, Rounded.Distribution1D.stepIntegral, FVal.add, FVal.div,
    FVal.isZero, ofRat32_zero, ofRat32_p2, ofRat32_p1_2, ofRat32_p1]

/-- Claim C33, amended: for `n >= 1` non-negative samples with `funcInt > 0` and
`u` in `[0, 1)`.  In exact arithmetic the offset returned by `sampleDiscrete(u)`,
which is also the offset chosen by `sampleContinuous(u)`, has `func[offset] > 0`,
and the pdf that either function writes is strictly positive.  In every format
of `Float` (at least one significand bit, `0` in the exponent range) in which
the integral `funcInt` is found positive, both functions return, with the same
offset, `func[offset] > 0`, and every call of `sampleDiscrete` that returns
returns this offset: a bucket whose sample is zero is never chosen. -/
theorem sampled_bucket_positive (f : List ℚ) (hn : 1 ≤ f.length) (hf : ∀ x ∈ f, 0 ≤ x)
    (hF : (Distribution1D.new f).funcInt > 0) (u : ℚ) (hu0 : 0 ≤ u) (hu1 : u < 1)
    (uRemapped : Bool) :
    (∃ (offset : Int) (fo pd pc x : ℚ) (remappedOut : Option ℚ),
      (Distribution1D.new f).sampleDiscrete u true uRemapped =
        some (offset, some pd, remappedOut) ∧
      (Distribution1D.new f).sampleContinuous u true = some (x, some pc, offset) ∧
      Distribution1D.at? (Distribution1D.new f).func offset = some fo ∧
      0 < fo ∧ 0 < pd ∧ 0 < pc) ∧
    ∀ F : FloatFormat, 1 ≤ F.prec → F.emin ≤ 0 → 0 ≤ F.emax →
      FVal.lt (FVal.fin 0) (Rounded.Distribution1D.new F (f.map FVal.fin)).funcInt = true →
      ∃ (offset : Int) (fo : ℚ) (pd pc x : FVal),
        (Rounded.Distribution1D.new F (f.map FVal.fin)).sampleDiscrete F (FVal.fin u) true
            false = some (offset, some pd, none) ∧
        (Rounded.Distribution1D.new F (f.map FVal.fin)).sampleContinuous F (FVal.fin u) true =
          some (x, some pc, offset) ∧
        Rounded.Distribution1D.at? (Rounded.Distribution1D.new F (f.map FVal.fin)).func offset =
          some (FVal.fin fo) ∧
        0 < fo ∧
        ∀ (b : Bool) (offset2 : Int) (pd2 r2 : Option FVal),
          (Rounded.Distribution1D.new F (f.map FVal.fin)).sampleDiscrete F (FVal.fin u) true b =
              some (offset2, pd2, r2) → offset2 = offset := by
  refine ⟨sampled_bucket_positive_exact f hn hf hF u hu0 hu1 uRemapped, ?_⟩
  intro F hp he hx hFl
  obtain ⟨k, fo, c0, c1, hk, hc0, hc1, hfo, hpos⟩ :=
    Rounded_FindInterval_positive F hp he hx f hn hf hFl u hu0 hu1
  have hd := Rounded_sampleDiscrete_eq F _ (FVal.fin u) true k (FVal.fin fo) hk hfo
  have hc := Rounded_sampleContinuous_eq F _ (FVal.fin u) true k c0 c1 (FVal.fin fo) hk hc0 hc1
    hfo
  rw [if_pos rfl] at hd hc
  refine ⟨(k : Int), fo, _, _, _, hd, hc, ?_, hpos, ?_⟩
  · rw [Rounded_at?_natCast, hfo]
  · intro b offset2 pd2 r2 h
    have h2 := Rounded_sampleDiscrete_offset F _ (FVal.fin u) true b offset2 pd2 r2 h
    rw [hk] at h2
    exact (Option.some.inj h2).symm

/-- Witness of claim C33, amended: for the samples `[0, 1]` (`funcInt = 1/2`) and
`u = 0` the empty bucket `0` is skipped: in exact arithmetic `sampleDiscrete`
returns bucket `1` with pdf `1`, and in `float` arithmetic the bucket chosen has
a positive sample. -/
theorem sampled_bucket_positive_witness :
    (1 ≤ ([0, 1] : List ℚ).length ∧ (Distribution1D.new [0, 1]).funcInt > 0) ∧
      (Distribution1D.new [0, 1]).sampleDiscrete 0 true false = some (1, some 1, none) ∧
      (∃ (offset : Int) (fo pd pc x : ℚ) (remappedOut : Option ℚ),
        (Distribution1D.new [0, 1]).sampleDiscrete 0 true false =
          some (offset, some pd, remappedOut) ∧
        (Distribution1D.new [0, 1]).sampleContinuous 0 true = some (x, some pc, offset) ∧
        Distribution1D.at? (Distribution1D.new [0, 1]).func offset = some fo ∧
        0 < fo ∧ 0 < pd ∧ 0 < pc) ∧
      ∃ (offset : Int) (fo : ℚ) (pd pc x : FVal),
        (Rounded.Distribution1D.new binary32 [FVal.fin 0, FVal.fin 1]).sampleDiscrete binary32
            (FVal.fin 0) true false = some (offset, some pd, none) ∧
        (Rounded.Distribution1D.new binary32 [FVal.fin 0, FVal.fin 1]).sampleContinuous binary32
            (FVal.fin 0) true = some (x, some pc, offset) ∧
        Rounded.Distribution1D.at? (Rounded.Distribution1D.new binary32
            [FVal.fin 0, FVal.fin 1]).func offset = some (FVal.fin fo) ∧
        0 < fo :=
  have hF : (Distribution1D.new [0, 1]).funcInt > 0 := by
    rw [new_zero_one]
    norm_num
  have hf : ∀ x ∈ ([0, 1] : List ℚ), 0 ≤ x := by
    intro x hx
    simp only [List.mem_cons, List.mem_singleton, List.not_mem_nil, or_false] at hx
    rcases hx with hx | hx
    · rw [hx]
    · rw [hx]
      norm_num
  have hFl : FVal.lt (FVal.fin 0)
      (Rounded.Distribution1D.new binary32 (([0, 1] : List ℚ).map FVal.fin)).funcInt = true := by
    simp only [List.map_cons, List.map_nil]
    rw [Rounded_new_zero_one]
    norm_num [FVal.lt]
  ⟨⟨by decide, hF⟩, sampleDiscrete_zero_one,
    (sampled_bucket_positive [0, 1] (by decide) hf hF 0 (le_refl _) (by norm_num) false).1,
    by
      obtain ⟨offset, fo, pd, pc, x, h1, h2, h3, h4, _⟩ :=
        (sampled_bucket_positive [0, 1] (by decide) hf hF 0 (le_refl _) (by norm_num) false).2
          binary32 (by decide) (by decide) (by decide) hFl
      exact ⟨offset, fo, pd, pc, x, h1, h2, h3, h4⟩⟩

end renderer
